import Mathlib

/-!
# sheet.c: a shallow embedding

Verification development for `sheet.c`, the command line table editor.

Modelling conventions.

* A `char` is its byte value, a natural number; `'\0'` is `0`, `'\n'` is `10`,
  `' '` is `32`.
* A C `int` is an `Int`.  All indices that occur are far below `2 ^ 31`, so no
  wrap-around is modelled for them.
* A writable `char` array is a `Buf`: its declared size, the byte held at every
  (integer) index, and a flag `oob` that records whether some write went
  outside `[0, size)`.  Reads are pure: a read outside the array returns the
  byte that the memory next to the array holds, which the theorems leave
  arbitrary.
* A read-only C string (`char *delim`, `char *str`) is the list of its bytes
  before the terminating NUL.
* Scans that stop only at a NUL byte (`strlen`, `find_column_end`, `drow_f`,
  `printf("%s")`) return `none` when they would leave the array without having
  found their stop.
-/


namespace Sheet

/-! ## Constants -/

def NO_COMMANDS : Int := 18
def MAX_CELL : Nat := 100
def MAX_ROW : Nat := 10240
def ASCII_OFFSET : Nat := 32
def NO_CONVERSION : Int := 0
def EMPTY_COL : Int := -2
def TOO_LONG : Int := -1
def NOT_FOUND : Int := -1

/-! The `enum commands`. -/

def IROW : Int := 0
def AROW : Int := 1
def DROW : Int := 2
def DROWS : Int := 3
def ICOL : Int := 4
def ACOL : Int := 5
def DCOL : Int := 6
def DCOLS : Int := 7
def CSET : Int := 8
def TOLOWER : Int := 9
def TOUPPER : Int := 10
def ROUND : Int := 11
def INT : Int := 12
def COPY : Int := 13
def SWAP : Int := 14
def MOVE : Int := 15
def ROWS : Int := 16
def BEGINSWITH : Int := 17
def CONTAINS : Int := 18

/-! ## Character arrays -/

/-- A `char` array with the memory around it. -/
structure Buf where
  size : Nat
  data : Int → Nat
  oob : Bool

/-- Expression `b[i]`. -/
def Buf.get (b : Buf) (i : Int) : Nat := b.data i

/-- Statement `b[i] = v`. -/
def Buf.set (b : Buf) (i : Int) (v : Nat) : Buf :=
  { size := b.size
    data := fun j => if j = i then v else b.data j
    oob := b.oob || !(decide (0 ≤ i) && decide (i < (b.size : Int))) }

/-- Records on `b` a fault that happened in a local array of the same function. -/
def Buf.taint (b : Buf) (f : Bool) : Buf :=
  { size := b.size, data := b.data, oob := b.oob || f }

/-- An array of `size` bytes holding the bytes `l` from index 0 on and `0` elsewhere. -/
def Buf.ofList (size : Nat) (l : List Nat) : Buf :=
  { size := size
    data := fun j => if 0 ≤ j then l.getD j.toNat 0 else 0
    oob := false }

/-- Declaration `char str[MAX_CELL] = ""`. -/
def Buf.zero (size : Nat) : Buf :=
  { size := size, data := fun _ => 0, oob := false }

/-- Loop of `strlen`: the first index from `i` on that holds NUL. -/
def strlen_loop (b : Buf) : Nat → Int → Option Int
  | 0, _ => none
  | fuel + 1, i => if b.get i = 0 then some i else strlen_loop b fuel (i + 1)

/-- Library function `strlen` on an array. -/
def strlen (b : Buf) : Option Int := strlen_loop b b.size 0

/-- The bytes `b[i], ..., b[i + n - 1]`. -/
def Buf.slice (b : Buf) : Int → Nat → List Nat
  | _, 0 => []
  | i, n + 1 => b.get i :: Buf.slice b (i + 1) n

/-- The C string held in `b`: the bytes before the first NUL. -/
def cstr (b : Buf) : Option (List Nat) :=
  (strlen b).map fun n => b.slice 0 n.toNat

/-! ## The row engine -/

/-- Function `is_delim`: whether `input` is one of the delimiter characters. -/
def is_delim (input : Nat) : List Nat → Bool
  | [] => false
  | d :: delim => if d = input then true else is_delim input delim

def get_no_cols_loop (row : Buf) (delim : List Nat) : Nat → Int → Int → Int
  | 0, _, no_delims => no_delims
  | fuel + 1, i, no_delims =>
    if row.get i ≠ 10 then
      get_no_cols_loop row delim fuel (i + 1)
        (if is_delim (row.get i) delim then no_delims + 1 else no_delims)
    else no_delims

/-- Function `get_no_cols`: the number of columns of a row. -/
def get_no_cols (row : Buf) (delim : List Nat) : Int :=
  get_no_cols_loop row delim MAX_ROW 0 0 + 1

def create_empty_row_loop (d : Nat) : Nat → Buf → Int → Buf × Int
  | 0, row, p => (row, p)
  | k + 1, row, p => create_empty_row_loop d k (row.set p d) (p + 1)

/-- Function `create_empty_row`: `no_cols - 1` copies of the first delimiter,
a newline and a NUL. -/
def create_empty_row (row : Buf) (no_cols : Int) (delim : List Nat) : Buf :=
  let r := create_empty_row_loop (delim.headD 0) (no_cols - 1).toNat row 0
  (r.1.set r.2 10).set (r.2 + 1) 0

def find_column_start_loop (row : Buf) (delim : List Nat) (col_desired : Int) :
    Nat → Int → Int → Int
  | 0, _, _ => NOT_FOUND
  | fuel + 1, i, col_current =>
    if row.get i ≠ 0 then
      if col_current = col_desired then i
      else find_column_start_loop row delim col_desired fuel (i + 1)
        (if is_delim (row.get i) delim then col_current + 1 else col_current)
    else NOT_FOUND

/-- Function `find_column_start`: index of the first char of a column. -/
def find_column_start (row : Buf) (delim : List Nat) (col_desired : Int) : Int :=
  find_column_start_loop row delim col_desired (MAX_ROW - 1) 0 1

def find_column_end_loop (row : Buf) (delim : List Nat) (start : Int) :
    Nat → Int → Int → Option Int
  | 0, _, _ => none
  | fuel + 1, i, skip =>
    if i < (MAX_ROW : Int) - 1 ∨ row.get i ≠ 0 then
      if row.get i = 10 ∨ is_delim (row.get i) delim = true then
        if skip - 1 ≤ 0 then
          if i = start then some EMPTY_COL else some (i - 1)
        else find_column_end_loop row delim start fuel (i + 1) (skip - 1)
      else find_column_end_loop row delim start fuel (i + 1) skip
    else some NOT_FOUND

/-- Function `find_column_end`: index of the last char of the span of `skip`
columns that starts at `start`.  The scan may visit the indices below
`MAX_ROW`. -/
def find_column_end (row : Buf) (delim : List Nat) (start skip : Int) : Option Int :=
  find_column_end_loop row delim start ((MAX_ROW : Int) - start).toNat start skip

/-- Loop `for (; j < i + offset; j++) row[j] = ' ';`. -/
def fill_loop : Nat → Buf → Int → Buf
  | 0, row, _ => row
  | n + 1, row, j => fill_loop n (row.set j 32) (j + 1)

/-- Loop `for (; i > start; i--) { row[i + offset] = row[i]; row[i] = ' '; }`. -/
def shift_right_loop (offset : Int) : Nat → Buf → Int → Buf
  | 0, row, _ => row
  | n + 1, row, i =>
    shift_right_loop offset n ((row.set (i + offset) (row.get i)).set i 32) (i - 1)

/-- Function `row_shift_right`. -/
def row_shift_right (row : Buf) (start offset : Int) : Option (Buf × Int) :=
  (strlen row).map fun i =>
    let j := i + 1
    let start := start - 1
    if i + offset > (MAX_ROW : Int) then (row, 0)
    else
      let row := if i - start < offset then fill_loop (i + offset - j).toNat row j else row
      (shift_right_loop offset (i - start).toNat row i, 1)

/-- Loop `for (i = start; i < end; i++) row[i] = row[i + offset + 1];`. -/
def shift_left_loop (offset : Int) : Nat → Buf → Int → Buf
  | 0, row, _ => row
  | n + 1, row, i => shift_left_loop offset n (row.set i (row.get (i + offset + 1))) (i + 1)

/-- Function `row_shift_left`. -/
def row_shift_left (row : Buf) (start offset : Int) : Option Buf :=
  (strlen row).map fun len =>
    let e := len + 1
    shift_left_loop offset (e - start).toNat row start

/-- Loop `while (*str) row[col_start++] = *str++;`. -/
def write_str : List Nat → Buf → Int → Buf
  | [], row, _ => row
  | c :: str, row, col_start => write_str str (row.set col_start c) (col_start + 1)

/-- Function `replace_column`. -/
def replace_column (row : Buf) (col_start col_end : Int) (str : List Nat) :
    Option (Buf × Int) :=
  let str_size : Int := str.length
  let col_size : Int := if col_end = EMPTY_COL then 0 else col_end - col_start + 1
  let col_end : Int := if col_end = EMPTY_COL then col_start else col_end
  if str_size > col_size then
    (row_shift_right row col_end (str_size - col_size)).map fun r =>
      if r.2 = 0 then (r.1, 0) else (write_str str r.1 col_start, 1)
  else if str_size < col_size then
    (row_shift_left row col_start (col_size - str_size - 1)).map fun r =>
      (write_str str r col_start, 1)
  else some (write_str str row col_start, 1)

/-- Function `to_lower`. -/
def to_lower (c : Nat) : Nat :=
  if 65 ≤ c ∧ c ≤ 90 then c + ASCII_OFFSET else c

/-- Function `to_upper`. -/
def to_upper (c : Nat) : Nat :=
  if 97 ≤ c ∧ c ≤ 122 then c - ASCII_OFFSET else c

def get_column_content_loop (row : Buf) (conversion : Int) :
    Nat → Int → Buf → Int → Buf
  | 0, _, str, _ => str
  | n + 1, col_start, str, p =>
    if conversion = NO_CONVERSION then
      get_column_content_loop row conversion n (col_start + 1)
        (str.set p (row.get col_start)) (p + 1)
    else if conversion = TOLOWER then
      get_column_content_loop row conversion n (col_start + 1)
        (str.set p (to_lower (row.get col_start))) (p + 1)
    else if conversion = TOUPPER then
      get_column_content_loop row conversion n (col_start + 1)
        (str.set p (to_upper (row.get col_start))) (p + 1)
    else get_column_content_loop row conversion n (col_start + 1) str p

/-- Function `get_column_content`: copies `row[col_start .. col_end]` to the
front of `str`; no NUL is appended. -/
def get_column_content (row : Buf) (col_start col_end : Int) (str : Buf)
    (conversion : Int) : Buf :=
  if col_end = EMPTY_COL then str
  else get_column_content_loop row conversion (col_end + 1 - col_start).toNat col_start str 0

/-! ## Commands on one row -/

/-- Prints `"%s"`: the bytes of the C string in `row`. -/
def printf_s (row : Buf) : Option (List Nat) := cstr row

/-- Function `irow_f`: prints an empty row of `no_cols` columns. -/
def irow_f (no_cols : Int) (delim : List Nat) : Option (List Nat) :=
  printf_s (create_empty_row (Buf.zero MAX_ROW) no_cols delim)

/-- Function `arow_f`: prints an empty row of `no_cols` columns. -/
def arow_f (no_cols : Int) (delim : List Nat) : Option (List Nat) :=
  printf_s (create_empty_row (Buf.zero MAX_ROW) no_cols delim)

/-- Loop `while (*row) *row++ = '\0';`. -/
def drow_f_loop : Nat → Buf → Int → Option Buf
  | 0, _, _ => none
  | fuel + 1, row, p =>
    if row.get p ≠ 0 then drow_f_loop fuel (row.set p 0) (p + 1) else some row

/-- Function `drow_f`: zeroes the bytes of the string. -/
def drow_f (row : Buf) : Option Buf := drow_f_loop row.size row 0

/-- Function `icol_f`. -/
def icol_f (row : Buf) (target : Int) (delim : List Nat) : Option (Buf × Int) :=
  (strlen row).bind fun len =>
    if len = (MAX_ROW : Int) - 1 then some (row, 0)
    else
      let start := find_column_start row delim target
      (row_shift_right row start 1).map fun r =>
        if r.2 = 0 then (r.1, 0) else (r.1.set start (delim.headD 0), 1)

/-- Function `acol_f`. -/
def acol_f (row : Buf) (delim : List Nat) : Option (Buf × Int) :=
  (strlen row).map fun length =>
    if length = (MAX_ROW : Int) - 1 then (row, 0)
    else
      ((((row.set (length - 1) (delim.headD 0)).set length 10).set (length + 1) 0), 1)

/-- Function `dcols_f`. -/
def dcols_f (row : Buf) (target_min target_max : Int) (delim : List Nat) : Option Buf :=
  let index_start := find_column_start row delim target_min
  let skip := target_max - target_min + 1
  (find_column_end row delim index_start skip).bind fun index_end =>
    let first : Bool := decide (target_min = 1 ∧ index_end ≠ EMPTY_COL)
    let index_end := if first then index_end + 1 else index_end
    let index_start := if first then index_start else index_start - 1
    let index_end := if index_end = EMPTY_COL then index_start else index_end
    let index_end :=
      if target_min = 1 ∧ target_max = get_no_cols row delim then index_end - 1 else index_end
    row_shift_left row index_start (index_end - index_start)

/-- Function `dcol_f`. -/
def dcol_f (row : Buf) (target : Int) (delim : List Nat) : Option Buf :=
  dcols_f row target target delim

/-- Function `cset_f`. -/
def cset_f (row : Buf) (target : Int) (str : List Nat) (delim : List Nat) :
    Option (Buf × Int) :=
  (strlen row).bind fun len =>
    if len + (str.length : Int) ≥ (MAX_ROW : Int) - 1 then some (row, 0)
    else
      let col_start := find_column_start row delim target
      (find_column_end row delim col_start 1).bind fun col_end =>
        (replace_column row col_start col_end str).map fun r =>
          if r.2 = 0 then (r.1, 0) else (r.1, 1)

/-- Function `changecase_f`. -/
def changecase_f (row : Buf) (target : Int) (delim : List Nat) (case_type : Int) :
    Option Buf :=
  let col_start := find_column_start row delim target
  (find_column_end row delim col_start 1).bind fun col_end =>
    let str := get_column_content row col_start col_end (Buf.zero MAX_CELL) case_type
    (cstr str).bind fun s =>
      (replace_column row col_start col_end s).map fun r => r.1.taint str.oob

def tolower_f (row : Buf) (target : Int) (delim : List Nat) : Option Buf :=
  changecase_f row target delim TOLOWER

def toupper_f (row : Buf) (target : Int) (delim : List Nat) : Option Buf :=
  changecase_f row target delim TOUPPER

/-! ### Numbers

A `double` is modelled by a fraction `num / den` that holds its exact value:
every operation that `my_round` performs on a finite double whose integer part
fits an `int` is exact.  Infinities and NaN are not modelled. -/

/-- A finite `double`: the fraction `num / den`, where `den` is positive. -/
structure Dbl where
  num : Int
  den : Nat
  deriving DecidableEq

/-- The rational number that a `Dbl` stands for. -/
def Dbl.toRat (x : Dbl) : ℚ := (x.num : ℚ) / (x.den : ℚ)

/-- Conversion of an `int` to `double`. -/
def Dbl.ofInt (z : Int) : Dbl := { num := z, den := 1 }

/-- Unary minus on doubles. -/
def Dbl.neg (x : Dbl) : Dbl := { num := -x.num, den := x.den }

/-- Subtraction of doubles. -/
def Dbl.sub (x y : Dbl) : Dbl :=
  { num := x.num * y.den - y.num * x.den, den := x.den * y.den }

/-- Comparison `x < y` of doubles. -/
def Dbl.lt (x y : Dbl) : Bool := decide (x.num * y.den < y.num * x.den)

/-- Comparison `x >= y` of doubles. -/
def Dbl.ge (x y : Dbl) : Bool := decide (y.num * x.den ≤ x.num * y.den)

/-- Reduction of an integer to the range of a 32 bit `int`. -/
def int32 (z : Int) : Int := (z + 2 ^ 31) % 2 ^ 32 - 2 ^ 31

/-- Conversion `(int)x`: truncation towards zero.  Outside the range of `int`
the conversion is undefined in C; the model returns `INT_MIN` there, as the
conversion instruction of x86-64 does. -/
def int_of_double (x : Dbl) : Int :=
  let t := Int.tdiv x.num x.den
  if -2 ^ 31 ≤ t ∧ t < 2 ^ 31 then t else -2 ^ 31

/-- Macro `ABS` on a double. -/
def ABS (num : Dbl) : Dbl := if num.lt (Dbl.ofInt 0) then num.neg else num

/-- Macro `ABS` on an int. -/
def ABS_int (num : Int) : Int := if num < 0 then int32 (-num) else num

/-- Function `my_round`. -/
def my_round (number : Dbl) : Int :=
  let after_point : Dbl := (ABS number).sub (Dbl.ofInt (ABS_int (int_of_double number)))
  if after_point.ge { num := 1, den := 2 } then
    if (Dbl.ofInt 0).lt number then int32 (int_of_double number + 1)
    else int32 (int_of_double number - 1)
  else int_of_double number

/-- Decimal digits of `n`, most significant first, in front of `acc`. -/
def digits_loop : Nat → Nat → List Nat → List Nat
  | 0, _, acc => acc
  | fuel + 1, n, acc =>
    if n < 10 then (48 + n) :: acc
    else digits_loop fuel (n / 10) ((48 + n % 10) :: acc)

/-- Text that `sprintf(new_cell, "%d", n)` stores. -/
def sprintf_d (n : Int) : List Nat :=
  if n < 0 then 45 :: digits_loop (n.natAbs + 1) n.natAbs []
  else digits_loop (n.natAbs + 1) n.natAbs []

/-- Function `rounding_f`.  The library function `strtod` is a parameter: it
maps the text of the cell to the number read and the unread rest of the text. -/
def rounding_f (strtod : List Nat → Dbl × List Nat) (row : Buf) (target : Int)
    (delim : List Nat) (round_type : Int) : Option (Buf × Int) :=
  let start := find_column_start row delim target
  (find_column_end row delim start 1).bind fun e =>
    if e ≠ EMPTY_COL then
      let cell := get_column_content row start e (Buf.zero MAX_CELL) NO_CONVERSION
      (cstr cell).bind fun s =>
        let to_round := (strtod s).1
        if (strtod s).2 ≠ [] then some (row.taint cell.oob, 0)
        else
          let new_cell :=
            if round_type = ROUND then sprintf_d (my_round to_round)
            else sprintf_d (int_of_double to_round)
          (replace_column row start e new_cell).map fun r => (r.1.taint cell.oob, 1)
    else some (row, 1)

def round_f (strtod : List Nat → Dbl × List Nat) (row : Buf) (target : Int)
    (delim : List Nat) : Option (Buf × Int) :=
  rounding_f strtod row target delim ROUND

def int_f (strtod : List Nat → Dbl × List Nat) (row : Buf) (target : Int)
    (delim : List Nat) : Option (Buf × Int) :=
  rounding_f strtod row target delim INT

/-- Function `copy_f`. -/
def copy_f (row : Buf) (target_from target_to : Int) (delim : List Nat) :
    Option (Buf × Int) :=
  let col_start_from := find_column_start row delim target_from
  (find_column_end row delim col_start_from 1).bind fun col_end_from =>
    let col_start_to := find_column_start row delim target_to
    (find_column_end row delim col_start_to 1).bind fun col_end_to =>
      let from_cell := get_column_content row col_start_from col_end_from
        (Buf.zero MAX_CELL) NO_CONVERSION
      (cstr from_cell).bind fun s =>
        (replace_column row col_start_to col_end_to s).map fun r =>
          if r.2 = 0 then (r.1.taint from_cell.oob, 0) else (r.1.taint from_cell.oob, 1)

/-- Function `swap_f`. -/
def swap_f (row : Buf) (target_from target_to : Int) (delim : List Nat) : Option Buf :=
  let col_start_from := find_column_start row delim target_from
  (find_column_end row delim col_start_from 1).bind fun col_end_from =>
    let col_start_to := find_column_start row delim target_to
    (find_column_end row delim col_start_to 1).bind fun col_end_to =>
      let from_cell := get_column_content row col_start_from col_end_from
        (Buf.zero MAX_CELL) NO_CONVERSION
      let to_cell := get_column_content row col_start_to col_end_to
        (Buf.zero MAX_CELL) NO_CONVERSION
      (cstr from_cell).bind fun sfrom =>
        (replace_column row col_start_to col_end_to sfrom).bind fun r =>
          let row := r.1
          let col_start_from := find_column_start row delim target_from
          (find_column_end row delim col_start_from 1).bind fun col_end_from =>
            (cstr to_cell).bind fun sto =>
              (replace_column row col_start_from col_end_from sto).map fun r =>
                (r.1.taint from_cell.oob).taint to_cell.oob

/-- Function `move_f`. -/
def move_f (row : Buf) (target_from target_to : Int) (delim : List Nat) :
    Option (Buf × Int) :=
  let col_start_from := find_column_start row delim target_from
  (find_column_end row delim col_start_from 1).bind fun col_end_from =>
    let from_cell := get_column_content row col_start_from col_end_from
      (Buf.zero MAX_CELL) NO_CONVERSION
    (icol_f row target_to delim).bind fun r =>
      if r.2 = 0 then some (r.1.taint from_cell.oob, 0)
      else
        (cstr from_cell).bind fun s =>
          (cset_f r.1 target_to s delim).bind fun r =>
            if r.2 = 0 then some (r.1.taint from_cell.oob, 0)
            else
              (if target_from > target_to then dcol_f r.1 (target_from + 1) delim
               else dcol_f r.1 target_from delim).map fun row =>
                (row.taint from_cell.oob, 1)

/-- Function `rows_f`. -/
def rows_f (n_row row_from row_to is_last_line dash1 dash2 : Int) : Int :=
  let row_from := if dash1 = 1 then 0 else row_from
  let row_to := if dash2 = 1 then n_row else row_to
  if dash1 ≠ 0 ∧ dash2 ≠ 0 then
    if is_last_line ≠ 0 then 1 else 0
  else if n_row ≥ row_from ∧ n_row ≤ row_to then 1
  else 0

/-- Loop of `beginswith_f`. -/
def beginswith_f_loop (cell : Buf) (str : List Nat) : Nat → Int → Int
  | 0, _ => 1
  | n + 1, i =>
    if cell.get i ≠ str.getD i.toNat 0 then 0 else beginswith_f_loop cell str n (i + 1)

/-- Function `beginswith_f`.  The local array `cell` is not initialised in the
source: `cell` is what that memory holds on entry. -/
def beginswith_f (cell : Buf) (row : Buf) (target : Int) (str : List Nat)
    (delim : List Nat) : Option Int :=
  let start := find_column_start row delim target
  (find_column_end row delim start 1).bind fun e =>
    let cell := get_column_content row start e cell NO_CONVERSION
    let length : Int := str.length
    (strlen cell).map fun cell_length =>
      if length > cell_length then 0
      else beginswith_f_loop cell str str.length 0

/-- Loop of `contains_f`. -/
def contains_f_loop (cell : Buf) (str : List Nat) (str_length : Int) : Nat → Int → Int → Int
  | 0, _, _ => 0
  | n + 1, i, n_matches =>
    let n_matches := if cell.get i = str.getD n_matches.toNat 0 then n_matches + 1 else 0
    if n_matches = str_length then 1
    else contains_f_loop cell str str_length n (i + 1) n_matches

/-- Function `contains_f`.  The local array `cell` is not initialised in the
source: `cell` is what that memory holds on entry. -/
def contains_f (cell : Buf) (row : Buf) (target : Int) (str : List Nat)
    (delim : List Nat) : Option Int :=
  let start := find_column_start row delim target
  (find_column_end row delim start 1).bind fun e =>
    let cell := get_column_content row start e cell NO_CONVERSION
    (strlen cell).map fun cell_length =>
      let str_length : Int := str.length
      contains_f_loop cell str str_length cell_length.toNat 0 0

/-! ## Argument checks -/

/-- Function `row_arg_check`. -/
def row_arg_check (n_row : Int) : Int := if n_row ≤ 0 then 0 else 1

/-- Function `col_arg_check`. -/
def col_arg_check (target no_cols : Int) : Int :=
  if target ≤ 0 then 0 else if target > no_cols then 0 else 1

/-- Function `two_arg_check`. -/
def two_arg_check (arg1 arg2 : Int) : Int := if arg1 > arg2 then 0 else 1

/-! ## The structural pipeline -/

/-- Struct `user_args_t`; `num_args0` and `num_args1` are `num_args[0]` and
`num_args[1]`. -/
structure user_args_t where
  cmd_num : Int
  num_args0 : Int
  num_args1 : Int
  str_arg : List Nat
  dash1 : Int
  dash2 : Int

/-- Loop of `load_line`; `inp` is what is left of the standard input.  The
source stores what `getchar` returns in `char c` and compares `c` with `EOF`:
`char` is signed, so the byte 255 compares equal to `EOF` there, as the end of
the input does.  The second `getchar`, at `i == MAX_ROW - 2`, is compared as an
`int`: there only the end of the input is `EOF`. -/
def load_line_loop (delim : List Nat) : Nat → Int → Buf → List Nat → Buf × Int × List Nat
  | 0, i, row, inp => (row.set i 0, i + 1, inp)
  | fuel + 1, i, row, inp =>
    match inp with
    | [] => (row.set i 0, 0, [])
    | c :: inp =>
      if c = 255 then (row.set i 0, 0, inp)
      else
        let row := row.set i (if is_delim c delim then delim.headD 0 else c)
        if i = (MAX_ROW : Int) - 2 then
          match inp with
          | _ :: inp2 => (row, TOO_LONG, inp2)
          | [] =>
            if c = 10 then (row.set (i + 1) 0, i + 1, [])
            else load_line_loop delim fuel (i + 1) row []
        else if c = 10 then (row.set (i + 1) 0, i + 1, inp)
        else load_line_loop delim fuel (i + 1) row inp

/-- Function `load_line`: the row read, the value returned and the input left. -/
def load_line (row : Buf) (delim : List Nat) (inp : List Nat) : Buf × Int × List Nat :=
  load_line_loop delim (MAX_ROW - 1) 0 row inp

/-- Function `no_cols_adjust`. -/
def no_cols_adjust (no_cols : Int) : List user_args_t → Int
  | [] => no_cols
  | a :: user_args =>
    if a.cmd_num = ICOL then no_cols_adjust (no_cols + 1) user_args
    else if a.cmd_num = ACOL then no_cols_adjust (no_cols + 1) user_args
    else if a.cmd_num = DCOL then no_cols_adjust (no_cols - 1) user_args
    else if a.cmd_num = DCOLS then
      no_cols_adjust (no_cols - (a.num_args1 - a.num_args0 + 1)) user_args
    else no_cols_adjust no_cols user_args

/-- Function `process_error_handling`. -/
def process_error_handling (row : Buf) (delim : List Nat) (prev_cols line_ret : Int) : Int :=
  if line_ret = TOO_LONG then 0
  else if get_no_cols row delim ≠ prev_cols then 0
  else 1

/-- The `for` loop over the commands in `process_mod_commands`, for one row:
the value `0` when the run is to fail and `1` otherwise, the row, and the
standard output. -/
def mod_commands_loop (delim : List Nat) (n_row no_cols no_cols_adjusted : Int) :
    List user_args_t → Buf → List Nat → Option (Int × Buf × List Nat)
  | [], row, out => some (1, row, out)
  | a :: user_args, row, out =>
    let n_arg1 := a.num_args0
    let n_arg2 := a.num_args1
    if a.cmd_num = IROW then
      if row_arg_check n_arg1 = 0 then some (0, row, out)
      else if n_arg1 = n_row then
        (irow_f no_cols_adjusted delim).bind fun o =>
          mod_commands_loop delim n_row no_cols no_cols_adjusted user_args row (out ++ o)
      else mod_commands_loop delim n_row no_cols no_cols_adjusted user_args row out
    else if a.cmd_num = DROW then
      if row_arg_check n_arg1 = 0 then some (0, row, out)
      else if n_arg1 = n_row then
        (drow_f row).bind fun row =>
          mod_commands_loop delim n_row no_cols no_cols_adjusted user_args row out
      else mod_commands_loop delim n_row no_cols no_cols_adjusted user_args row out
    else if a.cmd_num = DROWS then
      if ¬ (row_arg_check n_arg1 ≠ 0 ∧ row_arg_check n_arg2 ≠ 0) then some (0, row, out)
      else if two_arg_check n_arg1 n_arg2 = 0 then some (0, row, out)
      else if n_arg1 ≤ n_row ∧ n_arg2 ≥ n_row then
        (drow_f row).bind fun row =>
          mod_commands_loop delim n_row no_cols no_cols_adjusted user_args row out
      else mod_commands_loop delim n_row no_cols no_cols_adjusted user_args row out
    else if a.cmd_num = ICOL then
      if col_arg_check n_arg1 no_cols = 0 then some (0, row, out)
      else
        (icol_f row n_arg1 delim).bind fun r =>
          if r.2 = 0 then some (0, r.1, out)
          else mod_commands_loop delim n_row no_cols no_cols_adjusted user_args r.1 out
    else if a.cmd_num = ACOL then
      (acol_f row delim).bind fun r =>
        if r.2 = 0 then some (0, r.1, out)
        else mod_commands_loop delim n_row no_cols no_cols_adjusted user_args r.1 out
    else if a.cmd_num = DCOL then
      if col_arg_check n_arg1 no_cols = 0 then some (0, row, out)
      else
        (dcol_f row n_arg1 delim).bind fun row =>
          mod_commands_loop delim n_row no_cols no_cols_adjusted user_args row out
    else if a.cmd_num = DCOLS then
      if ¬ (col_arg_check n_arg1 no_cols ≠ 0 ∧ col_arg_check n_arg2 no_cols ≠ 0) then
        some (0, row, out)
      else if two_arg_check n_arg1 n_arg2 = 0 then some (0, row, out)
      else
        (dcols_f row n_arg1 n_arg2 delim).bind fun row =>
          mod_commands_loop delim n_row no_cols no_cols_adjusted user_args row out
    else mod_commands_loop delim n_row no_cols no_cols_adjusted user_args row out

/-- The loop `for (...) if (user_args[i].cmd_num == AROW) arow_f(...)` that ends
`process_mod_commands`. -/
def arow_loop (delim : List Nat) (no_cols_adjusted : Int) :
    List user_args_t → List Nat → Option (List Nat)
  | [], out => some out
  | a :: user_args, out =>
    if a.cmd_num = AROW then
      (arow_f no_cols_adjusted delim).bind fun o =>
        arow_loop delim no_cols_adjusted user_args (out ++ o)
    else arow_loop delim no_cols_adjusted user_args out

/-- The `while` loop of `process_mod_commands`.  The state is the row array,
the input left, `n_row`, `init`, `no_cols`, `no_cols_adjusted` and the standard
output; the result is the value returned, the standard output, and whether a
write has left the row array. -/
def process_mod_loop (user_args : List user_args_t) (delim : List Nat) :
    Nat → Buf → List Nat → Int → Bool → Int → Int → List Nat →
      Option (Int × List Nat × Bool)
  | 0, _, _, _, _, _, _, _ => none
  | fuel + 1, row, inp, n_row, init, no_cols, no_cols_adjusted, out =>
    let l := load_line row delim inp
    let row := l.1
    let line_ret := l.2.1
    if line_ret ≠ 0 then
      let n_row := n_row + 1
      let no_cols := if init then no_cols else get_no_cols row delim
      let no_cols_adjusted :=
        if init then no_cols_adjusted else no_cols_adjust no_cols user_args
      if process_error_handling row delim no_cols line_ret = 0 then some (0, out, row.oob)
      else
        (mod_commands_loop delim n_row no_cols no_cols_adjusted user_args row out).bind
          fun r =>
            if r.1 = 0 then some (0, r.2.2, r.2.1.oob)
            else
              (printf_s r.2.1).bind fun o =>
                process_mod_loop user_args delim fuel r.2.1 l.2.2 n_row true no_cols
                  no_cols_adjusted (r.2.2 ++ o)
    else
      (arow_loop delim no_cols_adjusted user_args out).map fun out => (1, out, row.oob)

/-- Function `process_mod_commands` on the standard input `inp`, with the row
array holding `row` on entry. -/
def process_mod_commands (user_args : List user_args_t) (delim : List Nat) (row : Buf)
    (inp : List Nat) : Option (Int × List Nat × Bool) :=
  process_mod_loop user_args delim (inp.length + 1) row inp 0 false 0 0 []

/-! ## A model of `strtod`

The library function `strtod` is not part of the program.  `strtod_model`
follows ISO C for the texts it accepts: optional white space, an optional sign,
then either `0x` and hexadecimal digits, or decimal digits with an optional
fraction and an optional exponent.  The value is exact (no rounding to the
nearest double); hexadecimal fractions and exponents, infinities and NaN are
left out. -/

def is_space (c : Nat) : Bool := decide (c = 32 ∨ (9 ≤ c ∧ c ≤ 13))

def is_digit (c : Nat) : Bool := decide (48 ≤ c ∧ c ≤ 57)

def hex_val (c : Nat) : Option Nat :=
  if 48 ≤ c ∧ c ≤ 57 then some (c - 48)
  else if 97 ≤ c ∧ c ≤ 102 then some (c - 87)
  else if 65 ≤ c ∧ c ≤ 70 then some (c - 55)
  else none

def skip_space : List Nat → List Nat
  | [] => []
  | c :: s => if is_space c then skip_space s else c :: s

/-- Reads decimal digits: the number read after `acc`, how many digits were
read, and the rest of the text. -/
def read_digits : List Nat → Nat → Nat → Nat × Nat × List Nat
  | [], acc, n => (acc, n, [])
  | c :: s, acc, n =>
    if is_digit c then read_digits s (acc * 10 + (c - 48)) (n + 1) else (acc, n, c :: s)

/-- Reads hexadecimal digits. -/
def read_hex : List Nat → Nat → Nat → Nat × Nat × List Nat
  | [], acc, n => (acc, n, [])
  | c :: s, acc, n =>
    match hex_val c with
    | some v => read_hex s (acc * 16 + v) (n + 1)
    | none => (acc, n, c :: s)

/-- The exponent part of a decimal text: the exponent and the rest. -/
def read_exponent (s : List Nat) : Int × List Nat :=
  match s with
  | c :: t =>
    if c = 101 ∨ c = 69 then
      match t with
      | 45 :: u =>
        let r := read_digits u 0 0
        if r.2.1 = 0 then (0, s) else (-(r.1 : Int), r.2.2)
      | 43 :: u =>
        let r := read_digits u 0 0
        if r.2.1 = 0 then (0, s) else ((r.1 : Int), r.2.2)
      | _ =>
        let r := read_digits t 0 0
        if r.2.1 = 0 then (0, s) else ((r.1 : Int), r.2.2)
    else (0, s)
  | [] => (0, s)

/-- The number `sign * m * 10 ^ e`. -/
def scale10 (neg : Bool) (m : Nat) (e : Int) : Dbl :=
  let n : Int := if neg then -(m : Int) else (m : Int)
  if 0 ≤ e then { num := n * 10 ^ e.toNat, den := 1 }
  else { num := n, den := 10 ^ (-e).toNat }

/-- The hexadecimal digits behind a `0x` mark, when the text starts with one. -/
def read_hex_mark : List Nat → Option (Nat × Nat × List Nat)
  | 48 :: x :: t => if x = 120 ∨ x = 88 then some (read_hex t 0 0) else none
  | _ => none

/-- The digits of the fraction behind the integer part `ip`. -/
def read_fraction (ip : Nat × Nat × List Nat) : Nat × Nat × List Nat :=
  match ip.2.2 with
  | 46 :: t => read_digits t ip.1 0
  | _ => (ip.1, 0, ip.2.2)

/-- The unsigned part of a decimal text; `all` is the whole text, which is the
unread rest when no number is found. -/
def strtod_decimal (all : List Nat) (neg : Bool) (s : List Nat) : Dbl × List Nat :=
  let ip := read_digits s 0 0
  let fp := read_fraction ip
  if ip.2.1 + fp.2.1 = 0 then ({ num := 0, den := 1 }, all)
  else
    let ex := read_exponent fp.2.2
    (scale10 neg fp.1 (ex.1 - (fp.2.1 : Int)), ex.2)

/-- The unsigned part of the text of a number. -/
def strtod_body (all : List Nat) (neg : Bool) (s : List Nat) : Dbl × List Nat :=
  match read_hex_mark s with
  | some (v, _ + 1, rest) => (scale10 neg v 0, rest)
  | _ => strtod_decimal all neg s

/-- Modelled from ISO C: the library function `strtod`, which is not part of
the program; the number read and the rest of the text (`endptr`). -/
def strtod_model (s : List Nat) : Dbl × List Nat :=
  match skip_space s with
  | 45 :: t => strtod_body s true t
  | 43 :: t => strtod_body s false t
  | t => strtod_body s false t

/-! ## Specification vocabulary -/

/-- The array `row` holds the C string `s`: the bytes of `s`, none of them NUL,
from index 0 on, then a NUL inside the array.  The bytes behind that NUL are
arbitrary. -/
structure Holds (row : Buf) (s : List Nat) : Prop where
  bytes : ∀ k : Nat, k < s.length → row.data (k : Int) = s.getD k 0
  nul : row.data (s.length : Int) = 0
  nz : ∀ c ∈ s, c ≠ 0
  fits : s.length < row.size

/-- The text `s` with the bytes at the indices `a ≤ i < b` replaced by `mid`. -/
def splice (s : List Nat) (a b : Nat) (mid : List Nat) : List Nat :=
  s.take a ++ mid ++ s.drop b

/-- A cell with the byte that ends it: a delimiter, or the newline for the
last cell of a row. -/
abbrev Seg := List Nat × Nat

/-- The text of a sequence of cells, each followed by the byte that ends it. -/
def flat : List Seg → List Nat
  | [] => []
  | p :: segs => p.1 ++ p.2 :: flat segs

/-- The text `c` of a cell holds no NUL, no newline and no delimiter. -/
def CellOk (delim : List Nat) (c : List Nat) : Prop :=
  ∀ x ∈ c, x ≠ 0 ∧ x ≠ 10 ∧ is_delim x delim = false

/-- A well formed row: at least one cell, every cell but the last is ended by a
delimiter and the last cell by the newline. -/
def WfSegs (delim : List Nat) : List Seg → Prop
  | [] => False
  | [p] => CellOk delim p.1 ∧ p.2 = 10
  | p :: q :: segs => CellOk delim p.1 ∧ is_delim p.2 delim = true ∧ WfSegs delim (q :: segs)

/-- Splits a text into its cells; a tail that no newline or delimiter ends is
dropped. -/
def segments (delim : List Nat) : List Nat → List Seg
  | [] => []
  | c :: s =>
    if c = 10 ∨ is_delim c delim = true then ([], c) :: segments delim s
    else
      match segments delim s with
      | [] => []
      | p :: ps => (c :: p.1, p.2) :: ps

/-- The contents of the columns of the row `s`. -/
def columns (delim : List Nat) (s : List Nat) : List (List Nat) :=
  (segments delim s).map Prod.fst

/-- The text `s` is a line: bytes other than NUL and newline, then one newline. -/
def NewlineTerminated (s : List Nat) : Prop :=
  ∃ body : List Nat, s = body ++ [10] ∧ ∀ x ∈ body, x ≠ 0 ∧ x ≠ 10

/-- The delimiter string is not empty and holds neither NUL nor newline. -/
def DelimOk (delim : List Nat) : Prop :=
  delim ≠ [] ∧ ∀ d ∈ delim, d ≠ 0 ∧ d ≠ 10

/-- The array `row` holds the bytes `l` from index `i` on. -/
def At (row : Buf) (i : Int) (l : List Nat) : Prop :=
  ∀ k : Nat, k < l.length → row.data (i + (k : Int)) = l.getD k 0

/-- Whether `user_args` holds only column commands (`icol`, `acol`, `dcol`,
`dcols`) such that every column argument passes the check of the pipeline
against the column count `n` of the first row, names a column that the row has
when the command is reached (`cur` columns at the start), and no command
deletes all the columns that the row then has. -/
def col_cmds_ok (n : Int) : Int → List user_args_t → Bool
  | _, [] => true
  | cur, a :: user_args =>
    if a.cmd_num = ICOL then
      decide (1 ≤ a.num_args0 ∧ a.num_args0 ≤ n ∧ a.num_args0 ≤ cur) &&
        col_cmds_ok n (cur + 1) user_args
    else if a.cmd_num = ACOL then col_cmds_ok n (cur + 1) user_args
    else if a.cmd_num = DCOL then
      decide (1 ≤ a.num_args0 ∧ a.num_args0 ≤ n ∧ a.num_args0 ≤ cur ∧ 1 < cur) &&
        col_cmds_ok n (cur - 1) user_args
    else if a.cmd_num = DCOLS then
      decide (1 ≤ a.num_args0 ∧ a.num_args0 ≤ a.num_args1 ∧ a.num_args1 ≤ n ∧
          a.num_args1 ≤ cur ∧ a.num_args1 - a.num_args0 + 1 < cur) &&
        col_cmds_ok n (cur - (a.num_args1 - a.num_args0 + 1)) user_args
    else false

/-- The number of `icol` and `acol` commands in `user_args`. -/
def col_inserts : List user_args_t → Nat
  | [] => 0
  | a :: user_args =>
    if a.cmd_num = ICOL ∨ a.cmd_num = ACOL then col_inserts user_args + 1
    else col_inserts user_args

/-- The row `segs` with an empty cell, ended by the delimiter `d`, in front of
column `k`. -/
def ins_col (segs : List Seg) (k : Nat) (d : Nat) : List Seg :=
  segs.take (k - 1) ++ ([], d) :: segs.drop (k - 1)

/-- The row `segs` with the text of column `k` replaced by `str`. -/
def set_col (segs : List Seg) (k : Nat) (str : List Nat) : List Seg :=
  segs.take (k - 1) ++ (str, (segs.getD (k - 1) ([], 0)).2) :: segs.drop k

/-- The row `segs` without the columns `a, ..., b`: from column 1 on, the cells
and the bytes that end them go; otherwise the cell in front of the range is
ended by what ended column `b`. -/
def del_cols (segs : List Seg) (a b : Nat) : List Seg :=
  if a = 1 then segs.drop b
  else
    segs.take (a - 2) ++
      ((segs.getD (a - 2) ([], 0)).1, (segs.getD (b - 1) ([], 0)).2) :: segs.drop b

/-- The text of column `k` of the row `segs`. -/
def cell (segs : List Seg) (k : Nat) : List Nat :=
  (segs.getD (k - 1) ([], 0)).1

/-! ## The data pipeline -/

/-- Function `arg_check_rows`. -/
def arg_check_rows (arg1 arg2 dash1 dash2 : Int) : Int :=
  if arg1 < 1 ∧ dash1 = 0 then 0
  else if arg2 < 1 ∧ dash2 = 0 then 0
  else if ¬ (dash1 ≠ 0 ∨ dash2 ≠ 0) ∧ arg1 > arg2 then 0
  else 1

/-- Library function `strcpy` between two arrays. -/
def strcpy (dst src : Buf) : Option Buf :=
  (cstr src).map fun s => (write_str s dst 0).set (s.length : Int) 0

/-- The `for` loop over the commands in `process_data_commands`, for one row:
the value `0` when the run is to fail and `1` otherwise, the row, and
`selected`.  `cell` is what the local array of `beginswith_f` and `contains_f`
holds on entry. -/
def data_commands_loop (strtod : List Nat → Dbl × List Nat) (cell : Buf) (delim : List Nat)
    (n_row no_cols last_line : Int) : List user_args_t → Buf → Int → Option (Int × Buf × Int)
  | [], row, selected => some (1, row, selected)
  | a :: user_args, row, selected =>
    let n_arg1 := a.num_args0
    let n_arg2 := a.num_args1
    let str := a.str_arg
    if a.cmd_num = CSET then
      if col_arg_check n_arg1 no_cols = 0 then some (0, row, selected)
      else if selected = 0 then
        data_commands_loop strtod cell delim n_row no_cols last_line user_args row selected
      else
        (cset_f row n_arg1 str delim).bind fun r =>
          if r.2 = 0 then some (0, r.1, selected)
          else data_commands_loop strtod cell delim n_row no_cols last_line user_args r.1 selected
    else if a.cmd_num = TOLOWER then
      if col_arg_check n_arg1 no_cols = 0 then some (0, row, selected)
      else if selected = 0 then
        data_commands_loop strtod cell delim n_row no_cols last_line user_args row selected
      else
        (tolower_f row n_arg1 delim).bind fun row =>
          data_commands_loop strtod cell delim n_row no_cols last_line user_args row selected
    else if a.cmd_num = TOUPPER then
      if col_arg_check n_arg1 no_cols = 0 then some (0, row, selected)
      else if selected = 0 then
        data_commands_loop strtod cell delim n_row no_cols last_line user_args row selected
      else
        (toupper_f row n_arg1 delim).bind fun row =>
          data_commands_loop strtod cell delim n_row no_cols last_line user_args row selected
    else if a.cmd_num = ROUND then
      if col_arg_check n_arg1 no_cols = 0 then some (0, row, selected)
      else if selected = 0 then
        data_commands_loop strtod cell delim n_row no_cols last_line user_args row selected
      else
        (round_f strtod row n_arg1 delim).bind fun r =>
          if r.2 = 0 then some (0, r.1, selected)
          else data_commands_loop strtod cell delim n_row no_cols last_line user_args r.1 selected
    else if a.cmd_num = INT then
      if col_arg_check n_arg1 no_cols = 0 then some (0, row, selected)
      else if selected = 0 then
        data_commands_loop strtod cell delim n_row no_cols last_line user_args row selected
      else
        (int_f strtod row n_arg1 delim).bind fun r =>
          if r.2 = 0 then some (0, r.1, selected)
          else data_commands_loop strtod cell delim n_row no_cols last_line user_args r.1 selected
    else if a.cmd_num = COPY then
      if col_arg_check n_arg1 no_cols = 0 then some (0, row, selected)
      else if col_arg_check n_arg2 no_cols = 0 then some (0, row, selected)
      else if selected = 0 then
        data_commands_loop strtod cell delim n_row no_cols last_line user_args row selected
      else
        (copy_f row n_arg1 n_arg2 delim).bind fun r =>
          if r.2 = 0 then some (0, r.1, selected)
          else data_commands_loop strtod cell delim n_row no_cols last_line user_args r.1 selected
    else if a.cmd_num = SWAP then
      if col_arg_check n_arg1 no_cols = 0 then some (0, row, selected)
      else if col_arg_check n_arg2 no_cols = 0 then some (0, row, selected)
      else if selected = 0 then
        data_commands_loop strtod cell delim n_row no_cols last_line user_args row selected
      else
        (swap_f row n_arg1 n_arg2 delim).bind fun row =>
          data_commands_loop strtod cell delim n_row no_cols last_line user_args row selected
    else if a.cmd_num = MOVE then
      if col_arg_check n_arg1 no_cols = 0 then some (0, row, selected)
      else if col_arg_check n_arg2 no_cols = 0 then some (0, row, selected)
      else if selected = 0 then
        data_commands_loop strtod cell delim n_row no_cols last_line user_args row selected
      else
        (move_f row n_arg1 n_arg2 delim).bind fun r =>
          if r.2 = 0 then some (0, r.1, selected)
          else data_commands_loop strtod cell delim n_row no_cols last_line user_args r.1 selected
    else if a.cmd_num = ROWS then
      if arg_check_rows n_arg1 n_arg2 a.dash1 a.dash2 = 0 then some (0, row, selected)
      else
        data_commands_loop strtod cell delim n_row no_cols last_line user_args row
          (rows_f n_row n_arg1 n_arg2 last_line a.dash1 a.dash2)
    else if a.cmd_num = BEGINSWITH then
      if col_arg_check n_arg1 no_cols = 0 then some (0, row, selected)
      else
        (beginswith_f cell row n_arg1 str delim).bind fun v =>
          data_commands_loop strtod cell delim n_row no_cols last_line user_args row v
    else if a.cmd_num = CONTAINS then
      if col_arg_check n_arg1 no_cols = 0 then some (0, row, selected)
      else
        (contains_f cell row n_arg1 str delim).bind fun v =>
          data_commands_loop strtod cell delim n_row no_cols last_line user_args row v
    else data_commands_loop strtod cell delim n_row no_cols last_line user_args row selected

/-- The `while` loop of `process_data_commands`.  The state is the arrays `row`
and `next`, `line_ret`, the input left, `n_row`, `init`, `no_cols`, `last_line`
and the standard output; the result is the value returned, the standard
output, and whether a write has left the row array. -/
def process_data_loop (strtod : List Nat → Dbl × List Nat) (cell : Buf)
    (user_args : List user_args_t) (delim : List Nat) :
    Nat → Buf → Buf → Int → List Nat → Int → Bool → Int → Int → List Nat →
      Option (Int × List Nat × Bool)
  | 0, _, _, _, _, _, _, _, _, _ => none
  | fuel + 1, row, next, line_ret, inp, n_row, init, no_cols, last_line, out =>
    if line_ret ≠ 0 then
      (strcpy row next).bind fun row =>
        let l := load_line next delim inp
        let next := l.1
        let line_ret := l.2.1
        let last_line := if line_ret = 0 then 1 else last_line
        let n_row := n_row + 1
        let no_cols := if init then no_cols else get_no_cols row delim
        if process_error_handling row delim no_cols line_ret = 0 then some (0, out, row.oob)
        else
          (data_commands_loop strtod cell delim n_row no_cols last_line user_args row 1).bind
            fun r =>
              if r.1 = 0 then some (0, out, r.2.1.oob)
              else
                (printf_s r.2.1).bind fun o =>
                  process_data_loop strtod cell user_args delim fuel r.2.1 next line_ret l.2.2
                    n_row true no_cols last_line (out ++ o)
    else some (1, out, row.oob)

/-- Function `process_data_commands` on the standard input `inp`, with the
arrays holding `row` and `next` on entry. -/
def process_data_commands (strtod : List Nat → Dbl × List Nat) (cell : Buf)
    (user_args : List user_args_t) (delim : List Nat) (row next : Buf) (inp : List Nat) :
    Option (Int × List Nat × Bool) :=
  let l := load_line next delim inp
  process_data_loop strtod cell user_args delim (inp.length + 1) row l.1 l.2.1 l.2.2 0 false 0 0
    []

/-! ## No commands, and the dispatch -/

/-- The `while` loop of `handle_no_commands`. -/
def no_commands_loop (delim : List Nat) :
    Nat → Buf → List Nat → Bool → Int → List Nat → Option (Int × List Nat × Bool)
  | 0, _, _, _, _, _ => none
  | fuel + 1, row, inp, init, no_cols, out =>
    let l := load_line row delim inp
    let row := l.1
    let line_ret := l.2.1
    if line_ret ≠ 0 then
      let no_cols := if init then no_cols else get_no_cols row delim
      if process_error_handling row delim no_cols line_ret = 0 then some (0, out, row.oob)
      else
        (printf_s row).bind fun o =>
          no_commands_loop delim fuel row l.2.2 true no_cols (out ++ o)
    else some (1, out, row.oob)

/-- Function `handle_no_commands`; `no_cols` is what the variable holds on entry. -/
def handle_no_commands (delim : List Nat) (row : Buf) (no_cols : Int) (inp : List Nat) :
    Option (Int × List Nat × Bool) :=
  no_commands_loop delim (inp.length + 1) row inp false no_cols []

/-- Macro `IS_MOD`. -/
def IS_MOD (cmd_num : Int) : Bool := decide (cmd_num ≥ 0 ∧ cmd_num ≤ 7)

/-- Macro `IS_DATA`. -/
def IS_DATA (cmd_num : Int) : Bool := decide (cmd_num ≥ 8 ∧ cmd_num ≤ 15)

/-- Macro `IS_SELECTION`. -/
def IS_SELECTION (cmd_num : Int) : Bool := decide (cmd_num ≥ 16 ∧ cmd_num ≤ 18)

/-- Struct `cmd_types_t`. -/
structure cmd_types_t where
  mod : Int
  data : Int
  selection : Int

/-- The counting of the command types in `main`, over the commands given. -/
def count_cmd_types : List user_args_t → cmd_types_t → cmd_types_t
  | [], t => t
  | a :: user_args, t =>
    count_cmd_types user_args
      { mod := if IS_MOD a.cmd_num then t.mod + 1 else t.mod
        data := if IS_DATA a.cmd_num then t.data + 1 else t.data
        selection := if IS_SELECTION a.cmd_num then t.selection + 1 else t.selection }

/-- Function `handle_commands`: the value returned, the standard output, and
whether a write has left a row array.  The arrays `row` and `next`, `cell` and
`no_cols` are what the locals of the pipelines hold on entry. -/
def handle_commands (strtod : List Nat → Dbl × List Nat) (cell : Buf) (cmd_types : cmd_types_t)
    (user_args : List user_args_t) (delim : List Nat) (row next : Buf) (no_cols : Int)
    (inp : List Nat) : Option (Int × List Nat × Bool) :=
  if cmd_types.mod ≠ 0 ∧ (cmd_types.data ≠ 0 ∨ cmd_types.selection ≠ 0) then some (0, [], false)
  else if cmd_types.mod ≠ 0 then
    (process_mod_commands user_args delim row inp).map fun r =>
      if r.1 = 0 then (0, r.2.1, r.2.2) else (1, r.2.1, r.2.2)
  else if cmd_types.data ≠ 0 ∨ cmd_types.selection ≠ 0 then
    (process_data_commands strtod cell user_args delim row next inp).map fun r =>
      if r.1 = 0 then (0, r.2.1, r.2.2) else (1, r.2.1, r.2.2)
  else
    (handle_no_commands delim row no_cols inp).map fun r =>
      if r.1 = 0 then (0, r.2.1, r.2.2) else (1, r.2.1, r.2.2)

/-! ## Specification vocabulary for the pipelines -/

/-- The text `s` as `load_line` stores it: every delimiter byte replaced by the
first delimiter. -/
def canon (delim : List Nat) (s : List Nat) : List Nat :=
  s.map fun c => if is_delim c delim then delim.headD 0 else c

/-- The lines `ls` one after the other. -/
def cat_lines : List (List Nat) → List Nat
  | [] => []
  | l :: ls => l ++ cat_lines ls

/-- The text `l` is an input line that `load_line` accepts wherever it stands in
the input: bytes other than NUL, newline and 255, then one newline, less than
`MAX_ROW - 1` bytes in all. -/
def ValidLine (l : List Nat) : Prop :=
  NewlineTerminated l ∧ l.length < MAX_ROW - 1 ∧ ∀ x ∈ l, x ≠ 255

/-- The command `a` leaves a row that is not selected not selected and its
column arguments pass the checks: a data command has column arguments that
`col_arg_check` accepts, and a selection command has arguments that are
accepted and returns 0 on `row`. -/
def KeepsUnselected (cell : Buf) (delim : List Nat) (n_row no_cols last_line : Int) (row : Buf)
    (a : user_args_t) : Prop :=
  ((a.cmd_num = CSET ∨ a.cmd_num = TOLOWER ∨ a.cmd_num = TOUPPER ∨ a.cmd_num = ROUND ∨
      a.cmd_num = INT) → col_arg_check a.num_args0 no_cols = 1) ∧
  ((a.cmd_num = COPY ∨ a.cmd_num = SWAP ∨ a.cmd_num = MOVE) →
    col_arg_check a.num_args0 no_cols = 1 ∧ col_arg_check a.num_args1 no_cols = 1) ∧
  (a.cmd_num = ROWS →
    arg_check_rows a.num_args0 a.num_args1 a.dash1 a.dash2 = 1 ∧
      rows_f n_row a.num_args0 a.num_args1 last_line a.dash1 a.dash2 = 0) ∧
  (a.cmd_num = BEGINSWITH →
    col_arg_check a.num_args0 no_cols = 1 ∧
      beginswith_f cell row a.num_args0 a.str_arg delim = some 0) ∧
  (a.cmd_num = CONTAINS →
    col_arg_check a.num_args0 no_cols = 1 ∧
      contains_f cell row a.num_args0 a.str_arg delim = some 0)

/-! ## Vocabulary for the command loops -/

/-- The row `segs` with an empty last column appended: the last cell is ended
by the delimiter `d`, and an empty cell by the newline. -/
def app_col (segs : List Seg) (d : Nat) : List Seg :=
  segs.take (segs.length - 1) ++ [((segs.getD (segs.length - 1) ([], 0)).1, d), ([], 10)]

/-- Whether, when the column commands `user_args` are run one after the other
on the row `segs`, no `dcol` or `dcols` command is to delete column 1 alone
while that column is empty.  `d` is the first delimiter. -/
def col_cmds_safe (d : Nat) : List Seg → List user_args_t → Bool
  | _, [] => true
  | segs, a :: user_args =>
    if a.cmd_num = ICOL then col_cmds_safe d (ins_col segs a.num_args0.toNat d) user_args
    else if a.cmd_num = ACOL then col_cmds_safe d (app_col segs d) user_args
    else if a.cmd_num = DCOL then
      decide (¬ (a.num_args0 = 1 ∧ cell segs 1 = [])) &&
        col_cmds_safe d (del_cols segs a.num_args0.toNat a.num_args0.toNat) user_args
    else if a.cmd_num = DCOLS then
      decide (¬ (a.num_args1 = 1 ∧ cell segs 1 = [])) &&
        col_cmds_safe d (del_cols segs a.num_args0.toNat a.num_args1.toNat) user_args
    else true

/-- What the selection command `a` (`rows`, `beginswith`, `contains`) returns on
`row`. -/
def selection_result (cell : Buf) (delim : List Nat) (n_row last_line : Int) (a : user_args_t)
    (row : Buf) : Option Int :=
  if a.cmd_num = ROWS then
    some (rows_f n_row a.num_args0 a.num_args1 last_line a.dash1 a.dash2)
  else if a.cmd_num = BEGINSWITH then beginswith_f cell row a.num_args0 a.str_arg delim
  else contains_f cell row a.num_args0 a.str_arg delim

/-- Whether the arguments of the selection command `a` pass the check that the
command loop makes. -/
def selection_args_ok (no_cols : Int) (a : user_args_t) : Bool :=
  if a.cmd_num = ROWS then
    decide (arg_check_rows a.num_args0 a.num_args1 a.dash1 a.dash2 ≠ 0)
  else decide (col_arg_check a.num_args0 no_cols ≠ 0)

/-- What the function of the data command `a` (`cset`, ..., `move`) leaves of
`row`, with the value it returns; 1 stands for the functions that return
nothing. -/
def data_result (strtod : List Nat → Dbl × List Nat) (delim : List Nat) (a : user_args_t)
    (row : Buf) : Option (Buf × Int) :=
  if a.cmd_num = CSET then cset_f row a.num_args0 a.str_arg delim
  else if a.cmd_num = TOLOWER then (tolower_f row a.num_args0 delim).map fun r => (r, 1)
  else if a.cmd_num = TOUPPER then (toupper_f row a.num_args0 delim).map fun r => (r, 1)
  else if a.cmd_num = ROUND then round_f strtod row a.num_args0 delim
  else if a.cmd_num = INT then int_f strtod row a.num_args0 delim
  else if a.cmd_num = COPY then copy_f row a.num_args0 a.num_args1 delim
  else if a.cmd_num = SWAP then (swap_f row a.num_args0 a.num_args1 delim).map fun r => (r, 1)
  else move_f row a.num_args0 a.num_args1 delim

/-- Whether the column arguments of the data command `a` pass the checks that
the command loop makes: one argument up to `int`, two from `copy` on. -/
def data_args_ok (no_cols : Int) (a : user_args_t) : Bool :=
  decide (col_arg_check a.num_args0 no_cols ≠ 0) &&
    (decide (a.cmd_num < COPY) || decide (col_arg_check a.num_args1 no_cols ≠ 0))

/-! ## Arrays: basic facts -/

@[simp] theorem Buf.get_eq (b : Buf) (i : Int) : b.get i = b.data i := rfl

@[simp] theorem Buf.set_size (b : Buf) (i : Int) (v : Nat) : (b.set i v).size = b.size := rfl

@[simp] theorem Buf.set_data (b : Buf) (i : Int) (v : Nat) (j : Int) :
    (b.set i v).data j = if j = i then v else b.data j := rfl

theorem Buf.set_oob (b : Buf) (i : Int) (v : Nat) (h0 : 0 ≤ i) (h1 : i < (b.size : Int)) :
    (b.set i v).oob = b.oob := by
  simp [Buf.set, h0, h1]

@[simp] theorem Buf.taint_size (b : Buf) (f : Bool) : (b.taint f).size = b.size := rfl

@[simp] theorem Buf.taint_data (b : Buf) (f : Bool) : (b.taint f).data = b.data := rfl

@[simp] theorem Buf.taint_false (b : Buf) : b.taint false = b := by
  cases b; simp [Buf.taint]

/-! ## Closed forms of the write loops -/

theorem fill_loop_size (n : Nat) (row : Buf) (j : Int) :
    (fill_loop n row j).size = row.size := by
  induction n generalizing row j with
  | zero => rfl
  | succ n ih => simp [fill_loop, ih]

theorem fill_loop_data (n : Nat) (row : Buf) (j k : Int) :
    (fill_loop n row j).data k = if j ≤ k ∧ k < j + n then 32 else row.data k := by
  induction n generalizing row j with
  | zero =>
    simp only [fill_loop]
    rw [if_neg (by simp)]
  | succ n ih =>
    simp only [fill_loop, ih, Buf.set_data]
    push_cast
    split_ifs <;> first | rfl | omega

theorem fill_loop_oob (n : Nat) (row : Buf) (j : Int) (h0 : 0 ≤ j)
    (h1 : j + n ≤ (row.size : Int)) : (fill_loop n row j).oob = row.oob := by
  induction n generalizing row j with
  | zero => rfl
  | succ n ih =>
    simp only [fill_loop]
    rw [ih _ _ (by omega) (by simp; push_cast at h1; omega), Buf.set_oob _ _ _ h0 (by push_cast at h1; omega)]

theorem shift_right_loop_size (offset : Int) (n : Nat) (row : Buf) (i : Int) :
    (shift_right_loop offset n row i).size = row.size := by
  induction n generalizing row i with
  | zero => rfl
  | succ n ih => simp [shift_right_loop, ih]

theorem shift_right_loop_data (offset : Int) (hoff : 1 ≤ offset) (n : Nat) (row : Buf)
    (i k : Int) :
    (shift_right_loop offset n row i).data k =
      if i - n + offset < k ∧ k ≤ i + offset then row.data (k - offset)
      else if i - n < k ∧ k ≤ i then 32 else row.data k := by
  induction n generalizing row i with
  | zero =>
    simp only [shift_right_loop]
    split_ifs <;> first | rfl | omega
  | succ n ih =>
    simp only [shift_right_loop, ih, Buf.set_data, Buf.get_eq]
    push_cast
    split_ifs <;> first | rfl | omega | (congr 1; omega)

theorem shift_right_loop_oob (offset : Int) (n : Nat) (row : Buf) (i : Int)
    (h0 : 0 ≤ i - n + 1) (hoff : 0 ≤ offset) (h1 : i + offset < (row.size : Int)) :
    (shift_right_loop offset n row i).oob = row.oob := by
  induction n generalizing row i with
  | zero => rfl
  | succ n ih =>
    simp only [shift_right_loop]
    push_cast at h0
    rw [ih _ _ (by omega) (by simp; omega), Buf.set_oob _ _ _ (by omega) (by simp; omega),
      Buf.set_oob _ _ _ (by omega) (by omega)]

theorem shift_left_loop_size (offset : Int) (n : Nat) (row : Buf) (i : Int) :
    (shift_left_loop offset n row i).size = row.size := by
  induction n generalizing row i with
  | zero => rfl
  | succ n ih => simp [shift_left_loop, ih]

theorem shift_left_loop_data (offset : Int) (hoff : 0 ≤ offset + 1) (n : Nat) (row : Buf)
    (i k : Int) :
    (shift_left_loop offset n row i).data k =
      if i ≤ k ∧ k < i + n then row.data (k + offset + 1) else row.data k := by
  induction n generalizing row i with
  | zero =>
    simp only [shift_left_loop]
    split_ifs <;> first | rfl | omega
  | succ n ih =>
    simp only [shift_left_loop, ih, Buf.set_data, Buf.get_eq]
    push_cast
    split_ifs <;> first | rfl | omega | (congr 1; omega)

theorem shift_left_loop_oob (offset : Int) (n : Nat) (row : Buf) (i : Int)
    (h0 : 0 ≤ i) (h1 : i + n ≤ (row.size : Int)) :
    (shift_left_loop offset n row i).oob = row.oob := by
  induction n generalizing row i with
  | zero => rfl
  | succ n ih =>
    simp only [shift_left_loop]
    push_cast at h1
    rw [ih _ _ (by omega) (by simp; omega), Buf.set_oob _ _ _ h0 (by omega)]

theorem write_str_size (str : List Nat) (row : Buf) (p : Int) :
    (write_str str row p).size = row.size := by
  induction str generalizing row p with
  | nil => rfl
  | cons c str ih => simp [write_str, ih]

theorem write_str_data (str : List Nat) (row : Buf) (p k : Int) :
    (write_str str row p).data k =
      if p ≤ k ∧ k < p + str.length then str.getD (k - p).toNat 0 else row.data k := by
  induction str generalizing row p with
  | nil =>
    simp only [write_str]
    rw [if_neg (by simp)]
  | cons c str ih =>
    simp only [write_str, ih, Buf.set_data, List.length_cons]
    push_cast
    by_cases h1 : p + 1 ≤ k ∧ k < p + 1 + str.length
    · rw [if_pos h1, if_pos (by omega)]
      have : (k - p).toNat = (k - (p + 1)).toNat + 1 := by omega
      rw [this, List.getD_cons_succ]
    · rw [if_neg h1]
      by_cases h2 : k = p
      · subst h2
        simp
      · rw [if_neg h2, if_neg (by omega)]

theorem write_str_oob (str : List Nat) (row : Buf) (p : Int) (h0 : 0 ≤ p)
    (h1 : p + str.length ≤ (row.size : Int)) : (write_str str row p).oob = row.oob := by
  induction str generalizing row p with
  | nil => rfl
  | cons c str ih =>
    simp only [write_str]
    simp only [List.length_cons] at h1
    push_cast at h1
    rw [ih _ _ (by omega) (by simp; omega), Buf.set_oob _ _ _ h0 (by omega)]

theorem getD_splice (s : List Nat) (a b : Nat) (mid : List Nat) (ha : a ≤ s.length) (k : Nat) :
    (splice s a b mid).getD k 0 =
      if k < a then s.getD k 0
      else if k < a + mid.length then mid.getD (k - a) 0
      else s.getD (k - a - mid.length + b) 0 := by
  unfold splice
  simp only [List.getD_eq_getElem?_getD]
  by_cases h1 : k < a
  · rw [if_pos h1, List.append_assoc, List.getElem?_append_left (by simp; omega)]
    rw [List.getElem?_take_of_lt h1]
  · rw [if_neg h1, List.append_assoc, List.getElem?_append_right (by simp; omega)]
    have hl : (List.take a s).length = a := by simp; omega
    rw [hl]
    by_cases h2 : k < a + mid.length
    · rw [if_pos h2, List.getElem?_append_left (by omega)]
    · rw [if_neg h2, List.getElem?_append_right (by omega), List.getElem?_drop]
      congr 2
      omega

theorem length_splice (s : List Nat) (a b : Nat) (mid : List Nat) (ha : a ≤ s.length) :
    (splice s a b mid).length = a + mid.length + (s.length - b) := by
  unfold splice
  simp
  omega

theorem mem_splice {s : List Nat} {a b : Nat} {mid : List Nat} {c : Nat}
    (h : c ∈ splice s a b mid) : c ∈ s ∨ c ∈ mid := by
  unfold splice at h
  simp only [List.mem_append] at h
  rcases h with (h | h) | h
  · exact Or.inl (List.mem_of_mem_take h)
  · exact Or.inr h
  · exact Or.inl (List.mem_of_mem_drop h)

theorem Holds.data_ne_zero {row : Buf} {s : List Nat} (h : Holds row s) (k : Nat)
    (hk : k < s.length) : row.data (k : Int) ≠ 0 := by
  rw [h.bytes k hk, List.getD_eq_getElem _ _ hk]
  exact h.nz _ (List.getElem_mem _)

theorem strlen_loop_spec (b : Buf) (L : Nat) (hnz : ∀ k : Nat, k < L → b.data (k : Int) ≠ 0)
    (hz : b.data (L : Int) = 0) :
    ∀ (fuel i : Nat), i ≤ L → L - i < fuel → strlen_loop b fuel (i : Int) = some (L : Int) := by
  intro fuel
  induction fuel with
  | zero => intro i _ h; omega
  | succ fuel ih =>
    intro i hi hf
    simp only [strlen_loop, Buf.get_eq]
    by_cases h : i = L
    · subst h; simp [hz]
    · rw [if_neg (hnz i (by omega))]
      have := ih (i + 1) (by omega) (by omega)
      simpa using this

theorem strlen_of_holds {row : Buf} {s : List Nat} (h : Holds row s) :
    strlen row = some (s.length : Int) := by
  have := strlen_loop_spec row s.length (fun k hk => h.data_ne_zero k hk) h.nul row.size 0
    (by omega) (by have := h.fits; omega)
  simpa [strlen] using this

theorem slice_eq (b : Buf) : ∀ (l : List Nat) (i : Int),
    (∀ k : Nat, k < l.length → b.data (i + k) = l.getD k 0) → b.slice i l.length = l := by
  intro l
  induction l with
  | nil => intro i _; rfl
  | cons c l ih =>
    intro i h
    simp only [List.length_cons, Buf.slice, Buf.get_eq]
    have h0 := h 0 (by simp)
    simp at h0
    rw [h0, ih (i + 1)]
    intro k hk
    have := h (k + 1) (by simp; omega)
    simp only [List.getD_cons_succ] at this
    rw [← this]
    congr 1
    push_cast
    omega

theorem cstr_of_holds {row : Buf} {s : List Nat} (h : Holds row s) : cstr row = some s := by
  simp only [cstr, strlen_of_holds h, Option.map_some', Int.toNat_ofNat]
  rw [slice_eq row s 0]
  intro k hk
  simpa using h.bytes k hk

/-- A row of at most `size - 1` bytes without NUL is held by the array built
from it. -/
theorem holds_ofList (size : Nat) (s : List Nat) (hnz : ∀ c ∈ s, c ≠ 0)
    (hfit : s.length < size) : Holds (Buf.ofList size s) s := by
  refine ⟨?_, ?_, hnz, hfit⟩
  · intro k _
    simp [Buf.ofList]
  · simp [Buf.ofList]

theorem row_shift_right_eq {row : Buf} {s : List Nat} (h : Holds row s) (start offset : Int) :
    row_shift_right row start offset = some
      (if (s.length : Int) + offset > (MAX_ROW : Int) then (row, 0)
       else
        (shift_right_loop offset ((s.length : Int) - (start - 1)).toNat
          (if (s.length : Int) - (start - 1) < offset then
            fill_loop ((s.length : Int) + offset - ((s.length : Int) + 1)).toNat row
              ((s.length : Int) + 1)
           else row) (s.length : Int), 1)) := by
  simp only [row_shift_right, strlen_of_holds h, Option.map_some']

theorem row_shift_left_eq {row : Buf} {s : List Nat} (h : Holds row s) (start offset : Int) :
    row_shift_left row start offset = some
      (shift_left_loop offset ((s.length : Int) + 1 - start).toNat row start) := by
  simp only [row_shift_left, strlen_of_holds h, Option.map_some']

/-- Specification of `row_shift_right`: `offset` spaces appear at index `start`. -/
theorem row_shift_right_spec {row : Buf} {s : List Nat} (h : Holds row s)
    (hsize : row.size = MAX_ROW) (start offset : Nat) (hs : start ≤ s.length)
    (ho : 1 ≤ offset) (hfit : s.length + offset < MAX_ROW) :
    ∃ row', row_shift_right row start offset = some (row', 1) ∧
      Holds row' (splice s start start (List.replicate offset 32)) ∧
      row'.size = row.size ∧ row'.oob = row.oob := by
  rw [row_shift_right_eq h]
  have hM : (MAX_ROW : Int) = 10240 := rfl
  have hM' : MAX_ROW = 10240 := rfl
  rw [if_neg (by omega)]
  refine ⟨_, rfl, ?_, ?_, ?_⟩
  · have hdata : ∀ k : Int, 0 ≤ k →
        (shift_right_loop offset ((s.length : Int) - ((start : Int) - 1)).toNat
          (if (s.length : Int) - ((start : Int) - 1) < offset then
            fill_loop ((s.length : Int) + offset - ((s.length : Int) + 1)).toNat row
              ((s.length : Int) + 1)
           else row) (s.length : Int)).data k =
        if k < start then row.data k
        else if k < start + offset then 32
        else if k ≤ s.length + offset then row.data (k - offset)
        else row.data k := by
      intro k hk
      rw [shift_right_loop_data _ (by omega)]
      have e1 : (((s.length : Int) - ((start : Int) - 1)).toNat : Int)
          = (s.length : Int) - start + 1 := by omega
      rw [e1]
      split_ifs with c1 c2 c3 c4 c5 c6 c7 c8 c9 c10 <;>
        first
        | rfl
        | omega
        | (rw [fill_loop_data]; split_ifs <;> first | rfl | omega)
    refine ⟨?_, ?_, ?_, ?_⟩
    · intro k hk
      rw [length_splice _ _ _ _ hs] at hk
      simp only [List.length_replicate] at hk
      rw [hdata k (by omega), getD_splice _ _ _ _ hs]
      simp only [List.length_replicate]
      by_cases c1 : k < start
      · rw [if_pos (by omega), if_pos c1, h.bytes k (by omega)]
      · rw [if_neg (by omega), if_neg c1]
        by_cases c2 : k < start + offset
        · rw [if_pos (by omega), if_pos c2, List.getD_eq_getElem _ _ (by simp; omega)]
          simp
        · rw [if_neg (by omega), if_neg c2, if_pos (by omega)]
          have : (k : Int) - offset = ((k - offset : Nat) : Int) := by omega
          rw [this, h.bytes _ (by omega)]
          congr 1
          omega
    · rw [length_splice _ _ _ _ hs]
      simp only [List.length_replicate]
      rw [hdata _ (by omega)]
      rw [if_neg (by push_cast; omega), if_neg (by push_cast; omega),
        if_pos (by push_cast; omega)]
      have : ((start + offset + (s.length - start) : Nat) : Int) - offset = (s.length : Int) := by
        omega
      rw [this, h.nul]
    · intro c hc
      rcases mem_splice hc with hc | hc
      · exact h.nz c hc
      · rw [List.mem_replicate] at hc
        omega
    · rw [length_splice _ _ _ _ hs, shift_right_loop_size]
      simp only [List.length_replicate]
      split_ifs
      · rw [fill_loop_size]; omega
      · omega
  · rw [shift_right_loop_size]
    split_ifs
    · rw [fill_loop_size]
    · rfl
  · rw [shift_right_loop_oob _ _ _ _ (by omega) (by omega)]
    · split_ifs
      · rw [fill_loop_oob _ _ _ (by omega) (by omega)]
      · rfl
    · split_ifs
      · rw [fill_loop_size]; omega
      · omega

/-- Specification of `row_shift_left`: the bytes at `start, ..., start + offset`
disappear. -/
theorem row_shift_left_spec {row : Buf} {s : List Nat} (h : Holds row s)
    (start : Nat) (offset : Int) (ho : 0 ≤ offset + 1)
    (hs : (start : Int) + offset + 1 ≤ s.length) :
    ∃ row', row_shift_left row start offset = some row' ∧
      Holds row' (splice s start (start + (offset + 1).toNat) []) ∧
      row'.size = row.size ∧ row'.oob = row.oob := by
  rw [row_shift_left_eq h]
  refine ⟨_, rfl, ?_, ?_, ?_⟩
  · have hst : start ≤ s.length := by omega
    have hdata : ∀ k : Int,
        (shift_left_loop offset ((s.length : Int) + 1 - start).toNat row start).data k =
        if (start : Int) ≤ k ∧ k ≤ s.length then row.data (k + offset + 1) else row.data k := by
      intro k
      rw [shift_left_loop_data _ ho]
      split_ifs <;> first | rfl | omega
    refine ⟨?_, ?_, ?_, ?_⟩
    · intro k hk
      rw [length_splice _ _ _ _ hst] at hk
      simp only [List.length_nil] at hk
      rw [hdata, getD_splice _ _ _ _ hst]
      simp only [List.length_nil]
      by_cases c1 : k < start
      · rw [if_neg (by omega), if_pos c1, h.bytes k (by omega)]
      · rw [if_pos (by omega), if_neg c1, if_neg (by omega)]
        have : (k : Int) + offset + 1 = ((k - start - 0 + (start + (offset + 1).toNat) : Nat) : Int) := by
          omega
        rw [this, h.bytes _ (by omega)]
    · rw [length_splice _ _ _ _ hst, hdata]
      simp only [List.length_nil]
      rw [if_pos (by omega)]
      have : ((start + 0 + (s.length - (start + (offset + 1).toNat)) : Nat) : Int) + offset + 1
          = (s.length : Int) := by omega
      rw [this, h.nul]
    · intro c hc
      rcases mem_splice hc with hc | hc
      · exact h.nz c hc
      · simp at hc
    · rw [length_splice _ _ _ _ hst, shift_left_loop_size]
      have := h.fits
      simp only [List.length_nil]
      omega
  · rw [shift_left_loop_size]
  · rw [shift_left_loop_oob _ _ _ _ (by omega)]
    have := h.fits
    omega

theorem list_eq_of_getD {l1 l2 : List Nat} (hl : l1.length = l2.length)
    (h : ∀ k : Nat, k < l1.length → l1.getD k 0 = l2.getD k 0) : l1 = l2 := by
  apply List.ext_getElem hl
  intro n h1 h2
  have := h n h1
  rwa [List.getD_eq_getElem _ _ h1, List.getD_eq_getElem _ _ h2] at this

/-- Specification of the loop that copies `str` into the row. -/
theorem write_str_spec {row : Buf} {t : List Nat} (h : Holds row t) (a : Nat)
    (str : List Nat) (hstr : ∀ x ∈ str, x ≠ 0) (hfit : a + str.length ≤ t.length) :
    Holds (write_str str row a) (splice t a (a + str.length) str) ∧
      (write_str str row a).size = row.size ∧ (write_str str row a).oob = row.oob := by
  have ha : a ≤ t.length := by omega
  have hlen : (splice t a (a + str.length) str).length = t.length := by
    rw [length_splice _ _ _ _ ha]; omega
  refine ⟨⟨?_, ?_, ?_, ?_⟩, write_str_size _ _ _, ?_⟩
  · intro k hk
    rw [hlen] at hk
    rw [write_str_data, getD_splice _ _ _ _ ha]
    by_cases c1 : k < a
    · rw [if_neg (by omega), if_pos c1, h.bytes k hk]
    · rw [if_neg c1]
      by_cases c2 : k < a + str.length
      · rw [if_pos (by omega), if_pos c2]
        congr 1
        omega
      · rw [if_neg (by omega), if_neg c2, h.bytes k hk]
        congr 1
        omega
  · rw [hlen, write_str_data, if_neg (by omega), h.nul]
  · intro c hc
    rcases mem_splice hc with hc | hc
    · exact h.nz c hc
    · exact hstr c hc
  · rw [hlen, write_str_size]
    exact h.fits
  · apply write_str_oob _ _ _ (by omega)
    have := h.fits
    omega

theorem splice_splice_grow (s : List Nat) (a c : Nat) (str : List Nat) (hac : a + c ≤ s.length)
    (hgt : c < str.length) :
    splice (splice s (if c = 0 then a else a + c - 1) (if c = 0 then a else a + c - 1)
        (List.replicate (str.length - c) 32)) a (a + str.length) str
      = splice s a (a + c) str := by
  have he : (if c = 0 then a else a + c - 1) ≤ s.length := by split_ifs <;> omega
  have hl1 := length_splice s (if c = 0 then a else a + c - 1)
    (if c = 0 then a else a + c - 1) (List.replicate (str.length - c) 32) he
  simp only [List.length_replicate] at hl1
  have ha1 : a ≤ (splice s (if c = 0 then a else a + c - 1) (if c = 0 then a else a + c - 1)
        (List.replicate (str.length - c) 32)).length := by
    rw [hl1]; split_ifs <;> omega
  apply list_eq_of_getD
  · rw [length_splice _ _ _ _ ha1, length_splice s a (a + c) str (by omega : a ≤ s.length), hl1]
    split_ifs <;> omega
  · intro k _
    rw [getD_splice _ _ _ _ ha1, getD_splice s a (a + c) str (by omega : a ≤ s.length)]
    by_cases c1 : k < a
    · rw [if_pos c1, if_pos c1, getD_splice _ _ _ _ he, if_pos (by split_ifs <;> omega)]
    · rw [if_neg c1, if_neg c1]
      by_cases c2 : k < a + str.length
      · rw [if_pos c2, if_pos c2]
      · rw [if_neg c2, if_neg c2, getD_splice _ _ _ _ he, if_neg (by split_ifs <;> omega)]
        simp only [List.length_replicate]
        rw [if_neg (by split_ifs <;> omega)]
        congr 1
        split_ifs <;> omega

theorem splice_splice_shrink (s : List Nat) (a c : Nat) (str : List Nat)
    (hac : a + c ≤ s.length) (hlt : str.length < c) :
    splice (splice s a (a + (c - str.length)) []) a (a + str.length) str
      = splice s a (a + c) str := by
  have ha : a ≤ s.length := by omega
  have hl1 := length_splice s a (a + (c - str.length)) [] ha
  simp only [List.length_nil] at hl1
  have ha1 : a ≤ (splice s a (a + (c - str.length)) []).length := by
    rw [hl1]; omega
  apply list_eq_of_getD
  · rw [length_splice _ _ _ _ ha1, length_splice s a (a + c) str ha, hl1]
    omega
  · intro k _
    rw [getD_splice _ _ _ _ ha1, getD_splice s a (a + c) str ha]
    by_cases c1 : k < a
    · rw [if_pos c1, if_pos c1, getD_splice _ _ _ _ ha, if_pos c1]
    · rw [if_neg c1, if_neg c1]
      by_cases c2 : k < a + str.length
      · rw [if_pos c2, if_pos c2]
      · rw [if_neg c2, if_neg c2, getD_splice _ _ _ _ ha, if_neg (by omega)]
        simp only [List.length_nil]
        rw [if_neg (by omega)]
        congr 1
        omega

/-- Specification of `replace_column` when the new text fits: the `c` bytes of
the column at index `a` are replaced by `str`. -/
theorem replace_column_spec {row : Buf} {s : List Nat} (h : Holds row s)
    (hsize : row.size = MAX_ROW) (a c : Nat) (hac : a + c ≤ s.length)
    (str : List Nat) (hstr : ∀ x ∈ str, x ≠ 0) (col_end : Int)
    (hce : col_end = if c = 0 then EMPTY_COL else (a : Int) + c - 1)
    (hfit : s.length + str.length < MAX_ROW + c) :
    ∃ row', replace_column row a col_end str = some (row', 1) ∧
      Holds row' (splice s a (a + c) str) ∧ row'.size = row.size ∧ row'.oob = row.oob := by
  have hE : EMPTY_COL = -2 := rfl
  have hcs : (if col_end = EMPTY_COL then (0 : Int) else col_end - (a : Int) + 1) = (c : Int) := by
    rw [hce]; split_ifs <;> omega
  have hcend : (if col_end = EMPTY_COL then (a : Int) else col_end)
      = ((if c = 0 then a else a + c - 1 : Nat) : Int) := by
    rw [hce]; split_ifs <;> omega
  simp only [replace_column, hcs, hcend]
  by_cases hgt : c < str.length
  · rw [if_pos (by omega)]
    have hoff : (str.length : Int) - (c : Int) = ((str.length - c : Nat) : Int) := by omega
    rw [hoff]
    obtain ⟨r1, e1, h1, hs1, ho1⟩ := row_shift_right_spec h hsize
      (if c = 0 then a else a + c - 1) (str.length - c) (by split_ifs <;> omega) (by omega)
      (by omega)
    rw [e1]
    simp only [Option.map_some', one_ne_zero, if_false]
    have hl1 := length_splice s (if c = 0 then a else a + c - 1)
      (if c = 0 then a else a + c - 1) (List.replicate (str.length - c) 32)
      (by split_ifs <;> omega)
    simp only [List.length_replicate] at hl1
    obtain ⟨h2, hs2, ho2⟩ := write_str_spec h1 a str hstr (by rw [hl1]; split_ifs <;> omega)
    rw [splice_splice_grow s a c str hac hgt] at h2
    exact ⟨_, rfl, h2, by rw [hs2, hs1], by rw [ho2, ho1]⟩
  · rw [if_neg (by omega)]
    by_cases hlt : str.length < c
    · rw [if_pos (by omega)]
      obtain ⟨r1, e1, h1, hs1, ho1⟩ := row_shift_left_spec h a
        ((c : Int) - (str.length : Int) - 1) (by omega) (by omega)
      rw [e1]
      simp only [Option.map_some']
      have e2 : ((c : Int) - (str.length : Int) - 1 + 1).toNat = c - str.length := by omega
      rw [e2] at h1
      have hl1 := length_splice s a (a + (c - str.length)) [] (by omega)
      simp only [List.length_nil] at hl1
      obtain ⟨h2, hs2, ho2⟩ := write_str_spec h1 a str hstr (by rw [hl1]; omega)
      rw [splice_splice_shrink s a c str hac hlt] at h2
      exact ⟨_, rfl, h2, by rw [hs2, hs1], by rw [ho2, ho1]⟩
    · rw [if_neg (by omega)]
      have hceq : c = str.length := by omega
      obtain ⟨h2, hs2, ho2⟩ := write_str_spec h a str hstr (by omega)
      rw [← hceq] at h2
      exact ⟨_, rfl, h2, hs2, ho2⟩

/-- When the new text makes the row longer than `MAX_ROW` bytes `replace_column`
reports failure and leaves the row alone. -/
theorem replace_column_fail {row : Buf} {s : List Nat} (h : Holds row s)
    (hsize : row.size = MAX_ROW) (a c : Nat) (str : List Nat) (col_end : Int)
    (hce : col_end = if c = 0 then EMPTY_COL else (a : Int) + c - 1)
    (hbig : MAX_ROW + c < s.length + str.length) :
    replace_column row a col_end str = some (row, 0) := by
  have hE : EMPTY_COL = -2 := rfl
  have hcs : (if col_end = EMPTY_COL then (0 : Int) else col_end - (a : Int) + 1) = (c : Int) := by
    rw [hce]; split_ifs <;> omega
  simp only [replace_column, hcs]
  have hM : (MAX_ROW : Int) = 10240 := rfl
  have hM' : MAX_ROW = 10240 := rfl
  have := h.fits
  rw [if_pos (by omega), row_shift_right_eq h, if_pos (by omega)]
  simp

/-! ## Rows as sequences of cells -/

theorem is_delim_iff (x : Nat) (delim : List Nat) : is_delim x delim = true ↔ x ∈ delim := by
  induction delim with
  | nil => simp [is_delim]
  | cons d delim ih =>
    simp only [is_delim, List.mem_cons]
    by_cases h : d = x
    · simp [h]
    · simp [h, ih, Ne.symm h]

theorem is_delim_ne {delim : List Nat} (hd : DelimOk delim) {x : Nat}
    (h : is_delim x delim = true) : x ≠ 0 ∧ x ≠ 10 :=
  hd.2 x ((is_delim_iff x delim).1 h)

theorem is_delim_head {delim : List Nat} (hd : DelimOk delim) :
    is_delim (delim.headD 0) delim = true := by
  rcases delim with _ | ⟨d, delim⟩
  · exact absurd rfl hd.1
  · simp [is_delim]

@[simp] theorem flat_nil : flat [] = [] := rfl

@[simp] theorem flat_cons (p : Seg) (segs : List Seg) :
    flat (p :: segs) = p.1 ++ p.2 :: flat segs := rfl

theorem flat_append (a b : List Seg) : flat (a ++ b) = flat a ++ flat b := by
  induction a with
  | nil => rfl
  | cons p a ih => simp [ih]

theorem length_flat_le (segs : List Seg) : segs.length ≤ (flat segs).length := by
  induction segs with
  | nil => simp
  | cons p segs ih => simp; omega

theorem WfSegs.ne_nil {delim : List Nat} {segs : List Seg} (h : WfSegs delim segs) :
    segs ≠ [] := by
  rintro rfl
  exact h

theorem WfSegs.cons_cell {delim : List Nat} {p : Seg} {segs : List Seg}
    (h : WfSegs delim (p :: segs)) : CellOk delim p.1 := by
  cases segs with
  | nil => exact h.1
  | cons q segs => exact h.1

theorem WfSegs.tail {delim : List Nat} {p q : Seg} {segs : List Seg}
    (h : WfSegs delim (p :: q :: segs)) : WfSegs delim (q :: segs) := h.2.2

theorem WfSegs.head_delim {delim : List Nat} {p q : Seg} {segs : List Seg}
    (h : WfSegs delim (p :: q :: segs)) : is_delim p.2 delim = true := h.2.1

/-- Cells before the last one are ended by delimiters. -/
theorem WfSegs.take {delim : List Nat} : ∀ {segs : List Seg} (_ : WfSegs delim segs) (j : Nat),
    j < segs.length → ∀ p ∈ segs.take j, CellOk delim p.1 ∧ is_delim p.2 delim = true
  | [], h, _, _ => fun _ _ => absurd h (by simp [WfSegs])
  | [_], _, j, hj => by
    have : j = 0 := by simpa using hj
    subst this
    simp
  | p :: q :: segs, h, j, hj => by
    cases j with
    | zero => simp
    | succ j =>
      intro x hx
      rw [List.take_succ_cons, List.mem_cons] at hx
      rcases hx with rfl | hx
      · exact ⟨h.1, h.2.1⟩
      · exact WfSegs.take h.2.2 j (by simpa using hj) x hx

theorem WfSegs.drop {delim : List Nat} : ∀ {segs : List Seg} (_ : WfSegs delim segs) (j : Nat),
    j < segs.length → WfSegs delim (segs.drop j)
  | [], h, _, _ => absurd h (by simp [WfSegs])
  | [_], h, j, hj => by
    have : j = 0 := by simpa using hj
    subst this
    simpa using h
  | p :: q :: segs, h, j, hj => by
    cases j with
    | zero => simpa using h
    | succ j =>
      rw [List.drop_succ_cons]
      exact WfSegs.drop h.2.2 j (by simpa using hj)

theorem WfSegs.append {delim : List Nat} : ∀ {pre post : List Seg},
    (∀ p ∈ pre, CellOk delim p.1 ∧ is_delim p.2 delim = true) → WfSegs delim post →
    WfSegs delim (pre ++ post)
  | [], _, _, h => h
  | [p], post, hp, h => by
    cases post with
    | nil => exact absurd h (by simp [WfSegs])
    | cons q post =>
      exact ⟨(hp p (by simp)).1, (hp p (by simp)).2, h⟩
  | p :: p2 :: pre, post, hp, h => by
    refine ⟨(hp p (by simp)).1, (hp p (by simp)).2, ?_⟩
    exact @WfSegs.append _ (p2 :: pre) _ (fun x hx => hp x (List.mem_cons_of_mem _ hx)) h

theorem WfSegs.set_cell {delim : List Nat} {p : Seg} {segs : List Seg}
    (h : WfSegs delim (p :: segs)) {c : List Nat} (hc : CellOk delim c) :
    WfSegs delim ((c, p.2) :: segs) := by
  cases segs with
  | nil => exact ⟨hc, h.2⟩
  | cons q segs => exact ⟨hc, h.2.1, h.2.2⟩

theorem WfSegs.cons_delim {delim : List Nat} {segs : List Seg} (h : WfSegs delim segs)
    {c : List Nat} (hc : CellOk delim c) {d : Nat} (hd : is_delim d delim = true) :
    WfSegs delim ((c, d) :: segs) := by
  cases segs with
  | nil => exact absurd h (by simp [WfSegs])
  | cons q segs => exact ⟨hc, hd, h⟩

/-- Every cell of a well formed row is clean and ended by a newline or a delimiter. -/
theorem WfSegs.mem {delim : List Nat} : ∀ {segs : List Seg} (_ : WfSegs delim segs),
    ∀ p ∈ segs, CellOk delim p.1 ∧ (p.2 = 10 ∨ is_delim p.2 delim = true)
  | [], h => absurd h (by simp [WfSegs])
  | [q], h => by
    intro p hp
    have : p = q := by simpa using hp
    subst this
    exact ⟨h.1, Or.inl h.2⟩
  | q :: q2 :: segs, h => by
    intro p hp
    rw [List.mem_cons] at hp
    rcases hp with rfl | hp
    · exact ⟨h.1, Or.inr h.2.1⟩
    · exact WfSegs.mem h.2.2 p hp

/-- The last cell of a well formed row is ended by the newline. -/
theorem WfSegs.drop_last {delim : List Nat} {segs : List Seg} (h : WfSegs delim segs) :
    ∃ c, segs.drop (segs.length - 1) = [(c, 10)] ∧ CellOk delim c := by
  have hne := h.ne_nil
  have hl : 0 < segs.length := List.length_pos.2 hne
  have hw := h.drop (segs.length - 1) (by omega)
  have hlen : (segs.drop (segs.length - 1)).length = 1 := by simp; omega
  match hd : segs.drop (segs.length - 1), hlen with
  | [p], _ =>
    rw [hd] at hw
    exact ⟨p.1, by rw [← hw.2], hw.1⟩

theorem flat_nz {delim : List Nat} (hd : DelimOk delim) {segs : List Seg}
    (h : ∀ p ∈ segs, CellOk delim p.1 ∧ (p.2 = 10 ∨ is_delim p.2 delim = true)) :
    ∀ x ∈ flat segs, x ≠ 0 := by
  induction segs with
  | nil => simp
  | cons p segs ih =>
    intro x hx
    simp only [flat_cons, List.mem_append, List.mem_cons] at hx
    rcases hx with hx | rfl | hx
    · exact ((h p (by simp)).1 x hx).1
    · rcases (h p (by simp)).2 with h10 | hdl
      · omega
      · exact (is_delim_ne hd hdl).1
    · exact ih (fun q hq => h q (List.mem_cons_of_mem _ hq)) x hx

/-! ## The scans -/

theorem at_nil (row : Buf) (i : Int) : At row i [] := by
  intro k hk
  simp at hk

theorem at_cons {row : Buf} {i : Int} {c : Nat} {l : List Nat} :
    At row i (c :: l) ↔ row.data i = c ∧ At row (i + 1) l := by
  constructor
  · intro h
    refine ⟨by simpa using h 0 (by simp), ?_⟩
    intro k hk
    have := h (k + 1) (by simp; omega)
    simp only [List.getD_cons_succ] at this
    rw [← this]
    congr 1
    push_cast
    omega
  · rintro ⟨h0, h1⟩ k hk
    cases k with
    | zero => simpa using h0
    | succ k =>
      have := h1 k (by simpa using hk)
      simp only [List.getD_cons_succ]
      rw [← this]
      congr 1
      push_cast
      omega

theorem at_append {row : Buf} {i : Int} {a b : List Nat} :
    At row i (a ++ b) ↔ At row i a ∧ At row (i + a.length) b := by
  induction a generalizing i with
  | nil => simp [at_nil]
  | cons c a ih =>
    simp only [List.cons_append, at_cons, ih, List.length_cons]
    push_cast
    have : i + 1 + (a.length : Int) = i + ((a.length : Int) + 1) := by omega
    rw [this]
    tauto

theorem Holds.at {row : Buf} {s : List Nat} (h : Holds row s) : At row 0 s := by
  intro k hk
  simpa using h.bytes k hk

theorem find_column_start_cell (row : Buf) (delim : List Nat) (des : Int) :
    ∀ (c : List Nat) (fuel : Nat) (i cur : Int), CellOk delim c → At row i c → cur ≠ des →
      find_column_start_loop row delim des (fuel + c.length) i cur
        = find_column_start_loop row delim des fuel (i + c.length) cur := by
  intro c
  induction c with
  | nil => intro fuel i cur _ _ _; simp
  | cons x c ih =>
    intro fuel i cur hc ha hne
    rw [at_cons] at ha
    have hx := hc x (by simp)
    have e : fuel + (x :: c).length = (fuel + c.length) + 1 := by simp; omega
    rw [e]
    simp only [find_column_start_loop, Buf.get_eq, ha.1]
    rw [if_pos hx.1, if_neg hne, hx.2.2]
    simp only [Bool.false_eq_true, if_false]
    rw [ih fuel (i + 1) cur (fun y hy => hc y (List.mem_cons_of_mem _ hy)) ha.2 hne]
    congr 1
    simp only [List.length_cons]
    push_cast
    omega

theorem find_column_start_segs (row : Buf) (delim : List Nat) (hd : DelimOk delim) (des : Int) :
    ∀ (pre : List Seg) (fuel : Nat) (i cur : Int),
      (∀ p ∈ pre, CellOk delim p.1 ∧ is_delim p.2 delim = true) → At row i (flat pre) →
      row.data (i + (flat pre).length) ≠ 0 → des = cur + pre.length →
      find_column_start_loop row delim des (fuel + 1 + (flat pre).length) i cur
        = i + (flat pre).length := by
  intro pre
  induction pre with
  | nil =>
    intro fuel i cur _ _ hnz hdes
    simp only [flat_nil, List.length_nil, Nat.add_zero, find_column_start_loop, Buf.get_eq]
    simp only [flat_nil, List.length_nil, Nat.cast_zero, add_zero] at hnz hdes
    rw [if_pos hnz, if_pos hdes.symm]
    simp
  | cons p pre ih =>
    intro fuel i cur hp ha hnz hdes
    simp only [flat_cons, List.length_append, List.length_cons] at ha hnz ⊢
    rw [at_append, at_cons] at ha
    have hp0 := hp p (by simp)
    simp only [List.length_cons] at hdes
    push_cast at hdes hnz
    have e : fuel + 1 + (p.1.length + ((flat pre).length + 1))
        = (fuel + 1 + (flat pre).length + 1) + p.1.length := by omega
    rw [e, find_column_start_cell row delim des p.1 _ i cur hp0.1 ha.1 (by omega)]
    simp only [find_column_start_loop, Buf.get_eq, ha.2.1]
    rw [if_pos (is_delim_ne hd hp0.2).1, if_neg (by omega), hp0.2]
    simp only [if_true]
    rw [ih fuel _ _ (fun q hq => hp q (List.mem_cons_of_mem _ hq)) ha.2.2 ?_ (by omega)]
    · push_cast; omega
    · have : i + (p.1.length : Int) + 1 + ((flat pre).length : Int)
          = i + ((p.1.length : Int) + (((flat pre).length : Int) + 1)) := by omega
      rw [this]; exact hnz

theorem find_column_end_cell (row : Buf) (delim : List Nat) (start : Int) :
    ∀ (c : List Nat) (fuel : Nat) (i skip : Int), CellOk delim c → At row i c →
      find_column_end_loop row delim start (fuel + c.length) i skip
        = find_column_end_loop row delim start fuel (i + c.length) skip := by
  intro c
  induction c with
  | nil => intro fuel i skip _ _; simp
  | cons x c ih =>
    intro fuel i skip hc ha
    rw [at_cons] at ha
    have hx := hc x (by simp)
    have e : fuel + (x :: c).length = (fuel + c.length) + 1 := by simp; omega
    rw [e]
    simp only [find_column_end_loop, Buf.get_eq, ha.1]
    rw [if_pos (Or.inr hx.1), if_neg (by simp [hx.2.1, hx.2.2])]
    rw [ih fuel (i + 1) skip (fun y hy => hc y (List.mem_cons_of_mem _ hy)) ha.2]
    congr 1
    simp only [List.length_cons]
    push_cast
    omega

theorem find_column_end_segs (row : Buf) (delim : List Nat) (hd : DelimOk delim) (start : Int) :
    ∀ (mid : List Seg) (fuel : Nat) (i : Int), mid ≠ [] →
      (∀ p ∈ mid, CellOk delim p.1 ∧ (p.2 = 10 ∨ is_delim p.2 delim = true)) →
      At row i (flat mid) →
      find_column_end_loop row delim start (fuel + (flat mid).length) i mid.length
        = some (if i + (flat mid).length - 1 = start then EMPTY_COL
                else i + (flat mid).length - 2) := by
  intro mid
  induction mid with
  | nil => intro _ _ h; exact absurd rfl h
  | cons p mid ih =>
    intro fuel i _ hp ha
    simp only [flat_cons, List.length_append, List.length_cons] at ha ⊢
    rw [at_append, at_cons] at ha
    have hp0 := hp p (by simp)
    have hne0 : p.2 ≠ 0 := by
      rcases hp0.2 with h | h
      · omega
      · exact (is_delim_ne hd h).1
    have e : fuel + (p.1.length + ((flat mid).length + 1))
        = (fuel + (flat mid).length + 1) + p.1.length := by omega
    rw [e, find_column_end_cell row delim start p.1 _ i _ hp0.1 ha.1]
    simp only [find_column_end_loop, Buf.get_eq, ha.2.1]
    rw [if_pos (Or.inr hne0), if_pos hp0.2]
    by_cases hm : mid = []
    · subst hm
      simp only [List.length_nil, Nat.cast_zero, zero_add, flat_nil, Nat.cast_add, Nat.cast_one]
      rw [if_pos (by omega)]
      by_cases hs : i + (p.1.length : Int) = start
      · rw [if_pos hs, if_pos (by omega)]
      · rw [if_neg hs, if_neg (by omega)]
        congr 1
        omega
    · have hl : 0 < mid.length := List.length_pos.2 hm
      push_cast
      rw [if_neg (by omega)]
      have e2 : ((mid.length : Int) + 1 - 1) = (mid.length : Int) := by omega
      rw [e2, ih fuel _ hm (fun q hq => hp q (List.mem_cons_of_mem _ hq)) ha.2.2]
      have hfl := length_flat_le mid
      congr 1
      split_ifs <;> omega

theorem get_no_cols_cell (row : Buf) (delim : List Nat) :
    ∀ (c : List Nat) (fuel : Nat) (i nd : Int), CellOk delim c → At row i c →
      get_no_cols_loop row delim (fuel + c.length) i nd
        = get_no_cols_loop row delim fuel (i + c.length) nd := by
  intro c
  induction c with
  | nil => intro fuel i nd _ _; simp
  | cons x c ih =>
    intro fuel i nd hc ha
    rw [at_cons] at ha
    have hx := hc x (by simp)
    have e : fuel + (x :: c).length = (fuel + c.length) + 1 := by simp; omega
    rw [e]
    simp only [get_no_cols_loop, Buf.get_eq, ha.1]
    rw [if_pos hx.2.1, hx.2.2]
    simp only [Bool.false_eq_true, if_false]
    rw [ih fuel (i + 1) nd (fun y hy => hc y (List.mem_cons_of_mem _ hy)) ha.2]
    congr 1
    simp only [List.length_cons]
    push_cast
    omega

theorem get_no_cols_segs (row : Buf) (delim : List Nat) (hd : DelimOk delim) :
    ∀ (segs : List Seg) (fuel : Nat) (i nd : Int), WfSegs delim segs → At row i (flat segs) →
      get_no_cols_loop row delim (fuel + (flat segs).length) i nd
        = nd + segs.length - 1
  | [], _, _, _, h, _ => absurd h (by simp [WfSegs])
  | [p], fuel, i, nd, h, ha => by
    simp only [flat_cons, flat_nil, List.length_append, List.length_cons, List.length_nil] at ha ⊢
    rw [at_append, at_cons] at ha
    have e : fuel + (p.1.length + (0 + 1)) = (fuel + 1) + p.1.length := by omega
    rw [e, get_no_cols_cell row delim p.1 _ i nd h.1 ha.1]
    simp only [get_no_cols_loop, Buf.get_eq, ha.2.1, h.2]
    simp
  | p :: q :: segs, fuel, i, nd, h, ha => by
    have ih := get_no_cols_segs row delim hd (q :: segs)
    simp only [flat_cons, List.length_append, List.length_cons] at ha ih ⊢
    rw [at_append, at_cons] at ha
    have e : fuel + (p.1.length + (q.1.length + ((flat segs).length + 1) + 1))
        = (fuel + (q.1.length + ((flat segs).length + 1)) + 1) + p.1.length := by omega
    rw [e, get_no_cols_cell row delim p.1 _ i nd h.1 ha.1]
    obtain ⟨f, hf⟩ : ∃ f, f = fuel + (q.1.length + ((flat segs).length + 1)) := ⟨_, rfl⟩
    rw [← hf]
    simp only [get_no_cols_loop, Buf.get_eq, ha.2.1]
    rw [if_pos (is_delim_ne hd h.2.1).2, h.2.1]
    simp only [if_true]
    rw [hf, ih fuel _ _ h.2.2 ha.2.2]
    push_cast
    omega

/-! ## Locating columns in a well formed row -/

theorem splice_append (A X B mid : List Nat) :
    splice (A ++ X ++ B) A.length (A.length + X.length) mid = A ++ mid ++ B := by
  unfold splice
  rw [List.append_assoc A X B, List.take_left, ← List.append_assoc A X B]
  have : A.length + X.length = (A ++ X).length := by simp
  rw [this, List.drop_left]

theorem splice_append_nil (A B mid : List Nat) :
    splice (A ++ B) A.length A.length mid = A ++ mid ++ B := by
  have := splice_append A [] B mid
  simpa using this

theorem WfSegs.pre_delim {delim : List Nat} {pre post : List Seg}
    (h : WfSegs delim (pre ++ post)) (hpost : post ≠ []) :
    ∀ p ∈ pre, CellOk delim p.1 ∧ is_delim p.2 delim = true := by
  have hl : 0 < post.length := List.length_pos.2 hpost
  have := h.take pre.length (by simp; omega)
  rwa [List.take_left] at this

theorem WfSegs.post {delim : List Nat} {pre post : List Seg}
    (h : WfSegs delim (pre ++ post)) (hpost : post ≠ []) : WfSegs delim post := by
  have hl : 0 < post.length := List.length_pos.2 hpost
  have := h.drop pre.length (by simp; omega)
  rwa [List.drop_left] at this

theorem flat_ne_nil {segs : List Seg} (h : segs ≠ []) : flat segs ≠ [] := by
  cases segs with
  | nil => exact absurd rfl h
  | cons p segs => simp

theorem get_no_cols_spec {row : Buf} {delim : List Nat} {segs : List Seg}
    (hd : DelimOk delim) (h : Holds row (flat segs)) (hsize : row.size = MAX_ROW)
    (hwf : WfSegs delim segs) : get_no_cols row delim = segs.length := by
  have hfit := h.fits
  rw [hsize] at hfit
  obtain ⟨fuel, hf⟩ : ∃ fuel, MAX_ROW = fuel + (flat segs).length := ⟨MAX_ROW - (flat segs).length, by omega⟩
  unfold get_no_cols
  rw [hf, get_no_cols_segs row delim hd segs fuel 0 0 hwf h.at]
  omega

theorem find_column_start_spec {row : Buf} {delim : List Nat} {pre post : List Seg}
    (hd : DelimOk delim) (h : Holds row (flat (pre ++ post))) (hsize : row.size = MAX_ROW)
    (hwf : WfSegs delim (pre ++ post)) (hpost : post ≠ []) :
    find_column_start row delim ((pre.length : Int) + 1) = ((flat pre).length : Int) := by
  have hfit := h.fits
  rw [hsize, flat_append, List.length_append] at hfit
  have hpl : 0 < (flat post).length := List.length_pos.2 (flat_ne_nil hpost)
  have hat := h.at
  rw [flat_append, at_append] at hat
  have hnz : row.data (0 + ((flat pre).length : Int)) ≠ 0 := by
    have := h.data_ne_zero (flat pre).length (by rw [flat_append, List.length_append]; omega)
    simpa using this
  obtain ⟨fuel, hf⟩ : ∃ fuel, MAX_ROW - 1 = fuel + 1 + (flat pre).length :=
    ⟨MAX_ROW - 1 - 1 - (flat pre).length, by omega⟩
  unfold find_column_start
  rw [hf, find_column_start_segs row delim hd _ pre fuel 0 1 (hwf.pre_delim hpost) hat.1 hnz
    (by omega)]
  omega

theorem find_column_end_spec {row : Buf} {delim : List Nat} {pre mid post : List Seg}
    (hd : DelimOk delim) (h : Holds row (flat (pre ++ mid ++ post))) (hsize : row.size = MAX_ROW)
    (hwf : WfSegs delim (pre ++ mid ++ post)) (hmid : mid ≠ []) :
    find_column_end row delim ((flat pre).length : Int) (mid.length : Int) =
      some (if (flat mid).length = 1 then EMPTY_COL
            else ((flat pre).length : Int) + (flat mid).length - 2) := by
  have hfit := h.fits
  rw [hsize, flat_append, flat_append, List.length_append, List.length_append] at hfit
  have hat := h.at
  rw [flat_append, flat_append, at_append, at_append] at hat
  have hM : (MAX_ROW : Int) = 10240 := rfl
  have hM' : MAX_ROW = 10240 := rfl
  obtain ⟨fuel, hf⟩ : ∃ fuel, ((MAX_ROW : Int) - ((flat pre).length : Int)).toNat
      = fuel + (flat mid).length :=
    ⟨MAX_ROW - (flat pre).length - (flat mid).length, by omega⟩
  unfold find_column_end
  rw [hf, find_column_end_segs row delim hd _ mid fuel _ hmid ?_ (by simpa using hat.1.2)]
  · congr 1
    split_ifs <;> omega
  · intro p hp
    exact hwf.mem p (by simp [hp])

/-! ## Column commands on a well formed row -/

theorem holds_flat_nz {delim : List Nat} (hd : DelimOk delim) {segs : List Seg}
    (hwf : WfSegs delim segs) : ∀ x ∈ flat segs, x ≠ 0 :=
  flat_nz hd hwf.mem

/-- Specification of `icol_f`: an empty cell ended by the first delimiter
appears in front of the cells `post`. -/
theorem icol_f_spec {row : Buf} {delim : List Nat} {pre post : List Seg}
    (hd : DelimOk delim) (h : Holds row (flat (pre ++ post))) (hsize : row.size = MAX_ROW)
    (hwf : WfSegs delim (pre ++ post)) (hpost : post ≠ [])
    (hlen : (flat (pre ++ post)).length + 1 < MAX_ROW) :
    ∃ row', icol_f row ((pre.length : Int) + 1) delim = some (row', 1) ∧
      Holds row' (flat (pre ++ ([], delim.headD 0) :: post)) ∧
      row'.size = row.size ∧ row'.oob = row.oob := by
  have hM : (MAX_ROW : Int) = 10240 := rfl
  have hM' : MAX_ROW = 10240 := rfl
  have hpre : (flat pre).length ≤ (flat (pre ++ post)).length := by
    rw [flat_append, List.length_append]; omega
  obtain ⟨r1, e1, h1, hs1, ho1⟩ := row_shift_right_spec h hsize (flat pre).length 1 hpre
    (le_refl 1) hlen
  simp only [icol_f, strlen_of_holds h, Option.some_bind]
  rw [if_neg (by omega), find_column_start_spec hd h hsize hwf hpost]
  simp only [Nat.cast_one] at e1
  rw [e1]
  simp only [Option.map_some', one_ne_zero, if_false]
  have hl1 := length_splice (flat (pre ++ post)) (flat pre).length (flat pre).length
    (List.replicate 1 32) hpre
  simp only [List.length_replicate] at hl1
  have hd0 := is_delim_ne hd (is_delim_head hd)
  obtain ⟨h2, hs2, ho2⟩ := write_str_spec h1 (flat pre).length [delim.headD 0]
    (by intro x hx; rw [List.mem_singleton] at hx; subst hx; exact hd0.1)
    (by rw [hl1]; simp)
  simp only [List.length_singleton] at h2
  have hg := splice_splice_grow (flat (pre ++ post)) (flat pre).length 0 [delim.headD 0]
    (by simpa using hpre) (by simp)
  simp only [if_true, List.length_singleton, Nat.sub_zero, Nat.add_zero] at hg
  rw [hg, flat_append, splice_append_nil] at h2
  refine ⟨_, rfl, ?_, by rw [← hs1]; exact hs2, by rw [← ho1]; exact ho2⟩
  have e : flat (pre ++ ([], delim.headD 0) :: post)
      = flat pre ++ [delim.headD 0] ++ flat post := by
    rw [flat_append]; simp
  rw [e]
  exact h2

/-- Specification of `acol_f` at the level of bytes. -/
theorem acol_f_bytes {row : Buf} {A : List Nat} (d : Nat) (hd0 : d ≠ 0) (h : Holds row (A ++ [10]))
    (hsize : row.size = MAX_ROW) (hlen : A.length + 2 < MAX_ROW) :
    Holds (((row.set (((A ++ [10]).length : Int) - 1) d).set ((A ++ [10]).length : Int) 10).set
      (((A ++ [10]).length : Int) + 1) 0) (A ++ [d, 10]) := by
  have hfit := h.fits
  simp only [List.length_append, List.length_singleton] at hfit ⊢
  refine ⟨?_, ?_, ?_, ?_⟩
  · intro k hk
    simp only [List.length_append, List.length_cons, List.length_nil] at hk
    simp only [Buf.set_data]
    push_cast
    rw [if_neg (by omega)]
    by_cases c1 : k = A.length + 1
    · rw [if_pos (by omega), c1, List.getD_eq_getElem _ _ (by simp)]
      simp [List.getElem_append_right]
    · rw [if_neg (by omega)]
      by_cases c2 : k = A.length
      · rw [if_pos (by omega), c2, List.getD_eq_getElem _ _ (by simp)]
        simp [List.getElem_append_right]
      · rw [if_neg (by omega)]
        have hb := h.bytes k (by simp; omega)
        rw [hb, List.getD_append _ _ _ _ (by omega), List.getD_append _ _ _ _ (by omega)]
  · simp only [Buf.set_data, List.length_append, List.length_cons, List.length_nil]
    push_cast
    rw [if_pos (by omega)]
  · intro c hc
    simp only [List.mem_append, List.mem_cons, List.mem_singleton, List.not_mem_nil,
      or_false] at hc
    rcases hc with hc | rfl | rfl
    · exact h.nz c (by simp [hc])
    · exact hd0
    · omega
  · simp only [Buf.set_size, List.length_append, List.length_cons, List.length_nil]
    have hM' : MAX_ROW = 10240 := rfl
    omega

/-- Specification of `acol_f`: the last cell is now ended by the first
delimiter, and an empty cell follows it. -/
theorem acol_f_spec {row : Buf} {delim : List Nat} {pre : List Seg} {c : List Nat}
    (hd : DelimOk delim) (h : Holds row (flat (pre ++ [(c, 10)]))) (hsize : row.size = MAX_ROW)
    (hlen : (flat (pre ++ [(c, 10)])).length + 1 < MAX_ROW) :
    ∃ row', acol_f row delim = some (row', 1) ∧
      Holds row' (flat (pre ++ [(c, delim.headD 0), ([], 10)])) ∧
      row'.size = row.size ∧ row'.oob = row.oob := by
  have hM : (MAX_ROW : Int) = 10240 := rfl
  have hM' : MAX_ROW = 10240 := rfl
  have e : flat (pre ++ [(c, 10)]) = (flat pre ++ c) ++ [10] := by
    rw [flat_append]; simp
  have e' : flat (pre ++ [(c, delim.headD 0), ([], 10)]) = (flat pre ++ c) ++ [delim.headD 0, 10] := by
    rw [flat_append]; simp
  rw [e] at h hlen
  rw [e']
  generalize flat pre ++ c = A at h hlen ⊢
  simp only [acol_f, strlen_of_holds h, Option.map_some']
  have hl : (A ++ [10]).length = A.length + 1 := by simp
  rw [if_neg (by omega)]
  have hd0 := is_delim_ne hd (is_delim_head hd)
  refine ⟨_, rfl, acol_f_bytes _ hd0.1 h hsize (by omega), rfl, ?_⟩
  have hfit := h.fits
  rw [Buf.set_oob _ _ _ (by omega) (by simp; omega), Buf.set_oob _ _ _ (by omega) (by simp; omega),
    Buf.set_oob _ _ _ (by omega) (by omega)]

theorem flat_snoc (segs : List Seg) (c : List Nat) (t : Nat) :
    flat (segs ++ [(c, t)]) = flat segs ++ c ++ [t] := by
  rw [flat_append]; simp

theorem length_flat_snoc (segs : List Seg) (c : List Nat) (t : Nat) :
    (flat (segs ++ [(c, t)])).length = (flat segs).length + c.length + 1 := by
  rw [flat_snoc]; simp; omega

/-- Specification of `dcols_f` away from the first column: the delimiter in
front of the range and the cells of the range disappear; the cell in front of
the range is now ended by what ended the range. -/
theorem dcols_f_inner {row : Buf} {delim : List Nat} {pre0 mid0 post : List Seg}
    {c cm : List Nat} {t tm : Nat} (hd : DelimOk delim)
    (h : Holds row (flat (pre0 ++ [(c, t)] ++ (mid0 ++ [(cm, tm)]) ++ post)))
    (hsize : row.size = MAX_ROW)
    (hwf : WfSegs delim (pre0 ++ [(c, t)] ++ (mid0 ++ [(cm, tm)]) ++ post)) :
    ∃ row', dcols_f row ((pre0.length : Int) + 2) ((pre0.length : Int) + 2 + mid0.length) delim
        = some row' ∧
      Holds row' (flat (pre0 ++ (c, tm) :: post)) ∧
      row'.size = row.size ∧ row'.oob = row.oob := by
  have hE : EMPTY_COL = -2 := rfl
  have hmid : mid0 ++ [(cm, tm)] ≠ [] := by simp
  have hs := @find_column_start_spec _ _ (pre0 ++ [(c, t)]) ((mid0 ++ [(cm, tm)]) ++ post)
    hd (by rwa [← List.append_assoc]) hsize (by rwa [← List.append_assoc]) (by simp)
  have he := find_column_end_spec hd h hsize hwf hmid
  simp only [List.length_append, List.length_singleton] at hs he
  push_cast at hs he
  have e1 : (pre0.length : Int) + 2 = (pre0.length : Int) + 1 + 1 := by omega
  have e2 : (pre0.length : Int) + 2 + mid0.length - ((pre0.length : Int) + 2) + 1
      = (mid0.length : Int) + 1 := by omega
  simp only [dcols_f, e2]
  rw [e1, hs, he]
  simp only [Option.some_bind]
  have hne1 : ¬ ((pre0.length : Int) + 1 + 1 = 1) := by omega
  simp only [hne1, false_and, decide_False, Bool.false_eq_true, if_false]
  have hl1 := length_flat_snoc pre0 c t
  have hl2 := length_flat_snoc mid0 cm tm
  have hoff : (if (if (flat (mid0 ++ [(cm, tm)])).length = 1 then EMPTY_COL
        else ((flat (pre0 ++ [(c, t)])).length : Int) + (flat (mid0 ++ [(cm, tm)])).length - 2)
          = EMPTY_COL
      then ((flat (pre0 ++ [(c, t)])).length : Int) - 1
      else (if (flat (mid0 ++ [(cm, tm)])).length = 1 then EMPTY_COL
        else ((flat (pre0 ++ [(c, t)])).length : Int) + (flat (mid0 ++ [(cm, tm)])).length - 2))
        - (((flat (pre0 ++ [(c, t)])).length : Int) - 1)
      = ((flat (mid0 ++ [(cm, tm)])).length : Int) - 1 := by
    split_ifs <;> omega
  rw [hoff]
  have hst : ((flat (pre0 ++ [(c, t)])).length : Int) - 1
      = (((flat pre0).length + c.length : Nat) : Int) := by
    rw [hl1]; push_cast; omega
  rw [hst]
  have hsl : (flat (pre0 ++ [(c, t)] ++ (mid0 ++ [(cm, tm)]) ++ post)).length
      = (flat pre0).length + c.length + 1 + ((flat mid0).length + cm.length + 1)
        + (flat post).length := by
    rw [flat_append, flat_append, List.length_append, List.length_append, hl1, hl2]
  obtain ⟨r, er, hr, hsz, hoo⟩ := row_shift_left_spec h ((flat pre0).length + c.length)
    (((flat (mid0 ++ [(cm, tm)])).length : Int) - 1) (by omega) (by rw [hsl, hl2]; push_cast; omega)
  refine ⟨r, er, ?_, hsz, hoo⟩
  have e3 : (((flat (mid0 ++ [(cm, tm)])).length : Int) - 1 + 1).toNat
      = ([t] ++ flat mid0 ++ cm).length := by
    rw [hl2]; simp; omega
  have e4 : flat (pre0 ++ [(c, t)] ++ (mid0 ++ [(cm, tm)]) ++ post)
      = (flat pre0 ++ c) ++ ([t] ++ flat mid0 ++ cm) ++ (tm :: flat post) := by
    rw [flat_append, flat_append, flat_snoc, flat_snoc]
    simp
  have e5 : (flat pre0).length + c.length = (flat pre0 ++ c).length := by simp
  rw [e3, e4, e5, splice_append] at hr
  have e6 : flat (pre0 ++ (c, tm) :: post) = flat pre0 ++ c ++ [] ++ tm :: flat post := by
    rw [flat_append]; simp
  rw [e6]
  exact hr

/-- Specification of `dcols_f` at the first column, when the range is not one
empty cell and does not reach the last column: the cells of the range and their
delimiters disappear. -/
theorem dcols_f_first {row : Buf} {delim : List Nat} {mid post : List Seg}
    (hd : DelimOk delim) (h : Holds row (flat (mid ++ post))) (hsize : row.size = MAX_ROW)
    (hwf : WfSegs delim (mid ++ post)) (hmid : mid ≠ []) (hpost : post ≠ [])
    (hne : (flat mid).length ≠ 1) :
    ∃ row', dcols_f row 1 (mid.length : Int) delim = some row' ∧
      Holds row' (flat post) ∧ row'.size = row.size ∧ row'.oob = row.oob := by
  have hE : EMPTY_COL = -2 := rfl
  have hs := @find_column_start_spec _ _ [] (mid ++ post) hd h hsize hwf (by simp [hmid])
  have he := @find_column_end_spec _ _ [] _ _ hd (by simpa using h) hsize (by simpa using hwf) hmid
  have hg := get_no_cols_spec hd h hsize hwf
  simp only [List.length_nil, Nat.cast_zero, zero_add, flat_nil] at hs he
  have e2 : (mid.length : Int) - 1 + 1 = (mid.length : Int) := by omega
  simp only [dcols_f, e2]
  rw [hs, he, hg]
  simp only [Option.some_bind, if_neg hne]
  have hpl : 0 < post.length := List.length_pos.2 hpost
  have hml := length_flat_le mid
  have hm0 : 0 < mid.length := List.length_pos.2 hmid
  have hne2 : ((flat mid).length : Int) - 2 ≠ EMPTY_COL := by omega
  have hcond : ¬ ((mid.length : Int) = ((mid ++ post).length : Nat)) := by
    simp only [List.length_append]; push_cast; omega
  simp only [true_and, hne2, ne_eq, not_false_eq_true, decide_True, if_true, hcond, if_false]
  rw [if_neg (by omega)]
  obtain ⟨r, er, hr, hsz, hoo⟩ := row_shift_left_spec h 0
    (((flat mid).length : Int) - 2 + 1 - 0) (by omega)
    (by rw [flat_append, List.length_append]; push_cast; omega)
  refine ⟨r, by simpa using er, ?_, hsz, hoo⟩
  have e3 : 0 + (((flat mid).length : Int) - 2 + 1 - 0 + 1).toNat = ([] : List Nat).length + (flat mid).length := by
    simp; omega
  have e4 : flat (mid ++ post) = [] ++ flat mid ++ flat post := by
    rw [flat_append]; simp
  have e0 : (0 : Nat) = ([] : List Nat).length := rfl
  rw [e3, e4] at hr
  rw [e0, splice_append] at hr
  simpa using hr

theorem shift_left_loop_oob_mono (offset : Int) (n : Nat) (row : Buf) (i : Int)
    (h : row.oob = true) : (shift_left_loop offset n row i).oob = true := by
  induction n generalizing row i with
  | zero => exact h
  | succ n ih =>
    simp only [shift_left_loop]
    apply ih
    simp [Buf.set, h]

/-- Specification of `dcols_f` for one empty first column that is not the only
column: its delimiter disappears.  The shift starts at index `-1`. -/
theorem dcols_f_first_empty {row : Buf} {delim : List Nat} {post : List Seg} {t : Nat}
    (hd : DelimOk delim) (h : Holds row (flat (([], t) :: post))) (hsize : row.size = MAX_ROW)
    (hwf : WfSegs delim (([], t) :: post)) (hpost : post ≠ []) :
    ∃ row', dcols_f row 1 1 delim = some row' ∧
      Holds row' (flat post) ∧ row'.size = row.size ∧ row'.oob = true := by
  have hE : EMPTY_COL = -2 := rfl
  have hs := @find_column_start_spec _ _ [] (([], t) :: post) hd h hsize hwf (by simp)
  have he := @find_column_end_spec _ _ [] [([], t)] post hd
    (by simpa using h) hsize (by simpa using hwf) (by simp)
  have hg := get_no_cols_spec hd h hsize hwf
  simp only [List.length_nil, Nat.cast_zero, zero_add, flat_nil, List.length_singleton,
    Nat.cast_one, flat_cons, List.nil_append, List.length_cons, if_true] at hs he
  have hpl : 0 < post.length := List.length_pos.2 hpost
  have e2 : (1 : Int) - 1 + 1 = 1 := by norm_num
  simp only [dcols_f, e2]
  rw [hs, he, hg]
  simp only [Option.some_bind, ne_eq, not_true_eq_false, and_false, decide_False,
    Bool.false_eq_true, if_false, if_true]
  have hcond : ¬ ((1 : Int) = ((([], t) :: post : List Seg).length : Nat)) := by
    simp only [List.length_cons]; push_cast; omega
  simp only [true_and, hcond, if_false]
  have e3 : (0 : Int) - 1 - (0 - 1) = 0 := by norm_num
  rw [e3, row_shift_left_eq h]
  simp only [flat_cons, List.nil_append, List.length_cons] at h ⊢
  refine ⟨_, rfl, ?_, shift_left_loop_size _ _ _ _, ?_⟩
  · have hdata : ∀ k : Int, 0 ≤ k →
        (shift_left_loop 0 ((((flat post).length + 1 : Nat) : Int) + 1 - (0 - 1)).toNat row
          (0 - 1)).data k =
        if k ≤ (flat post).length + 1 then row.data (k + 1) else row.data k := by
      intro k hk
      rw [shift_left_loop_data _ (by omega)]
      split_ifs <;> first | rfl | omega | (congr 1; omega)
    refine ⟨?_, ?_, ?_, ?_⟩
    · intro k hk
      rw [hdata k (by omega), if_pos (by omega)]
      have := h.bytes (k + 1) (by simp; omega)
      simp only [List.getD_cons_succ] at this
      rw [← this]
      congr 1
    · rw [hdata _ (by omega), if_pos (by omega)]
      have := h.nul
      simp only [List.length_cons] at this
      rw [← this]
      congr 1
    · intro c hc
      exact h.nz c (List.mem_cons_of_mem _ hc)
    · rw [shift_left_loop_size]
      have := h.fits
      simp only [List.length_cons] at this
      omega
  · have e4 : ((((flat post).length + 1 : Nat) : Int) + 1 - (0 - 1)).toNat
        = ((flat post).length + 2) + 1 := by omega
    rw [e4]
    simp only [shift_left_loop]
    apply shift_left_loop_oob_mono
    simp [Buf.set]

theorem list_split_two {α : Type} (l : List α) (i j : Nat) (hij : i < j) (hj : j < l.length) :
    l = l.take i ++ [l[i]] ++ ((l.drop (i + 1)).take (j - i - 1) ++ [l[j]]) ++ l.drop (j + 1) := by
  have h1 : l = l.take i ++ l.drop i := (List.take_append_drop i l).symm
  have h2 : l.drop i = l[i] :: l.drop (i + 1) := List.drop_eq_getElem_cons (by omega)
  have h3 : l.drop (i + 1) = (l.drop (i + 1)).take (j - i - 1) ++ (l.drop (i + 1)).drop (j - i - 1) :=
    (List.take_append_drop _ _).symm
  have h4 : (l.drop (i + 1)).drop (j - i - 1) = l.drop j := by
    rw [List.drop_drop]; congr 1; omega
  have h5 : l.drop j = l[j] :: l.drop (j + 1) := List.drop_eq_getElem_cons hj
  symm
  calc l.take i ++ [l[i]] ++ ((l.drop (i + 1)).take (j - i - 1) ++ [l[j]]) ++ l.drop (j + 1)
      = l.take i ++ (l[i] :: ((l.drop (i + 1)).take (j - i - 1) ++ (l[j] :: l.drop (j + 1)))) := by
        simp only [List.append_assoc, List.singleton_append, List.cons_append, List.nil_append]
    _ = l.take i ++ (l[i] :: ((l.drop (i + 1)).take (j - i - 1) ++ l.drop j)) := by rw [← h5]
    _ = l.take i ++ (l[i] :: l.drop (i + 1)) := by rw [← h4, ← h3]
    _ = l.take i ++ l.drop i := by rw [← h2]
    _ = l := List.take_append_drop i l

theorem list_split_one {α : Type} (l : List α) (i : Nat) (hi : i < l.length) :
    l = l.take i ++ [l[i]] ++ l.drop (i + 1) := by
  have h1 : l = l.take i ++ l.drop i := (List.take_append_drop i l).symm
  have h2 : l.drop i = l[i] :: l.drop (i + 1) := List.drop_eq_getElem_cons hi
  symm
  calc l.take i ++ [l[i]] ++ l.drop (i + 1)
      = l.take i ++ (l[i] :: l.drop (i + 1)) := by
        simp only [List.append_assoc, List.singleton_append, List.cons_append, List.nil_append]
    _ = l.take i ++ l.drop i := by rw [← h2]
    _ = l := List.take_append_drop i l

theorem take_drop_of_split {α : Type} (A M P : List α) (a b : Nat) (ha : A.length = a)
    (hb : (A ++ M).length = b) : (A ++ M ++ P).take a ++ (A ++ M ++ P).drop b = A ++ P := by
  rw [List.drop_left' hb, List.append_assoc, List.take_left' ha]

theorem flat_length_one {mid : List Seg} (hmid : mid ≠ []) (h : (flat mid).length = 1) :
    ∃ t, mid = [([], t)] := by
  match mid, hmid with
  | [p], _ =>
    simp only [flat_cons, flat_nil, List.length_append, List.length_cons, List.length_nil] at h
    have : p.1 = [] := List.length_eq_zero.1 (by omega)
    exact ⟨p.2, by rw [← this]⟩
  | p :: q :: rest, _ =>
    simp only [flat_cons, List.length_append, List.length_cons] at h
    omega

/-- Specification of `dcols_f` on a well formed row, for a range of columns that
is not the whole row: the cells of the range disappear, the other cells keep
their content and order. -/
theorem dcols_f_spec {row : Buf} {delim : List Nat} {segs : List Seg} (hd : DelimOk delim)
    (h : Holds row (flat segs)) (hsize : row.size = MAX_ROW) (hwf : WfSegs delim segs)
    (a b : Nat) (ha : 1 ≤ a) (hab : a ≤ b) (hb : b ≤ segs.length)
    (hnot : b - a + 1 < segs.length) :
    ∃ row' segs', dcols_f row (a : Int) (b : Int) delim = some row' ∧
      Holds row' (flat segs') ∧ row'.size = row.size ∧ WfSegs delim segs' ∧
      segs'.map Prod.fst = (segs.map Prod.fst).take (a - 1) ++ (segs.map Prod.fst).drop b ∧
      segs'.length + (b - a + 1) = segs.length ∧
      (flat segs').length ≤ (flat segs).length ∧
      (¬ (b = 1 ∧ ∃ t post, segs = ([], t) :: post) → row'.oob = row.oob) ∧
      segs' = del_cols segs a b := by
  by_cases ha1 : a = 1
  · subst ha1
    have hblt : b < segs.length := by omega
    have hsplit : segs = segs.take b ++ segs.drop b := (List.take_append_drop b segs).symm
    have hmid : segs.take b ≠ [] := by
      intro hc
      have := congrArg List.length hc
      rw [List.length_take, List.length_nil] at this
      omega
    have hpost : segs.drop b ≠ [] := by
      intro hc
      have := congrArg List.length hc
      rw [List.length_drop, List.length_nil] at this
      omega
    have hlen : (segs.take b).length = b := by simp; omega
    by_cases hone : (flat (segs.take b)).length = 1
    · obtain ⟨t, ht⟩ := flat_length_one hmid hone
      have hb1 : b = 1 := by rw [← hlen, ht]; rfl
      subst hb1
      have hsegs : segs = ([], t) :: segs.drop 1 := by
        conv_lhs => rw [hsplit, ht]
        simp
      rw [hsegs] at h hwf
      obtain ⟨r, er, hr, hsz, _⟩ := dcols_f_first_empty hd h hsize hwf hpost
      refine ⟨r, segs.drop 1, by simpa using er, hr, hsz, @WfSegs.post _ [([], t)] _ hwf hpost, ?_, ?_,
        ?_, ?_⟩
      · simp
      · simp; omega
      · conv_rhs => rw [hsegs]
        simp
      · refine ⟨fun hcon => absurd ⟨rfl, t, _, hsegs⟩ hcon, ?_⟩
        simp [del_cols]
    · rw [hsplit] at h hwf
      obtain ⟨r, er, hr, hsz, hoo⟩ := dcols_f_first hd h hsize hwf hmid hpost hone
      rw [hlen] at er
      refine ⟨r, segs.drop b, by simpa using er, hr, hsz, hwf.post hpost, ?_, ?_, ?_,
        ⟨fun _ => hoo, by simp [del_cols]⟩⟩
      · simp
      · rw [List.length_drop]; omega
      · conv_rhs => rw [hsplit, flat_append]
        simp
  · have hi : a - 2 < b - 1 ∨ a = b := by omega
    rcases Nat.lt_or_ge a b with hlt | hge
    · -- a range of at least two columns
      have hsplit := list_split_two segs (a - 2) (b - 1) (by omega) (by omega)
      have e1 : a - 2 + 1 = a - 1 := by omega
      have e2 : b - 1 - (a - 2) - 1 = b - a := by omega
      have e3 : b - 1 + 1 = b := by omega
      rw [e1, e2, e3] at hsplit
      have hi2 : a - 2 < segs.length := by omega
      have hj2 : b - 1 < segs.length := by omega
      obtain ⟨c, t, hx⟩ : ∃ c t, segs[a - 2] = (c, t) := ⟨_, _, rfl⟩
      obtain ⟨cm, tm, hy⟩ : ∃ cm tm, segs[b - 1] = (cm, tm) := ⟨_, _, rfl⟩
      rw [hx, hy] at hsplit
      have hwf' := hwf
      have h' := h
      rw [hsplit] at h' hwf'
      obtain ⟨r, er, hr, hsz, hoo⟩ := dcols_f_inner hd h' hsize hwf'
      have hl1 : (segs.take (a - 2)).length = a - 2 := by simp; omega
      have hl2 : ((segs.drop (a - 1)).take (b - a)).length = b - a := by simp; omega
      rw [hl1, hl2] at er
      have ea : (((a - 2 : Nat) : Int) + 2) = (a : Int) := by omega
      have eb : (((a - 2 : Nat) : Int) + 2 + ((b - a : Nat) : Int)) = (b : Int) := by omega
      rw [ea] at er
      have er' : dcols_f row (a : Int) (b : Int) delim = some r := by
        rw [← er]; congr 1; omega
      refine ⟨r, segs.take (a - 2) ++ (c, tm) :: segs.drop b, er', hr, hsz, ?_, ?_, ?_, ?_,
        ⟨fun _ => hoo, by
          simp only [del_cols, if_neg ha1, List.getD_eq_getElem _ _ hi2,
            List.getD_eq_getElem _ _ hj2, hx, hy]⟩⟩
      · have hw1 : ∀ p ∈ segs.take (a - 2), CellOk delim p.1 ∧ is_delim p.2 delim = true :=
          hwf.take (a - 2) (by omega)
        have hw2 : WfSegs delim (segs.drop (b - 1)) := hwf.drop (b - 1) (by omega)
        rw [List.drop_eq_getElem_cons (by omega), hy, e3] at hw2
        have hc : CellOk delim c := by
          have := (hwf.mem (c, t) (by rw [← hx]; exact List.getElem_mem _)).1
          exact this
        exact WfSegs.append hw1 (hw2.set_cell hc)
      · have hm : segs.map Prod.fst
            = (segs.take (a - 2)).map Prod.fst ++ [c]
              ++ (((segs.drop (a - 1)).take (b - a)).map Prod.fst ++ [cm])
              ++ (segs.drop b).map Prod.fst := by
          conv_lhs => rw [hsplit]
          simp
        rw [hm]
        have := take_drop_of_split ((segs.take (a - 2)).map Prod.fst ++ [c])
          (((segs.drop (a - 1)).take (b - a)).map Prod.fst ++ [cm])
          ((segs.drop b).map Prod.fst) (a - 1) b (by simp; omega) (by simp; omega)
        rw [this]
        simp
      · simp; omega
      · conv_rhs => rw [hsplit]
        simp only [flat_append, flat_cons, flat_nil, List.length_append, List.length_cons,
          List.length_nil]
        omega
    · -- one column
      have hab' : a = b := by omega
      subst hab'
      have hsplit := list_split_two segs (a - 2) (a - 1) (by omega) (by omega)
      have e1 : a - 2 + 1 = a - 1 := by omega
      have e2 : a - 1 - (a - 2) - 1 = 0 := by omega
      have e3 : a - 1 + 1 = a := by omega
      rw [e1, e2, e3] at hsplit
      have hi2 : a - 2 < segs.length := by omega
      have hj2 : a - 1 < segs.length := by omega
      obtain ⟨c, t, hx⟩ : ∃ c t, segs[a - 2] = (c, t) := ⟨_, _, rfl⟩
      obtain ⟨cm, tm, hy⟩ : ∃ cm tm, segs[a - 1] = (cm, tm) := ⟨_, _, rfl⟩
      rw [hx, hy] at hsplit
      simp only [List.take_zero] at hsplit
      have hwf' := hwf
      have h' := h
      rw [hsplit] at h' hwf'
      obtain ⟨r, er, hr, hsz, hoo⟩ := @dcols_f_inner _ _ _ [] _ _ _ _ _ hd h' hsize hwf'
      have hl1 : (segs.take (a - 2)).length = a - 2 := by simp; omega
      rw [hl1] at er
      have ea : (((a - 2 : Nat) : Int) + 2) = (a : Int) := by omega
      simp only [List.length_nil, Nat.cast_zero, add_zero] at er
      rw [ea] at er
      refine ⟨r, segs.take (a - 2) ++ (c, tm) :: segs.drop a, er, hr, hsz, ?_, ?_, ?_, ?_,
        ⟨fun _ => hoo, by
          simp only [del_cols, if_neg ha1, List.getD_eq_getElem _ _ hi2,
            List.getD_eq_getElem _ _ hj2, hx, hy]⟩⟩
      · have hw1 : ∀ p ∈ segs.take (a - 2), CellOk delim p.1 ∧ is_delim p.2 delim = true :=
          hwf.take (a - 2) (by omega)
        have hw2 : WfSegs delim (segs.drop (a - 1)) := hwf.drop (a - 1) (by omega)
        rw [List.drop_eq_getElem_cons (by omega), hy, e3] at hw2
        have hc : CellOk delim c := by
          have := (hwf.mem (c, t) (by rw [← hx]; exact List.getElem_mem _)).1
          exact this
        exact WfSegs.append hw1 (hw2.set_cell hc)
      · have hm : segs.map Prod.fst
            = (segs.take (a - 2)).map Prod.fst ++ [c] ++ [cm] ++ (segs.drop a).map Prod.fst := by
          conv_lhs => rw [hsplit]
          simp
        rw [hm]
        have := take_drop_of_split ((segs.take (a - 2)).map Prod.fst ++ [c]) [cm]
          ((segs.drop a).map Prod.fst) (a - 1) a (by simp; omega) (by simp; omega)
        rw [this]
        simp
      · simp; omega
      · conv_rhs => rw [hsplit]
        simp only [flat_append, flat_cons, flat_nil, List.length_append, List.length_cons,
          List.length_nil]
        omega

/-! ## Every line is a well formed row -/

theorem segments_body (delim : List Nat) :
    ∀ body : List Nat, (∀ x ∈ body, x ≠ 0 ∧ x ≠ 10) →
      flat (segments delim (body ++ [10])) = body ++ [10] ∧
      WfSegs delim (segments delim (body ++ [10])) := by
  intro body
  induction body with
  | nil =>
    intro _
    simp [segments, WfSegs, CellOk]
  | cons x body ih =>
    intro hb
    have hx := hb x (by simp)
    obtain ⟨ih1, ih2⟩ := ih (fun y hy => hb y (List.mem_cons_of_mem _ hy))
    simp only [List.cons_append, segments]
    by_cases hdl : is_delim x delim = true
    · rw [if_pos (Or.inr hdl)]
      refine ⟨by simp [ih1], ?_⟩
      exact ih2.cons_delim (by intro y hy; simp at hy) hdl
    · rw [if_neg (by simp [hx.2, hdl])]
      match hseg : segments delim (body ++ [10]), ih1, ih2 with
      | p :: ps, ih1, ih2 =>
        simp only
        refine ⟨?_, ?_⟩
        · simp only [flat_cons] at ih1 ⊢
          rw [← ih1]
          simp
        · apply ih2.set_cell
          intro y hy
          rw [List.mem_cons] at hy
          rcases hy with rfl | hy
          · exact ⟨hx.1, hx.2, by simpa using hdl⟩
          · exact ih2.cons_cell y hy

theorem segments_spec {delim : List Nat} {s : List Nat}
    (hnl : NewlineTerminated s) :
    flat (segments delim s) = s ∧ WfSegs delim (segments delim s) := by
  obtain ⟨body, rfl, hb⟩ := hnl
  exact segments_body delim body hb

/-- The text of a well formed row is a line. -/
theorem newlineTerminated_flat {delim : List Nat} (hd : DelimOk delim) :
    ∀ {segs : List Seg}, WfSegs delim segs → NewlineTerminated (flat segs)
  | [], h => absurd h (by simp [WfSegs])
  | [p], h => by
    refine ⟨p.1, by simp [h.2], ?_⟩
    intro x hx
    exact ⟨(h.1 x hx).1, (h.1 x hx).2.1⟩
  | p :: q :: segs, h => by
    obtain ⟨body, hb, hbody⟩ := newlineTerminated_flat hd h.2.2
    refine ⟨p.1 ++ p.2 :: body, by simp [hb], ?_⟩
    intro x hx
    simp only [List.mem_append, List.mem_cons] at hx
    rcases hx with hx | rfl | hx
    · exact ⟨(h.1 x hx).1, (h.1 x hx).2.1⟩
    · exact is_delim_ne hd h.2.1
    · exact hbody x hx

/-! ## Empty rows -/

theorem create_empty_row_loop_snd (d : Nat) (k : Nat) (row : Buf) (p : Int) :
    (create_empty_row_loop d k row p).2 = p + k := by
  induction k generalizing row p with
  | zero => simp [create_empty_row_loop]
  | succ k ih => simp only [create_empty_row_loop, ih]; push_cast; omega

theorem create_empty_row_loop_size (d : Nat) (k : Nat) (row : Buf) (p : Int) :
    (create_empty_row_loop d k row p).1.size = row.size := by
  induction k generalizing row p with
  | zero => rfl
  | succ k ih => simp only [create_empty_row_loop, ih, Buf.set_size]

theorem create_empty_row_loop_data (d : Nat) (k : Nat) (row : Buf) (p j : Int) :
    (create_empty_row_loop d k row p).1.data j
      = if p ≤ j ∧ j < p + k then d else row.data j := by
  induction k generalizing row p with
  | zero =>
    simp only [create_empty_row_loop]
    rw [if_neg (by simp)]
  | succ k ih =>
    simp only [create_empty_row_loop, ih, Buf.set_data]
    push_cast
    split_ifs <;> first | rfl | omega

theorem flat_replicate (k : Nat) (d : Nat) :
    flat (List.replicate k (([], d) : Seg) ++ [([], 10)]) = List.replicate k d ++ [10] := by
  induction k with
  | zero => rfl
  | succ k ih => simp [List.replicate_succ, ih]

theorem wf_replicate {delim : List Nat} (d : Nat) (hdl : is_delim d delim = true) (k : Nat) :
    WfSegs delim (List.replicate k (([], d) : Seg) ++ [([], 10)]) := by
  induction k with
  | zero => simp [WfSegs, CellOk]
  | succ k ih =>
    rw [List.replicate_succ, List.cons_append]
    exact ih.cons_delim (by intro y hy; simp at hy) hdl

/-- Specification of `create_empty_row`: `no_cols - 1` first delimiters and a
newline, which is a row of `no_cols` columns. -/
theorem create_empty_row_spec {delim : List Nat} (hd : DelimOk delim) (no_cols : Int)
    (h1 : 1 ≤ no_cols) (h2 : no_cols < (MAX_ROW : Int)) :
    Holds (create_empty_row (Buf.zero MAX_ROW) no_cols delim)
      (List.replicate (no_cols - 1).toNat (delim.headD 0) ++ [10]) ∧
    irow_f no_cols delim = some (List.replicate (no_cols - 1).toNat (delim.headD 0) ++ [10]) ∧
    arow_f no_cols delim = some (List.replicate (no_cols - 1).toNat (delim.headD 0) ++ [10]) ∧
    get_no_cols (create_empty_row (Buf.zero MAX_ROW) no_cols delim) delim = no_cols := by
  have hM : (MAX_ROW : Int) = 10240 := rfl
  have hM' : MAX_ROW = 10240 := rfl
  have hd0 := is_delim_ne hd (is_delim_head hd)
  have hH : Holds (create_empty_row (Buf.zero MAX_ROW) no_cols delim)
      (List.replicate (no_cols - 1).toNat (delim.headD 0) ++ [10]) := by
    refine ⟨?_, ?_, ?_, ?_⟩
    · intro k hk
      simp only [List.length_append, List.length_replicate, List.length_singleton] at hk
      simp only [create_empty_row, Buf.set_data, create_empty_row_loop_snd,
        create_empty_row_loop_data]
      rw [if_neg (by omega)]
      by_cases c1 : k = (no_cols - 1).toNat
      · rw [if_pos (by omega), c1, List.getD_append_right _ _ _ _ (by simp)]
        simp
      · rw [if_neg (by omega), if_pos (by omega), List.getD_append _ _ _ _ (by simp; omega),
          List.getD_eq_getElem _ _ (by simp; omega)]
        simp
    · simp only [create_empty_row, Buf.set_data, create_empty_row_loop_snd,
        List.length_append, List.length_replicate, List.length_singleton]
      rw [if_pos (by push_cast; omega)]
    · intro c hc
      simp only [List.mem_append, List.mem_replicate, List.mem_singleton] at hc
      rcases hc with ⟨_, rfl⟩ | rfl
      · exact hd0.1
      · omega
    · simp only [create_empty_row, Buf.set_size, create_empty_row_loop_size, Buf.zero,
        List.length_append, List.length_replicate, List.length_singleton]
      omega
  refine ⟨hH, ?_, ?_, ?_⟩
  · simp only [irow_f, printf_s, cstr_of_holds hH]
  · simp only [arow_f, printf_s, cstr_of_holds hH]
  · have hH' := hH
    rw [← flat_replicate] at hH'
    rw [get_no_cols_spec hd hH' (by simp [create_empty_row, create_empty_row_loop_size, Buf.zero])
      (wf_replicate _ (is_delim_head hd) _)]
    simp
    omega

theorem no_cols_adjust_add (user_args : List user_args_t) (x d : Int) :
    no_cols_adjust (x + d) user_args = no_cols_adjust x user_args + d := by
  induction user_args generalizing x with
  | nil => rfl
  | cons a user_args ih =>
    simp only [no_cols_adjust]
    split_ifs
    · rw [← ih]; congr 1; omega
    · rw [← ih]; congr 1; omega
    · rw [← ih]; congr 1; omega
    · rw [← ih]; congr 1; omega
    · exact ih x

/-! ## Cells: locating, reading and writing one column -/

theorem get_column_content_loop_size (row : Buf) (n : Nat) (cs : Int) (str : Buf) (p : Int) :
    (get_column_content_loop row NO_CONVERSION n cs str p).size = str.size := by
  induction n generalizing cs str p with
  | zero => rfl
  | succ n ih =>
    simp only [get_column_content_loop, if_true]
    rw [ih]; rfl

theorem get_column_content_loop_data (row : Buf) (n : Nat) (cs : Int) (str : Buf) (p k : Int) :
    (get_column_content_loop row NO_CONVERSION n cs str p).data k
      = if p ≤ k ∧ k < p + n then row.data (cs + (k - p)) else str.data k := by
  induction n generalizing cs str p with
  | zero =>
    simp only [get_column_content_loop]
    rw [if_neg (by simp)]
  | succ n ih =>
    simp only [get_column_content_loop, if_true, ih, Buf.set_data, Buf.get_eq]
    push_cast
    split_ifs <;> first | rfl | omega | (congr 1; omega)

theorem get_column_content_loop_oob (row : Buf) (n : Nat) (cs : Int) (str : Buf) (p : Int)
    (h0 : 0 ≤ p) (h1 : p + n ≤ (str.size : Int)) :
    (get_column_content_loop row NO_CONVERSION n cs str p).oob = str.oob := by
  induction n generalizing cs str p with
  | zero => rfl
  | succ n ih =>
    simp only [get_column_content_loop, if_true]
    push_cast at h1
    rw [ih _ _ _ (by omega) (by simp; omega), Buf.set_oob _ _ _ h0 (by omega)]

/-- Where column `pre.length + 1` of a well formed row starts and ends. -/
theorem column_bounds {row : Buf} {delim : List Nat} {pre post : List Seg} {c : List Nat}
    {t : Nat} (hd : DelimOk delim) (h : Holds row (flat (pre ++ (c, t) :: post)))
    (hsize : row.size = MAX_ROW) (hwf : WfSegs delim (pre ++ (c, t) :: post)) :
    find_column_start row delim ((pre.length : Int) + 1) = ((flat pre).length : Int) ∧
    find_column_end row delim ((flat pre).length : Int) 1
      = some (if c.length = 0 then EMPTY_COL else ((flat pre).length : Int) + c.length - 1) := by
  refine ⟨find_column_start_spec hd h hsize hwf (by simp), ?_⟩
  have e : pre ++ (c, t) :: post = pre ++ [(c, t)] ++ post := by simp
  rw [e] at h hwf
  have := @find_column_end_spec _ _ _ [(c, t)] _ hd h hsize hwf (by simp)
  simp only [List.length_singleton, Nat.cast_one, flat_cons, flat_nil, List.length_append,
    List.length_cons, List.length_nil, Nat.zero_add] at this
  rw [this]
  congr 1
  push_cast
  split_ifs <;> first | rfl | omega

/-- Specification of `get_column_content` into a zeroed array of `MAX_CELL`
bytes: for a cell shorter than `MAX_CELL` the array holds the text of the cell. -/
theorem get_column_content_spec {row : Buf} {pre post : List Seg} {c : List Nat} {t : Nat}
    (h : Holds row (flat (pre ++ (c, t) :: post))) (hnz : ∀ x ∈ c, x ≠ 0)
    (hc : c.length < MAX_CELL) :
    Holds (get_column_content row ((flat pre).length : Int)
        (if c.length = 0 then EMPTY_COL else ((flat pre).length : Int) + c.length - 1)
        (Buf.zero MAX_CELL) NO_CONVERSION) c ∧
      (get_column_content row ((flat pre).length : Int)
        (if c.length = 0 then EMPTY_COL else ((flat pre).length : Int) + c.length - 1)
        (Buf.zero MAX_CELL) NO_CONVERSION).oob = false := by
  have hE : EMPTY_COL = -2 := rfl
  by_cases h0 : c.length = 0
  · have hc0 : c = [] := List.length_eq_zero.1 h0
    subst hc0
    simp only [List.length_nil, if_true, get_column_content]
    refine ⟨⟨by intro k hk; simp at hk, by simp [Buf.zero], by simp, by simp [Buf.zero, MAX_CELL]⟩, rfl⟩
  · rw [if_neg h0]
    simp only [get_column_content]
    rw [if_neg (by omega)]
    have en : (((flat pre).length : Int) + c.length - 1 + 1 - ((flat pre).length : Int)).toNat
        = c.length := by omega
    rw [en]
    have hat := h.at
    rw [flat_append, flat_cons, at_append, at_append] at hat
    refine ⟨⟨?_, ?_, hnz, ?_⟩, ?_⟩
    · intro k hk
      rw [get_column_content_loop_data, if_pos (by omega)]
      have := hat.2.1 k hk
      rw [← this]
      congr 1
      simp
    · rw [get_column_content_loop_data, if_neg (by omega)]
      rfl
    · rw [get_column_content_loop_size]
      exact hc
    · rw [get_column_content_loop_oob _ _ _ _ _ (le_refl 0) (by simp [Buf.zero]; omega)]
      rfl

/-- Specification of `cset_f` on a well formed row: the text of the column is
replaced by `str`. -/
theorem cset_f_spec {row : Buf} {delim : List Nat} {pre post : List Seg} {c : List Nat}
    {t : Nat} (hd : DelimOk delim) (h : Holds row (flat (pre ++ (c, t) :: post)))
    (hsize : row.size = MAX_ROW) (hwf : WfSegs delim (pre ++ (c, t) :: post))
    (str : List Nat) (hstr : ∀ x ∈ str, x ≠ 0)
    (hlen : (flat (pre ++ (c, t) :: post)).length + str.length + 1 < MAX_ROW) :
    ∃ row', cset_f row ((pre.length : Int) + 1) str delim = some (row', 1) ∧
      Holds row' (flat (pre ++ (str, t) :: post)) ∧
      row'.size = row.size ∧ row'.oob = row.oob := by
  have hM : (MAX_ROW : Int) = 10240 := rfl
  have hM' : MAX_ROW = 10240 := rfl
  obtain ⟨hs, he⟩ := column_bounds hd h hsize hwf
  have hfl : (flat (pre ++ (c, t) :: post)).length
      = (flat pre).length + c.length + 1 + (flat post).length := by
    simp only [flat_append, flat_cons, List.length_append, List.length_cons]; omega
  obtain ⟨r, er, hr, hsz, hoo⟩ := replace_column_spec h hsize (flat pre).length c.length
    (by omega) str hstr _ rfl (by omega)
  simp only [cset_f, strlen_of_holds h, Option.some_bind]
  rw [if_neg (by omega), hs, he]
  simp only [Option.some_bind, er, Option.map_some', one_ne_zero, if_false]
  refine ⟨r, rfl, ?_, hsz, hoo⟩
  have e1 : flat (pre ++ (c, t) :: post) = flat pre ++ c ++ (t :: flat post) := by
    rw [flat_append]; simp
  have e2 : flat (pre ++ (str, t) :: post) = flat pre ++ str ++ (t :: flat post) := by
    rw [flat_append]; simp
  rw [e1, splice_append] at hr
  rw [e2]
  exact hr

/-! ## Commands in terms of the row operations -/

theorem drop_ne_nil_of_lt {α : Type} (l : List α) (j : Nat) (h : j < l.length) :
    l.drop j ≠ [] := by
  intro hc
  have := congrArg List.length hc
  rw [List.length_drop, List.length_nil] at this
  omega

theorem cell_ok {delim : List Nat} {segs : List Seg} (hwf : WfSegs delim segs) (k : Nat)
    (hk1 : 1 ≤ k) (hk : k ≤ segs.length) : CellOk delim (cell segs k) := by
  have hlt : k - 1 < segs.length := by omega
  unfold cell
  rw [List.getD_eq_getElem _ _ hlt]
  exact (hwf.mem _ (List.getElem_mem _)).1

theorem split_at_col (segs : List Seg) (k : Nat) (hk1 : 1 ≤ k) (hk : k ≤ segs.length) :
    segs = segs.take (k - 1) ++ (cell segs k, (segs.getD (k - 1) ([], 0)).2) :: segs.drop k := by
  have hlt : k - 1 < segs.length := by omega
  have := list_split_one segs (k - 1) hlt
  have e : k - 1 + 1 = k := by omega
  rw [e] at this
  unfold cell
  rw [List.getD_eq_getElem _ _ hlt]
  conv_lhs => rw [this]
  simp only [List.append_assoc, List.singleton_append]

/-- Specification of `icol_f` on a well formed row. -/
theorem icol_f_segs {row : Buf} {delim : List Nat} {segs : List Seg} (hd : DelimOk delim)
    (h : Holds row (flat segs)) (hsize : row.size = MAX_ROW) (hwf : WfSegs delim segs)
    (k : Nat) (hk1 : 1 ≤ k) (hk : k ≤ segs.length) (hlen : (flat segs).length + 1 < MAX_ROW) :
    ∃ row', icol_f row (k : Int) delim = some (row', 1) ∧
      Holds row' (flat (ins_col segs k (delim.headD 0))) ∧ row'.size = row.size ∧
      row'.oob = row.oob ∧ WfSegs delim (ins_col segs k (delim.headD 0)) ∧
      (ins_col segs k (delim.headD 0)).length = segs.length + 1 ∧
      (flat (ins_col segs k (delim.headD 0))).length = (flat segs).length + 1 := by
  have hsplit : segs = segs.take (k - 1) ++ segs.drop (k - 1) :=
    (List.take_append_drop (k - 1) segs).symm
  have hpost : segs.drop (k - 1) ≠ [] := drop_ne_nil_of_lt segs (k - 1) (by omega)
  have h' := h
  have hwf' := hwf
  rw [hsplit] at h' hwf'
  obtain ⟨r1, e1, h1, hs1, ho1⟩ := icol_f_spec hd h' hsize hwf' hpost (by rw [← hsplit]; exact hlen)
  have hlt : (segs.take (k - 1)).length = k - 1 := by rw [List.length_take]; omega
  have ek : (((k - 1 : Nat) : Int) + 1) = (k : Int) := by omega
  rw [hlt, ek] at e1
  refine ⟨r1, e1, h1, hs1, ho1, ?_, ?_, ?_⟩
  · exact WfSegs.append (hwf'.pre_delim hpost)
      ((hwf'.post hpost).cons_delim (by intro y hy; simp at hy) (is_delim_head hd))
  · simp [ins_col]; omega
  · conv_rhs => rw [hsplit]
    simp only [ins_col, flat_append, flat_cons, List.length_append, List.length_cons,
      List.nil_append]
    omega

/-- Specification of `cset_f` on a well formed row. -/
theorem cset_f_segs {row : Buf} {delim : List Nat} {segs : List Seg} (hd : DelimOk delim)
    (h : Holds row (flat segs)) (hsize : row.size = MAX_ROW) (hwf : WfSegs delim segs)
    (k : Nat) (hk1 : 1 ≤ k) (hk : k ≤ segs.length) (str : List Nat) (hstr : CellOk delim str)
    (hlen : (flat segs).length + str.length + 1 < MAX_ROW) :
    ∃ row', cset_f row (k : Int) str delim = some (row', 1) ∧
      Holds row' (flat (set_col segs k str)) ∧ row'.size = row.size ∧
      row'.oob = row.oob ∧ WfSegs delim (set_col segs k str) ∧
      (set_col segs k str).length = segs.length := by
  have hsplit := split_at_col segs k hk1 hk
  have h' := h
  have hwf' := hwf
  rw [hsplit] at h' hwf'
  obtain ⟨r1, e1, h1, hs1, ho1⟩ := cset_f_spec hd h' hsize hwf' str (fun x hx => (hstr x hx).1)
    (by rw [← hsplit]; exact hlen)
  have hlt : (segs.take (k - 1)).length = k - 1 := by rw [List.length_take]; omega
  have ek : (((k - 1 : Nat) : Int) + 1) = (k : Int) := by omega
  rw [hlt, ek] at e1
  refine ⟨r1, e1, h1, hs1, ho1, ?_, ?_⟩
  · have hw1 := hwf'.pre_delim (by simp)
    have hw2 := hwf'.post (by simp)
    exact WfSegs.append hw1 (hw2.set_cell hstr)
  · simp [set_col]; omega

/-- Reading column `k` of a well formed row the way the commands do. -/
theorem read_cell {row : Buf} {delim : List Nat} {segs : List Seg} (hd : DelimOk delim)
    (h : Holds row (flat segs)) (hsize : row.size = MAX_ROW) (hwf : WfSegs delim segs)
    (k : Nat) (hk1 : 1 ≤ k) (hk : k ≤ segs.length) :
    ∃ col_end : Int,
      find_column_end row delim (find_column_start row delim (k : Int)) 1 = some col_end ∧
      (col_end = if (cell segs k).length = 0 then EMPTY_COL
        else find_column_start row delim (k : Int) + (cell segs k).length - 1) ∧
      find_column_start row delim (k : Int) = ((flat (segs.take (k - 1))).length : Int) ∧
      ((cell segs k).length < MAX_CELL →
        cstr (get_column_content row (find_column_start row delim (k : Int)) col_end
          (Buf.zero MAX_CELL) NO_CONVERSION) = some (cell segs k) ∧
        (get_column_content row (find_column_start row delim (k : Int)) col_end
          (Buf.zero MAX_CELL) NO_CONVERSION).oob = false) := by
  have hsplit := split_at_col segs k hk1 hk
  have h' := h
  have hwf' := hwf
  rw [hsplit] at h' hwf'
  obtain ⟨hs, he⟩ := column_bounds hd h' hsize hwf'
  have hlt : (segs.take (k - 1)).length = k - 1 := by rw [List.length_take]; omega
  have ek : (((k - 1 : Nat) : Int) + 1) = (k : Int) := by omega
  rw [hlt, ek] at hs
  rw [hs]
  refine ⟨_, he, rfl, rfl, ?_⟩
  intro hc
  have := get_column_content_spec h' (fun x hx => ((cell_ok hwf k hk1 hk) x hx).1) hc
  exact ⟨cstr_of_holds this.1, this.2⟩

/-! ## `move_f` on a well formed row -/

theorem segments_cell (delim : List Nat) (c : List Nat) (hc : CellOk delim c) (t : Nat)
    (rest : List Nat) (ps : List Seg) (p : Seg)
    (h : segments delim (t :: rest) = p :: ps) :
    segments delim (c ++ t :: rest) = (c ++ p.1, p.2) :: ps := by
  induction c with
  | nil => simpa using h
  | cons x c ih =>
    have hx := hc x (by simp)
    simp only [List.cons_append, segments]
    rw [if_neg (by simp [hx.2.1, hx.2.2])]
    have := ih (fun y hy => hc y (List.mem_cons_of_mem _ hy))
    simp only [List.append_eq] at this ⊢
    rw [this]

/-- Splitting the text of a well formed row gives the row back. -/
theorem segments_flat {delim : List Nat} :
    ∀ {segs : List Seg}, WfSegs delim segs → segments delim (flat segs) = segs
  | [], h => absurd h (by simp [WfSegs])
  | [p], h => by
    have h0 : segments delim (p.2 :: ([] : List Nat)) = ([], p.2) :: [] := by
      simp [segments, h.2]
    have := segments_cell delim p.1 h.1 p.2 [] [] ([], p.2) h0
    simpa using this
  | p :: q :: segs, h => by
    have ih := segments_flat h.2.2
    have h0 : segments delim (p.2 :: flat (q :: segs)) = ([], p.2) :: (q :: segs) := by
      simp only [segments]
      rw [if_pos (Or.inr h.2.1), ih]
    have := segments_cell delim p.1 h.1 p.2 (flat (q :: segs)) (q :: segs) ([], p.2) h0
    simpa using this

theorem set_ins_col (segs : List Seg) (g : Nat) (hg1 : 1 ≤ g) (hg : g ≤ segs.length)
    (d : Nat) (c : List Nat) :
    set_col (ins_col segs g d) g c = segs.take (g - 1) ++ (c, d) :: segs.drop (g - 1) := by
  have hl : (segs.take (g - 1)).length = g - 1 := by rw [List.length_take]; omega
  unfold set_col ins_col
  rw [List.take_left' hl]
  have e1 : (segs.take (g - 1) ++ ([], d) :: segs.drop (g - 1)).getD (g - 1) ([], 0) = ([], d) := by
    rw [List.getD_append_right _ _ _ _ (by omega), hl]
    simp
  have e2 : (segs.take (g - 1) ++ ([], d) :: segs.drop (g - 1)).drop g = segs.drop (g - 1) := by
    have : g = (segs.take (g - 1) ++ [(([], d) : Seg)]).length := by simp; omega
    have e : segs.take (g - 1) ++ ([], d) :: segs.drop (g - 1)
        = (segs.take (g - 1) ++ [(([], d) : Seg)]) ++ segs.drop (g - 1) := by simp
    rw [e]
    exact List.drop_left' this.symm
  rw [e1, e2]

/-- Specification of `move_f` on a well formed row: an empty cell is inserted in
front of column `g`, it receives the text of column `f`, and the original
column `f` is deleted. -/
theorem move_f_segs {row : Buf} {delim : List Nat} {segs : List Seg} (hd : DelimOk delim)
    (h : Holds row (flat segs)) (hsize : row.size = MAX_ROW) (hwf : WfSegs delim segs)
    (f g : Nat) (hf1 : 1 ≤ f) (hf : f ≤ segs.length) (hg1 : 1 ≤ g) (hg : g ≤ segs.length)
    (hcell : (cell segs f).length < MAX_CELL)
    (hroom : (flat segs).length + (cell segs f).length + 2 < MAX_ROW) :
    ∃ row' segs', move_f row (f : Int) (g : Int) delim = some (row', 1) ∧
      Holds row' (flat segs') ∧ row'.size = row.size ∧ WfSegs delim segs' ∧
      segs' = del_cols (segs.take (g - 1) ++ (cell segs f, delim.headD 0) :: segs.drop (g - 1))
        (if g < f then f + 1 else f) (if g < f then f + 1 else f) ∧
      segs'.map Prod.fst =
        ((segs.take (g - 1) ++ (cell segs f, delim.headD 0) :: segs.drop (g - 1)).map
            Prod.fst).take ((if g < f then f + 1 else f) - 1) ++
          ((segs.take (g - 1) ++ (cell segs f, delim.headD 0) :: segs.drop (g - 1)).map
            Prod.fst).drop (if g < f then f + 1 else f) ∧
      (¬ (f = 1 ∧ cell segs f = []) → row'.oob = row.oob) := by
  obtain ⟨col_end, he, _, _, hcont⟩ := read_cell hd h hsize hwf f hf1 hf
  obtain ⟨hcstr, hcoob⟩ := hcont hcell
  obtain ⟨r1, e1, h1, hs1, ho1, hwf1, hl1, hfl1⟩ := icol_f_segs hd h hsize hwf g hg1 hg (by omega)
  obtain ⟨r2, e2, h2, hs2, ho2, hwf2, hl2⟩ := cset_f_segs hd h1 (by rw [hs1, hsize]) hwf1 g hg1
    (by omega) (cell segs f) (cell_ok hwf f hf1 hf) (by omega)
  rw [set_ins_col segs g hg1 hg] at h2 hwf2 hl2
  obtain ⟨r3, segs3, e3, h3, hs3, hwf3, hmap3, _, _, ho3, hsegs3⟩ := dcols_f_spec hd h2
    (by rw [hs2, hs1, hsize]) hwf2 (if g < f then f + 1 else f) (if g < f then f + 1 else f)
    (by split_ifs <;> omega) (le_refl _) (by rw [hl2, hl1]; split_ifs <;> omega)
    (by rw [hl2, hl1]; omega)
  refine ⟨r3, segs3, ?_, h3, by rw [hs3, hs2, hs1], hwf3, hsegs3, hmap3, ?_⟩
  · simp only [move_f, he, Option.some_bind, e1, one_ne_zero, if_false, hcstr, e2, hcoob,
      Buf.taint_false, dcol_f]
    by_cases hgf : g < f
    · rw [if_pos (by omega)]
      simp only [if_pos hgf] at e3
      push_cast at e3
      rw [e3]
      rfl
    · rw [if_neg (by omega)]
      simp only [if_neg hgf] at e3
      rw [e3]
      rfl
  · intro hne
    rw [ho3, ho2, ho1]
    rintro ⟨hj1, t, post, hseg⟩
    apply hne
    have hf1' : f = 1 := by
      split_ifs at hj1 <;> omega
    refine ⟨hf1', ?_⟩
    subst hf1'
    by_cases hg1' : g = 1
    · subst hg1'
      simp only [Nat.sub_self, List.take_zero, List.nil_append, List.drop_zero] at hseg
      have := congrArg (fun l => (List.headD l ([], 0)).1) hseg
      simpa using this
    · have hsp := split_at_col segs 1 (le_refl 1) hf
      simp only [Nat.sub_self, List.take_zero, List.nil_append] at hsp
      have ht : segs.take (g - 1) = (cell segs 1, (segs.getD 0 ([], 0)).2)
          :: (segs.drop 1).take (g - 2) := by
        conv_lhs => rw [hsp]
        have : g - 1 = (g - 2) + 1 := by omega
        rw [this, List.take_succ_cons]
      rw [ht] at hseg
      have := congrArg (fun l => (List.headD l ([], 0)).1) hseg
      simpa using this

/-! ## The text of an integer -/

theorem digits_loop_mem (fuel : Nat) : ∀ (n : Nat) (acc : List Nat) (c : Nat),
    c ∈ digits_loop fuel n acc → (48 ≤ c ∧ c ≤ 57) ∨ c ∈ acc := by
  induction fuel with
  | zero => intro n acc c h; exact Or.inr h
  | succ fuel ih =>
    intro n acc c h
    simp only [digits_loop] at h
    split_ifs at h with hn
    · rw [List.mem_cons] at h
      rcases h with rfl | h
      · exact Or.inl ⟨by omega, by omega⟩
      · exact Or.inr h
    · rcases ih _ _ _ h with h | h
      · exact Or.inl h
      · rw [List.mem_cons] at h
        rcases h with rfl | h
        · exact Or.inl ⟨by omega, by omega⟩
        · exact Or.inr h

theorem digits_loop_length (fuel : Nat) : ∀ (n : Nat) (acc : List Nat) (k : Nat),
    n < 10 ^ k → 1 ≤ k → (digits_loop fuel n acc).length ≤ k + acc.length := by
  induction fuel with
  | zero => intro n acc k _ _; simp [digits_loop]
  | succ fuel ih =>
    intro n acc k hn hk
    simp only [digits_loop]
    split_ifs with h10
    · simp; omega
    · obtain ⟨k', rfl⟩ : ∃ k', k = k' + 1 := ⟨k - 1, by omega⟩
      have hk' : 1 ≤ k' := by
        rcases Nat.eq_zero_or_pos k' with h0 | h0
        · subst h0; simp at hn; omega
        · exact h0
      have hdiv : n / 10 < 10 ^ k' := by
        rw [Nat.div_lt_iff_lt_mul (by norm_num)]
        rw [pow_succ] at hn
        exact hn
      have := ih (n / 10) ((48 + n % 10) :: acc) k' hdiv hk'
      simp only [List.length_cons] at this
      omega

/-- The number that a text of decimal digits denotes, after the digits `a`. -/
theorem read_digits_all : ∀ (l : List Nat) (a cnt : Nat), (∀ c ∈ l, 48 ≤ c ∧ c ≤ 57) →
    read_digits l a cnt = (l.foldl (fun a c => a * 10 + (c - 48)) a, cnt + l.length, []) := by
  intro l
  induction l with
  | nil => intro a cnt _; rfl
  | cons c l ih =>
    intro a cnt h
    have hc := h c (by simp)
    simp only [read_digits, is_digit, hc, and_self, decide_True, if_true, List.foldl_cons,
      List.length_cons]
    rw [ih _ _ (fun x hx => h x (List.mem_cons_of_mem _ hx))]
    congr 2
    omega

theorem digits_loop_val (fuel : Nat) : ∀ (n : Nat) (acc : List Nat), n < fuel →
    (digits_loop fuel n acc).foldl (fun a c => a * 10 + (c - 48)) 0
      = acc.foldl (fun a c => a * 10 + (c - 48)) n := by
  induction fuel with
  | zero => intro n acc h; omega
  | succ fuel ih =>
    intro n acc h
    simp only [digits_loop]
    split_ifs with h10
    · simp
    · rw [ih _ _ (by omega)]
      simp only [List.foldl_cons]
      congr 1
      omega

theorem sprintf_d_chars (n : Int) : ∀ c ∈ sprintf_d n, c = 45 ∨ (48 ≤ c ∧ c ≤ 57) := by
  intro c hc
  unfold sprintf_d at hc
  split_ifs at hc
  · rw [List.mem_cons] at hc
    rcases hc with rfl | hc
    · exact Or.inl rfl
    · rcases digits_loop_mem _ _ _ _ hc with h | h
      · exact Or.inr h
      · simp at h
  · rcases digits_loop_mem _ _ _ _ hc with h | h
    · exact Or.inr h
    · simp at h

theorem sprintf_d_length (n : Int) (h1 : -2 ^ 31 ≤ n) (h2 : n < 2 ^ 31) :
    (sprintf_d n).length ≤ 11 := by
  have hb : n.natAbs < 10 ^ 10 := by omega
  have := digits_loop_length (n.natAbs + 1) n.natAbs [] 10 hb (by norm_num)
  unfold sprintf_d
  split_ifs <;> simp at this ⊢ <;> omega

theorem int_of_double_range (x : Dbl) :
    -2 ^ 31 ≤ int_of_double x ∧ int_of_double x < 2 ^ 31 := by
  unfold int_of_double
  simp only
  split_ifs with h
  · exact h
  · norm_num

/-! ## `strtod_model` reads back the text of an integer -/

theorem digits_loop_ne_nil_acc (fuel : Nat) : ∀ (n : Nat) (acc : List Nat), acc ≠ [] →
    digits_loop fuel n acc ≠ [] := by
  induction fuel with
  | zero => intro n acc h; exact h
  | succ fuel ih =>
    intro n acc _
    simp only [digits_loop]
    split_ifs
    · simp
    · exact ih _ _ (by simp)

theorem digits_loop_ne_nil (fuel : Nat) (n : Nat) : digits_loop (fuel + 1) n [] ≠ [] := by
  simp only [digits_loop]
  split_ifs
  · simp
  · exact digits_loop_ne_nil_acc _ _ _ (by simp)

theorem strtod_body_digits (all : List Nat) (neg : Bool) (l : List Nat)
    (hd : ∀ c ∈ l, 48 ≤ c ∧ c ≤ 57) (hne : l ≠ []) :
    strtod_body all neg l
      = (scale10 neg (l.foldl (fun a c => a * 10 + (c - 48)) 0) 0, []) := by
  have hrd := read_digits_all l 0 0 hd
  have hlen : 0 < l.length := List.length_pos.2 hne
  have hhex : read_hex_mark l = none := by
    match l, hd with
    | [], _ => rfl
    | [c], _ => simp [read_hex_mark]
    | c :: x :: t, hd =>
      have hx := hd x (by simp)
      unfold read_hex_mark
      split
      · rename_i heq
        simp only [List.cons.injEq] at heq
        obtain ⟨_, rfl, _⟩ := heq
        rw [if_neg (by omega)]
      · rfl
  unfold strtod_body
  rw [hhex]
  simp only [strtod_decimal, read_fraction, hrd, Nat.zero_add, read_exponent]
  rw [if_neg (by omega)]
  simp

theorem strtod_model_sprintf_d (n : Int) :
    strtod_model (sprintf_d n) = ({ num := n, den := 1 }, []) := by
  have hdig : ∀ c ∈ digits_loop (n.natAbs + 1) n.natAbs [], 48 ≤ c ∧ c ≤ 57 := by
    intro c hc
    rcases digits_loop_mem _ _ _ _ hc with h | h
    · exact h
    · simp at h
  have hne := digits_loop_ne_nil n.natAbs n.natAbs
  have hval := digits_loop_val (n.natAbs + 1) n.natAbs [] (by omega)
  simp only [List.foldl_nil] at hval
  unfold sprintf_d
  by_cases hneg : n < 0
  · rw [if_pos hneg]
    unfold strtod_model
    simp only [skip_space, is_space]
    rw [if_neg (by simp)]
    simp only [strtod_body_digits _ _ _ hdig hne, hval, scale10]
    have habs : ((n.natAbs : Nat) : Int) = -n := by omega
    simp only [le_refl, if_true, Int.toNat_zero, pow_zero, mul_one, habs, neg_neg]
  · rw [if_neg hneg]
    unfold strtod_model
    match hl : digits_loop (n.natAbs + 1) n.natAbs [], hne, hdig with
    | c :: t, _, hdig' =>
      have hc := hdig' c (by simp)
      simp only [skip_space, is_space]
      rw [if_neg (by simp; omega)]
      split
      · rename_i heq
        simp only [List.cons.injEq] at heq
        omega
      · rename_i heq
        simp only [List.cons.injEq] at heq
        omega
      · rw [← hl, strtod_body_digits _ _ _ hdig hne, hval]
        have habs : ((n.natAbs : Nat) : Int) = n := by omega
        simp only [scale10, le_refl, if_true, Int.toNat_zero, pow_zero, mul_one, habs,
          Bool.false_eq_true, if_false]

theorem int_of_double_ofInt (n : Int) (h1 : -2 ^ 31 ≤ n) (h2 : n < 2 ^ 31) :
    int_of_double { num := n, den := 1 } = n := by
  unfold int_of_double
  simp only [Nat.cast_one, Int.tdiv_one]
  rw [if_pos ⟨h1, h2⟩]

/-! ## `rounding_f` on a well formed row -/

theorem flat_split_col (segs : List Seg) (k : Nat) (hk1 : 1 ≤ k) (hk : k ≤ segs.length) :
    flat segs = flat (segs.take (k - 1)) ++ cell segs k
      ++ ((segs.getD (k - 1) ([], 0)).2 :: flat (segs.drop k)) := by
  conv_lhs => rw [split_at_col segs k hk1 hk]
  rw [flat_append]
  simp

theorem flat_set_col (segs : List Seg) (k : Nat) (str : List Nat) :
    flat (set_col segs k str) = flat (segs.take (k - 1)) ++ str
      ++ ((segs.getD (k - 1) ([], 0)).2 :: flat (segs.drop k)) := by
  unfold set_col
  rw [flat_append]
  simp

theorem wf_set_col {delim : List Nat} {segs : List Seg} (hwf : WfSegs delim segs) (k : Nat)
    (hk1 : 1 ≤ k) (hk : k ≤ segs.length) {str : List Nat} (hstr : CellOk delim str) :
    WfSegs delim (set_col segs k str) := by
  have hwf' := hwf
  rw [split_at_col segs k hk1 hk] at hwf'
  exact WfSegs.append (hwf'.pre_delim (by simp)) ((hwf'.post (by simp)).set_cell hstr)

theorem length_set_col (segs : List Seg) (k : Nat) (hk1 : 1 ≤ k) (hk : k ≤ segs.length)
    (str : List Nat) : (set_col segs k str).length = segs.length := by
  simp [set_col]; omega

theorem cell_set_col (segs : List Seg) (k : Nat) (hk1 : 1 ≤ k) (hk : k ≤ segs.length)
    (str : List Nat) : cell (set_col segs k str) k = str := by
  have hl : (segs.take (k - 1)).length = k - 1 := by rw [List.length_take]; omega
  unfold cell set_col
  rw [List.getD_append_right _ _ _ _ (by omega), hl]
  simp

theorem set_col_set_col (segs : List Seg) (k : Nat) (hk1 : 1 ≤ k) (hk : k ≤ segs.length)
    (a b : List Nat) : set_col (set_col segs k a) k b = set_col segs k b := by
  have hl : (segs.take (k - 1)).length = k - 1 := by rw [List.length_take]; omega
  have e : segs.take (k - 1) ++ (a, (segs.getD (k - 1) ([], 0)).2) :: segs.drop k
      = (segs.take (k - 1) ++ [(a, (segs.getD (k - 1) ([], 0)).2)]) ++ segs.drop k := by simp
  unfold set_col
  rw [List.take_left' hl]
  have e1 : (segs.take (k - 1) ++ (a, (segs.getD (k - 1) ([], 0)).2) :: segs.drop k).getD
      (k - 1) ([], 0) = (a, (segs.getD (k - 1) ([], 0)).2) := by
    rw [List.getD_append_right _ _ _ _ (by omega), hl]
    simp
  have e2 : (segs.take (k - 1) ++ (a, (segs.getD (k - 1) ([], 0)).2) :: segs.drop k).drop k
      = segs.drop k := by
    rw [e]; exact List.drop_left' (by simp; omega)
  rw [e1, e2]

/-- What `replace_column` does to column `k` of a well formed row, with the
bounds that the commands compute. -/
theorem replace_column_segs {row : Buf} {delim : List Nat} {segs : List Seg} (hd : DelimOk delim)
    (h : Holds row (flat segs)) (hsize : row.size = MAX_ROW) (hwf : WfSegs delim segs)
    (k : Nat) (hk1 : 1 ≤ k) (hk : k ≤ segs.length) (str : List Nat) (hstr : ∀ x ∈ str, x ≠ 0)
    (col_end : Int)
    (hce : col_end = if (cell segs k).length = 0 then EMPTY_COL
        else find_column_start row delim (k : Int) + (cell segs k).length - 1) :
    (MAX_ROW + (cell segs k).length < (flat segs).length + str.length →
      replace_column row (find_column_start row delim (k : Int)) col_end str = some (row, 0)) ∧
    ((flat segs).length + str.length < MAX_ROW + (cell segs k).length →
      ∃ row', replace_column row (find_column_start row delim (k : Int)) col_end str
          = some (row', 1) ∧
        Holds row' (flat (set_col segs k str)) ∧ row'.size = row.size ∧ row'.oob = row.oob) := by
  obtain ⟨_, _, _, hs, _⟩ := read_cell hd h hsize hwf k hk1 hk
  rw [hs] at hce ⊢
  have hfl := flat_split_col segs k hk1 hk
  have hlen : (flat segs).length = (flat (segs.take (k - 1))).length + (cell segs k).length + 1
      + (flat (segs.drop k)).length := by
    rw [hfl]; simp; omega
  refine ⟨fun hbig => replace_column_fail h hsize _ _ str col_end hce hbig, fun hfit => ?_⟩
  obtain ⟨r, er, hr, hsz, hoo⟩ := replace_column_spec h hsize (flat (segs.take (k - 1))).length
    (cell segs k).length (by omega) str hstr col_end hce hfit
  refine ⟨r, er, ?_, hsz, hoo⟩
  rw [hfl, splice_append] at hr
  rw [flat_set_col]
  exact hr

/-- What `int_f` does to column `k` of a well formed row whose cell `k` is
shorter than `MAX_CELL`. -/
theorem int_f_segs (strtod : List Nat → Dbl × List Nat) {row : Buf} {delim : List Nat}
    {segs : List Seg} (hd : DelimOk delim) (h : Holds row (flat segs))
    (hsize : row.size = MAX_ROW) (hwf : WfSegs delim segs) (k : Nat) (hk1 : 1 ≤ k)
    (hk : k ≤ segs.length) (hcell : (cell segs k).length < MAX_CELL) :
    (cell segs k = [] → int_f strtod row (k : Int) delim = some (row, 1)) ∧
    (cell segs k ≠ [] → (strtod (cell segs k)).2 ≠ [] →
      int_f strtod row (k : Int) delim = some (row, 0)) ∧
    (cell segs k ≠ [] → (strtod (cell segs k)).2 = [] →
      (MAX_ROW + (cell segs k).length
          < (flat segs).length + (sprintf_d (int_of_double (strtod (cell segs k)).1)).length →
        int_f strtod row (k : Int) delim = some (row, 1)) ∧
      ((flat segs).length + (sprintf_d (int_of_double (strtod (cell segs k)).1)).length
          < MAX_ROW + (cell segs k).length →
        ∃ row', int_f strtod row (k : Int) delim = some (row', 1) ∧
          Holds row' (flat (set_col segs k (sprintf_d (int_of_double (strtod (cell segs k)).1)))) ∧
          row'.size = row.size ∧ row'.oob = row.oob)) := by
  have hE : EMPTY_COL = -2 := rfl
  obtain ⟨col_end, he, hce, hs, hcont⟩ := read_cell hd h hsize hwf k hk1 hk
  obtain ⟨hcstr, hcoob⟩ := hcont hcell
  have hnn : 0 ≤ find_column_start row delim (k : Int) := by rw [hs]; omega
  have hINT : INT ≠ ROUND := by decide
  refine ⟨?_, ?_, ?_⟩
  · intro hc
    have hce' : col_end = EMPTY_COL := by rw [hce, hc]; rfl
    simp only [int_f, rounding_f, he, Option.some_bind, hce', ne_eq, not_true_eq_false, if_false]
  · intro hc hrest
    have hl : (cell segs k).length ≠ 0 := fun hh => hc (List.length_eq_zero.1 hh)
    have hce' : col_end ≠ EMPTY_COL := by rw [hce, if_neg hl]; omega
    simp only [int_f, rounding_f, he, Option.some_bind, ne_eq, hce', not_false_eq_true, if_true,
      hcstr, hrest, hcoob, Buf.taint_false]
  · intro hc hrest
    have hl : (cell segs k).length ≠ 0 := fun hh => hc (List.length_eq_zero.1 hh)
    have hce' : col_end ≠ EMPTY_COL := by rw [hce, if_neg hl]; omega
    have hnz : ∀ x ∈ sprintf_d (int_of_double (strtod (cell segs k)).1), x ≠ 0 := by
      intro x hx
      rcases sprintf_d_chars _ x hx with h1 | h1 <;> omega
    obtain ⟨hfail, hok⟩ := replace_column_segs hd h hsize hwf k hk1 hk _ hnz col_end hce
    refine ⟨fun hbig => ?_, fun hfit => ?_⟩
    · simp only [int_f, rounding_f, he, Option.some_bind, ne_eq, hce', not_false_eq_true, if_true,
        hcstr, hrest, hcoob, Buf.taint_false, not_true_eq_false, if_false, hINT, hfail hbig,
        Option.map_some']
    · obtain ⟨r, er, hr, hsz, hoo⟩ := hok hfit
      refine ⟨r, ?_, hr, hsz, hoo⟩
      simp only [int_f, rounding_f, he, Option.some_bind, ne_eq, hce', not_false_eq_true, if_true,
        hcstr, hrest, hcoob, Buf.taint_false, not_true_eq_false, if_false, hINT, er,
        Option.map_some']

/-! ## `swap_f` on a well formed row -/

theorem set_col_eq_set (segs : List Seg) (k : Nat) (hk1 : 1 ≤ k) (hk : k ≤ segs.length)
    (str : List Nat) :
    set_col segs k str = segs.set (k - 1) (str, (segs.getD (k - 1) ([], 0)).2) := by
  have e : k - 1 + 1 = k := by omega
  rw [List.set_eq_take_append_cons_drop, if_pos (by omega), e]
  rfl

theorem cell_set_col_ne (segs : List Seg) (i j : Nat) (hi1 : 1 ≤ i) (hj1 : 1 ≤ j)
    (hj : j ≤ segs.length) (hij : i ≠ j) (str : List Nat) :
    cell (set_col segs j str) i = cell segs i := by
  rw [set_col_eq_set segs j hj1 hj]
  unfold cell
  rw [List.getD_eq_getElem?_getD, List.getElem?_set_ne (by omega),
    List.getD_eq_getElem?_getD segs (i - 1)]

theorem length_flat_set_col (segs : List Seg) (k : Nat) (hk1 : 1 ≤ k) (hk : k ≤ segs.length)
    (str : List Nat) :
    (flat (set_col segs k str)).length + (cell segs k).length
      = (flat segs).length + str.length := by
  rw [flat_set_col, flat_split_col segs k hk1 hk]
  simp only [List.length_append, List.length_cons]
  omega

/-- What `swap_f` does to the columns `i` (from) and `j` (to) of a well formed
row whose two cells are shorter than `MAX_CELL`: when writing the text of
column `i` into column `j` fits, the two texts are exchanged; when it does not
fit, that write is dropped and column `i` still receives the text of column
`j`. -/
theorem swap_f_segs {row : Buf} {delim : List Nat} {segs : List Seg} (hd : DelimOk delim)
    (h : Holds row (flat segs)) (hsize : row.size = MAX_ROW) (hwf : WfSegs delim segs)
    (i j : Nat) (hi1 : 1 ≤ i) (hi : i ≤ segs.length) (hj1 : 1 ≤ j) (hj : j ≤ segs.length)
    (hci : (cell segs i).length < MAX_CELL) (hcj : (cell segs j).length < MAX_CELL) :
    ((flat segs).length + (cell segs i).length < MAX_ROW + (cell segs j).length →
      ∃ row', swap_f row (i : Int) (j : Int) delim = some row' ∧
        Holds row' (flat (set_col (set_col segs j (cell segs i)) i (cell segs j))) ∧
        row'.size = row.size ∧ row'.oob = row.oob) ∧
    (MAX_ROW + (cell segs j).length < (flat segs).length + (cell segs i).length →
      ∃ row', swap_f row (i : Int) (j : Int) delim = some row' ∧
        Holds row' (flat (set_col segs i (cell segs j))) ∧
        row'.size = row.size ∧ row'.oob = row.oob) := by
  obtain ⟨ei, hei, hcei, _, hconti⟩ := read_cell hd h hsize hwf i hi1 hi
  obtain ⟨ej, hej, hcej, _, hcontj⟩ := read_cell hd h hsize hwf j hj1 hj
  obtain ⟨hcstri, hoobi⟩ := hconti hci
  obtain ⟨hcstrj, hoobj⟩ := hcontj hcj
  have hoki := cell_ok hwf i hi1 hi
  have hokj := cell_ok hwf j hj1 hj
  obtain ⟨hfail1, hfit1⟩ := replace_column_segs hd h hsize hwf j hj1 hj (cell segs i)
    (fun x hx => (hoki x hx).1) ej hcej
  have hfits := h.fits
  rw [hsize] at hfits
  refine ⟨fun hfit => ?_, fun hbig => ?_⟩
  · obtain ⟨row1, e1, h1, hs1, ho1⟩ := hfit1 hfit
    have hwf1 := wf_set_col hwf j hj1 hj hoki
    have hl1 := length_set_col segs j hj1 hj (cell segs i)
    have hc1 : cell (set_col segs j (cell segs i)) i = cell segs i := by
      by_cases hij : i = j
      · subst hij; exact cell_set_col segs i hi1 hi _
      · exact cell_set_col_ne segs i j hi1 hj1 hj hij _
    have hlf := length_flat_set_col segs j hj1 hj (cell segs i)
    obtain ⟨e2, he2, hce2, _, _⟩ := read_cell hd h1 (by rw [hs1, hsize]) hwf1 i hi1
      (by rw [hl1]; exact hi)
    obtain ⟨_, hfit2⟩ := replace_column_segs hd h1 (by rw [hs1, hsize]) hwf1 i hi1
      (by rw [hl1]; exact hi) (cell segs j) (fun x hx => (hokj x hx).1) e2 hce2
    rw [hc1] at hfit2
    obtain ⟨row2, er2, h2, hs2, ho2⟩ := hfit2 (by omega)
    refine ⟨row2, ?_, h2, by rw [hs2, hs1], by rw [ho2, ho1]⟩
    simp only [swap_f, hei, hej, Option.some_bind, hcstri, hcstrj, e1, he2, er2, Option.map_some',
      hoobi, hoobj, Buf.taint_false]
  · have e1 := hfail1 hbig
    obtain ⟨_, hfit2⟩ := replace_column_segs hd h hsize hwf i hi1 hi (cell segs j)
      (fun x hx => (hokj x hx).1) ei hcei
    obtain ⟨row2, er2, h2, hs2, ho2⟩ := hfit2 (by omega)
    refine ⟨row2, ?_, h2, hs2, ho2⟩
    simp only [swap_f, hei, hej, Option.some_bind, hcstri, hcstrj, e1, er2, Option.map_some',
      hoobi, hoobj, Buf.taint_false]

/-! ## `find_column_start` and `get_no_cols` for any delimiter string -/

theorem countP_split {α : Type} (p : α → Bool) :
    ∀ (l : List α) (k : Nat), k < l.countP p →
      ∃ u d v, l = u ++ d :: v ∧ p d = true ∧ u.countP p = k
  | [], k, h => by simp at h
  | x :: l, k, h => by
    by_cases hx : p x = true
    · cases k with
      | zero => exact ⟨[], x, l, rfl, hx, rfl⟩
      | succ k =>
        rw [List.countP_cons_of_pos _ _ hx] at h
        obtain ⟨u, d, v, e, hd, hc⟩ := countP_split p l k (by omega)
        refine ⟨x :: u, d, v, by rw [e]; rfl, hd, ?_⟩
        rw [List.countP_cons_of_pos _ _ hx, hc]
    · rw [List.countP_cons_of_neg _ _ hx] at h
      obtain ⟨u, d, v, e, hd, hc⟩ := countP_split p l k h
      refine ⟨x :: u, d, v, by rw [e]; rfl, hd, ?_⟩
      rw [List.countP_cons_of_neg _ _ hx, hc]

theorem get_no_cols_loop_count (row : Buf) (delim : List Nat) :
    ∀ (u : List Nat) (fuel : Nat) (i acc : Int), (∀ x ∈ u, x ≠ 10) → At row i (u ++ [10]) →
      u.length < fuel →
      get_no_cols_loop row delim fuel i acc
        = acc + (u.countP (fun c => is_delim c delim) : Nat) := by
  intro u
  induction u with
  | nil =>
    intro fuel i acc _ ha hf
    obtain ⟨f, rfl⟩ : ∃ f, fuel = f + 1 := ⟨fuel - 1, by simp at hf; omega⟩
    have h10 : row.data i = 10 := by
      have := (at_cons.1 ha).1
      simpa using this
    simp [get_no_cols_loop, Buf.get_eq, h10]
  | cons x u ih =>
    intro fuel i acc hu ha hf
    obtain ⟨f, rfl⟩ : ∃ f, fuel = f + 1 := ⟨fuel - 1, by simp at hf; omega⟩
    rw [List.cons_append, at_cons] at ha
    have hx : x ≠ 10 := hu x (by simp)
    simp only [get_no_cols_loop, Buf.get_eq, ha.1, ne_eq, hx, not_false_eq_true, if_true]
    rw [ih f (i + 1) _ (fun y hy => hu y (List.mem_cons_of_mem _ hy)) ha.2
      (by simp at hf; omega)]
    by_cases hd : is_delim x delim = true
    · rw [if_pos hd, List.countP_cons_of_pos _ _ (by simpa using hd)]
      push_cast
      omega
    · rw [if_neg hd, List.countP_cons_of_neg _ _ (by simpa using hd)]

/-- The column count of a line: one more than the number of delimiter bytes in
front of the newline. -/
theorem get_no_cols_count {row : Buf} {body : List Nat} (delim : List Nat)
    (h : Holds row (body ++ [10])) (hsize : row.size = MAX_ROW) (hb : ∀ x ∈ body, x ≠ 10) :
    get_no_cols row delim = (body.countP (fun c => is_delim c delim) : Nat) + 1 := by
  have hfit := h.fits
  rw [hsize] at hfit
  simp only [List.length_append, List.length_singleton] at hfit
  unfold get_no_cols
  rw [get_no_cols_loop_count row delim body MAX_ROW 0 0 hb h.at (by omega)]
  omega

theorem find_column_start_loop_found (row : Buf) (delim : List Nat) (des : Int) :
    ∀ (u : List Nat) (d : Nat) (v : List Nat) (fuel : Nat) (i cur : Int),
      At row i (u ++ d :: v) → (∀ x ∈ u ++ d :: v, x ≠ 0) → v ≠ [] →
      is_delim d delim = true → des = cur + (u.countP (fun c => is_delim c delim) : Nat) + 1 →
      u.length + 2 ≤ fuel →
      find_column_start_loop row delim des fuel i cur = i + u.length + 1 := by
  intro u
  induction u with
  | nil =>
    intro d v fuel i cur ha hnz hv hd hdes hf
    obtain ⟨y, w, rfl⟩ : ∃ y w, v = y :: w := List.exists_cons_of_ne_nil hv
    obtain ⟨f, rfl⟩ : ∃ f, fuel = f + 2 := ⟨fuel - 2, by simp at hf; omega⟩
    rw [List.nil_append, at_cons, at_cons] at ha
    have hd0 : d ≠ 0 := hnz d (by simp)
    have hy0 : y ≠ 0 := hnz y (by simp)
    simp only [List.countP_nil, Nat.cast_zero, add_zero] at hdes
    simp only [find_column_start_loop, Buf.get_eq, ha.1, ha.2.1, ne_eq, hd0, hy0,
      not_false_eq_true, if_true, hd]
    rw [if_neg (by omega), if_pos (by omega)]
    simp
  | cons x u ih =>
    intro d v fuel i cur ha hnz hv hd hdes hf
    obtain ⟨f, rfl⟩ : ∃ f, fuel = f + 1 := ⟨fuel - 1, by simp at hf; omega⟩
    rw [List.cons_append, at_cons] at ha
    have hx0 : x ≠ 0 := hnz x (by simp)
    simp only [find_column_start_loop, Buf.get_eq, ha.1, ne_eq, hx0, not_false_eq_true, if_true]
    rw [if_neg (by omega)]
    rw [ih d v f (i + 1) _ ha.2 (fun y hy => hnz y (by simp at hy ⊢; tauto)) hv hd ?_
      (by simp at hf; omega)]
    · simp only [List.length_cons]
      push_cast
      omega
    · by_cases hdx : is_delim x delim = true
      · rw [if_pos hdx]
        rw [List.countP_cons_of_pos _ _ (by simpa using hdx)] at hdes
        push_cast at hdes
        omega
      · rw [if_neg hdx]
        rw [List.countP_cons_of_neg _ _ (by simpa using hdx)] at hdes
        omega

theorem find_column_start_loop_none (row : Buf) (delim : List Nat) (des : Int) :
    ∀ (t : List Nat) (fuel : Nat) (i cur : Int),
      At row i t → row.data (i + t.length) = 0 → (∀ x ∈ t, x ≠ 0) →
      (des < cur ∨ cur + (t.dropLast.countP (fun c => is_delim c delim) : Nat) < des) →
      find_column_start_loop row delim des fuel i cur = NOT_FOUND := by
  intro t
  induction t with
  | nil =>
    intro fuel i cur _ hz _ _
    cases fuel with
    | zero => rfl
    | succ f =>
      simp only [List.length_nil, Nat.cast_zero, add_zero] at hz
      simp [find_column_start_loop, Buf.get_eq, hz]
  | cons x t ih =>
    intro fuel i cur ha hz hnz hdes
    cases fuel with
    | zero => rfl
    | succ f =>
      rw [at_cons] at ha
      have hx0 : x ≠ 0 := hnz x (by simp)
      simp only [find_column_start_loop, Buf.get_eq, ha.1, ne_eq, hx0, not_false_eq_true,
        if_true]
      have hne : cur ≠ des := by
        rcases hdes with hdes | hdes
        · omega
        · omega
      rw [if_neg hne]
      rcases t with _ | ⟨y, w⟩
      · have hz1 : row.data (i + 1) = 0 := by
          rw [← hz]
          simp
        cases f with
        | zero => rfl
        | succ g => simp [find_column_start_loop, Buf.get_eq, hz1]
      · apply ih f (i + 1) _ ha.2
        · rw [← hz]
          congr 1
          simp only [List.length_cons]
          push_cast
          omega
        · exact fun z hz => hnz z (List.mem_cons_of_mem _ hz)
        · rcases hdes with hdes | hdes
          · left
            split_ifs <;> omega
          · right
            rw [List.dropLast_cons₂] at hdes
            by_cases hdx : is_delim x delim = true
            · rw [if_pos hdx]
              rw [List.countP_cons_of_pos _ _ (by simpa using hdx)] at hdes
              push_cast at hdes
              omega
            · rw [if_neg hdx]
              rw [List.countP_cons_of_neg _ _ (by simpa using hdx)] at hdes
              omega

/-! ## `row_shift_right` at the end of the array -/

theorem shift_right_loop_oob_mono (offset : Int) (n : Nat) (row : Buf) (i : Int)
    (h : row.oob = true) : (shift_right_loop offset n row i).oob = true := by
  induction n generalizing row i with
  | zero => exact h
  | succ n ih =>
    simp only [shift_right_loop]
    apply ih
    simp [Buf.set, h]

theorem fill_loop_oob_mono (n : Nat) (row : Buf) (j : Int) (h : row.oob = true) :
    (fill_loop n row j).oob = true := by
  induction n generalizing row j with
  | zero => exact h
  | succ n ih =>
    simp only [fill_loop]
    apply ih
    simp [Buf.set, h]

/-- When the string and the shift together are longer than `MAX_ROW` bytes,
`row_shift_right` returns 0 and leaves the row as it is. -/
theorem row_shift_right_fail {row : Buf} {s : List Nat} (h : Holds row s) (start offset : Int)
    (hbig : (MAX_ROW : Int) < (s.length : Int) + offset) :
    row_shift_right row start offset = some (row, 0) := by
  rw [row_shift_right_eq h, if_pos (by omega)]

/-- When the string and the shift together are exactly `MAX_ROW` bytes long,
`row_shift_right` returns 1 and has stored the NUL at index `MAX_ROW`, behind
the array. -/
theorem row_shift_right_edge {row : Buf} {s : List Nat} (h : Holds row s)
    (hsize : row.size = MAX_ROW) (start offset : Nat) (hs : start ≤ s.length)
    (ho : 1 ≤ offset) (hedge : s.length + offset = MAX_ROW) :
    ∃ row', row_shift_right row start offset = some (row', 1) ∧ row'.oob = true ∧
      row'.data (MAX_ROW : Int) = 0 := by
  rw [row_shift_right_eq h, if_neg (by omega)]
  refine ⟨_, rfl, ?_, ?_⟩
  · obtain ⟨n, hn⟩ : ∃ n : Nat, ((s.length : Int) - ((start : Int) - 1)).toNat = n + 1 :=
      ⟨s.length - start, by omega⟩
    rw [hn]
    simp only [shift_right_loop]
    apply shift_right_loop_oob_mono
    have hsz : ∀ b : Buf, b.size = MAX_ROW →
        ((b.set ((s.length : Int) + offset) (b.get (s.length : Int))).set (s.length : Int) 32).oob
          = true := by
      intro b hb
      have : ¬ ((s.length : Int) + offset < (MAX_ROW : Int)) := by omega
      simp [Buf.set, hb, this]
    split_ifs
    · exact hsz _ (by rw [fill_loop_size, hsize])
    · exact hsz _ hsize
  · rw [shift_right_loop_data _ (by omega)]
    rw [if_pos (by omega)]
    have e : (MAX_ROW : Int) - (offset : Int) = (s.length : Int) := by omega
    rw [e]
    split_ifs
    · rw [fill_loop_data, if_neg (by omega)]
      exact h.nul
    · exact h.nul

theorem holds_replicate (n : Nat) (c : Nat) (hc : c ≠ 0) (hn : n < MAX_ROW) :
    Holds (Buf.ofList MAX_ROW (List.replicate n c)) (List.replicate n c) :=
  holds_ofList MAX_ROW _ (fun x hx => by rw [List.eq_of_mem_replicate hx]; exact hc)
    (by rw [List.length_replicate]; exact hn)

/-! ## `replace_column` and `copy_f` at the end of the array -/

theorem write_str_oob_mono (str : List Nat) (row : Buf) (p : Int) (h : row.oob = true) :
    (write_str str row p).oob = true := by
  induction str generalizing row p with
  | nil => exact h
  | cons c str ih =>
    simp only [write_str]
    apply ih
    simp [Buf.set, h]

/-- When the new text makes the row exactly `MAX_ROW` bytes long,
`replace_column` returns 1 and a write has left the row array. -/
theorem replace_column_edge {row : Buf} {s : List Nat} (h : Holds row s)
    (hsize : row.size = MAX_ROW) (a c : Nat) (hac : a + c ≤ s.length) (str : List Nat)
    (col_end : Int) (hce : col_end = if c = 0 then EMPTY_COL else (a : Int) + c - 1)
    (hedge : s.length + str.length = MAX_ROW + c) :
    ∃ row', replace_column row a col_end str = some (row', 1) ∧ row'.oob = true := by
  have hE : EMPTY_COL = -2 := rfl
  have hcs : (if col_end = EMPTY_COL then (0 : Int) else col_end - (a : Int) + 1) = (c : Int) := by
    rw [hce]; split_ifs <;> omega
  have hcend : (if col_end = EMPTY_COL then (a : Int) else col_end)
      = ((if c = 0 then a else a + c - 1 : Nat) : Int) := by
    rw [hce]; split_ifs <;> omega
  have hfit := h.fits
  rw [hsize] at hfit
  simp only [replace_column, hcs, hcend]
  rw [if_pos (by omega)]
  have hoff : ((str.length : Int) - (c : Int)) = ((str.length - c : Nat) : Int) := by omega
  rw [hoff]
  obtain ⟨r, er, hor, _⟩ := row_shift_right_edge h hsize (if c = 0 then a else a + c - 1)
    (str.length - c) (by split_ifs <;> omega) (by omega) (by omega)
  rw [er]
  simp only [Option.map_some', one_ne_zero, if_false]
  exact ⟨_, rfl, write_str_oob_mono _ _ _ hor⟩

/-- What `copy_f` does to the columns `i` (from) and `j` (to) of a well formed
row whose cell `i` is shorter than `MAX_CELL`: it writes the text of column `i`
into column `j` when that fits; it returns 0 and leaves the row as it is when
the row would get longer than `MAX_ROW` bytes; and when the row gets exactly
`MAX_ROW` bytes long it returns 1 and a write has left the row array. -/
theorem copy_f_segs {row : Buf} {delim : List Nat} {segs : List Seg} (hd : DelimOk delim)
    (h : Holds row (flat segs)) (hsize : row.size = MAX_ROW) (hwf : WfSegs delim segs)
    (i j : Nat) (hi1 : 1 ≤ i) (hi : i ≤ segs.length) (hj1 : 1 ≤ j) (hj : j ≤ segs.length)
    (hci : (cell segs i).length < MAX_CELL) :
    ((flat segs).length + (cell segs i).length < MAX_ROW + (cell segs j).length →
      ∃ row', copy_f row (i : Int) (j : Int) delim = some (row', 1) ∧
        Holds row' (flat (set_col segs j (cell segs i))) ∧
        row'.size = row.size ∧ row'.oob = row.oob) ∧
    (MAX_ROW + (cell segs j).length < (flat segs).length + (cell segs i).length →
      copy_f row (i : Int) (j : Int) delim = some (row, 0)) ∧
    ((flat segs).length + (cell segs i).length = MAX_ROW + (cell segs j).length →
      ∃ row', copy_f row (i : Int) (j : Int) delim = some (row', 1) ∧ row'.oob = true) := by
  obtain ⟨ei, hei, _, _, hconti⟩ := read_cell hd h hsize hwf i hi1 hi
  obtain ⟨ej, hej, hcej, hsj, _⟩ := read_cell hd h hsize hwf j hj1 hj
  obtain ⟨hcstri, hoobi⟩ := hconti hci
  have hoki := cell_ok hwf i hi1 hi
  obtain ⟨hfail, hfit⟩ := replace_column_segs hd h hsize hwf j hj1 hj (cell segs i)
    (fun x hx => (hoki x hx).1) ej hcej
  refine ⟨fun hf => ?_, fun hb => ?_, fun he => ?_⟩
  · obtain ⟨row1, e1, h1, hs1, ho1⟩ := hfit hf
    refine ⟨row1, ?_, h1, hs1, ho1⟩
    simp only [copy_f, hei, hej, Option.some_bind, hcstri, e1, Option.map_some', hoobi,
      Buf.taint_false, one_ne_zero, if_false]
  · have e1 := hfail hb
    simp only [copy_f, hei, hej, Option.some_bind, hcstri, e1, Option.map_some', hoobi,
      Buf.taint_false, if_true]
  · have hfl := flat_split_col segs j hj1 hj
    have hlen : (flat segs).length = (flat (segs.take (j - 1))).length + (cell segs j).length + 1
        + (flat (segs.drop j)).length := by
      rw [hfl]; simp; omega
    rw [hsj] at hcej
    obtain ⟨r, er, hor⟩ := replace_column_edge h hsize (flat (segs.take (j - 1))).length
      (cell segs j).length (by omega) (cell segs i) ej hcej he
    rw [← hsj] at er
    refine ⟨r, ?_, hor⟩
    simp only [copy_f, hei, hej, Option.some_bind, hcstri, er, Option.map_some', hoobi,
      Buf.taint_false, one_ne_zero, if_false]

/-! ## Reading lines -/

theorem load_line_loop_line (delim : List Nat) :
    ∀ (body : List Nat) (fuel : Nat) (i : Int) (row : Buf) (rest : List Nat),
      (∀ x ∈ body, x ≠ 10 ∧ x ≠ 255) → i + body.length + 1 < (MAX_ROW : Int) - 1 →
      body.length + 1 ≤ fuel →
      load_line_loop delim fuel i row (body ++ 10 :: rest)
        = ((write_str (canon delim (body ++ [10])) row i).set (i + body.length + 1) 0,
            i + body.length + 1, rest) := by
  intro body
  induction body with
  | nil =>
    intro fuel i row rest _ hi hf
    obtain ⟨f, rfl⟩ : ∃ f, fuel = f + 1 := ⟨fuel - 1, by simp at hf; omega⟩
    simp only [List.length_nil, Nat.cast_zero, add_zero] at hi
    simp only [List.nil_append, load_line_loop, canon, List.map_cons, List.map_nil, write_str,
      List.length_nil, Nat.cast_zero, add_zero]
    rw [if_neg (by decide), if_neg (by omega)]
    simp
  | cons x body ih =>
    intro fuel i row rest hb hi hf
    obtain ⟨f, rfl⟩ : ∃ f, fuel = f + 1 := ⟨fuel - 1, by simp at hf; omega⟩
    simp only [List.length_cons] at hi hf
    push_cast at hi
    have hx : x ≠ 10 := (hb x (by simp)).1
    have hx' : x ≠ 255 := (hb x (by simp)).2
    simp only [List.cons_append, load_line_loop]
    rw [if_neg hx', if_neg (by omega), if_neg hx]
    rw [ih f (i + 1) _ rest (fun y hy => hb y (List.mem_cons_of_mem _ hy)) (by omega)
      (by omega)]
    simp only [canon, List.map_cons, List.map_append, write_str, List.length_cons]
    push_cast
    have e : i + 1 + (body.length : Int) + 1 = i + ((body.length : Int) + 1) + 1 := by omega
    rw [e]

/-- Specification of `load_line` on a valid line: the array holds the line with
its delimiters made canonical, the value returned is the length of the line,
and the rest of the input is left. -/
theorem load_line_spec {delim : List Nat} (hd : DelimOk delim) (row : Buf)
    (hsize : row.size = MAX_ROW) (l rest : List Nat) (hl : ValidLine l) :
    ∃ row', load_line row delim (l ++ rest) = (row', (l.length : Int), rest) ∧
      Holds row' (canon delim l) ∧ row'.size = MAX_ROW ∧ row'.oob = row.oob := by
  obtain ⟨⟨body, rfl, hb⟩, hlen, h255⟩ := hl
  have hM : MAX_ROW = 10240 := rfl
  simp only [List.length_append, List.length_singleton] at hlen
  have e : body ++ [10] ++ rest = body ++ 10 :: rest := by simp
  have hcl : (canon delim (body ++ [10])).length = body.length + 1 := by simp [canon]
  refine ⟨(write_str (canon delim (body ++ [10])) row 0).set (0 + (body.length : Int) + 1) 0,
    ?_, ?_, ?_, ?_⟩
  · unfold load_line
    rw [e, load_line_loop_line delim body (MAX_ROW - 1) 0 row rest
      (fun x hx => ⟨(hb x hx).2, h255 x (List.mem_append_left _ hx)⟩)
      (by omega) (by omega)]
    simp only [zero_add, List.length_append, List.length_singleton]
    push_cast
    rfl
  · refine ⟨?_, ?_, ?_, ?_⟩
    · intro k hk
      rw [hcl] at hk
      simp only [Buf.set_data, zero_add]
      rw [if_neg (by omega), write_str_data, if_pos (by rw [hcl]; omega)]
      simp
    · rw [hcl]
      simp only [Buf.set_data, zero_add]
      rw [if_pos (by push_cast; omega)]
    · intro c hc
      simp only [canon, List.mem_map] at hc
      obtain ⟨x, hx, rfl⟩ := hc
      have hx0 : x ≠ 0 := by
        rw [List.mem_append, List.mem_singleton] at hx
        rcases hx with hx | hx
        · exact (hb x hx).1
        · omega
      split_ifs with hdx
      · exact (is_delim_ne hd (is_delim_head hd)).1
      · exact hx0
    · rw [hcl]
      simp only [Buf.set_size, write_str_size, hsize]
      omega
  · simp only [Buf.set_size, write_str_size, hsize]
  · rw [Buf.set_oob _ _ _ (by omega) (by rw [write_str_size, hsize]; omega),
      write_str_oob _ _ _ (le_refl 0) (by rw [hcl, hsize]; push_cast; omega)]

theorem load_line_nil (row : Buf) (delim : List Nat) :
    load_line row delim [] = (row.set 0 0, 0, []) := rfl

theorem canon_length (delim : List Nat) (s : List Nat) : (canon delim s).length = s.length := by
  simp [canon]

/-- Specification of `strcpy` from an array that holds `s`. -/
theorem strcpy_spec {src : Buf} {s : List Nat} (h : Holds src s) (dst : Buf)
    (hfit : s.length < dst.size) :
    ∃ row', strcpy dst src = some row' ∧ Holds row' s ∧ row'.size = dst.size ∧
      row'.oob = dst.oob := by
  refine ⟨(write_str s dst 0).set (s.length : Int) 0,
    by simp only [strcpy, cstr_of_holds h, Option.map_some'], ?_, ?_, ?_⟩
  · refine ⟨?_, ?_, h.nz, ?_⟩
    · intro k hk
      simp only [Buf.set_data]
      rw [if_neg (by omega), write_str_data, if_pos (by omega)]
      simp
    · simp only [Buf.set_data, if_true]
    · simp only [Buf.set_size, write_str_size]
      exact hfit
  · simp only [Buf.set_size, write_str_size]
  · rw [Buf.set_oob _ _ _ (by omega) (by rw [write_str_size]; omega),
      write_str_oob _ _ _ (le_refl 0) (by push_cast; omega)]

/-! ## The command loop of the data pipeline -/

theorem cmd_consts :
    CSET = 8 ∧ TOLOWER = 9 ∧ TOUPPER = 10 ∧ ROUND = 11 ∧ INT = 12 ∧ COPY = 13 ∧ SWAP = 14 ∧
    MOVE = 15 ∧ ROWS = 16 ∧ BEGINSWITH = 17 ∧ CONTAINS = 18 :=
  ⟨rfl, rfl, rfl, rfl, rfl, rfl, rfl, rfl, rfl, rfl, rfl⟩

/-- A row that is not selected passes unchanged through commands that keep it
so. -/
theorem data_commands_loop_unselected (strtod : List Nat → Dbl × List Nat) (cell : Buf)
    (delim : List Nat) (n_row no_cols last_line : Int) (row : Buf) :
    ∀ (user_args : List user_args_t),
      (∀ a ∈ user_args, KeepsUnselected cell delim n_row no_cols last_line row a) →
      data_commands_loop strtod cell delim n_row no_cols last_line user_args row 0
        = some (1, row, 0) := by
  obtain ⟨c8, c9, c10, c11, c12, c13, c14, c15, c16, c17, c18⟩ := cmd_consts
  intro user_args
  induction user_args with
  | nil => intro _; rfl
  | cons a user_args ih =>
    intro hall
    have ih' := ih (fun b hb => hall b (List.mem_cons_of_mem _ hb))
    obtain ⟨h1, h2, h3, h4, h5⟩ := hall a (List.mem_cons_self _ _)
    simp only [c8, c9, c10, c11, c12, c13, c14, c15, c16, c17, c18] at h1 h2 h3 h4 h5
    simp only [data_commands_loop, c8, c9, c10, c11, c12, c13, c14, c15, c16, c17, c18]
    by_cases k8 : a.cmd_num = 8
    · simp [k8, h1 (Or.inl k8), ih']
    by_cases k9 : a.cmd_num = 9
    · simp [k8, k9, h1 (Or.inr (Or.inl k9)), ih']
    by_cases k10 : a.cmd_num = 10
    · simp [k8, k9, k10, h1 (Or.inr (Or.inr (Or.inl k10))), ih']
    by_cases k11 : a.cmd_num = 11
    · simp [k8, k9, k10, k11, h1 (Or.inr (Or.inr (Or.inr (Or.inl k11)))), ih']
    by_cases k12 : a.cmd_num = 12
    · simp [k8, k9, k10, k11, k12, h1 (Or.inr (Or.inr (Or.inr (Or.inr k12)))), ih']
    by_cases k13 : a.cmd_num = 13
    · simp [k8, k9, k10, k11, k12, k13, h2 (Or.inl k13), ih']
    by_cases k14 : a.cmd_num = 14
    · simp [k8, k9, k10, k11, k12, k13, k14, h2 (Or.inr (Or.inl k14)), ih']
    by_cases k15 : a.cmd_num = 15
    · simp [k8, k9, k10, k11, k12, k13, k14, k15, h2 (Or.inr (Or.inr k15)), ih']
    by_cases k16 : a.cmd_num = 16
    · simp [k8, k9, k10, k11, k12, k13, k14, k15, k16, h3 k16, ih']
    by_cases k17 : a.cmd_num = 17
    · simp [k8, k9, k10, k11, k12, k13, k14, k15, k16, k17, h4 k17, ih']
    by_cases k18 : a.cmd_num = 18
    · simp [k8, k9, k10, k11, k12, k13, k14, k15, k16, k17, k18, h5 k18, ih']
    · simp [k8, k9, k10, k11, k12, k13, k14, k15, k16, k17, k18, ih']

theorem ite_bind {α β : Type} (c : Prop) [Decidable c] (a b : Option α) (g : α → Option β) :
    (if c then a else b).bind g = if c then a.bind g else b.bind g := by
  split_ifs <;> rfl

/-- The command loop over `pre ++ rest` runs `pre` and then, unless the run is
to fail, `rest` on the row and with the `selected` that `pre` leaves. -/
theorem data_commands_loop_append (strtod : List Nat → Dbl × List Nat) (cell : Buf)
    (delim : List Nat) (n_row no_cols last_line : Int) (rest : List user_args_t) :
    ∀ (pre : List user_args_t) (row : Buf) (selected : Int),
      data_commands_loop strtod cell delim n_row no_cols last_line (pre ++ rest) row selected
        = (data_commands_loop strtod cell delim n_row no_cols last_line pre row selected).bind
            fun r =>
              if r.1 = 0 then some r
              else data_commands_loop strtod cell delim n_row no_cols last_line rest r.2.1 r.2.2 := by
  obtain ⟨c8, c9, c10, c11, c12, c13, c14, c15, c16, c17, c18⟩ := cmd_consts
  intro pre
  induction pre with
  | nil => intro row selected; simp [data_commands_loop]
  | cons a pre ih =>
    intro row selected
    simp only [List.cons_append, data_commands_loop, c8, c9, c10, c11, c12, c13, c14, c15, c16,
      c17, c18]
    by_cases k8 : a.cmd_num = 8
    · simp only [if_pos k8]
      split_ifs <;> simp [ih, Option.bind_assoc, ite_bind]
    by_cases k9 : a.cmd_num = 9
    · simp only [if_neg k8, if_pos k9]
      split_ifs <;> simp [ih, Option.bind_assoc, ite_bind]
    by_cases k10 : a.cmd_num = 10
    · simp only [if_neg k8, if_neg k9, if_pos k10]
      split_ifs <;> simp [ih, Option.bind_assoc, ite_bind]
    by_cases k11 : a.cmd_num = 11
    · simp only [if_neg k8, if_neg k9, if_neg k10, if_pos k11]
      split_ifs <;> simp [ih, Option.bind_assoc, ite_bind]
    by_cases k12 : a.cmd_num = 12
    · simp only [if_neg k8, if_neg k9, if_neg k10, if_neg k11, if_pos k12]
      split_ifs <;> simp [ih, Option.bind_assoc, ite_bind]
    by_cases k13 : a.cmd_num = 13
    · simp only [if_neg k8, if_neg k9, if_neg k10, if_neg k11, if_neg k12, if_pos k13]
      split_ifs <;> simp [ih, Option.bind_assoc, ite_bind]
    by_cases k14 : a.cmd_num = 14
    · simp only [if_neg k8, if_neg k9, if_neg k10, if_neg k11, if_neg k12, if_neg k13, if_pos k14]
      split_ifs <;> simp [ih, Option.bind_assoc, ite_bind]
    by_cases k15 : a.cmd_num = 15
    · simp only [if_neg k8, if_neg k9, if_neg k10, if_neg k11, if_neg k12, if_neg k13, if_neg k14, if_pos k15]
      split_ifs <;> simp [ih, Option.bind_assoc, ite_bind]
    by_cases k16 : a.cmd_num = 16
    · simp only [if_neg k8, if_neg k9, if_neg k10, if_neg k11, if_neg k12, if_neg k13, if_neg k14, if_neg k15, if_pos k16]
      split_ifs <;> simp [ih, Option.bind_assoc, ite_bind]
    by_cases k17 : a.cmd_num = 17
    · simp only [if_neg k8, if_neg k9, if_neg k10, if_neg k11, if_neg k12, if_neg k13, if_neg k14, if_neg k15, if_neg k16, if_pos k17]
      split_ifs <;> simp [ih, Option.bind_assoc, ite_bind]
    by_cases k18 : a.cmd_num = 18
    · simp only [if_neg k8, if_neg k9, if_neg k10, if_neg k11, if_neg k12, if_neg k13, if_neg k14, if_neg k15, if_neg k16, if_neg k17, if_pos k18]
      split_ifs <;> simp [ih, Option.bind_assoc, ite_bind]
    · simp only [if_neg k8, if_neg k9, if_neg k10, if_neg k11, if_neg k12, if_neg k13, if_neg k14,
        if_neg k15, if_neg k16, if_neg k17, if_neg k18]
      exact ih row selected

/-- Commands that are not selection commands pass `selected` on as it is. -/
theorem data_commands_loop_selected (strtod : List Nat → Dbl × List Nat) (cell : Buf)
    (delim : List Nat) (n_row no_cols last_line : Int) :
    ∀ (mid : List user_args_t), (∀ b ∈ mid, IS_SELECTION b.cmd_num = false) →
      ∀ (row : Buf) (selected : Int) (r : Int × Buf × Int),
        data_commands_loop strtod cell delim n_row no_cols last_line mid row selected = some r →
        r.2.2 = selected := by
  obtain ⟨c8, c9, c10, c11, c12, c13, c14, c15, c16, c17, c18⟩ := cmd_consts
  intro mid
  induction mid with
  | nil =>
    intro _ row selected r h
    simp only [data_commands_loop, Option.some.injEq] at h
    rw [← h]
  | cons a mid ih =>
    intro hall row selected r h
    have ih' := ih (fun b hb => hall b (List.mem_cons_of_mem _ hb))
    have ha := hall a (List.mem_cons_self _ _)
    simp only [IS_SELECTION, decide_eq_false_iff_not] at ha
    simp only [data_commands_loop, c8, c9, c10, c11, c12, c13, c14, c15, c16, c17, c18] at h
    by_cases k8 : a.cmd_num = 8
    · simp only [if_pos k8] at h
      split_ifs at h
      all_goals
        first
        | exact ih' _ _ _ h
        | (simp only [Option.some.injEq] at h; rw [← h])
        | (obtain ⟨x, _, h⟩ := Option.bind_eq_some.1 h
           exact ih' _ _ _ h)
        | (obtain ⟨x, _, h⟩ := Option.bind_eq_some.1 h
           split_ifs at h
           all_goals
             first
             | exact ih' _ _ _ h
             | (simp only [Option.some.injEq] at h; rw [← h]))
    by_cases k9 : a.cmd_num = 9
    · simp only [if_neg k8, if_pos k9] at h
      split_ifs at h
      all_goals
        first
        | exact ih' _ _ _ h
        | (simp only [Option.some.injEq] at h; rw [← h])
        | (obtain ⟨x, _, h⟩ := Option.bind_eq_some.1 h
           exact ih' _ _ _ h)
        | (obtain ⟨x, _, h⟩ := Option.bind_eq_some.1 h
           split_ifs at h
           all_goals
             first
             | exact ih' _ _ _ h
             | (simp only [Option.some.injEq] at h; rw [← h]))
    by_cases k10 : a.cmd_num = 10
    · simp only [if_neg k8, if_neg k9, if_pos k10] at h
      split_ifs at h
      all_goals
        first
        | exact ih' _ _ _ h
        | (simp only [Option.some.injEq] at h; rw [← h])
        | (obtain ⟨x, _, h⟩ := Option.bind_eq_some.1 h
           exact ih' _ _ _ h)
        | (obtain ⟨x, _, h⟩ := Option.bind_eq_some.1 h
           split_ifs at h
           all_goals
             first
             | exact ih' _ _ _ h
             | (simp only [Option.some.injEq] at h; rw [← h]))
    by_cases k11 : a.cmd_num = 11
    · simp only [if_neg k8, if_neg k9, if_neg k10, if_pos k11] at h
      split_ifs at h
      all_goals
        first
        | exact ih' _ _ _ h
        | (simp only [Option.some.injEq] at h; rw [← h])
        | (obtain ⟨x, _, h⟩ := Option.bind_eq_some.1 h
           exact ih' _ _ _ h)
        | (obtain ⟨x, _, h⟩ := Option.bind_eq_some.1 h
           split_ifs at h
           all_goals
             first
             | exact ih' _ _ _ h
             | (simp only [Option.some.injEq] at h; rw [← h]))
    by_cases k12 : a.cmd_num = 12
    · simp only [if_neg k8, if_neg k9, if_neg k10, if_neg k11, if_pos k12] at h
      split_ifs at h
      all_goals
        first
        | exact ih' _ _ _ h
        | (simp only [Option.some.injEq] at h; rw [← h])
        | (obtain ⟨x, _, h⟩ := Option.bind_eq_some.1 h
           exact ih' _ _ _ h)
        | (obtain ⟨x, _, h⟩ := Option.bind_eq_some.1 h
           split_ifs at h
           all_goals
             first
             | exact ih' _ _ _ h
             | (simp only [Option.some.injEq] at h; rw [← h]))
    by_cases k13 : a.cmd_num = 13
    · simp only [if_neg k8, if_neg k9, if_neg k10, if_neg k11, if_neg k12, if_pos k13] at h
      split_ifs at h
      all_goals
        first
        | exact ih' _ _ _ h
        | (simp only [Option.some.injEq] at h; rw [← h])
        | (obtain ⟨x, _, h⟩ := Option.bind_eq_some.1 h
           exact ih' _ _ _ h)
        | (obtain ⟨x, _, h⟩ := Option.bind_eq_some.1 h
           split_ifs at h
           all_goals
             first
             | exact ih' _ _ _ h
             | (simp only [Option.some.injEq] at h; rw [← h]))
    by_cases k14 : a.cmd_num = 14
    · simp only [if_neg k8, if_neg k9, if_neg k10, if_neg k11, if_neg k12, if_neg k13, if_pos k14] at h
      split_ifs at h
      all_goals
        first
        | exact ih' _ _ _ h
        | (simp only [Option.some.injEq] at h; rw [← h])
        | (obtain ⟨x, _, h⟩ := Option.bind_eq_some.1 h
           exact ih' _ _ _ h)
        | (obtain ⟨x, _, h⟩ := Option.bind_eq_some.1 h
           split_ifs at h
           all_goals
             first
             | exact ih' _ _ _ h
             | (simp only [Option.some.injEq] at h; rw [← h]))
    by_cases k15 : a.cmd_num = 15
    · simp only [if_neg k8, if_neg k9, if_neg k10, if_neg k11, if_neg k12, if_neg k13, if_neg k14, if_pos k15] at h
      split_ifs at h
      all_goals
        first
        | exact ih' _ _ _ h
        | (simp only [Option.some.injEq] at h; rw [← h])
        | (obtain ⟨x, _, h⟩ := Option.bind_eq_some.1 h
           exact ih' _ _ _ h)
        | (obtain ⟨x, _, h⟩ := Option.bind_eq_some.1 h
           split_ifs at h
           all_goals
             first
             | exact ih' _ _ _ h
             | (simp only [Option.some.injEq] at h; rw [← h]))
    by_cases k16 : a.cmd_num = 16
    · simp only [if_neg k8, if_neg k9, if_neg k10, if_neg k11, if_neg k12, if_neg k13, if_neg k14, if_neg k15, if_pos k16] at h
      exfalso; omega
    by_cases k17 : a.cmd_num = 17
    · simp only [if_neg k8, if_neg k9, if_neg k10, if_neg k11, if_neg k12, if_neg k13, if_neg k14, if_neg k15, if_neg k16, if_pos k17] at h
      exfalso; omega
    by_cases k18 : a.cmd_num = 18
    · simp only [if_neg k8, if_neg k9, if_neg k10, if_neg k11, if_neg k12, if_neg k13, if_neg k14, if_neg k15, if_neg k16, if_neg k17, if_pos k18] at h
      exfalso; omega
    · simp only [if_neg k8, if_neg k9, if_neg k10, if_neg k11, if_neg k12, if_neg k13, if_neg k14, if_neg k15, if_neg k16, if_neg k17, if_neg k18] at h
      exact ih' _ _ _ h

/-- A selection command sets `selected` whatever it was: the row and the value
that the loop returns do not depend on the `selected` it starts with. -/
theorem data_commands_loop_selection (strtod : List Nat → Dbl × List Nat) (cell : Buf)
    (delim : List Nat) (n_row no_cols last_line : Int) (a : user_args_t)
    (ha : IS_SELECTION a.cmd_num = true) (rest : List user_args_t) (row : Buf) (s1 s2 : Int) :
    (data_commands_loop strtod cell delim n_row no_cols last_line (a :: rest) row s1).map
        (fun r => (r.1, r.2.1))
      = (data_commands_loop strtod cell delim n_row no_cols last_line (a :: rest) row s2).map
        (fun r => (r.1, r.2.1)) := by
  obtain ⟨c8, c9, c10, c11, c12, c13, c14, c15, c16, c17, c18⟩ := cmd_consts
  simp only [IS_SELECTION, decide_eq_true_eq] at ha
  simp only [data_commands_loop, c8, c9, c10, c11, c12, c13, c14, c15, c16, c17, c18]
  revert ha
  intro ha
  by_cases k8 : a.cmd_num = 8
  · simp only [if_pos k8]
    exfalso; omega
  by_cases k9 : a.cmd_num = 9
  · simp only [if_neg k8, if_pos k9]
    exfalso; omega
  by_cases k10 : a.cmd_num = 10
  · simp only [if_neg k8, if_neg k9, if_pos k10]
    exfalso; omega
  by_cases k11 : a.cmd_num = 11
  · simp only [if_neg k8, if_neg k9, if_neg k10, if_pos k11]
    exfalso; omega
  by_cases k12 : a.cmd_num = 12
  · simp only [if_neg k8, if_neg k9, if_neg k10, if_neg k11, if_pos k12]
    exfalso; omega
  by_cases k13 : a.cmd_num = 13
  · simp only [if_neg k8, if_neg k9, if_neg k10, if_neg k11, if_neg k12, if_pos k13]
    exfalso; omega
  by_cases k14 : a.cmd_num = 14
  · simp only [if_neg k8, if_neg k9, if_neg k10, if_neg k11, if_neg k12, if_neg k13, if_pos k14]
    exfalso; omega
  by_cases k15 : a.cmd_num = 15
  · simp only [if_neg k8, if_neg k9, if_neg k10, if_neg k11, if_neg k12, if_neg k13, if_neg k14, if_pos k15]
    exfalso; omega
  by_cases k16 : a.cmd_num = 16
  · simp only [if_neg k8, if_neg k9, if_neg k10, if_neg k11, if_neg k12, if_neg k13, if_neg k14, if_neg k15, if_pos k16]
    split_ifs <;> rfl
  by_cases k17 : a.cmd_num = 17
  · simp only [if_neg k8, if_neg k9, if_neg k10, if_neg k11, if_neg k12, if_neg k13, if_neg k14, if_neg k15, if_neg k16, if_pos k17]
    split_ifs <;> rfl
  by_cases k18 : a.cmd_num = 18
  · simp only [if_neg k8, if_neg k9, if_neg k10, if_neg k11, if_neg k12, if_neg k13, if_neg k14, if_neg k15, if_neg k16, if_neg k17, if_pos k18]
    split_ifs <;> rfl
  · simp only [if_neg k8, if_neg k9, if_neg k10, if_neg k11, if_neg k12, if_neg k13, if_neg k14, if_neg k15, if_neg k16, if_neg k17, if_neg k18]
    exfalso; omega

/-- A data command whose column argument `col_arg_check` refuses makes the run
fail, selected or not. -/
theorem data_commands_loop_bad_arg (strtod : List Nat → Dbl × List Nat) (cell : Buf)
    (delim : List Nat) (n_row no_cols last_line : Int) (a : user_args_t)
    (ha : IS_DATA a.cmd_num = true)
    (hbad : col_arg_check a.num_args0 no_cols = 0 ∨
      (13 ≤ a.cmd_num ∧ col_arg_check a.num_args1 no_cols = 0))
    (rest : List user_args_t) (row : Buf) (selected : Int) :
    data_commands_loop strtod cell delim n_row no_cols last_line (a :: rest) row selected
      = some (0, row, selected) := by
  obtain ⟨c8, c9, c10, c11, c12, c13, c14, c15, c16, c17, c18⟩ := cmd_consts
  simp only [IS_DATA, decide_eq_true_eq] at ha
  simp only [data_commands_loop, c8, c9, c10, c11, c12, c13, c14, c15, c16, c17, c18]
  revert ha
  intro ha
  by_cases k8 : a.cmd_num = 8
  · simp only [if_pos k8]
    rcases hbad with hbad | ⟨h13, hbad⟩
    · simp only [hbad, if_true]
      try (split_ifs <;> first | rfl | (exfalso; omega))
    · first
      | (exfalso; omega)
      | (simp only [hbad, if_true]; split_ifs <;> rfl)
  by_cases k9 : a.cmd_num = 9
  · simp only [if_neg k8, if_pos k9]
    rcases hbad with hbad | ⟨h13, hbad⟩
    · simp only [hbad, if_true]
      try (split_ifs <;> first | rfl | (exfalso; omega))
    · first
      | (exfalso; omega)
      | (simp only [hbad, if_true]; split_ifs <;> rfl)
  by_cases k10 : a.cmd_num = 10
  · simp only [if_neg k8, if_neg k9, if_pos k10]
    rcases hbad with hbad | ⟨h13, hbad⟩
    · simp only [hbad, if_true]
      try (split_ifs <;> first | rfl | (exfalso; omega))
    · first
      | (exfalso; omega)
      | (simp only [hbad, if_true]; split_ifs <;> rfl)
  by_cases k11 : a.cmd_num = 11
  · simp only [if_neg k8, if_neg k9, if_neg k10, if_pos k11]
    rcases hbad with hbad | ⟨h13, hbad⟩
    · simp only [hbad, if_true]
      try (split_ifs <;> first | rfl | (exfalso; omega))
    · first
      | (exfalso; omega)
      | (simp only [hbad, if_true]; split_ifs <;> rfl)
  by_cases k12 : a.cmd_num = 12
  · simp only [if_neg k8, if_neg k9, if_neg k10, if_neg k11, if_pos k12]
    rcases hbad with hbad | ⟨h13, hbad⟩
    · simp only [hbad, if_true]
      try (split_ifs <;> first | rfl | (exfalso; omega))
    · first
      | (exfalso; omega)
      | (simp only [hbad, if_true]; split_ifs <;> rfl)
  by_cases k13 : a.cmd_num = 13
  · simp only [if_neg k8, if_neg k9, if_neg k10, if_neg k11, if_neg k12, if_pos k13]
    rcases hbad with hbad | ⟨h13, hbad⟩
    · simp only [hbad, if_true]
      try (split_ifs <;> first | rfl | (exfalso; omega))
    · first
      | (exfalso; omega)
      | (simp only [hbad, if_true]; split_ifs <;> rfl)
  by_cases k14 : a.cmd_num = 14
  · simp only [if_neg k8, if_neg k9, if_neg k10, if_neg k11, if_neg k12, if_neg k13, if_pos k14]
    rcases hbad with hbad | ⟨h13, hbad⟩
    · simp only [hbad, if_true]
      try (split_ifs <;> first | rfl | (exfalso; omega))
    · first
      | (exfalso; omega)
      | (simp only [hbad, if_true]; split_ifs <;> rfl)
  by_cases k15 : a.cmd_num = 15
  · simp only [if_neg k8, if_neg k9, if_neg k10, if_neg k11, if_neg k12, if_neg k13, if_neg k14, if_pos k15]
    rcases hbad with hbad | ⟨h13, hbad⟩
    · simp only [hbad, if_true]
      try (split_ifs <;> first | rfl | (exfalso; omega))
    · first
      | (exfalso; omega)
      | (simp only [hbad, if_true]; split_ifs <;> rfl)
  by_cases k16 : a.cmd_num = 16
  · simp only [if_neg k8, if_neg k9, if_neg k10, if_neg k11, if_neg k12, if_neg k13, if_neg k14, if_neg k15, if_pos k16]
    exfalso; omega
  by_cases k17 : a.cmd_num = 17
  · simp only [if_neg k8, if_neg k9, if_neg k10, if_neg k11, if_neg k12, if_neg k13, if_neg k14, if_neg k15, if_neg k16, if_pos k17]
    exfalso; omega
  by_cases k18 : a.cmd_num = 18
  · simp only [if_neg k8, if_neg k9, if_neg k10, if_neg k11, if_neg k12, if_neg k13, if_neg k14, if_neg k15, if_neg k16, if_neg k17, if_pos k18]
    exfalso; omega
  · simp only [if_neg k8, if_neg k9, if_neg k10, if_neg k11, if_neg k12, if_neg k13, if_neg k14, if_neg k15, if_neg k16, if_neg k17, if_neg k18]
    exfalso; omega

/-! ## The data pipeline over a whole input -/

theorem cat_lines_drop (outs : List (List Nat)) (i : Nat) (hi : i < outs.length) :
    cat_lines (outs.drop i) = outs.getD i [] ++ cat_lines (outs.drop (i + 1)) := by
  rw [List.drop_eq_getElem_cons hi, List.getD_eq_getElem _ _ hi]
  rfl

theorem validLine_pos {l : List Nat} (h : ValidLine l) : 0 < l.length := by
  obtain ⟨⟨body, rfl, _⟩, _⟩ := h
  simp

/-- The `while` loop of the data pipeline from row `i + 1` on, `next` holding
that row: every row is printed once, as the command loop leaves it. -/
theorem process_data_loop_run (strtod : List Nat → Dbl × List Nat) (cell : Buf)
    (user_args : List user_args_t) {delim : List Nat} (hd : DelimOk delim)
    (lines outs : List (List Nat)) (nc : Int)
    (hv : ∀ l ∈ lines, ValidLine l)
    (hnc : ∀ l ∈ lines, ∀ row : Buf, Holds row (canon delim l) → row.size = MAX_ROW →
      get_no_cols row delim = nc)
    (houts : outs.length = lines.length)
    (hcmd : ∀ (i : Nat) (row : Buf), i < lines.length →
      Holds row (canon delim (lines.getD i [])) → row.size = MAX_ROW →
      ∃ row' v, data_commands_loop strtod cell delim ((i : Int) + 1) nc
          (if i + 1 = lines.length then 1 else 0) user_args row 1 = some (1, row', v) ∧
        Holds row' (outs.getD i []) ∧ row'.size = MAX_ROW) :
    ∀ (k i : Nat), i + k + 1 = lines.length →
      ∀ (fuel : Nat) (row next : Buf) (out : List Nat) (init : Bool) (nc0 : Int),
        k + 2 ≤ fuel → row.size = MAX_ROW → next.size = MAX_ROW →
        Holds next (canon delim (lines.getD i [])) → (init = true → nc0 = nc) →
        (process_data_loop strtod cell user_args delim fuel row next
            ((lines.getD i []).length : Int) (cat_lines (lines.drop (i + 1))) (i : Int) init nc0 0
            out).map (fun r => (r.1, r.2.1))
          = some (1, out ++ cat_lines (outs.drop i)) := by
  have hM : MAX_ROW = 10240 := rfl
  have hT : TOO_LONG = -1 := rfl
  intro k
  induction k with
  | zero =>
    intro i hi fuel row next out init nc0 hf hrs hns hnext hinit
    obtain ⟨f, rfl⟩ : ∃ f, fuel = f + 2 := ⟨fuel - 2, by omega⟩
    have hil : i < lines.length := by omega
    have hmem : lines.getD i [] ∈ lines := by
      rw [List.getD_eq_getElem _ _ hil]; exact List.getElem_mem _
    have hpos := validLine_pos (hv _ hmem)
    have hlt := (hv _ hmem).2
    obtain ⟨row1, e1, h1, hs1, _⟩ := strcpy_spec hnext row
      (by rw [canon_length, hrs]; omega)
    have hdrop : lines.drop (i + 1) = [] := List.drop_eq_nil_of_le (by omega)
    have hnc1 : get_no_cols row1 delim = nc := hnc _ hmem row1 h1 (by rw [hs1, hrs])
    have hnc2 : (if init = true then nc0 else get_no_cols row1 delim) = nc := by
      by_cases hc : init = true
      · rw [if_pos hc]; exact hinit hc
      · rw [if_neg hc]; exact hnc1
    obtain ⟨row', v, ec, hr', _⟩ := hcmd i row1 hil h1 (by rw [hs1, hrs])
    rw [if_pos (by omega)] at ec
    have hpe : process_error_handling row1 delim nc 0 = 1 := by
      simp [process_error_handling, hT, hnc1]
    have hio : i < outs.length := by omega
    have hod : outs.drop i = [outs.getD i []] := by
      rw [List.drop_eq_getElem_cons hio, List.drop_eq_nil_of_le (by omega),
        List.getD_eq_getElem outs [] hio]
    have hne : ((lines.getD i []).length : Int) ≠ 0 := by omega
    simp only [process_data_loop, hdrop, cat_lines, load_line_nil, e1, Option.some_bind, hnc2,
      hpe, ec, printf_s, cstr_of_holds hr', hod, List.append_nil, hne, ne_eq, not_false_eq_true,
      if_true, if_false, one_ne_zero, not_true_eq_false, Option.map_some']
  | succ k ih =>
    intro i hi fuel row next out init nc0 hf hrs hns hnext hinit
    obtain ⟨f, rfl⟩ : ∃ f, fuel = f + 1 := ⟨fuel - 1, by omega⟩
    have hil : i < lines.length := by omega
    have hil1 : i + 1 < lines.length := by omega
    have hmem : lines.getD i [] ∈ lines := by
      rw [List.getD_eq_getElem _ _ hil]; exact List.getElem_mem _
    have hmem1 : lines.getD (i + 1) [] ∈ lines := by
      rw [List.getD_eq_getElem _ _ hil1]; exact List.getElem_mem _
    have hpos := validLine_pos (hv _ hmem)
    have hpos1 := validLine_pos (hv _ hmem1)
    have hlt := (hv _ hmem).2
    obtain ⟨row1, e1, h1, hs1, _⟩ := strcpy_spec hnext row
      (by rw [canon_length, hrs]; omega)
    have hdrop : lines.drop (i + 1) = lines.getD (i + 1) [] :: lines.drop (i + 1 + 1) := by
      rw [List.drop_eq_getElem_cons hil1, List.getD_eq_getElem _ _ hil1]
    obtain ⟨next', el, hn', hns', _⟩ := load_line_spec hd next hns (lines.getD (i + 1) [])
      (cat_lines (lines.drop (i + 1 + 1))) (hv _ hmem1)
    have hnc1 : get_no_cols row1 delim = nc := hnc _ hmem row1 h1 (by rw [hs1, hrs])
    have hnc2 : (if init = true then nc0 else get_no_cols row1 delim) = nc := by
      by_cases hc : init = true
      · rw [if_pos hc]; exact hinit hc
      · rw [if_neg hc]; exact hnc1
    obtain ⟨row', v, ec, hr', hrs'⟩ := hcmd i row1 hil h1 (by rw [hs1, hrs])
    rw [if_neg (by omega)] at ec
    have hpe : process_error_handling row1 delim nc ((lines.getD (i + 1) []).length : Int) = 1 := by
      simp only [process_error_handling, hT, hnc1]
      rw [if_neg (by omega)]
      simp
    have hne : ((lines.getD i []).length : Int) ≠ 0 := by omega
    have hne1 : ((lines.getD (i + 1) []).length : Int) ≠ 0 := by omega
    have hih := ih (i + 1) (by omega) f row' next' (out ++ outs.getD i []) true nc (by omega)
      hrs' hns' hn' (fun _ => rfl)
    rw [cat_lines_drop outs i (by omega), ← List.append_assoc, ← hih]
    simp only [process_data_loop, hdrop, cat_lines, el, e1, Option.some_bind, hnc2, hpe, ec,
      printf_s, cstr_of_holds hr', hne, hne1, ne_eq, not_false_eq_true, if_true, if_false,
      one_ne_zero]
    push_cast
    rfl

theorem is_delim_canon {delim : List Nat} (hd : DelimOk delim) (c : Nat) :
    is_delim (if is_delim c delim then delim.headD 0 else c) delim = is_delim c delim := by
  by_cases h : is_delim c delim = true
  · rw [if_pos h, h]; exact is_delim_head hd
  · rw [if_neg h]

theorem canon_countP {delim : List Nat} (hd : DelimOk delim) (s : List Nat) :
    (canon delim s).countP (fun c => is_delim c delim) = s.countP (fun c => is_delim c delim) := by
  induction s with
  | nil => rfl
  | cons x s ih =>
    have e : canon delim (x :: s)
        = (if is_delim x delim then delim.headD 0 else x) :: canon delim s := rfl
    rw [e]
    by_cases h : is_delim x delim = true
    · rw [List.countP_cons_of_pos _ _ (by rw [is_delim_canon hd]; exact h),
        List.countP_cons_of_pos _ _ (by exact h), ih]
    · rw [List.countP_cons_of_neg _ _ (by rw [is_delim_canon hd]; exact h),
        List.countP_cons_of_neg _ _ (by exact h), ih]

theorem is_delim_newline {delim : List Nat} (hd : DelimOk delim) : is_delim 10 delim = false := by
  by_contra h
  have := is_delim_ne hd (by simpa using h)
  exact this.2 rfl

theorem canon_line {delim : List Nat} (hd : DelimOk delim) (body : List Nat) :
    canon delim (body ++ [10]) = canon delim body ++ [10] := by
  simp [canon, is_delim_newline hd]

theorem canon_no_newline {delim : List Nat} (hd : DelimOk delim) (body : List Nat)
    (hb : ∀ x ∈ body, x ≠ 10) : ∀ x ∈ canon delim body, x ≠ 10 := by
  intro x hx
  simp only [canon, List.mem_map] at hx
  obtain ⟨y, hy, rfl⟩ := hx
  split_ifs
  · exact (is_delim_ne hd (is_delim_head hd)).2
  · exact hb y hy

/-- A row array that holds a valid line as `load_line` stores it has the column
count of the line. -/
theorem get_no_cols_canon {delim : List Nat} (hd : DelimOk delim) {l : List Nat}
    (hl : ValidLine l) {row : Buf} (h : Holds row (canon delim l)) (hsize : row.size = MAX_ROW) :
    get_no_cols row delim = get_no_cols (Buf.ofList MAX_ROW l) delim := by
  obtain ⟨⟨body, rfl, hb⟩, hlen⟩ := hl
  have hM : MAX_ROW = 10240 := rfl
  rw [canon_line hd] at h
  rw [get_no_cols_count delim h hsize (canon_no_newline hd body (fun x hx => (hb x hx).2)),
    canon_countP hd]
  have h2 : Holds (Buf.ofList MAX_ROW (body ++ [10])) (body ++ [10]) := by
    apply holds_ofList
    · intro c hc
      rw [List.mem_append, List.mem_singleton] at hc
      rcases hc with hc | hc
      · exact (hb c hc).1
      · omega
    · omega
  rw [get_no_cols_count delim h2 rfl (fun x hx => (hb x hx).2)]

theorem length_cat_lines (lines : List (List Nat)) (hv : ∀ l ∈ lines, ValidLine l) :
    lines.length ≤ (cat_lines lines).length := by
  induction lines with
  | nil => simp [cat_lines]
  | cons l ls ih =>
    have := validLine_pos (hv l (List.mem_cons_self _ _))
    have := ih (fun x hx => hv x (List.mem_cons_of_mem _ hx))
    simp only [cat_lines, List.length_append, List.length_cons]
    omega

/-- The data pipeline on an input of valid lines with one column count: when
the command loop succeeds on every row, every row is printed once, in order,
as the command loop leaves it, and the run returns 1. -/
theorem process_data_commands_run (strtod : List Nat → Dbl × List Nat) (cell : Buf)
    (user_args : List user_args_t) {delim : List Nat} (hd : DelimOk delim)
    (lines outs : List (List Nat)) (nc : Int) (row next : Buf)
    (hrs : row.size = MAX_ROW) (hns : next.size = MAX_ROW)
    (hv : ∀ l ∈ lines, ValidLine l)
    (hnc : ∀ l ∈ lines, get_no_cols (Buf.ofList MAX_ROW l) delim = nc)
    (houts : outs.length = lines.length)
    (hcmd : ∀ (i : Nat) (row : Buf), i < lines.length →
      Holds row (canon delim (lines.getD i [])) → row.size = MAX_ROW →
      ∃ row' v, data_commands_loop strtod cell delim ((i : Int) + 1) nc
          (if i + 1 = lines.length then 1 else 0) user_args row 1 = some (1, row', v) ∧
        Holds row' (outs.getD i []) ∧ row'.size = MAX_ROW) :
    (process_data_commands strtod cell user_args delim row next (cat_lines lines)).map
        (fun r => (r.1, r.2.1)) = some (1, cat_lines outs) := by
  have hnc' : ∀ l ∈ lines, ∀ row : Buf, Holds row (canon delim l) → row.size = MAX_ROW →
      get_no_cols row delim = nc := by
    intro l hl row h hs
    rw [get_no_cols_canon hd (hv l hl) h hs]
    exact hnc l hl
  have hlen := length_cat_lines lines hv
  rcases lines with _ | ⟨l0, ls⟩
  · have : outs = [] := List.length_eq_zero.1 houts
    subst this
    simp [process_data_commands, cat_lines, load_line_nil, process_data_loop]
  · obtain ⟨next0, el, hn0, hns0, _⟩ := load_line_spec hd next hns l0 (cat_lines ls)
      (hv l0 (List.mem_cons_self _ _))
    have := process_data_loop_run strtod cell user_args hd (l0 :: ls) outs nc hv hnc' houts hcmd
      ls.length 0 (by simp) ((cat_lines (l0 :: ls)).length + 1) row next0 [] false 0
      (by simp only [List.length_cons] at hlen; omega) hrs hns0 (by simpa using hn0)
      (fun hc => absurd hc (by decide))
    simp only [List.getD_cons_zero, zero_add, List.drop_succ_cons, List.drop_zero, Nat.cast_zero,
      List.nil_append] at this
    simp only [process_data_commands, cat_lines, el]
    exact this

/-! ## Case conversion and rounding of one column -/

theorem get_column_content_loop_conv_size (row : Buf) (conv : Int) (f : Nat → Nat)
    (hconv : ∀ n cs str p, get_column_content_loop row conv (n + 1) cs str p
      = get_column_content_loop row conv n (cs + 1) (str.set p (f (row.get cs))) (p + 1))
    (n : Nat) (cs : Int) (str : Buf) (p : Int) :
    (get_column_content_loop row conv n cs str p).size = str.size := by
  induction n generalizing cs str p with
  | zero => rfl
  | succ n ih => rw [hconv, ih]; rfl

theorem get_column_content_loop_conv_data (row : Buf) (conv : Int) (f : Nat → Nat)
    (hconv : ∀ n cs str p, get_column_content_loop row conv (n + 1) cs str p
      = get_column_content_loop row conv n (cs + 1) (str.set p (f (row.get cs))) (p + 1))
    (n : Nat) (cs : Int) (str : Buf) (p k : Int) :
    (get_column_content_loop row conv n cs str p).data k
      = if p ≤ k ∧ k < p + n then f (row.data (cs + (k - p))) else str.data k := by
  induction n generalizing cs str p with
  | zero =>
    simp only [get_column_content_loop]
    rw [if_neg (by simp)]
  | succ n ih =>
    rw [hconv, ih]
    simp only [Buf.set_data, Buf.get_eq]
    push_cast
    split_ifs <;> first | rfl | omega | (congr 2; omega)

theorem get_column_content_loop_conv_oob (row : Buf) (conv : Int) (f : Nat → Nat)
    (hconv : ∀ n cs str p, get_column_content_loop row conv (n + 1) cs str p
      = get_column_content_loop row conv n (cs + 1) (str.set p (f (row.get cs))) (p + 1))
    (n : Nat) (cs : Int) (str : Buf) (p : Int) (h0 : 0 ≤ p) (h1 : p + n ≤ (str.size : Int)) :
    (get_column_content_loop row conv n cs str p).oob = str.oob := by
  induction n generalizing cs str p with
  | zero => rfl
  | succ n ih =>
    push_cast at h1
    rw [hconv, ih _ _ _ (by omega) (by simp; omega), Buf.set_oob _ _ _ h0 (by omega)]

theorem get_column_content_loop_toupper (row : Buf) (n : Nat) (cs : Int) (str : Buf) (p : Int) :
    get_column_content_loop row TOUPPER (n + 1) cs str p
      = get_column_content_loop row TOUPPER n (cs + 1) (str.set p (to_upper (row.get cs)))
          (p + 1) := by
  simp only [get_column_content_loop]
  rw [if_neg (by decide), if_neg (by decide), if_pos trivial]

/-- Reading a cell with a conversion `conv` that stores `f` of every byte: the
zeroed array of `MAX_CELL` bytes then holds the converted text of the cell. -/
theorem get_column_content_conv_spec {row : Buf} {pre post : List Seg} {c : List Nat} {t : Nat}
    (conv : Int) (f : Nat → Nat)
    (hconv : ∀ n cs str p, get_column_content_loop row conv (n + 1) cs str p
      = get_column_content_loop row conv n (cs + 1) (str.set p (f (row.get cs))) (p + 1))
    (h : Holds row (flat (pre ++ (c, t) :: post))) (hnz : ∀ x ∈ c, f x ≠ 0)
    (hc : c.length < MAX_CELL) :
    Holds (get_column_content row ((flat pre).length : Int)
        (if c.length = 0 then EMPTY_COL else ((flat pre).length : Int) + c.length - 1)
        (Buf.zero MAX_CELL) conv) (c.map f) ∧
      (get_column_content row ((flat pre).length : Int)
        (if c.length = 0 then EMPTY_COL else ((flat pre).length : Int) + c.length - 1)
        (Buf.zero MAX_CELL) conv).oob = false := by
  have hE : EMPTY_COL = -2 := rfl
  by_cases h0 : c.length = 0
  · have hc0 : c = [] := List.length_eq_zero.1 h0
    subst hc0
    simp only [List.length_nil, if_true, get_column_content, List.map_nil]
    refine ⟨⟨by intro k hk; simp at hk, by simp [Buf.zero], by simp, by simp [Buf.zero, MAX_CELL]⟩, rfl⟩
  · rw [if_neg h0]
    simp only [get_column_content]
    rw [if_neg (by omega)]
    have en : (((flat pre).length : Int) + c.length - 1 + 1 - ((flat pre).length : Int)).toNat
        = c.length := by omega
    rw [en]
    have hat := h.at
    rw [flat_append, flat_cons, at_append, at_append] at hat
    refine ⟨⟨?_, ?_, ?_, ?_⟩, ?_⟩
    · intro k hk
      rw [List.length_map] at hk
      rw [get_column_content_loop_conv_data row conv f hconv, if_pos (by omega)]
      have := hat.2.1 k hk
      have e : ((flat pre).length : Int) + ((k : Int) - 0)
          = 0 + ((flat pre).length : Int) + k := by
        omega
      rw [e, this, List.getD_eq_getElem?_getD, List.getD_eq_getElem?_getD, List.getElem?_map,
        List.getElem?_eq_getElem hk]
      rfl
    · rw [get_column_content_loop_conv_data row conv f hconv, if_neg (by simp)]
      rfl
    · intro x hx
      obtain ⟨y, hy, rfl⟩ := List.mem_map.1 hx
      exact hnz y hy
    · rw [get_column_content_loop_conv_size row conv f hconv, List.length_map]
      exact hc
    · rw [get_column_content_loop_conv_oob row conv f hconv _ _ _ _ (le_refl 0)
        (by simp [Buf.zero]; omega)]
      rfl

/-- On a well formed row `changecase_f` with a conversion that stores `f` of
every byte replaces the text of column `k` by its converted text. -/
theorem changecase_f_segs {row : Buf} {delim : List Nat} {segs : List Seg} (hd : DelimOk delim)
    (h : Holds row (flat segs)) (hsize : row.size = MAX_ROW) (hwf : WfSegs delim segs)
    (k : Nat) (hk1 : 1 ≤ k) (hk : k ≤ segs.length) (hcell : (cell segs k).length < MAX_CELL)
    (conv : Int) (f : Nat → Nat)
    (hconv : ∀ n cs str p, get_column_content_loop row conv (n + 1) cs str p
      = get_column_content_loop row conv n (cs + 1) (str.set p (f (row.get cs))) (p + 1))
    (hnz : ∀ x ∈ cell segs k, f x ≠ 0) :
    ∃ row', changecase_f row (k : Int) delim conv = some row' ∧
      Holds row' (flat (set_col segs k ((cell segs k).map f))) ∧
      row'.size = row.size ∧ row'.oob = row.oob := by
  obtain ⟨col_end, he, hce, hs, _⟩ := read_cell hd h hsize hwf k hk1 hk
  have hsplit := split_at_col segs k hk1 hk
  have h' := h
  rw [hsplit] at h'
  have hconvspec := get_column_content_conv_spec conv f hconv h' hnz hcell
  rw [← hs, ← hce] at hconvspec
  obtain ⟨hholds, hoob⟩ := hconvspec
  have hstr : ∀ x ∈ (cell segs k).map f, x ≠ 0 := by
    intro x hx
    obtain ⟨y, hy, rfl⟩ := List.mem_map.1 hx
    exact hnz y hy
  obtain ⟨_, hok⟩ := replace_column_segs hd h hsize hwf k hk1 hk _ hstr col_end hce
  have hlt : (flat segs).length < MAX_ROW := by
    have := h.fits
    rw [hsize] at this
    exact this
  obtain ⟨r, er, hr, hsz, hoo⟩ := hok (by rw [List.length_map]; omega)
  refine ⟨r, ?_, hr, hsz, hoo⟩
  simp only [changecase_f, he, Option.some_bind, cstr_of_holds hholds, er, Option.map_some',
    hoob, Buf.taint_false]

theorem cell_length_lt {segs : List Seg} (hcells : ∀ sg ∈ segs, sg.1.length < MAX_CELL)
    (k : Nat) : (cell segs k).length < MAX_CELL := by
  unfold cell
  rw [List.getD_eq_getElem?_getD]
  by_cases hk : k - 1 < segs.length
  · rw [List.getElem?_eq_getElem hk]
    exact hcells _ (List.getElem_mem hk)
  · rw [List.getElem?_eq_none (by omega)]
    decide

theorem wf_filler {delim : List Nat} {c last : List Nat} {d : Nat} (hc : CellOk delim c)
    (hdl : is_delim d delim = true) (hl : CellOk delim last) (m : Nat) :
    WfSegs delim (List.replicate m ((c, d) : Seg) ++ [(last, 10)]) := by
  induction m with
  | zero => exact ⟨hl, rfl⟩
  | succ m ih =>
    rw [List.replicate_succ, List.cons_append]
    exact ih.cons_delim hc hdl

theorem length_flat_filler (c last : List Nat) (d : Nat) (m : Nat) :
    (flat (List.replicate m ((c, d) : Seg) ++ [(last, 10)])).length
      = m * (c.length + 1) + (last.length + 1) := by
  induction m with
  | zero => simp [flat]
  | succ m ih =>
    rw [List.replicate_succ, List.cons_append, flat_cons, List.length_append, List.length_cons,
      ih]
    ring

theorem mem_filler {c last : List Nat} {d : Nat} {m : Nat} {sg : Seg}
    (h : sg ∈ List.replicate m ((c, d) : Seg) ++ [(last, 10)]) :
    sg = (c, d) ∨ sg = (last, 10) := by
  rw [List.mem_append, List.mem_singleton] at h
  rcases h with h | h
  · exact Or.inl (List.eq_of_mem_replicate h)
  · exact Or.inr h

/-! ## Lines that are too long -/

/-- On an input that starts with `MAX_ROW` bytes without a newline nor the byte
255, `load_line` returns `TOO_LONG`. -/
theorem load_line_loop_too_long (delim : List Nat) :
    ∀ (fuel : Nat) (i : Int) (row : Buf) (inp : List Nat), i + fuel = (MAX_ROW : Int) - 2 →
      fuel + 2 ≤ inp.length → (∀ x ∈ inp.take (fuel + 1), x ≠ 10 ∧ x ≠ 255) →
      (load_line_loop delim (fuel + 1) i row inp).2.1 = TOO_LONG := by
  intro fuel
  induction fuel with
  | zero =>
    intro i row inp hi hlen hno
    obtain ⟨c, c2, rest, rfl⟩ : ∃ c c2 rest, inp = c :: c2 :: rest := by
      rcases inp with _ | ⟨c, _ | ⟨c2, rest⟩⟩
      · simp at hlen
      · simp at hlen
      · exact ⟨c, c2, rest, rfl⟩
    have hc : c ≠ 255 := (hno c (by simp)).2
    simp only [Nat.cast_zero, add_zero] at hi
    simp only [load_line_loop, hi, if_true, if_neg hc]
  | succ f ih =>
    intro i row inp hi hlen hno
    obtain ⟨c, inp', rfl⟩ : ∃ c inp', inp = c :: inp' := by
      rcases inp with _ | ⟨c, inp'⟩
      · simp at hlen
      · exact ⟨c, inp', rfl⟩
    have hc : c ≠ 10 := (hno c (by simp)).1
    have hc' : c ≠ 255 := (hno c (by simp)).2
    push_cast at hi
    simp only [List.length_cons] at hlen
    simp only [load_line_loop]
    rw [if_neg hc', if_neg (by omega), if_neg hc]
    exact ih (i + 1) _ inp' (by omega) (by omega)
      (fun x hx => hno x (by rw [List.take_succ_cons]; exact List.mem_cons_of_mem _ hx))

theorem load_line_too_long (delim : List Nat) (row : Buf) (inp : List Nat)
    (hlen : MAX_ROW ≤ inp.length) (hno : ∀ x ∈ inp, x ≠ 10 ∧ x ≠ 255) :
    (load_line row delim inp).2.1 = TOO_LONG := by
  have hM : MAX_ROW = 10240 := rfl
  exact load_line_loop_too_long delim 10238 0 row inp (by rw [hM]; rfl) (by omega)
    (fun x hx => hno x (List.mem_of_mem_take hx))

/-! ## One step of the command loop of the data pipeline -/

/-- A selection command whose arguments pass the check sets `selected` to what
it returns, whatever `selected` was. -/
theorem data_commands_loop_selection_step (strtod : List Nat → Dbl × List Nat) (cell : Buf)
    (delim : List Nat) (n_row no_cols last_line : Int) (a : user_args_t)
    (rest : List user_args_t) (row : Buf) (s : Int) (ha : IS_SELECTION a.cmd_num = true)
    (hok : selection_args_ok no_cols a = true) :
    data_commands_loop strtod cell delim n_row no_cols last_line (a :: rest) row s
      = (selection_result cell delim n_row last_line a row).bind fun v =>
          data_commands_loop strtod cell delim n_row no_cols last_line rest row v := by
  obtain ⟨c8, c9, c10, c11, c12, c13, c14, c15, c16, c17, c18⟩ := cmd_consts
  simp only [IS_SELECTION, decide_eq_true_eq] at ha
  have k8 : ¬ a.cmd_num = 8 := by omega
  have k9 : ¬ a.cmd_num = 9 := by omega
  have k10 : ¬ a.cmd_num = 10 := by omega
  have k11 : ¬ a.cmd_num = 11 := by omega
  have k12 : ¬ a.cmd_num = 12 := by omega
  have k13 : ¬ a.cmd_num = 13 := by omega
  have k14 : ¬ a.cmd_num = 14 := by omega
  have k15 : ¬ a.cmd_num = 15 := by omega
  simp only [selection_args_ok, c16] at hok
  simp only [data_commands_loop, selection_result, c8, c9, c10, c11, c12, c13, c14, c15, c16,
    c17, c18, if_neg k8, if_neg k9, if_neg k10, if_neg k11, if_neg k12, if_neg k13, if_neg k14,
    if_neg k15]
  by_cases k16 : a.cmd_num = 16
  · rw [if_pos k16, decide_eq_true_eq] at hok
    rw [if_pos k16, if_pos k16, if_neg hok, Option.some_bind]
  · rw [if_neg k16, decide_eq_true_eq] at hok
    rw [if_neg k16, if_neg k16]
    by_cases k17 : a.cmd_num = 17
    · rw [if_pos k17, if_pos k17, if_neg hok]
    · have k18 : a.cmd_num = 18 := by omega
      rw [if_neg k17, if_neg k17, if_pos k18, if_neg hok]

/-- A data command whose column arguments pass the checks is skipped when
`selected` is 0, and otherwise its function is run on the row. -/
theorem data_commands_loop_data_step (strtod : List Nat → Dbl × List Nat) (cell : Buf)
    (delim : List Nat) (n_row no_cols last_line : Int) (d : user_args_t)
    (rest : List user_args_t) (row : Buf) (s : Int) (hdata : IS_DATA d.cmd_num = true)
    (hok : data_args_ok no_cols d = true) :
    data_commands_loop strtod cell delim n_row no_cols last_line (d :: rest) row s
      = if s = 0 then data_commands_loop strtod cell delim n_row no_cols last_line rest row s
        else (data_result strtod delim d row).bind fun r =>
          if r.2 = 0 then some (0, r.1, s)
          else data_commands_loop strtod cell delim n_row no_cols last_line rest r.1 s := by
  obtain ⟨c8, c9, c10, c11, c12, c13, c14, c15, c16, c17, c18⟩ := cmd_consts
  simp only [IS_DATA, decide_eq_true_eq] at hdata
  simp only [data_args_ok, c13, Bool.and_eq_true, Bool.or_eq_true, decide_eq_true_eq] at hok
  obtain ⟨h0, h1⟩ := hok
  simp only [data_commands_loop, data_result, c8, c9, c10, c11, c12, c13, c14, c15, c16,
    c17, c18]
  by_cases k8 : d.cmd_num = 8
  · rw [if_pos k8, if_pos k8, if_neg h0]
  rw [if_neg k8, if_neg k8]
  by_cases k9 : d.cmd_num = 9
  · rw [if_pos k9, if_pos k9, if_neg h0]
    by_cases hs : s = 0
    · rw [if_pos hs, if_pos hs]
    · rw [if_neg hs, if_neg hs]
      cases tolower_f row d.num_args0 delim <;> simp
  rw [if_neg k9, if_neg k9]
  by_cases k10 : d.cmd_num = 10
  · rw [if_pos k10, if_pos k10, if_neg h0]
    by_cases hs : s = 0
    · rw [if_pos hs, if_pos hs]
    · rw [if_neg hs, if_neg hs]
      cases toupper_f row d.num_args0 delim <;> simp
  rw [if_neg k10, if_neg k10]
  by_cases k11 : d.cmd_num = 11
  · rw [if_pos k11, if_pos k11, if_neg h0]
  rw [if_neg k11, if_neg k11]
  by_cases k12 : d.cmd_num = 12
  · rw [if_pos k12, if_pos k12, if_neg h0]
  rw [if_neg k12, if_neg k12]
  have h1' : col_arg_check d.num_args1 no_cols ≠ 0 := by
    rcases h1 with h1 | h1
    · omega
    · exact h1
  by_cases k13 : d.cmd_num = 13
  · rw [if_pos k13, if_pos k13, if_neg h0, if_neg h1']
  rw [if_neg k13, if_neg k13]
  by_cases k14 : d.cmd_num = 14
  · rw [if_pos k14, if_pos k14, if_neg h0, if_neg h1']
    by_cases hs : s = 0
    · rw [if_pos hs, if_pos hs]
    · rw [if_neg hs, if_neg hs]
      cases swap_f row d.num_args0 d.num_args1 delim <;> simp
  have k15 : d.cmd_num = 15 := by omega
  rw [if_neg k14, if_neg k14, if_pos k15, if_neg h0, if_neg h1']

theorem move_cols_lt {α : Type} (l : List α) (c : α) (f g : Nat) (hfg : f < g)
    (hg : g ≤ l.length) :
    (l.take (g - 1) ++ c :: l.drop (g - 1)).take (f - 1)
        ++ (l.take (g - 1) ++ c :: l.drop (g - 1)).drop f
      = l.take (f - 1) ++ (l.drop f).take (g - 1 - f) ++ c :: l.drop (g - 1) := by
  have hl : (l.take (g - 1)).length = g - 1 := by rw [List.length_take]; omega
  rw [List.take_append_of_le_length (by omega), List.drop_append_of_le_length (by omega),
    List.take_take, List.drop_take]
  have : min (f - 1) (g - 1) = f - 1 := by omega
  rw [this]
  simp

theorem move_cols_eq {α : Type} (l : List α) (c : α) (g : Nat) (hg1 : 1 ≤ g)
    (hg : g ≤ l.length) :
    (l.take (g - 1) ++ c :: l.drop (g - 1)).take (g - 1)
        ++ (l.take (g - 1) ++ c :: l.drop (g - 1)).drop g = l := by
  have hl : (l.take (g - 1)).length = g - 1 := by rw [List.length_take]; omega
  rw [List.take_left' hl]
  have e : l.take (g - 1) ++ c :: l.drop (g - 1) = (l.take (g - 1) ++ [c]) ++ l.drop (g - 1) := by
    simp
  rw [e, List.drop_left' (by simp; omega)]
  exact List.take_append_drop _ _

theorem move_cols_gt {α : Type} (l : List α) (c : α) (f g : Nat) (hg1 : 1 ≤ g) (hgf : g < f)
    (hf : f ≤ l.length) :
    (l.take (g - 1) ++ c :: l.drop (g - 1)).take (f + 1 - 1)
        ++ (l.take (g - 1) ++ c :: l.drop (g - 1)).drop (f + 1)
      = l.take (g - 1) ++ c :: (l.drop (g - 1)).take (f - g) ++ l.drop f := by
  have hl : (l.take (g - 1)).length = g - 1 := by rw [List.length_take]; omega
  rw [List.take_append_eq_append_take, List.drop_append_eq_append_drop, hl]
  have e1 : List.take (f + 1 - 1) (List.take (g - 1) l) = List.take (g - 1) l := by
    rw [List.take_take]; congr 1; omega
  have e2 : List.drop (f + 1) (List.take (g - 1) l) = [] := by
    rw [List.drop_eq_nil_iff]; rw [hl]; omega
  have e3 : f + 1 - 1 - (g - 1) = (f - g) + 1 := by omega
  have e4 : f + 1 - (g - 1) = (f - g + 1) + 1 := by omega
  rw [e1, e2, e3, e4, List.take_succ_cons, List.drop_succ_cons, List.drop_drop]
  have e5 : g - 1 + (f - g + 1) = f := by omega
  simp [e5]

theorem snd_mem_flat {segs : List Seg} {p : Seg} (hp : p ∈ segs) : p.2 ∈ flat segs := by
  induction segs with
  | nil => simp at hp
  | cons q segs ih =>
    rw [List.mem_cons] at hp
    rcases hp with rfl | hp
    · simp
    · simp only [flat_cons, List.mem_append, List.mem_cons]
      exact Or.inr (Or.inr (ih hp))

theorem cell_eq_getD (segs : List Seg) (k : Nat) :
    cell segs k = (segs.map Prod.fst).getD (k - 1) [] := by
  unfold cell
  simp only [List.getD_eq_getElem?_getD, List.getElem?_map]
  cases segs[k - 1]? <;> rfl

/-- Moving a column onto itself gives the row back when the delimiter in front
of it is the first delimiter. -/
theorem del_cols_self {delim : List Nat} {segs : List Seg} (hwf : WfSegs delim segs) (g : Nat)
    (hg1 : 1 ≤ g) (hg : g ≤ segs.length) (c : List Nat)
    (hcanon : ∀ x ∈ flat segs, is_delim x delim = true → x = delim.headD 0) :
    del_cols (segs.take (g - 1) ++ (c, delim.headD 0) :: segs.drop (g - 1)) g g = segs := by
  have hl : (segs.take (g - 1)).length = g - 1 := by rw [List.length_take]; omega
  have e : segs.take (g - 1) ++ (c, delim.headD 0) :: segs.drop (g - 1)
      = (segs.take (g - 1) ++ [(c, delim.headD 0)]) ++ segs.drop (g - 1) := by simp
  have hdrop : (segs.take (g - 1) ++ (c, delim.headD 0) :: segs.drop (g - 1)).drop g
      = segs.drop (g - 1) := by
    rw [e]; exact List.drop_left' (by simp; omega)
  unfold del_cols
  by_cases h1 : g = 1
  · subst h1
    simp
  · rw [if_neg h1, hdrop]
    have hlt : g - 2 < segs.length := by omega
    have e1 : (segs.take (g - 1) ++ (c, delim.headD 0) :: segs.drop (g - 1)).take (g - 2)
        = segs.take (g - 2) := by
      rw [List.take_append_of_le_length (by omega), List.take_take]
      congr 1
      omega
    have e2 : (segs.take (g - 1) ++ (c, delim.headD 0) :: segs.drop (g - 1)).getD (g - 2) ([], 0)
        = segs[g - 2] := by
      rw [List.getD_append _ _ _ _ (by omega), List.getD_eq_getElem _ _ (by omega)]
      simp
    have e3 : (segs.take (g - 1) ++ (c, delim.headD 0) :: segs.drop (g - 1)).getD (g - 1) ([], 0)
        = (c, delim.headD 0) := by
      rw [List.getD_append_right _ _ _ _ (by omega), hl]
      simp
    rw [e1, e2, e3]
    have hmem : segs[g - 2] ∈ segs.take (g - 1) := by
      rw [List.mem_take_iff_getElem]
      exact ⟨g - 2, by omega, rfl⟩
    have hdl := (hwf.take (g - 1) (by omega) _ hmem).2
    have hcan := hcanon _ (snd_mem_flat (List.getElem_mem hlt)) hdl
    have hsp := list_split_one segs (g - 2) hlt
    have e4 : g - 2 + 1 = g - 1 := by omega
    rw [e4] at hsp
    simp only [List.append_assoc, List.singleton_append] at hsp
    rw [← hcan, Prod.mk.eta]
    exact hsp.symm

/-! ## Column commands of the structural pipeline -/

theorem col_cmds_run {delim : List Nat} (hd : DelimOk delim) (n n_row adj : Int)
    (out : List Nat) :
    ∀ (user_args : List user_args_t) (row : Buf) (segs : List Seg),
      Holds row (flat segs) → row.size = MAX_ROW → WfSegs delim segs →
      col_cmds_ok n segs.length user_args = true →
      col_cmds_safe (delim.headD 0) segs user_args = true →
      (flat segs).length + col_inserts user_args + 1 < MAX_ROW →
      ∃ row' segs', mod_commands_loop delim n_row n adj user_args row out = some (1, row', out) ∧
        Holds row' (flat segs') ∧ row'.size = MAX_ROW ∧ WfSegs delim segs' ∧
        (segs'.length : Int) = no_cols_adjust segs.length user_args ∧ row'.oob = row.oob := by
  intro user_args
  induction user_args with
  | nil =>
    intro row segs h hsize hwf _ _ _
    exact ⟨row, segs, rfl, h, hsize, hwf, rfl, rfl⟩
  | cons a user_args ih =>
    intro row segs h hsize hwf hok hsafe hroom
    have hI : IROW = 0 := rfl
    have hDR : DROW = 2 := rfl
    have hDRS : DROWS = 3 := rfl
    have hIC : ICOL = 4 := rfl
    have hAC : ACOL = 5 := rfl
    have hDC : DCOL = 6 := rfl
    have hDCS : DCOLS = 7 := rfl
    have hne := hwf.ne_nil
    have hlpos : 0 < segs.length := List.length_pos.2 hne
    simp only [col_cmds_ok] at hok
    simp only [col_cmds_safe] at hsafe
    by_cases c1 : a.cmd_num = ICOL
    · -- icol
      rw [if_pos c1, Bool.and_eq_true, decide_eq_true_eq] at hok
      rw [if_pos c1] at hsafe
      obtain ⟨⟨hk1, hkn, hkc⟩, hok'⟩ := hok
      have hins : col_inserts (a :: user_args) = col_inserts user_args + 1 := by
        simp [col_inserts, c1]
      rw [hins] at hroom
      obtain ⟨j, hj⟩ : ∃ j : Nat, a.num_args0 = (j : Int) + 1 := ⟨(a.num_args0 - 1).toNat, by omega⟩
      have hjl : j < segs.length := by omega
      have hsplit : segs = segs.take j ++ segs.drop j := (List.take_append_drop j segs).symm
      have hpost : segs.drop j ≠ [] := by
        intro hc
        have := congrArg List.length hc
        rw [List.length_drop, List.length_nil] at this
        omega
      have h' := h
      have hwf' := hwf
      rw [hsplit] at h' hwf'
      obtain ⟨r1, e1, h1, hs1, ho1⟩ := icol_f_spec hd h' hsize hwf' hpost
        (by rw [← hsplit]; omega)
      have hsafe1 : col_cmds_safe (delim.headD 0)
          (segs.take j ++ ([], delim.headD 0) :: segs.drop j) user_args = true := by
        have ej : a.num_args0.toNat = j + 1 := by omega
        rw [ej] at hsafe
        exact hsafe
      have hlt : (segs.take j).length = j := by rw [List.length_take]; omega
      rw [hlt, ← hj] at e1
      have hwf1 : WfSegs delim (segs.take j ++ ([], delim.headD 0) :: segs.drop j) :=
        WfSegs.append (hwf'.pre_delim hpost)
          ((hwf'.post hpost).cons_delim (by intro y hy; simp at hy) (is_delim_head hd))
      have hlen1 : (segs.take j ++ ([], delim.headD 0) :: segs.drop j).length
          = segs.length + 1 := by
        simp; omega
      have hfl1 : (flat (segs.take j ++ ([], delim.headD 0) :: segs.drop j)).length
          = (flat segs).length + 1 := by
        conv_rhs => rw [hsplit]
        simp only [flat_append, flat_cons, List.length_append, List.length_cons, List.nil_append]
        omega
      obtain ⟨r2, segs2, e2, h2, hs2, hwf2, hc2, ho2⟩ := ih r1 _ h1 (by rw [hs1, hsize]) hwf1
        (by rw [hlen1]; push_cast; exact hok') hsafe1 (by rw [hfl1]; omega)
      refine ⟨r2, segs2, ?_, h2, hs2, hwf2, ?_, by rw [ho2, ho1]⟩
      · rw [mod_commands_loop]
        have hcheck : col_arg_check a.num_args0 n ≠ 0 := by
          simp only [col_arg_check]; split_ifs <;> omega
        simp only [c1, hIC, hI, hDR, hDRS, e1, Option.some_bind, hcheck]
        simpa using e2
      · rw [hc2, hlen1]
        simp only [no_cols_adjust, c1, if_true]
        push_cast
        rfl
    · rw [if_neg c1] at hok
      rw [if_neg c1] at hsafe
      by_cases c2 : a.cmd_num = ACOL
      · -- acol
        rw [if_pos c2] at hok
        rw [if_pos c2] at hsafe
        have hins : col_inserts (a :: user_args) = col_inserts user_args + 1 := by
          simp [col_inserts, c2]
        rw [hins] at hroom
        obtain ⟨c, hc, _⟩ := hwf.drop_last
        have hsplit : segs = segs.take (segs.length - 1) ++ [(c, 10)] := by
          rw [← hc]; exact (List.take_append_drop _ segs).symm
        have h' := h
        rw [hsplit] at h'
        obtain ⟨r1, e1, h1, hs1, ho1⟩ := acol_f_spec hd h' hsize (by rw [← hsplit]; omega)
        have hlast : segs.getD (segs.length - 1) ([], 0) = (c, 10) := by
          have e0 := @List.getElem?_drop _ segs (segs.length - 1) 0
          rw [hc] at e0
          rw [List.getD_eq_getElem?_getD]
          rw [Nat.add_zero] at e0
          rw [← e0]
          rfl
        have hsafe1 : col_cmds_safe (delim.headD 0)
            (segs.take (segs.length - 1) ++ [(c, delim.headD 0), ([], 10)]) user_args = true := by
          unfold app_col at hsafe
          rw [hlast] at hsafe
          exact hsafe
        have hcell : CellOk delim c :=
          (hwf.mem (c, 10) (by rw [hsplit]; simp)).1
        have hwf1 : WfSegs delim (segs.take (segs.length - 1) ++ [(c, delim.headD 0), ([], 10)]) := by
          apply WfSegs.append (hwf.take _ (by omega))
          exact ⟨hcell, is_delim_head hd, by intro y hy; simp at hy, rfl⟩
        have hlen1 : (segs.take (segs.length - 1) ++ [(c, delim.headD 0), ([], 10)]).length
            = segs.length + 1 := by
          simp; omega
        have hfl1 : (flat (segs.take (segs.length - 1) ++ [(c, delim.headD 0), ([], 10)])).length
            = (flat segs).length + 1 := by
          conv_rhs => rw [hsplit]
          simp only [flat_append, flat_cons, flat_nil, List.length_append, List.length_cons,
            List.length_nil]
          omega
        obtain ⟨r2, segs2, e2, h2, hs2, hwf2, hc2, ho2⟩ := ih r1 _ h1 (by rw [hs1, hsize]) hwf1
          (by rw [hlen1]; push_cast; exact hok) hsafe1 (by rw [hfl1]; omega)
        refine ⟨r2, segs2, ?_, h2, hs2, hwf2, ?_, by rw [ho2, ho1]⟩
        · rw [mod_commands_loop]
          simp only [c2, hAC, hIC, hI, hDR, hDRS, e1, Option.some_bind]
          simpa using e2
        · rw [hc2, hlen1]
          simp only [no_cols_adjust, c2, hAC, hIC]
          push_cast
          rfl
      · rw [if_neg c2] at hok
        rw [if_neg c2] at hsafe
        by_cases c3 : a.cmd_num = DCOL
        · -- dcol
          rw [if_pos c3, Bool.and_eq_true, decide_eq_true_eq] at hok
          rw [if_pos c3, Bool.and_eq_true, decide_eq_true_eq] at hsafe
          obtain ⟨⟨hk1, hkn, hkc, hcur⟩, hok'⟩ := hok
          obtain ⟨hne1, hsafe'⟩ := hsafe
          have hins : col_inserts (a :: user_args) = col_inserts user_args := by
            simp [col_inserts, c3, hDC, hIC, hAC]
          rw [hins] at hroom
          obtain ⟨k, hk⟩ : ∃ k : Nat, a.num_args0 = (k : Int) := ⟨a.num_args0.toNat, by omega⟩
          obtain ⟨r1, segs1, e1, h1, hs1, hwf1, _, hlen1, hfl1, hoob1, hsegs1⟩ :=
            dcols_f_spec hd h hsize hwf k k (by omega) (le_refl k) (by omega) (by omega)
          rw [← hk] at e1
          have ho1 : r1.oob = row.oob := by
            apply hoob1
            rintro ⟨hb, t, post, hseg⟩
            apply hne1
            refine ⟨by omega, ?_⟩
            rw [hseg]
            rfl
          have hsafe1 : col_cmds_safe (delim.headD 0) segs1 user_args = true := by
            have ek : a.num_args0.toNat = k := by omega
            rw [ek] at hsafe'
            rw [hsegs1]
            exact hsafe'
          obtain ⟨r2, segs2, e2, h2, hs2, hwf2, hc2, ho2⟩ := ih r1 segs1 h1 (by rw [hs1, hsize])
            hwf1
            (by
              have : (segs1.length : Int) = (segs.length : Int) - 1 := by omega
              rw [this]; exact hok')
            hsafe1 (by omega)
          refine ⟨r2, segs2, ?_, h2, hs2, hwf2, ?_, by rw [ho2, ho1]⟩
          · rw [mod_commands_loop]
            have hcheck : col_arg_check a.num_args0 n ≠ 0 := by
              simp only [col_arg_check]; split_ifs <;> omega
            simp only [c3, hDC, hAC, hIC, hI, hDR, hDRS, dcol_f, e1, Option.some_bind, hcheck]
            simpa using e2
          · rw [hc2]
            simp only [no_cols_adjust, c3, hDC, hAC, hIC]
            have : (segs1.length : Int) = (segs.length : Int) - 1 := by omega
            rw [this]
            rfl
        · rw [if_neg c3] at hok
          rw [if_neg c3] at hsafe
          by_cases c4 : a.cmd_num = DCOLS
          · -- dcols
            rw [if_pos c4, Bool.and_eq_true, decide_eq_true_eq] at hok
            rw [if_pos c4, Bool.and_eq_true, decide_eq_true_eq] at hsafe
            obtain ⟨⟨hk1, hab, hbn, hbc, hnot⟩, hok'⟩ := hok
            obtain ⟨hne1, hsafe'⟩ := hsafe
            have hins : col_inserts (a :: user_args) = col_inserts user_args := by
              simp [col_inserts, c4, hDCS, hIC, hAC]
            rw [hins] at hroom
            obtain ⟨ka, hka⟩ : ∃ k : Nat, a.num_args0 = (k : Int) := ⟨a.num_args0.toNat, by omega⟩
            obtain ⟨kb, hkb⟩ : ∃ k : Nat, a.num_args1 = (k : Int) := ⟨a.num_args1.toNat, by omega⟩
            obtain ⟨r1, segs1, e1, h1, hs1, hwf1, _, hlen1, hfl1, hoob1, hsegs1⟩ :=
              dcols_f_spec hd h hsize hwf ka kb (by omega) (by omega) (by omega) (by omega)
            rw [← hka, ← hkb] at e1
            have ho1 : r1.oob = row.oob := by
              apply hoob1
              rintro ⟨hb, t, post, hseg⟩
              apply hne1
              refine ⟨by omega, ?_⟩
              rw [hseg]
              rfl
            have hsafe1 : col_cmds_safe (delim.headD 0) segs1 user_args = true := by
              have eka : a.num_args0.toNat = ka := by omega
              have ekb : a.num_args1.toNat = kb := by omega
              rw [eka, ekb] at hsafe'
              rw [hsegs1]
              exact hsafe'
            have hl : (segs1.length : Int)
                = (segs.length : Int) - (a.num_args1 - a.num_args0 + 1) := by omega
            obtain ⟨r2, segs2, e2, h2, hs2, hwf2, hc2, ho2⟩ := ih r1 segs1 h1
              (by rw [hs1, hsize]) hwf1 (by rw [hl]; exact hok') hsafe1 (by omega)
            refine ⟨r2, segs2, ?_, h2, hs2, hwf2, ?_, by rw [ho2, ho1]⟩
            · rw [mod_commands_loop]
              have hcheck1 : col_arg_check a.num_args0 n = 1 := by
                simp only [col_arg_check]; split_ifs <;> first | rfl | omega
              have hcheck2 : col_arg_check a.num_args1 n = 1 := by
                simp only [col_arg_check]; split_ifs <;> first | rfl | omega
              have hcheck3 : two_arg_check a.num_args0 a.num_args1 = 1 := by
                simp only [two_arg_check]; split_ifs <;> first | rfl | omega
              simp only [c4, hDCS, hDC, hAC, hIC, hI, hDR, hDRS, e1, Option.some_bind, hcheck1,
                hcheck2, hcheck3]
              simpa using e2
            · rw [hc2, hl]
              simp only [no_cols_adjust, c4, hDCS, hDC, hAC, hIC]
              rfl
          · rw [if_neg c4] at hok
            exact absurd hok (by simp)

/-- What `dcols_f` does to the columns of a line, for a range that is not the
whole row: the columns in front of the range and behind it stay, in order.
No write leaves the row array unless column 1 alone is deleted and is empty. -/
theorem dcols_f_columns (delim : List Nat) (hd : DelimOk delim) (row : Buf) (s : List Nat)
    (h : Holds row s) (hsize : row.size = MAX_ROW) (hnl : NewlineTerminated s) (lo hi : Nat)
    (hlo : 1 ≤ lo) (hlh : lo ≤ hi) (hhi : hi ≤ (columns delim s).length)
    (hnot : hi - lo + 1 < (columns delim s).length) :
    ∃ row' s', dcols_f row (lo : Int) (hi : Int) delim = some row' ∧
      Holds row' s' ∧ row'.size = MAX_ROW ∧ NewlineTerminated s' ∧
      columns delim s' = (columns delim s).take (lo - 1) ++ (columns delim s).drop hi ∧
      (¬ (hi = 1 ∧ (columns delim s).getD 0 [] = []) → row'.oob = row.oob) := by
  obtain ⟨hfl, hwf⟩ := @segments_spec delim s hnl
  have h' : Holds row (flat (segments delim s)) := by rw [hfl]; exact h
  have hlen' : (columns delim s).length = (segments delim s).length := by
    unfold columns; rw [List.length_map]
  rw [hlen'] at hhi hnot
  obtain ⟨row', segs', e, h1, hs1, hwf1, hmap, _, _, hoob, _⟩ :=
    dcols_f_spec hd h' hsize hwf lo hi hlo hlh hhi hnot
  refine ⟨row', flat segs', e, h1, by rw [hs1, hsize], newlineTerminated_flat hd hwf1, ?_, ?_⟩
  · unfold columns
    rw [segments_flat hwf1, hmap]
  · intro hne
    apply hoob
    rintro ⟨hb, t, post, hseg⟩
    apply hne
    refine ⟨hb, ?_⟩
    unfold columns
    rw [hseg]
    rfl

/-- C1 (code bug).  `dcol_f` on column 2 turns the rows `a,b,c` and `d,e,f` into
`a,c` and `d,f`, and `dcols_f` on the columns 1 to 3 turns `a,b,c` into the
newline alone.  On the row `,b`, whose column 1 is empty, `dcol_f` on column 1
leaves `b`, but a write has left the row array: to remove the delimiter,
`dcols_f` moves `index_start` to -1 and `row_shift_left` stores `row[-1]`; so
does the pipeline with the command `dcol 1` on the input `,b`. -/
theorem dcol_f_empty_first_column :
    ((dcol_f (Buf.ofList MAX_ROW [97, 44, 98, 44, 99, 10]) 2 [44]).bind fun r =>
      (cstr r).map fun t => (t, r.oob)) = some ([97, 44, 99, 10], false) ∧
    ((dcol_f (Buf.ofList MAX_ROW [100, 44, 101, 44, 102, 10]) 2 [44]).bind fun r =>
      (cstr r).map fun t => (t, r.oob)) = some ([100, 44, 102, 10], false) ∧
    ((dcols_f (Buf.ofList MAX_ROW [97, 44, 98, 44, 99, 10]) 1 3 [44]).bind fun r =>
      (cstr r).map fun t => (t, r.oob)) = some ([10], false) ∧
    get_no_cols (Buf.ofList MAX_ROW [44, 98, 10]) [44] = 2 ∧
    find_column_start (Buf.ofList MAX_ROW [44, 98, 10]) [44] 1 = 0 ∧
    find_column_end (Buf.ofList MAX_ROW [44, 98, 10]) [44] 0 1 = some EMPTY_COL ∧
    ((dcol_f (Buf.ofList MAX_ROW [44, 98, 10]) 1 [44]).bind fun r =>
      (cstr r).map fun t => (t, r.oob)) = some ([98, 10], true) ∧
    process_mod_commands
      [{ cmd_num := DCOL, num_args0 := 1, num_args1 := 0, str_arg := [], dash1 := 0, dash2 := 0 }]
      [44] (Buf.zero MAX_ROW) [44, 98, 10] = some (1, [98, 10], true) := by
  refine ⟨by decide, by decide, by decide, by decide, by decide, by decide, by decide, by decide⟩

/-- C2.  For a line `s` of `n` columns held in the row array, shorter than
`MAX_ROW - 1` bytes, and a column number `k` between 1 and `n`, `icol_f`
succeeds and leaves a line of `n + 1` columns: the columns in front of `k` as
they were, an empty column `k`, and the columns from `k` on as they were, one
place further.  The cells are ended by the bytes that ended them, the new
empty cell by the first delimiter; the line is one byte longer, and no write
leaves the row array. -/
theorem icol_f_columns (delim : List Nat) (hd : DelimOk delim) (row : Buf) (s : List Nat)
    (h : Holds row s) (hsize : row.size = MAX_ROW) (hnl : NewlineTerminated s) (k : Nat)
    (hk1 : 1 ≤ k) (hk : k ≤ (columns delim s).length) (hlen : s.length < MAX_ROW - 1) :
    ∃ row' s', icol_f row (k : Int) delim = some (row', 1) ∧
      Holds row' s' ∧ row'.size = MAX_ROW ∧ row'.oob = row.oob ∧ NewlineTerminated s' ∧
      s'.length = s.length + 1 ∧
      (columns delim s').length = (columns delim s).length + 1 ∧
      columns delim s' = (columns delim s).take (k - 1) ++ [] :: (columns delim s).drop (k - 1) ∧
      segments delim s' = ins_col (segments delim s) k (delim.headD 0) := by
  obtain ⟨hfl, hwf⟩ := @segments_spec delim s hnl
  have h' : Holds row (flat (segments delim s)) := by rw [hfl]; exact h
  have hlen' : (columns delim s).length = (segments delim s).length := by
    unfold columns; rw [List.length_map]
  rw [hlen'] at hk
  have hM : MAX_ROW = 10240 := rfl
  obtain ⟨row', e, h1, hs1, ho1, hwf1, hl1, hf1⟩ := icol_f_segs hd h' hsize hwf k hk1 hk
    (by rw [hfl]; omega)
  have hseg : segments delim (flat (ins_col (segments delim s) k (delim.headD 0)))
      = ins_col (segments delim s) k (delim.headD 0) := segments_flat hwf1
  refine ⟨row', _, e, h1, by rw [hs1, hsize], ho1, newlineTerminated_flat hd hwf1, ?_, ?_, ?_,
    hseg⟩
  · rw [hf1, hfl]
  · unfold columns
    rw [hseg, List.length_map, List.length_map, hl1]
  · unfold columns
    rw [hseg]
    simp [ins_col, List.map_take, List.map_drop]

/-- Witness of C2: `icol 2` on the row `a,b`, which gives `a,,b`. -/
theorem icol_f_columns_witness :
    (∃ row' s', icol_f (Buf.ofList MAX_ROW [97, 44, 98, 10]) ((2 : Nat) : Int) [44]
        = some (row', 1) ∧
      Holds row' s' ∧ row'.size = MAX_ROW ∧ row'.oob = (Buf.ofList MAX_ROW [97, 44, 98, 10]).oob ∧
      NewlineTerminated s' ∧
      s'.length = [97, 44, 98, 10].length + 1 ∧
      (columns [44] s').length = (columns [44] [97, 44, 98, 10]).length + 1 ∧
      columns [44] s' = (columns [44] [97, 44, 98, 10]).take (2 - 1) ++
        [] :: (columns [44] [97, 44, 98, 10]).drop (2 - 1) ∧
      segments [44] s' = ins_col (segments [44] [97, 44, 98, 10]) 2 (([44] : List Nat).headD 0)) ∧
    (icol_f (Buf.ofList MAX_ROW [97, 44, 98, 10]) 2 [44]).bind (fun r => cstr r.1)
      = some [97, 44, 44, 98, 10] :=
  ⟨icol_f_columns [44] ⟨by decide, by decide⟩ (Buf.ofList MAX_ROW [97, 44, 98, 10])
    [97, 44, 98, 10] (holds_ofList MAX_ROW _ (by decide) (by decide)) rfl
    ⟨[97, 44, 98], rfl, by decide⟩ 2 (by decide) (by decide) (by decide), by decide⟩

/-- C4.  In the command loop of the data pipeline: (1) a selection command
whose arguments pass the check sets `selected` to what it returns on the row,
`rows_f`, `beginswith_f` or `contains_f`, whatever `selected` was before;
(2) commands that are not selection commands hand `selected` on unchanged, so
the commands behind them run with it; (3) a data command whose column
arguments pass the checks is skipped when `selected` is 0 and otherwise runs
its function on the row; (4) the pipeline starts the command loop of every row
with `selected` 1: on an input of valid lines with `nc` columns each, it prints
for every row what the command loop started with `selected` 1 leaves.  Hence
(5) a data command `d` behind the commands `pre`, a selection command `a` and
commands `mid` without a selection command is skipped or run according to what
`a` returned, whatever `selected` the commands `pre` left; and (6) a data
command `d` behind commands `mid` without a selection command, at the start of
the loop, is run. -/
theorem selected_is_last_selection (strtod : List Nat → Dbl × List Nat) (cell : Buf)
    {delim : List Nat} (hd : DelimOk delim) :
    (∀ (n_row no_cols last_line : Int) (a : user_args_t) (rest : List user_args_t) (row : Buf)
      (s : Int), IS_SELECTION a.cmd_num = true → selection_args_ok no_cols a = true →
      data_commands_loop strtod cell delim n_row no_cols last_line (a :: rest) row s
        = (selection_result cell delim n_row last_line a row).bind fun v =>
            data_commands_loop strtod cell delim n_row no_cols last_line rest row v) ∧
    (∀ (n_row no_cols last_line : Int) (mid rest : List user_args_t) (row : Buf) (s : Int)
      (r : Int × Buf × Int), (∀ b ∈ mid, IS_SELECTION b.cmd_num = false) →
      data_commands_loop strtod cell delim n_row no_cols last_line mid row s = some r →
      r.1 ≠ 0 →
      r.2.2 = s ∧
        data_commands_loop strtod cell delim n_row no_cols last_line (mid ++ rest) row s
          = data_commands_loop strtod cell delim n_row no_cols last_line rest r.2.1 s) ∧
    (∀ (n_row no_cols last_line : Int) (d : user_args_t) (rest : List user_args_t) (row : Buf)
      (s : Int), IS_DATA d.cmd_num = true → data_args_ok no_cols d = true →
      data_commands_loop strtod cell delim n_row no_cols last_line (d :: rest) row s
        = if s = 0 then
            data_commands_loop strtod cell delim n_row no_cols last_line rest row s
          else (data_result strtod delim d row).bind fun r =>
            if r.2 = 0 then some (0, r.1, s)
            else data_commands_loop strtod cell delim n_row no_cols last_line rest r.1 s) ∧
    (∀ (user_args : List user_args_t) (lines outs : List (List Nat)) (nc : Int)
      (row next : Buf), row.size = MAX_ROW → next.size = MAX_ROW →
      (∀ l ∈ lines, ValidLine l) →
      (∀ l ∈ lines, get_no_cols (Buf.ofList MAX_ROW l) delim = nc) →
      outs.length = lines.length →
      (∀ (i : Nat) (row : Buf), i < lines.length →
        Holds row (canon delim (lines.getD i [])) → row.size = MAX_ROW →
        ∃ row' v, data_commands_loop strtod cell delim ((i : Int) + 1) nc
            (if i + 1 = lines.length then 1 else 0) user_args row 1 = some (1, row', v) ∧
          Holds row' (outs.getD i []) ∧ row'.size = MAX_ROW) →
      (process_data_commands strtod cell user_args delim row next (cat_lines lines)).map
          (fun r => (r.1, r.2.1)) = some (1, cat_lines outs)) ∧
    (∀ (n_row no_cols last_line : Int) (pre : List user_args_t) (a : user_args_t)
      (mid : List user_args_t) (d : user_args_t) (rest : List user_args_t) (row : Buf)
      (r1 r2 : Int × Buf × Int) (v : Int),
      data_commands_loop strtod cell delim n_row no_cols last_line pre row 1 = some r1 →
      r1.1 ≠ 0 → IS_SELECTION a.cmd_num = true → selection_args_ok no_cols a = true →
      selection_result cell delim n_row last_line a r1.2.1 = some v →
      (∀ b ∈ mid, IS_SELECTION b.cmd_num = false) →
      data_commands_loop strtod cell delim n_row no_cols last_line mid r1.2.1 v = some r2 →
      r2.1 ≠ 0 → IS_DATA d.cmd_num = true → data_args_ok no_cols d = true →
      data_commands_loop strtod cell delim n_row no_cols last_line
          (pre ++ a :: (mid ++ d :: rest)) row 1
        = if v = 0 then
            data_commands_loop strtod cell delim n_row no_cols last_line rest r2.2.1 v
          else (data_result strtod delim d r2.2.1).bind fun r =>
            if r.2 = 0 then some (0, r.1, v)
            else data_commands_loop strtod cell delim n_row no_cols last_line rest r.1 v) ∧
    (∀ (n_row no_cols last_line : Int) (mid : List user_args_t) (d : user_args_t)
      (rest : List user_args_t) (row : Buf) (r2 : Int × Buf × Int),
      (∀ b ∈ mid, IS_SELECTION b.cmd_num = false) →
      data_commands_loop strtod cell delim n_row no_cols last_line mid row 1 = some r2 →
      r2.1 ≠ 0 → IS_DATA d.cmd_num = true → data_args_ok no_cols d = true →
      data_commands_loop strtod cell delim n_row no_cols last_line (mid ++ d :: rest) row 1
        = (data_result strtod delim d r2.2.1).bind fun r =>
            if r.2 = 0 then some (0, r.1, 1)
            else data_commands_loop strtod cell delim n_row no_cols last_line rest r.1 1) := by
  refine ⟨?_, ?_, ?_, ?_, ?_, ?_⟩
  · intro n_row no_cols last_line a rest row s ha hok
    exact data_commands_loop_selection_step strtod cell delim n_row no_cols last_line a rest row
      s ha hok
  · intro n_row no_cols last_line mid rest row s r hmid h2 hr
    have hp := data_commands_loop_selected strtod cell delim n_row no_cols last_line mid hmid _ _
      _ h2
    refine ⟨hp, ?_⟩
    rw [data_commands_loop_append, h2, Option.some_bind, if_neg hr, hp]
  · intro n_row no_cols last_line d rest row s hdata hok
    exact data_commands_loop_data_step strtod cell delim n_row no_cols last_line d rest row s
      hdata hok
  · intro user_args lines outs nc row next hrs hns hv hnc houts hcmd
    exact process_data_commands_run strtod cell user_args hd lines outs nc row next hrs hns hv
      hnc houts hcmd
  · intro n_row no_cols last_line pre a mid d rest row r1 r2 v h1 hr1 ha hok hv hmid h2 hr2
      hdata hdok
    have hp := data_commands_loop_selected strtod cell delim n_row no_cols last_line mid hmid _ _
      _ h2
    rw [data_commands_loop_append, h1, Option.some_bind, if_neg hr1,
      data_commands_loop_selection_step strtod cell delim n_row no_cols last_line a _ _ _ ha hok,
      hv, Option.some_bind, data_commands_loop_append, h2, Option.some_bind, if_neg hr2, hp,
      data_commands_loop_data_step strtod cell delim n_row no_cols last_line d rest _ _ hdata
        hdok]
  · intro n_row no_cols last_line mid d rest row r2 hmid h2 hr2 hdata hdok
    have hp := data_commands_loop_selected strtod cell delim n_row no_cols last_line mid hmid _ _
      _ h2
    rw [data_commands_loop_append, h2, Option.some_bind, if_neg hr2, hp,
      data_commands_loop_data_step strtod cell delim n_row no_cols last_line d rest _ _ hdata
        hdok, if_neg (by decide)]

/-- The command `toupper 1` on a row that holds `a,b`, started with `selected`
1, leaves `A,b`. -/
theorem toupper_selected_row (row : Buf) (h : Holds row [97, 44, 98, 10])
    (hs : row.size = MAX_ROW) (n_row last_line : Int) :
    ∃ row' v, data_commands_loop strtod_model (Buf.zero MAX_CELL) [44] n_row 2 last_line
        [{ cmd_num := TOUPPER, num_args0 := 1, num_args1 := 0, str_arg := [], dash1 := 0,
           dash2 := 0 }] row 1 = some (1, row', v) ∧
      Holds row' [65, 44, 98, 10] ∧ row'.size = MAX_ROW := by
  have hd : DelimOk [44] := ⟨by decide, by decide⟩
  have hwf : WfSegs [44] [([97], 44), ([98], 10)] :=
    ⟨by intro x hx; simp only [List.mem_singleton] at hx; subst hx; decide, by decide,
      by intro x hx; simp only [List.mem_singleton] at hx; subst hx; decide, rfl⟩
  have h' : Holds row (flat [([97], 44), ([98], 10)]) := h
  obtain ⟨row', e, hh, hsz, _⟩ := changecase_f_segs hd h' hs hwf 1 (le_refl 1) (by decide)
    (by decide) TOUPPER to_upper (get_column_content_loop_toupper row)
    (fun x hx => by
      have : x = 97 := by simpa [cell] using hx
      subst this
      decide)
  refine ⟨row', 1, ?_, hh, by rw [hsz, hs]⟩
  rw [data_commands_loop_data_step _ _ _ _ _ _ _ _ _ _ (by decide) (by decide),
    if_neg (by decide)]
  have e' : toupper_f row 1 [44] = some row' := by exact_mod_cast e
  simp only [data_result, toupper_f] at e' ⊢
  rw [if_pos trivial, e']
  rfl

/-- Witness of C4.  On row 7, `rows 6 -` in front of `toupper 1` sets
`selected`, which was 0, to what `rows_f` returns; `toupper 1` started with
`selected` 1 runs `toupper_f`; and the pipeline with the command `toupper 1`
alone prints the row `a,b` as `A,b`.  Closed runs: `rows 2 4`, `rows 6 -`,
`toupper 1` on the eight rows `a` to `h` prints the rows 1 to 5 as they are and
the rows 6 to 8 in upper case; `toupper 1` alone on the rows `a` and `b`
prints `A` and `B`; `rows 2 2`, `toupper 1` on these rows prints `a` and `B`. -/
theorem selected_is_last_selection_witness :
    (data_commands_loop strtod_model (Buf.zero MAX_CELL) [44] 7 1 0
        [{ cmd_num := ROWS, num_args0 := 6, num_args1 := 0, str_arg := [45], dash1 := 0,
           dash2 := 1 },
         { cmd_num := TOUPPER, num_args0 := 1, num_args1 := 0, str_arg := [], dash1 := 0,
           dash2 := 0 }] (Buf.ofList MAX_ROW [103, 10]) 0
      = (selection_result (Buf.zero MAX_CELL) [44] 7 0
          { cmd_num := ROWS, num_args0 := 6, num_args1 := 0, str_arg := [45], dash1 := 0,
            dash2 := 1 } (Buf.ofList MAX_ROW [103, 10])).bind fun v =>
            data_commands_loop strtod_model (Buf.zero MAX_CELL) [44] 7 1 0
              [{ cmd_num := TOUPPER, num_args0 := 1, num_args1 := 0, str_arg := [], dash1 := 0,
                 dash2 := 0 }] (Buf.ofList MAX_ROW [103, 10]) v) ∧
    (data_commands_loop strtod_model (Buf.zero MAX_CELL) [44] 7 1 0
        [{ cmd_num := TOUPPER, num_args0 := 1, num_args1 := 0, str_arg := [], dash1 := 0,
           dash2 := 0 }] (Buf.ofList MAX_ROW [103, 10]) 1
      = if (1 : Int) = 0 then
          data_commands_loop strtod_model (Buf.zero MAX_CELL) [44] 7 1 0 []
            (Buf.ofList MAX_ROW [103, 10]) 1
        else (data_result strtod_model [44]
            { cmd_num := TOUPPER, num_args0 := 1, num_args1 := 0, str_arg := [], dash1 := 0,
              dash2 := 0 } (Buf.ofList MAX_ROW [103, 10])).bind fun r =>
          if r.2 = 0 then some (0, r.1, 1)
          else data_commands_loop strtod_model (Buf.zero MAX_CELL) [44] 7 1 0 [] r.1 1) ∧
    (process_data_commands strtod_model (Buf.zero MAX_CELL)
        [{ cmd_num := TOUPPER, num_args0 := 1, num_args1 := 0, str_arg := [], dash1 := 0,
           dash2 := 0 }]
        [44] (Buf.zero MAX_ROW) (Buf.zero MAX_ROW) (cat_lines [[97, 44, 98, 10]])).map
        (fun r => (r.1, r.2.1)) = some (1, cat_lines [[65, 44, 98, 10]]) ∧
    selection_result (Buf.zero MAX_CELL) [44] 7 0
        { cmd_num := ROWS, num_args0 := 6, num_args1 := 0, str_arg := [45], dash1 := 0,
          dash2 := 1 } (Buf.ofList MAX_ROW [103, 10]) = some 1 ∧
    process_data_commands strtod_model (Buf.zero MAX_CELL)
      [{ cmd_num := ROWS, num_args0 := 2, num_args1 := 4, str_arg := [], dash1 := 0, dash2 := 0 },
       { cmd_num := ROWS, num_args0 := 6, num_args1 := 0, str_arg := [45], dash1 := 0,
         dash2 := 1 },
       { cmd_num := TOUPPER, num_args0 := 1, num_args1 := 0, str_arg := [], dash1 := 0,
         dash2 := 0 }]
      [44] (Buf.zero MAX_ROW) (Buf.zero MAX_ROW)
      [97, 10, 98, 10, 99, 10, 100, 10, 101, 10, 102, 10, 103, 10, 104, 10]
      = some (1, [97, 10, 98, 10, 99, 10, 100, 10, 101, 10, 70, 10, 71, 10, 72, 10], false) ∧
    process_data_commands strtod_model (Buf.zero MAX_CELL)
      [{ cmd_num := TOUPPER, num_args0 := 1, num_args1 := 0, str_arg := [], dash1 := 0,
         dash2 := 0 }]
      [44] (Buf.zero MAX_ROW) (Buf.zero MAX_ROW) [97, 10, 98, 10]
      = some (1, [65, 10, 66, 10], false) ∧
    process_data_commands strtod_model (Buf.zero MAX_CELL)
      [{ cmd_num := ROWS, num_args0 := 2, num_args1 := 2, str_arg := [], dash1 := 0, dash2 := 0 },
       { cmd_num := TOUPPER, num_args0 := 1, num_args1 := 0, str_arg := [], dash1 := 0,
         dash2 := 0 }]
      [44] (Buf.zero MAX_ROW) (Buf.zero MAX_ROW) [97, 10, 98, 10]
      = some (1, [97, 10, 66, 10], false) :=
  ⟨(selected_is_last_selection strtod_model (Buf.zero MAX_CELL) ⟨by decide, by decide⟩).1
      7 1 0 _ _ _ 0 (by decide) (by decide),
    (selected_is_last_selection strtod_model (Buf.zero MAX_CELL)
      (⟨by decide, by decide⟩ : DelimOk [44])).2.2.1 7 1 0 _ _ _ 1 (by decide) (by decide),
    (selected_is_last_selection strtod_model (Buf.zero MAX_CELL)
      (⟨by decide, by decide⟩ : DelimOk [44])).2.2.2.1 _ [[97, 44, 98, 10]] [[65, 44, 98, 10]] 2
      (Buf.zero MAX_ROW) (Buf.zero MAX_ROW) rfl rfl
      (by
        intro l hl
        simp only [List.mem_singleton] at hl
        subst hl
        exact ⟨⟨[97, 44, 98], rfl, by decide⟩, by decide, by decide⟩)
      (by
        intro l hl
        simp only [List.mem_singleton] at hl
        subst hl
        decide)
      rfl
      (by
        intro i row hi hrow hsz
        have hi0 : i = 0 := by
          simp only [List.length_singleton] at hi
          omega
        subst hi0
        exact toupper_selected_row row hrow hsz _ _),
    by decide, by decide, by decide, by decide⟩

/-- C5.  When the command types count at least one structural command and at
least one data or selection command, `handle_commands` returns 0 whatever the
input is and prints nothing: it calls none of the pipelines.  Each of the
command numbers 0 to 18 is of exactly one of the three types. -/
theorem handle_commands_mixed (strtod : List Nat → Dbl × List Nat) (cell : Buf)
    (cmd_types : cmd_types_t) (user_args : List user_args_t) (delim : List Nat)
    (row next : Buf) (no_cols : Int) (inp : List Nat)
    (hmod : 0 < cmd_types.mod) (hmix : 0 < cmd_types.data ∨ 0 < cmd_types.selection) :
    handle_commands strtod cell cmd_types user_args delim row next no_cols inp
        = some (0, [], false) ∧
    ∀ c : Int, 0 ≤ c → c ≤ 18 →
      (IS_MOD c = true ∧ IS_DATA c = false ∧ IS_SELECTION c = false) ∨
      (IS_MOD c = false ∧ IS_DATA c = true ∧ IS_SELECTION c = false) ∨
      (IS_MOD c = false ∧ IS_DATA c = false ∧ IS_SELECTION c = true) := by
  constructor
  · unfold handle_commands
    rw [if_pos]
    refine ⟨by omega, ?_⟩
    rcases hmix with h | h
    · exact Or.inl (by omega)
    · exact Or.inr (by omega)
  · intro c h0 h18
    simp only [IS_MOD, IS_DATA, IS_SELECTION, decide_eq_true_eq, decide_eq_false_iff_not]
    omega

/-- Witness of C5: the commands `drow 1` and `cset 1 z`, counted as in `main`,
on the input `a,b`. -/
theorem handle_commands_mixed_witness :
    handle_commands strtod_model (Buf.zero MAX_CELL)
        (count_cmd_types
          [{ cmd_num := DROW, num_args0 := 1, num_args1 := 0, str_arg := [], dash1 := 0,
             dash2 := 0 },
           { cmd_num := CSET, num_args0 := 1, num_args1 := 0, str_arg := [122], dash1 := 0,
             dash2 := 0 }]
          { mod := 0, data := 0, selection := 0 })
        [{ cmd_num := DROW, num_args0 := 1, num_args1 := 0, str_arg := [], dash1 := 0,
           dash2 := 0 },
         { cmd_num := CSET, num_args0 := 1, num_args1 := 0, str_arg := [122], dash1 := 0,
           dash2 := 0 }]
        [44] (Buf.zero MAX_ROW) (Buf.zero MAX_ROW) 0 [97, 44, 98, 10]
        = some (0, [], false) ∧
    ∀ c : Int, 0 ≤ c → c ≤ 18 →
      (IS_MOD c = true ∧ IS_DATA c = false ∧ IS_SELECTION c = false) ∨
      (IS_MOD c = false ∧ IS_DATA c = true ∧ IS_SELECTION c = false) ∨
      (IS_MOD c = false ∧ IS_DATA c = false ∧ IS_SELECTION c = true) :=
  handle_commands_mixed strtod_model (Buf.zero MAX_CELL) _ _ [44] (Buf.zero MAX_ROW)
    (Buf.zero MAX_ROW) 0 [97, 44, 98, 10] (by decide) (by decide)

/-- On the input of the row `a` followed by a line `t` of `MAX_ROW` bytes or
more: without commands and in the structural pipeline the row `a` is printed
before the run fails; in the data pipeline the run fails and nothing is
printed. -/
theorem too_long_next_line (t : List Nat) (hlen : MAX_ROW ≤ t.length)
    (hno : ∀ x ∈ t, x ≠ 10 ∧ x ≠ 255) (cell : Buf) (user_args : List user_args_t) :
    (handle_no_commands [44] (Buf.zero MAX_ROW) 0 ([97, 10] ++ t)).map (fun r => (r.1, r.2.1))
      = some (0, [97, 10]) ∧
    (process_mod_commands
      [{ cmd_num := DROW, num_args0 := 5, num_args1 := 0, str_arg := [], dash1 := 0, dash2 := 0 }]
      [44] (Buf.zero MAX_ROW) ([97, 10] ++ t)).map (fun r => (r.1, r.2.1)) = some (0, [97, 10]) ∧
    (process_data_commands strtod_model cell user_args [44] (Buf.zero MAX_ROW)
      (Buf.zero MAX_ROW) ([97, 10] ++ t)).map (fun r => (r.1, r.2.1)) = some (0, []) := by
  have hd : DelimOk [44] := ⟨by decide, by decide⟩
  have hv : ValidLine [97, 10] := ⟨⟨[97], rfl, by decide⟩, by decide, by decide⟩
  obtain ⟨row0, el, h0, hs0, _⟩ := load_line_spec hd (Buf.zero MAX_ROW) rfl [97, 10] t hv
  have hc : canon [44] [97, 10] = [97, 10] := by decide
  rw [hc] at h0
  have hlong : ∀ r : Buf, (load_line r [44] t).2.1 = TOO_LONG :=
    fun r => load_line_too_long [44] r t hlen hno
  have hpe : ∀ (r : Buf) (n : Int), process_error_handling r [44] n TOO_LONG = 0 := by
    intro r n
    simp [process_error_handling]
  have hf : ([97, 10] ++ t).length + 1 = (t.length + 1) + 1 + 1 := by
    simp only [List.length_append, List.length_cons, List.length_nil]
    omega
  have h2 : ((([97, 10] : List Nat).length : Nat) : Int) ≠ 0 := by decide
  have hpe1 : process_error_handling row0 [44] (get_no_cols row0 [44])
      ((([97, 10] : List Nat).length : Nat) : Int) ≠ 0 := by
    unfold process_error_handling
    rw [if_neg (by decide), if_neg (by simp)]
    decide
  have hTL : TOO_LONG ≠ 0 := by decide
  refine ⟨?_, ?_, ?_⟩
  · unfold handle_no_commands
    rw [hf, no_commands_loop]
    simp only [el, if_pos h2, Bool.false_eq_true, if_false, if_neg hpe1, printf_s,
      cstr_of_holds h0, Option.some_bind]
    rw [no_commands_loop]
    simp only [hlong, if_pos hTL, hpe, if_true, Option.map_some', List.nil_append]
  · unfold process_mod_commands
    rw [hf, process_mod_loop]
    simp only [el, if_pos h2, Bool.false_eq_true, if_false, if_neg hpe1]
    have hm : ∀ (nc nca : Int) (out : List Nat),
        mod_commands_loop [44] (0 + 1) nc nca
          [{ cmd_num := DROW, num_args0 := 5, num_args1 := 0, str_arg := [], dash1 := 0,
             dash2 := 0 }] row0 out = some (1, row0, out) := by
      intro nc nca out
      simp [mod_commands_loop, DROW, IROW, row_arg_check]
    rw [hm]
    simp only [Option.some_bind, one_ne_zero, if_false, printf_s, cstr_of_holds h0]
    rw [process_mod_loop]
    simp only [hlong, if_pos hTL, hpe, if_true, Option.map_some', List.nil_append]
  · obtain ⟨row1, e1, _, _, _⟩ := strcpy_spec h0 (Buf.zero MAX_ROW) (by decide)
    unfold process_data_commands
    rw [hf, process_data_loop]
    simp only [el, if_pos h2, e1, Option.some_bind, hlong, hpe, if_true, Option.map_some']

/-- C6 (code bug).  The input is the row `a` followed by a line of `MAX_ROW`
bytes `x`, which is too long.  Without commands, and in the structural pipeline
with the command `drow 5`, the row `a` is printed and then the run fails.  In
the data pipeline, here with the command `toupper 1`, the run fails and
nothing is printed: the too long line is found when it is read ahead into
`next`, before the row `a` is processed and printed. -/
theorem data_pipeline_drops_row_before_long_line :
    (handle_no_commands [44] (Buf.zero MAX_ROW) 0
      ([97, 10] ++ List.replicate 10240 120)).map (fun r => (r.1, r.2.1))
      = some (0, [97, 10]) ∧
    (process_mod_commands
      [{ cmd_num := DROW, num_args0 := 5, num_args1 := 0, str_arg := [], dash1 := 0, dash2 := 0 }]
      [44] (Buf.zero MAX_ROW) ([97, 10] ++ List.replicate 10240 120)).map
      (fun r => (r.1, r.2.1)) = some (0, [97, 10]) ∧
    (process_data_commands strtod_model (Buf.zero MAX_CELL)
      [{ cmd_num := TOUPPER, num_args0 := 1, num_args1 := 0, str_arg := [], dash1 := 0,
         dash2 := 0 }]
      [44] (Buf.zero MAX_ROW) (Buf.zero MAX_ROW) ([97, 10] ++ List.replicate 10240 120)).map
      (fun r => (r.1, r.2.1)) = some (0, []) :=
  too_long_next_line (List.replicate 10240 120) (by rw [List.length_replicate]; decide)
    (fun x hx => by rw [List.eq_of_mem_replicate hx]; decide) _ _

/-- A valid line `l` that is followed by a line `t` of `MAX_ROW` bytes or more
is not printed by the data pipeline: the run fails with nothing printed. -/
theorem data_pipeline_long_next_line (strtod : List Nat → Dbl × List Nat) (cell : Buf)
    (user_args : List user_args_t) {delim : List Nat} (hd : DelimOk delim) (row next : Buf)
    (hrs : row.size = MAX_ROW) (hns : next.size = MAX_ROW) (l t : List Nat) (hv : ValidLine l)
    (hlen : MAX_ROW ≤ t.length) (hno : ∀ x ∈ t, x ≠ 10 ∧ x ≠ 255) :
    (process_data_commands strtod cell user_args delim row next (l ++ t)).map
      (fun r => (r.1, r.2.1)) = some (0, []) := by
  have hM : MAX_ROW = 10240 := rfl
  obtain ⟨row0, el, h0, hs0, _⟩ := load_line_spec hd next hns l t hv
  have hlpos : 0 < l.length := by
    obtain ⟨⟨body, rfl, _⟩, _⟩ := hv
    simp
  have h2 : ((l.length : Nat) : Int) ≠ 0 := by omega
  have hfit : (canon delim l).length < row.size := by
    rw [canon_length, hrs]
    have := hv.2.1
    omega
  obtain ⟨row1, e1, _, _, _⟩ := strcpy_spec h0 row hfit
  have hlong : ∀ r : Buf, (load_line r delim t).2.1 = TOO_LONG :=
    fun r => load_line_too_long delim r t hlen hno
  have hpe : ∀ (r : Buf) (n : Int), process_error_handling r delim n TOO_LONG = 0 := by
    intro r n
    simp [process_error_handling]
  have hf : (l ++ t).length + 1 = (l.length + t.length) + 1 := by
    rw [List.length_append]
  unfold process_data_commands
  rw [hf, process_data_loop]
  simp only [el, if_pos h2, e1, Option.some_bind, hlong, hpe, if_true, Option.map_some']

/-- C7 (code bug).  With the delimiter `,` and the command `toupper 1`, the
data pipeline turns the input of the one row `a,b` into `A,b`: the row is
valid.  On the input of that row followed by a line of `MAX_ROW` bytes `x`,
the run fails and nothing is printed: the valid row `a,b` is not emitted,
because the too long line is found when it is read ahead, before the row in
front of it is processed and printed. -/
theorem data_pipeline_loses_valid_row :
    (process_data_commands strtod_model (Buf.zero MAX_CELL)
      [{ cmd_num := TOUPPER, num_args0 := 1, num_args1 := 0, str_arg := [], dash1 := 0,
         dash2 := 0 }]
      [44] (Buf.zero MAX_ROW) (Buf.zero MAX_ROW) [97, 44, 98, 10]).map (fun r => (r.1, r.2.1))
      = some (1, [65, 44, 98, 10]) ∧
    (process_data_commands strtod_model (Buf.zero MAX_CELL)
      [{ cmd_num := TOUPPER, num_args0 := 1, num_args1 := 0, str_arg := [], dash1 := 0,
         dash2 := 0 }]
      [44] (Buf.zero MAX_ROW) (Buf.zero MAX_ROW)
      ([97, 44, 98, 10] ++ List.replicate 10240 120)).map (fun r => (r.1, r.2.1))
      = some (0, []) :=
  ⟨by decide,
    data_pipeline_long_next_line strtod_model (Buf.zero MAX_CELL) _ ⟨by decide, by decide⟩
      (Buf.zero MAX_ROW) (Buf.zero MAX_ROW) rfl rfl [97, 44, 98, 10] (List.replicate 10240 120)
      ⟨⟨[97, 44, 98], rfl, by decide⟩, by decide, by decide⟩
      (by rw [List.length_replicate]; decide)
      (fun x hx => by rw [List.eq_of_mem_replicate hx]; decide)⟩

/-- C8 (amended).  Take a line of `n` columns held in the row array, a column
number `k` between 1 and `n`, and a string `str` shorter than `MAX_CELL` that
holds no NUL, no newline and no delimiter, such that the lengths of the row
and of `str` together are below `MAX_ROW - 1`.  Then `cset_f` succeeds, and
reading column `k` of its result, with the bounds that `find_column_start` and
`find_column_end` give, into a zeroed array of `MAX_CELL` bytes gives `str`;
the other columns are as they were, and no write leaves either array. -/
theorem cset_f_then_read (delim : List Nat) (hd : DelimOk delim) (row : Buf) (s : List Nat)
    (h : Holds row s) (hsize : row.size = MAX_ROW) (hnl : NewlineTerminated s) (k : Nat)
    (hk1 : 1 ≤ k) (hk : k ≤ (columns delim s).length) (str : List Nat)
    (hstr : CellOk delim str) (hcell : str.length < MAX_CELL)
    (hlen : s.length + str.length + 1 < MAX_ROW) :
    ∃ r1 col_end s1, cset_f row (k : Int) str delim = some (r1, 1) ∧
      find_column_end r1 delim (find_column_start r1 delim (k : Int)) 1 = some col_end ∧
      cstr (get_column_content r1 (find_column_start r1 delim (k : Int)) col_end
        (Buf.zero MAX_CELL) NO_CONVERSION) = some str ∧
      (get_column_content r1 (find_column_start r1 delim (k : Int)) col_end
        (Buf.zero MAX_CELL) NO_CONVERSION).oob = false ∧
      Holds r1 s1 ∧ r1.oob = row.oob ∧
      columns delim s1 = (columns delim s).set (k - 1) str := by
  obtain ⟨hfl, hwf⟩ := @segments_spec delim s hnl
  have h' : Holds row (flat (segments delim s)) := by rw [hfl]; exact h
  have hlen' : (columns delim s).length = (segments delim s).length := by
    unfold columns; rw [List.length_map]
  rw [hlen'] at hk
  obtain ⟨r1, e1, h1, hs1, ho1, hwf1, hl1⟩ := cset_f_segs hd h' hsize hwf k hk1 hk str hstr
    (by rw [hfl]; exact hlen)
  obtain ⟨ce, he, _, _, hcont⟩ := read_cell hd h1 (by rw [hs1, hsize]) hwf1 k hk1
    (by rw [hl1]; exact hk)
  have hc := cell_set_col (segments delim s) k hk1 hk str
  rw [hc] at hcont
  obtain ⟨hcs, hco⟩ := hcont hcell
  refine ⟨r1, ce, _, e1, he, hcs, hco, h1, ho1, ?_⟩
  unfold columns
  rw [segments_flat hwf1, set_col_eq_set _ _ hk1 hk, List.map_set]

/-- Witness of C8 (amended): `cset 2 xyz` on the row `a,b`. -/
theorem cset_f_then_read_witness :
    ∃ r1 col_end s1, cset_f (Buf.ofList MAX_ROW [97, 44, 98, 10]) ((2 : Nat) : Int)
        [120, 121, 122] [44] = some (r1, 1) ∧
      find_column_end r1 [44] (find_column_start r1 [44] ((2 : Nat) : Int)) 1 = some col_end ∧
      cstr (get_column_content r1 (find_column_start r1 [44] ((2 : Nat) : Int)) col_end
        (Buf.zero MAX_CELL) NO_CONVERSION) = some [120, 121, 122] ∧
      (get_column_content r1 (find_column_start r1 [44] ((2 : Nat) : Int)) col_end
        (Buf.zero MAX_CELL) NO_CONVERSION).oob = false ∧
      Holds r1 s1 ∧ r1.oob = (Buf.ofList MAX_ROW [97, 44, 98, 10]).oob ∧
      columns [44] s1 = (columns [44] [97, 44, 98, 10]).set (2 - 1) [120, 121, 122] :=
  cset_f_then_read [44] ⟨by decide, by decide⟩ (Buf.ofList MAX_ROW [97, 44, 98, 10])
    [97, 44, 98, 10] (holds_ofList MAX_ROW _ (by decide) (by decide)) rfl
    ⟨[97, 44, 98], rfl, by decide⟩ 2 (by decide) (by decide) [120, 121, 122]
    (by
      intro x hx
      simp only [List.mem_cons, List.mem_singleton, List.not_mem_nil, or_false] at hx
      rcases hx with hx | hx | hx <;> subst hx <;> decide)
    (by decide) (by decide)

/-- Counterexample to C8 as stated.  With the delimiter `,`, `cset_f` on column
1 of the row `x,y` with the string `a,b` succeeds and leaves `a,b,y`, whose
column 1 reads `a`, not `a,b`.  And on a line of 10238 bytes with one column,
`cset_f` with the string `b` returns 0, although the row would get shorter. -/
theorem cset_f_counterexample :
    ((cset_f (Buf.ofList MAX_ROW [120, 44, 121, 10]) 1 [97, 44, 98] [44]).bind fun r =>
      (cstr r.1).map fun t => (t, r.2)) = some ([97, 44, 98, 44, 121, 10], 1) ∧
    ((cset_f (Buf.ofList MAX_ROW [120, 44, 121, 10]) 1 [97, 44, 98] [44]).bind fun r =>
      (find_column_end r.1 [44] (find_column_start r.1 [44] 1) 1).bind fun e =>
        cstr (get_column_content r.1 (find_column_start r.1 [44] 1) e (Buf.zero MAX_CELL)
          NO_CONVERSION)) = some [97] ∧
    cset_f (Buf.ofList MAX_ROW (List.replicate 10237 97 ++ [10])) 1 [98] [44]
      = some (Buf.ofList MAX_ROW (List.replicate 10237 97 ++ [10]), 0) := by
  refine ⟨by decide, by decide, ?_⟩
  have hM : MAX_ROW = 10240 := rfl
  have hl : (List.replicate 10237 97 ++ [10]).length = 10238 := by
    rw [List.length_append, List.length_replicate]
    rfl
  have hh : Holds (Buf.ofList MAX_ROW (List.replicate 10237 97 ++ [10]))
      (List.replicate 10237 97 ++ [10]) := by
    apply holds_ofList
    · intro c hc
      rw [List.mem_append, List.mem_singleton] at hc
      rcases hc with hc | hc
      · rw [List.eq_of_mem_replicate hc]
        decide
      · omega
    · rw [hl, hM]
      decide
  simp only [cset_f, strlen_of_holds hh, Option.some_bind, hl]
  rfl

/-- C9 (amended).  For a line `s` of `n` columns held in the row array, shorter
than `MAX_ROW - 1` bytes, and a column number `k` between 2 and `n`, `icol_f`
on column `k` succeeds and `dcols_f` on the columns `k` to `k` of its result
leaves a line with the columns of `s`, and no write leaves the row array.
The bytes are those of `s` when every delimiter byte of `s` is the first
delimiter. -/
theorem icol_dcols_inverse (delim : List Nat) (hd : DelimOk delim) (row : Buf) (s : List Nat)
    (h : Holds row s) (hsize : row.size = MAX_ROW) (hnl : NewlineTerminated s) (k : Nat)
    (hk2 : 2 ≤ k) (hk : k ≤ (columns delim s).length) (hlen : s.length < MAX_ROW - 1) :
    ∃ r1 r2 s2, icol_f row (k : Int) delim = some (r1, 1) ∧
      dcols_f r1 (k : Int) (k : Int) delim = some r2 ∧
      Holds r2 s2 ∧ r2.size = MAX_ROW ∧ NewlineTerminated s2 ∧
      columns delim s2 = columns delim s ∧
      ((∀ x ∈ s, is_delim x delim = true → x = delim.headD 0) → s2 = s) ∧
      r2.oob = row.oob := by
  have hk1 : 1 ≤ k := by omega
  obtain ⟨hfl, hwf⟩ := @segments_spec delim s hnl
  have h' : Holds row (flat (segments delim s)) := by rw [hfl]; exact h
  have hlen' : (columns delim s).length = (segments delim s).length := by
    unfold columns; rw [List.length_map]
  rw [hlen'] at hk
  have hM : MAX_ROW = 10240 := rfl
  obtain ⟨r1, e1, h1, hs1, ho1, hwf1, hl1, _⟩ := icol_f_segs hd h' hsize hwf k hk1 hk
    (by rw [hfl]; omega)
  have hsz1 : r1.size = MAX_ROW := by rw [hs1, hsize]
  obtain ⟨r2, segs', e2, h2, hs2, hwf2, hmap, _, _, hoob, hsegs⟩ :=
    dcols_f_spec hd h1 hsz1 hwf1 k k hk1 (le_refl k) (by rw [hl1]; omega) (by rw [hl1]; omega)
  have hcols : columns delim (flat segs') = columns delim s := by
    unfold columns
    rw [segments_flat hwf2, hmap]
    have : (ins_col (segments delim s) k (delim.headD 0)).map Prod.fst
        = ((segments delim s).map Prod.fst).take (k - 1)
          ++ [] :: ((segments delim s).map Prod.fst).drop (k - 1) := by
      simp [ins_col, List.map_take, List.map_drop]
    rw [this]
    exact move_cols_eq _ _ k hk1 (by rw [List.length_map]; exact hk)
  refine ⟨r1, r2, flat segs', e1, e2, h2, by rw [hs2, hsz1], newlineTerminated_flat hd hwf2,
    hcols, ?_, ?_⟩
  · intro hcanon
    have := del_cols_self hwf k hk1 hk [] (by rw [hfl]; exact hcanon)
    rw [hsegs]
    unfold ins_col
    rw [this, hfl]
  · rw [← ho1]
    apply hoob
    rintro ⟨hb, _⟩
    omega

/-- Witness of C9 (amended): `icol_f` and `dcols_f` on column 2 of the row `a,b`. -/
theorem icol_dcols_inverse_witness :
    ∃ r1 r2 s2, icol_f (Buf.ofList MAX_ROW [97, 44, 98, 10]) ((2 : Nat) : Int) [44]
        = some (r1, 1) ∧
      dcols_f r1 ((2 : Nat) : Int) ((2 : Nat) : Int) [44] = some r2 ∧
      Holds r2 s2 ∧ r2.size = MAX_ROW ∧ NewlineTerminated s2 ∧
      columns [44] s2 = columns [44] [97, 44, 98, 10] ∧
      ((∀ x ∈ [97, 44, 98, 10], is_delim x [44] = true → x = ([44] : List Nat).headD 0) →
        s2 = [97, 44, 98, 10]) ∧
      r2.oob = (Buf.ofList MAX_ROW [97, 44, 98, 10]).oob :=
  icol_dcols_inverse [44] ⟨by decide, by decide⟩ (Buf.ofList MAX_ROW [97, 44, 98, 10])
    [97, 44, 98, 10] (holds_ofList MAX_ROW _ (by decide) (by decide)) rfl
    ⟨[97, 44, 98], rfl, by decide⟩ 2 (by decide) (by decide) (by decide)

/-- Counterexample to C9 as stated.  With the delimiters `,` and `:`, the row
`a:b` has 2 columns; `icol_f` on column 2 gives `a:,b`, and `dcols_f` on
column 2 of that gives `a,b`, not `a:b`; no write leaves the row array. -/
theorem icol_dcols_counterexample :
    get_no_cols (Buf.ofList MAX_ROW [97, 58, 98, 10]) [44, 58] = 2 ∧
    ((icol_f (Buf.ofList MAX_ROW [97, 58, 98, 10]) 2 [44, 58]).bind fun r =>
      (cstr r.1).map fun t => (t, r.2, r.1.oob)) = some ([97, 58, 44, 98, 10], 1, false) ∧
    ((icol_f (Buf.ofList MAX_ROW [97, 58, 98, 10]) 2 [44, 58]).bind fun r =>
      (dcols_f r.1 2 2 [44, 58]).bind fun r2 => (cstr r2).map fun t => (t, r2.oob))
      = some ([97, 44, 98, 10], false) := by
  refine ⟨by decide, by decide, by decide⟩

/-- On the row of the cells `aa`, `b` and the cells `tail`, 10239 bytes long,
`copy_f` from column 1 to column 2 returns 1 and a write has left the row
array. -/
theorem copy_f_full_row (tail : List Seg) (hwt : WfSegs [44] tail)
    (hlen : (flat tail).length = 10234) :
    ∃ r, copy_f (Buf.ofList MAX_ROW (flat (([97, 97], 44) :: ([98], 44) :: tail))) 1 2 [44]
        = some (r, 1) ∧ r.oob = true := by
  have hd : DelimOk [44] := ⟨by decide, by decide⟩
  have hM : MAX_ROW = 10240 := rfl
  have hC : MAX_CELL = 100 := rfl
  have hca : CellOk [44] [97, 97] := by
    intro x hx
    simp only [List.mem_cons, List.mem_singleton, List.not_mem_nil, or_false, or_self] at hx
    subst hx
    decide
  have hcb : CellOk [44] [98] := by
    intro x hx
    simp only [List.mem_singleton] at hx
    subst hx
    decide
  have hwf : WfSegs [44] (([97, 97], 44) :: ([98], 44) :: tail) :=
    (hwt.cons_delim hcb (by decide)).cons_delim hca (by decide)
  have hfl : (flat (([97, 97], 44) :: ([98], 44) :: tail)).length = 10239 := by
    simp only [flat_cons, List.length_append, List.length_cons, List.length_nil, hlen]
  have h0 : Holds (Buf.ofList MAX_ROW (flat (([97, 97], 44) :: ([98], 44) :: tail)))
      (flat (([97, 97], 44) :: ([98], 44) :: tail)) :=
    holds_ofList MAX_ROW _ (holds_flat_nz hd hwf) (by rw [hfl, hM]; decide)
  have hl2 : 2 ≤ (([97, 97], 44) :: ([98], 44) :: tail : List Seg).length := by
    simp only [List.length_cons]
    omega
  have hc1 : cell (([97, 97], 44) :: ([98], 44) :: tail) 1 = [97, 97] := rfl
  have hc2 : cell (([97, 97], 44) :: ([98], 44) :: tail) 2 = [98] := rfl
  obtain ⟨_, _, hedge⟩ := copy_f_segs hd h0 rfl hwf 1 2 (by decide) (by omega) (by decide)
    hl2 (by rw [hc1, hC]; decide)
  obtain ⟨r, er, hor⟩ := hedge (by
    rw [hfl, hc1, hc2, hM]
    rfl)
  exact ⟨r, by exact_mod_cast er, hor⟩

/-- C10 (code bug).  On the row `a,b`, `copy_f` from column 1 to column 2
succeeds and leaves `a,a`.  The row of the cells `aa`, `b` and 5117 cells `c`
is a well formed line of 10239 bytes with cells shorter than `MAX_CELL`;
`copy_f` from column 1 to column 2 returns 1 on it, but the row has become
`MAX_ROW` bytes long and a write has left the row array: `row_shift_right`
stored the NUL at index `MAX_ROW`. -/
theorem copy_f_writes_behind_array :
    ((copy_f (Buf.ofList MAX_ROW [97, 44, 98, 10]) 1 2 [44]).bind fun r =>
      (cstr r.1).map fun t => (t, r.2, r.1.oob)) = some ([97, 44, 97, 10], 1, false) ∧
    WfSegs [44]
      (([97, 97], 44) :: ([98], 44) :: (List.replicate 5116 (([99], 44) : Seg) ++ [([99], 10)])) ∧
    (∀ sg ∈ (([97, 97], 44) :: ([98], 44) ::
        (List.replicate 5116 (([99], 44) : Seg) ++ [([99], 10)]) : List Seg),
      sg.1.length < MAX_CELL) ∧
    (flat (([97, 97], 44) :: ([98], 44) ::
        (List.replicate 5116 (([99], 44) : Seg) ++ [([99], 10)]))).length + 1 = MAX_ROW ∧
    ∃ r, copy_f (Buf.ofList MAX_ROW (flat (([97, 97], 44) :: ([98], 44) ::
        (List.replicate 5116 (([99], 44) : Seg) ++ [([99], 10)])))) 1 2 [44] = some (r, 1) ∧
      r.oob = true := by
  have hc : CellOk [44] [99] := by
    intro x hx
    simp only [List.mem_singleton] at hx
    subst hx
    decide
  have hca : CellOk [44] [97, 97] := by
    intro x hx
    simp only [List.mem_cons, List.mem_singleton, List.not_mem_nil, or_false, or_self] at hx
    subst hx
    decide
  have hcb : CellOk [44] [98] := by
    intro x hx
    simp only [List.mem_singleton] at hx
    subst hx
    decide
  have hwt : WfSegs [44] (List.replicate 5116 (([99], 44) : Seg) ++ [([99], 10)]) :=
    wf_filler hc (by decide) hc 5116
  have hlt : (flat (List.replicate 5116 (([99], 44) : Seg) ++ [([99], 10)])).length
      = 10234 := by
    rw [length_flat_filler]
    rfl
  refine ⟨by decide, (hwt.cons_delim hcb (by decide)).cons_delim hca (by decide), ?_, ?_,
    copy_f_full_row _ hwt hlt⟩
  · intro sg hsg
    rw [List.mem_cons, List.mem_cons] at hsg
    rcases hsg with hsg | hsg | hsg
    · subst hsg
      decide
    · subst hsg
      decide
    · rcases mem_filler hsg with hsg | hsg <;> subst hsg <;> decide
  · simp only [flat_cons, List.length_append, List.length_cons, List.length_nil, hlt]
    rfl

/-- The row `aaaa,b,t` with a last cell `t` of 10230 bytes is 10238 bytes long;
`swap_f` on its columns 1 and 2 leaves `b,b,t`, and so does a second `swap_f`. -/
theorem swap_f_full_row (t : List Nat) (ht : CellOk [44] t) (hlen : t.length = 10230) :
    ∃ r1 r2,
      swap_f (Buf.ofList MAX_ROW ([97, 97, 97, 97, 44, 98, 44] ++ t ++ [10])) 1 2 [44] = some r1 ∧
      cstr r1 = some ([98, 44, 98, 44] ++ t ++ [10]) ∧
      swap_f r1 1 2 [44] = some r2 ∧
      cstr r2 = some ([98, 44, 98, 44] ++ t ++ [10]) ∧
      r1.oob = false ∧ r2.oob = false := by
  have hd : DelimOk [44] := ⟨by decide, by decide⟩
  have hM : MAX_ROW = 10240 := rfl
  have hC : MAX_CELL = 100 := rfl
  have hfl : flat [([97, 97, 97, 97], 44), ([98], 44), (t, 10)]
      = [97, 97, 97, 97, 44, 98, 44] ++ t ++ [10] := by simp [flat]
  have hfl1 : flat [([98], 44), ([98], 44), (t, 10)] = [98, 44, 98, 44] ++ t ++ [10] := by
    simp [flat]
  have hca : CellOk [44] [97, 97, 97, 97] := by
    intro x hx
    simp only [List.mem_cons, List.mem_singleton, List.not_mem_nil, or_false, or_self] at hx
    subst hx
    decide
  have hcb : CellOk [44] [98] := by
    intro x hx
    simp only [List.mem_singleton] at hx
    subst hx
    decide
  have hwf : WfSegs [44] [([97, 97, 97, 97], 44), ([98], 44), (t, 10)] :=
    ⟨hca, by decide, hcb, by decide, ht, rfl⟩
  have hwf1 : WfSegs [44] [([98], 44), ([98], 44), (t, 10)] :=
    ⟨hcb, by decide, hcb, by decide, ht, rfl⟩
  have hnz : ∀ c ∈ [97, 97, 97, 97, 44, 98, 44] ++ t ++ [10], c ≠ 0 := by
    intro c hc
    simp only [List.mem_append, List.mem_cons, List.mem_singleton, List.not_mem_nil,
      or_false] at hc
    rcases hc with (hc | hc) | hc
    · omega
    · exact (ht c hc).1
    · omega
  have h0 : Holds (Buf.ofList MAX_ROW ([97, 97, 97, 97, 44, 98, 44] ++ t ++ [10]))
      (flat [([97, 97, 97, 97], 44), ([98], 44), (t, 10)]) := by
    rw [hfl]
    exact holds_ofList MAX_ROW _ hnz (by simp [hlen, hM])
  obtain ⟨_, hfail⟩ := swap_f_segs hd h0 rfl hwf 1 2 (by decide) (by simp) (by decide) (by simp)
    (by simp [cell, hC]) (by simp [cell, hC])
  obtain ⟨r1, e1, h1, hs1, ho1⟩ := hfail (by rw [hfl]; simp [cell, hlen, hM])
  have hset1 : set_col [([97, 97, 97, 97], 44), ([98], 44), (t, 10)] 1
      (cell [([97, 97, 97, 97], 44), ([98], 44), (t, 10)] 2)
      = [([98], 44), ([98], 44), (t, 10)] := by simp [set_col, cell]
  rw [hset1] at h1
  obtain ⟨hfit, _⟩ := swap_f_segs hd h1 (by rw [hs1]; rfl) hwf1 1 2 (by decide) (by simp)
    (by decide) (by simp) (by simp [cell, hC]) (by simp [cell, hC])
  obtain ⟨r2, e2, h2, hs2, ho2⟩ := hfit (by rw [hfl1]; simp [cell, hlen, hM])
  have hset2 : set_col (set_col [([98], 44), ([98], 44), (t, 10)] 2
      (cell [([98], 44), ([98], 44), (t, 10)] 1)) 1 (cell [([98], 44), ([98], 44), (t, 10)] 2)
      = [([98], 44), ([98], 44), (t, 10)] := by simp [set_col, cell]
  rw [hset2] at h2
  rw [hfl1] at h1 h2
  refine ⟨r1, r2, ?_, cstr_of_holds h1, ?_, cstr_of_holds h2, ?_, ?_⟩
  · exact_mod_cast e1
  · exact_mod_cast e2
  · rw [ho1]; rfl
  · rw [ho2, ho1]; rfl

/-- C11 (code bug).  The row `aaaa,b,ccc...c` whose last cell has 10230 bytes is
a line of 10238 bytes and fits the row array of `MAX_ROW` bytes.  `swap_f` on
its columns 1 and 2 writes nothing outside the array and leaves `b,b,ccc...c`:
writing `aaaa` into column 2 does not fit, `replace_column` refuses, `swap_f`
ignores that and still writes `b` into column 1.  A second `swap_f` leaves
`b,b,ccc...c` again, which is not the original row.  On a row whose first cell
has `MAX_CELL` bytes `swap_f` overruns its local array `from`. -/
theorem swap_f_twice_loses_cell :
    ([97, 97, 97, 97, 44, 98, 44] ++ List.replicate 10230 99 ++ [10]).length = 10238 ∧
    (∃ r1 r2,
      swap_f (Buf.ofList MAX_ROW ([97, 97, 97, 97, 44, 98, 44] ++ List.replicate 10230 99 ++ [10]))
        1 2 [44] = some r1 ∧
      cstr r1 = some ([98, 44, 98, 44] ++ List.replicate 10230 99 ++ [10]) ∧
      swap_f r1 1 2 [44] = some r2 ∧
      cstr r2 = some ([98, 44, 98, 44] ++ List.replicate 10230 99 ++ [10]) ∧
      r1.oob = false ∧ r2.oob = false) ∧
    [98, 44, 98, 44] ++ List.replicate 10230 99 ++ [10]
      ≠ [97, 97, 97, 97, 44, 98, 44] ++ List.replicate 10230 99 ++ [10] ∧
    (swap_f (Buf.ofList MAX_ROW (List.replicate 100 97 ++ [44, 98, 10])) 1 2 [44]).map
      (fun r => r.oob) = none := by
  refine ⟨?_, swap_f_full_row _ ?_ (List.length_replicate _ _), ?_, by decide⟩
  · rw [List.length_append, List.length_append, List.length_replicate]
    rfl
  · intro x hx
    rw [List.eq_of_mem_replicate hx]
    decide
  · intro hne
    simp only [List.cons_append] at hne
    exact absurd (List.head_eq_of_cons_eq hne) (by decide)

/-- C12 (amended).  Take a line `s` of `n` columns held in the row array, column
numbers `f` (from) and `g` (to) between 1 and `n`, the text of column `f`
shorter than `MAX_CELL`, and room in the array for one more delimiter and one
more copy of that text.  Then `move_f` succeeds and leaves a line of `n`
columns in which the text of column `f` sits immediately in front of the text
that was in column `g`, the other columns keeping their texts and their order;
for `f = g` the columns are the same, and the bytes of the row are the same
when every delimiter in the row is the first delimiter.  Column 1 is not moved
when it is empty; then no write leaves the row array. -/
theorem move_f_columns (delim : List Nat) (hd : DelimOk delim) (row : Buf) (s : List Nat)
    (h : Holds row s) (hsize : row.size = MAX_ROW) (hnl : NewlineTerminated s) (f g : Nat)
    (hf1 : 1 ≤ f) (hf : f ≤ (columns delim s).length)
    (hg1 : 1 ≤ g) (hg : g ≤ (columns delim s).length)
    (hcell : ((columns delim s).getD (f - 1) []).length < MAX_CELL)
    (hroom : s.length + ((columns delim s).getD (f - 1) []).length + 2 < MAX_ROW)
    (hne : ¬ (f = 1 ∧ (columns delim s).getD 0 [] = [])) :
    ∃ row' s', move_f row (f : Int) (g : Int) delim = some (row', 1) ∧
      Holds row' s' ∧ row'.size = MAX_ROW ∧ NewlineTerminated s' ∧
      (columns delim s').length = (columns delim s).length ∧
      (f < g → columns delim s' =
        (columns delim s).take (f - 1) ++ ((columns delim s).drop f).take (g - 1 - f) ++
          (columns delim s).getD (f - 1) [] :: (columns delim s).drop (g - 1)) ∧
      (g < f → columns delim s' =
        (columns delim s).take (g - 1) ++
          (columns delim s).getD (f - 1) [] :: ((columns delim s).drop (g - 1)).take (f - g) ++
          (columns delim s).drop f) ∧
      (f = g → columns delim s' = columns delim s) ∧
      (f = g → (∀ x ∈ s, is_delim x delim = true → x = delim.headD 0) → s' = s) ∧
      row'.oob = row.oob := by
  obtain ⟨hfl, hwf⟩ := @segments_spec delim s hnl
  have h' : Holds row (flat (segments delim s)) := by rw [hfl]; exact h
  have hcols : columns delim s = (segments delim s).map Prod.fst := rfl
  have hlen : (columns delim s).length = (segments delim s).length := by
    rw [hcols, List.length_map]
  have hcell' : cell (segments delim s) f = (columns delim s).getD (f - 1) [] :=
    cell_eq_getD _ _
  rw [hlen] at hf hg
  obtain ⟨row', segs', e, h2, hs2, hwf2, hsegs, hmap, hoob⟩ := move_f_segs hd h' hsize hwf f g
    hf1 hf hg1 hg (by rw [hcell']; exact hcell) (by rw [hcell', hfl]; exact hroom)
  have hcols' : columns delim (flat segs') = segs'.map Prod.fst := by
    unfold columns
    rw [segments_flat hwf2]
  have hmap2 : ((segments delim s).take (g - 1) ++
        (cell (segments delim s) f, delim.headD 0) :: (segments delim s).drop (g - 1)).map Prod.fst
      = (columns delim s).take (g - 1) ++
          (columns delim s).getD (f - 1) [] :: (columns delim s).drop (g - 1) := by
    rw [← hcell', hcols]
    simp [List.map_take, List.map_drop]
  rw [hmap2] at hmap
  have hg' : g ≤ (columns delim s).length := by rw [hlen]; exact hg
  have hf' : f ≤ (columns delim s).length := by rw [hlen]; exact hf
  have hlt : f < g → columns delim (flat segs') =
      (columns delim s).take (f - 1) ++ ((columns delim s).drop f).take (g - 1 - f) ++
        (columns delim s).getD (f - 1) [] :: (columns delim s).drop (g - 1) := by
    intro hfg
    rw [hcols', hmap, if_neg (by omega)]
    exact move_cols_lt _ _ f g hfg hg'
  have hgt : g < f → columns delim (flat segs') =
      (columns delim s).take (g - 1) ++
        (columns delim s).getD (f - 1) [] :: ((columns delim s).drop (g - 1)).take (f - g) ++
        (columns delim s).drop f := by
    intro hgf
    rw [hcols', hmap, if_pos hgf]
    exact move_cols_gt _ _ f g hg1 hgf hf'
  have heq : f = g → columns delim (flat segs') = columns delim s := by
    intro hfg
    subst hfg
    rw [hcols', hmap, if_neg (by omega)]
    exact move_cols_eq _ _ f hf1 hf'
  refine ⟨row', flat segs', e, h2, by rw [hs2, hsize], newlineTerminated_flat hd hwf2, ?_,
    hlt, hgt, heq, ?_, ?_⟩
  · rcases Nat.lt_trichotomy f g with hfg | hfg | hfg
    · rw [hlt hfg]
      simp only [List.length_append, List.length_take, List.length_drop, List.length_cons]
      omega
    · rw [heq hfg]
    · rw [hgt hfg]
      simp only [List.length_append, List.length_take, List.length_drop, List.length_cons]
      omega
  · intro hfg hcanon
    subst hfg
    rw [hsegs, if_neg (by omega), del_cols_self hwf f hf1 hf _ (by rw [hfl]; exact hcanon), hfl]
  · apply hoob
    rintro ⟨h1, h0⟩
    apply hne
    refine ⟨h1, ?_⟩
    subst h1
    rw [← hcell']
    exact h0

/-- Witness of C12 (amended): `move 1 3` on the row `a,bbb,c`. -/
theorem move_f_columns_witness :
    ∃ row' s', move_f (Buf.ofList MAX_ROW [97, 44, 98, 98, 98, 44, 99, 10]) ((1 : Nat) : Int)
        ((3 : Nat) : Int) [44] = some (row', 1) ∧
      Holds row' s' ∧ row'.size = MAX_ROW ∧ NewlineTerminated s' ∧
      (columns [44] s').length = (columns [44] [97, 44, 98, 98, 98, 44, 99, 10]).length ∧
      (1 < 3 → columns [44] s' =
        (columns [44] [97, 44, 98, 98, 98, 44, 99, 10]).take (1 - 1) ++
          ((columns [44] [97, 44, 98, 98, 98, 44, 99, 10]).drop 1).take (3 - 1 - 1) ++
          (columns [44] [97, 44, 98, 98, 98, 44, 99, 10]).getD (1 - 1) [] ::
            (columns [44] [97, 44, 98, 98, 98, 44, 99, 10]).drop (3 - 1)) ∧
      (3 < 1 → columns [44] s' =
        (columns [44] [97, 44, 98, 98, 98, 44, 99, 10]).take (3 - 1) ++
          (columns [44] [97, 44, 98, 98, 98, 44, 99, 10]).getD (1 - 1) [] ::
            ((columns [44] [97, 44, 98, 98, 98, 44, 99, 10]).drop (3 - 1)).take (1 - 3) ++
          (columns [44] [97, 44, 98, 98, 98, 44, 99, 10]).drop 1) ∧
      (1 = 3 → columns [44] s' = columns [44] [97, 44, 98, 98, 98, 44, 99, 10]) ∧
      (1 = 3 → (∀ x ∈ [97, 44, 98, 98, 98, 44, 99, 10], is_delim x [44] = true →
        x = ([44] : List Nat).headD 0) → s' = [97, 44, 98, 98, 98, 44, 99, 10]) ∧
      row'.oob = (Buf.ofList MAX_ROW [97, 44, 98, 98, 98, 44, 99, 10]).oob :=
  move_f_columns [44] ⟨by decide, by decide⟩ (Buf.ofList MAX_ROW [97, 44, 98, 98, 98, 44, 99, 10])
    [97, 44, 98, 98, 98, 44, 99, 10] (holds_ofList MAX_ROW _ (by decide) (by decide)) rfl
    ⟨[97, 44, 98, 98, 98, 44, 99], rfl, by decide⟩ 1 3 (by decide) (by decide) (by decide)
    (by decide) (by decide) (by decide) (by decide)

/-- Counterexample to C12 as stated.  With the delimiters `,` and `:`, the row
`a:b` has 2 columns and `move_f` from column 2 to column 2 succeeds and leaves
`a,b`: the row is not left unchanged.  No write leaves the row array. -/
theorem move_f_counterexample :
    get_no_cols (Buf.ofList MAX_ROW [97, 58, 98, 10]) [44, 58] = 2 ∧
    (move_f (Buf.ofList MAX_ROW [97, 58, 98, 10]) 2 2 [44, 58]).bind (fun r =>
        (cstr r.1).map fun t => (t, r.2, r.1.oob)) = some ([97, 44, 98, 10], 1, false) := by
  refine ⟨by decide, by decide⟩

theorem int32_of_range (z : Int) (h1 : -2 ^ 31 ≤ z) (h2 : z < 2 ^ 31) : int32 z = z := by
  unfold int32
  omega

/-- Away from `INT_MIN` and `INT_MAX`, `my_round` rounds half away from zero:
with `t` the truncation of `x`, it returns `t` when `|x| - |t| < 1/2`, and
otherwise `t + 1` for a positive and `t - 1` for a negative `x`. -/
theorem my_round_half_away (x : Dbl) (hlo : -2 ^ 31 < Int.tdiv x.num x.den)
    (hhi : Int.tdiv x.num x.den < 2 ^ 31 - 1) :
    (2 * (|x.num| - |Int.tdiv x.num x.den| * x.den) < x.den →
      my_round x = Int.tdiv x.num x.den) ∧
    (x.den ≤ 2 * (|x.num| - |Int.tdiv x.num x.den| * x.den) → 0 < x.num →
      my_round x = Int.tdiv x.num x.den + 1) ∧
    (x.den ≤ 2 * (|x.num| - |Int.tdiv x.num x.den| * x.den) → x.num ≤ 0 →
      my_round x = Int.tdiv x.num x.den - 1) := by
  obtain ⟨num, den⟩ := x
  simp only at hlo hhi ⊢
  generalize ht : Int.tdiv num den = t at hlo hhi ⊢
  have hi : int_of_double { num := num, den := den } = t := by
    simp only [int_of_double, ht]
    rw [if_pos ⟨by omega, by omega⟩]
  have habs : ABS_int t = |t| := by
    unfold ABS_int
    split_ifs with h
    · rw [int32_of_range _ (by omega) (by omega), abs_of_neg h]
    · rw [abs_of_nonneg (by omega)]
  have hnum : (ABS { num := num, den := den }) = { num := |num|, den := den } := by
    simp only [ABS, Dbl.lt, Dbl.ofInt, Dbl.neg, Nat.cast_one, mul_one, zero_mul,
      decide_eq_true_eq]
    split_ifs with h
    · rw [abs_of_neg h]
    · rw [abs_of_nonneg (by omega)]
  have hge : (((ABS { num := num, den := den }).sub (Dbl.ofInt (ABS_int t))).ge
      { num := 1, den := 2 } = true) ↔ (den : Int) ≤ 2 * (|num| - |t| * den) := by
    rw [hnum, habs]
    simp only [Dbl.sub, Dbl.ge, Dbl.ofInt, decide_eq_true_eq]
    push_cast
    constructor <;> intro h <;> linarith
  have hpos : (Dbl.ofInt 0).lt { num := num, den := den } = true ↔ 0 < num := by
    simp [Dbl.lt, Dbl.ofInt]
  refine ⟨fun h => ?_, fun h hp => ?_, fun h hp => ?_⟩
  · simp only [my_round, hi]
    rw [if_neg (fun hc => absurd (hge.1 hc) (by omega))]
  · simp only [my_round, hi]
    rw [if_pos (hge.2 h), if_pos (hpos.2 hp), int32_of_range _ (by omega) (by omega)]
  · simp only [my_round, hi]
    rw [if_pos (hge.2 h), if_neg (fun hc => absurd (hpos.1 hc) (by omega)),
      int32_of_range _ (by omega) (by omega)]

/-- C13 (code bug).  `my_round` gives 1 for 0.5, -1 for -0.5, 2 for 2.4, and
`round_f` on column 1 turns the row `3.7,x` into `4,x`.  For the number
-2147483648, whose rounded value is `INT_MIN` and fits an `int`, the truncation
is `INT_MIN`, `ABS` of it overflows, and `my_round` gives 2147483647: `round_f`
turns the row `-2147483648` into `2147483647`. -/
theorem my_round_int_min :
    my_round { num := 1, den := 2 } = 1 ∧
    my_round { num := -1, den := 2 } = -1 ∧
    my_round { num := 24, den := 10 } = 2 ∧
    ((round_f strtod_model (Buf.ofList MAX_ROW [51, 46, 55, 44, 120, 10]) 1 [44]).bind fun r =>
      (cstr r.1).map fun s => (s, r.2)) = some ([52, 44, 120, 10], 1) ∧
    int_of_double { num := -2147483648, den := 1 } = -2147483648 ∧
    my_round { num := -2147483648, den := 1 } = 2147483647 ∧
    strtod_model [45, 50, 49, 52, 55, 52, 56, 51, 54, 52, 56]
      = ({ num := -2147483648, den := 1 }, []) ∧
    ((round_f strtod_model
        (Buf.ofList MAX_ROW [45, 50, 49, 52, 55, 52, 56, 51, 54, 52, 56, 10]) 1 [44]).bind fun r =>
      (cstr r.1).map fun s => (s, r.2)) = some ([50, 49, 52, 55, 52, 56, 51, 54, 52, 55, 10], 1) := by
  refine ⟨by decide, by decide, by decide, by decide, by decide, by decide, by decide, by decide⟩

/-- On the row `1e5,t` with a last cell `t` of 10233 bytes, which is 10238
bytes long, `int_f` on column 1 reports success and leaves the row as it is. -/
theorem int_f_full_row (t : List Nat) (ht : CellOk [44] t) (hlen : t.length = 10233) :
    int_f strtod_model (Buf.ofList MAX_ROW ([49, 101, 53, 44] ++ t ++ [10])) 1 [44]
      = some (Buf.ofList MAX_ROW ([49, 101, 53, 44] ++ t ++ [10]), 1) := by
  have hd : DelimOk [44] := ⟨by decide, by decide⟩
  have hM : MAX_ROW = 10240 := rfl
  have hC : MAX_CELL = 100 := rfl
  have hfl : flat [([49, 101, 53], 44), (t, 10)] = [49, 101, 53, 44] ++ t ++ [10] := by
    simp [flat]
  have hc : CellOk [44] [49, 101, 53] := by
    intro x hx
    simp only [List.mem_cons, List.mem_singleton, List.not_mem_nil, or_false] at hx
    rcases hx with hx | hx | hx <;> subst hx <;> decide
  have hwf : WfSegs [44] [([49, 101, 53], 44), (t, 10)] := ⟨hc, by decide, ht, rfl⟩
  have hnz : ∀ c ∈ [49, 101, 53, 44] ++ t ++ [10], c ≠ 0 := by
    intro c hc
    simp only [List.mem_append, List.mem_cons, List.mem_singleton, List.not_mem_nil,
      or_false] at hc
    rcases hc with (hc | hc) | hc
    · omega
    · exact (ht c hc).1
    · omega
  have h0 : Holds (Buf.ofList MAX_ROW ([49, 101, 53, 44] ++ t ++ [10]))
      (flat [([49, 101, 53], 44), (t, 10)]) := by
    rw [hfl]
    exact holds_ofList MAX_ROW _ hnz (by simp [hlen, hM])
  obtain ⟨_, _, hgood⟩ := int_f_segs strtod_model hd h0 rfl hwf 1 (by decide) (by simp)
    (by simp [cell, hC])
  have hcell : cell [([49, 101, 53], 44), (t, 10)] 1 = [49, 101, 53] := rfl
  rw [hcell] at hgood
  have hnew : (sprintf_d (int_of_double (strtod_model [49, 101, 53]).1)).length = 6 := by decide
  obtain ⟨hfail, _⟩ := hgood (by decide) (by decide)
  have := hfail (by rw [hfl, hnew]; simp [hlen, hM])
  exact_mod_cast this

/-- C14 (code bug).  The model of `strtod` accepts the whole cell `1e5` and reads
100000, so `int_f` and `round_f` write back `100000`, six bytes for a cell of
three: on the row `1e5` both leave `100000`.  On the row `1e5,aaa...a` whose
last cell has 10233 bytes, a line of 10238 bytes, the longer text does not fit:
`replace_column` refuses, `rounding_f` ignores that, and `int_f` reports
success with the row as it was. -/
theorem rounding_f_longer_cell :
    strtod_model [49, 101, 53] = ({ num := 100000, den := 1 }, []) ∧
    sprintf_d (int_of_double (strtod_model [49, 101, 53]).1) = [49, 48, 48, 48, 48, 48] ∧
    ((int_f strtod_model (Buf.ofList MAX_ROW [49, 101, 53, 10]) 1 [44]).bind fun r =>
      (cstr r.1).map fun s => (s, r.2)) = some ([49, 48, 48, 48, 48, 48, 10], 1) ∧
    ((round_f strtod_model (Buf.ofList MAX_ROW [49, 101, 53, 10]) 1 [44]).bind fun r =>
      (cstr r.1).map fun s => (s, r.2)) = some ([49, 48, 48, 48, 48, 48, 10], 1) ∧
    ([49, 101, 53, 44] ++ List.replicate 10233 97 ++ [10]).length = 10238 ∧
    int_f strtod_model (Buf.ofList MAX_ROW ([49, 101, 53, 44] ++ List.replicate 10233 97 ++ [10]))
        1 [44]
      = some (Buf.ofList MAX_ROW ([49, 101, 53, 44] ++ List.replicate 10233 97 ++ [10]), 1) := by
  refine ⟨by decide, by decide, by decide, by decide, ?_,
    int_f_full_row _ ?_ (List.length_replicate _ _)⟩
  · rw [List.length_append, List.length_append, List.length_replicate]
    rfl
  · intro x hx
    rw [List.eq_of_mem_replicate hx]
    decide

/-- C15 (amended).  Let `strtod` read back the text of every `int`, let no
delimiter be a decimal digit or the minus sign, and take a line `s` held in the
row array, a column `k` of it whose text is shorter than `MAX_CELL`, such that
writing the integer back does not make the row exactly `MAX_ROW` bytes long.
Then `int_f` returns; when it reports failure the row is as it was, and when it
reports success a second `int_f` on the same column succeeds as well and leaves
the same line.  No write leaves the row array. -/
theorem int_f_idempotent (strtod : List Nat → Dbl × List Nat)
    (hstrtod : ∀ n : Int, -2 ^ 31 ≤ n → n < 2 ^ 31 →
      (strtod (sprintf_d n)).2 = [] ∧ int_of_double (strtod (sprintf_d n)).1 = n)
    (delim : List Nat) (hd : DelimOk delim)
    (hdig : ∀ d ∈ delim, d ≠ 45 ∧ ¬ (48 ≤ d ∧ d ≤ 57))
    (row : Buf) (s : List Nat) (h : Holds row s) (hsize : row.size = MAX_ROW)
    (hnl : NewlineTerminated s) (k : Nat) (hk1 : 1 ≤ k) (hk : k ≤ (columns delim s).length)
    (hcell : ((columns delim s).getD (k - 1) []).length < MAX_CELL)
    (hedge : s.length
        + (sprintf_d (int_of_double (strtod ((columns delim s).getD (k - 1) [])).1)).length
      ≠ MAX_ROW + ((columns delim s).getD (k - 1) []).length) :
    ∃ r1 v1, int_f strtod row (k : Int) delim = some (r1, v1) ∧
      (v1 = 0 ∨ v1 = 1) ∧
      (v1 = 0 → r1 = row) ∧
      (v1 = 1 → ∃ s1 r2, Holds r1 s1 ∧ NewlineTerminated s1 ∧
        int_f strtod r1 (k : Int) delim = some (r2, 1) ∧ Holds r2 s1) ∧
      r1.oob = row.oob := by
  obtain ⟨hfl, hwf⟩ := @segments_spec delim s hnl
  have h' : Holds row (flat (segments delim s)) := by rw [hfl]; exact h
  have hlen : (columns delim s).length = (segments delim s).length := by
    unfold columns; rw [List.length_map]
  have hcell' : cell (segments delim s) k = (columns delim s).getD (k - 1) [] :=
    cell_eq_getD _ _
  rw [hlen] at hk
  rw [← hcell'] at hcell
  have hedge' : (flat (segments delim s)).length
        + (sprintf_d (int_of_double (strtod (cell (segments delim s) k)).1)).length
      ≠ MAX_ROW + (cell (segments delim s) k).length := by
    rw [hfl, hcell']; exact hedge
  obtain ⟨hempty, hbad, hgood⟩ := int_f_segs strtod hd h' hsize hwf k hk1 hk hcell
  by_cases hc : cell (segments delim s) k = []
  · have e := hempty hc
    exact ⟨row, 1, e, Or.inr rfl, fun h0 => absurd h0 (by norm_num),
      fun _ => ⟨s, row, h, hnl, e, h⟩, rfl⟩
  · by_cases hrest : (strtod (cell (segments delim s) k)).2 = []
    · obtain ⟨hfail, hok⟩ := hgood hc hrest
      rcases Nat.lt_or_ge (MAX_ROW + (cell (segments delim s) k).length)
          ((flat (segments delim s)).length
            + (sprintf_d (int_of_double (strtod (cell (segments delim s) k)).1)).length)
        with hbig | hsmall
      · have e := hfail hbig
        exact ⟨row, 1, e, Or.inr rfl, fun h0 => absurd h0 (by norm_num),
          fun _ => ⟨s, row, h, hnl, e, h⟩, rfl⟩
      · obtain ⟨r1, e1, h1, hs1, ho1⟩ := hok (by omega)
        refine ⟨r1, 1, e1, Or.inr rfl, fun h0 => absurd h0 (by norm_num), fun _ => ?_, ho1⟩
        -- the second application
        have hrange := int_of_double_range (strtod (cell (segments delim s) k)).1
        obtain ⟨hp1, hp2⟩ := hstrtod _ hrange.1 hrange.2
        have hnewok : CellOk delim
            (sprintf_d (int_of_double (strtod (cell (segments delim s) k)).1)) := by
          intro x hx
          have hch := sprintf_d_chars _ x hx
          refine ⟨by omega, by omega, ?_⟩
          by_contra hcon
          have hmem : x ∈ delim := (is_delim_iff x delim).1 (by simpa using hcon)
          have := hdig x hmem
          omega
        have hwf1 := wf_set_col hwf k hk1 hk hnewok
        have hl1 := length_set_col (segments delim s) k hk1 hk
          (sprintf_d (int_of_double (strtod (cell (segments delim s) k)).1))
        have hc1 := cell_set_col (segments delim s) k hk1 hk
          (sprintf_d (int_of_double (strtod (cell (segments delim s) k)).1))
        have hlen11 := sprintf_d_length _ hrange.1 hrange.2
        have hM : MAX_CELL = 100 := rfl
        obtain ⟨hempty2, _, hgood2⟩ := int_f_segs strtod hd h1 (by rw [hs1, hsize]) hwf1 k hk1
          (by rw [hl1]; exact hk) (by rw [hc1]; omega)
        rw [hc1] at hempty2 hgood2
        by_cases hnew : sprintf_d (int_of_double (strtod (cell (segments delim s) k)).1) = []
        · exact ⟨_, r1, h1, newlineTerminated_flat hd hwf1, hempty2 hnew, h1⟩
        · obtain ⟨_, hok2⟩ := hgood2 hnew hp1
          rw [hp2] at hok2
          have hfits := h1.fits
          rw [hs1, hsize] at hfits
          obtain ⟨r2, e2, h2, _, _⟩ := hok2 (by omega)
          rw [set_col_set_col _ _ hk1 hk] at h2
          exact ⟨_, r2, h1, newlineTerminated_flat hd hwf1, e2, h2⟩
    · have e := hbad hc hrest
      exact ⟨row, 0, e, Or.inl rfl, fun _ => rfl, fun h1 => absurd h1 (by norm_num), rfl⟩

/-- Witness of C15 (amended): `int 1` on the row `3.7,x` with `strtod_model`. -/
theorem int_f_idempotent_witness :
    ∃ r1 v1, int_f strtod_model (Buf.ofList MAX_ROW [51, 46, 55, 44, 120, 10]) ((1 : Nat) : Int) [44]
        = some (r1, v1) ∧
      (v1 = 0 ∨ v1 = 1) ∧
      (v1 = 0 → r1 = Buf.ofList MAX_ROW [51, 46, 55, 44, 120, 10]) ∧
      (v1 = 1 → ∃ s1 r2, Holds r1 s1 ∧ NewlineTerminated s1 ∧
        int_f strtod_model r1 ((1 : Nat) : Int) [44] = some (r2, 1) ∧ Holds r2 s1) ∧
      r1.oob = (Buf.ofList MAX_ROW [51, 46, 55, 44, 120, 10]).oob :=
  int_f_idempotent strtod_model
    (fun n h1 h2 => by
      rw [strtod_model_sprintf_d]
      exact ⟨rfl, int_of_double_ofInt n h1 h2⟩)
    [44] ⟨by decide, by decide⟩ (by decide)
    (Buf.ofList MAX_ROW [51, 46, 55, 44, 120, 10]) [51, 46, 55, 44, 120, 10]
    (holds_ofList MAX_ROW _ (by decide) (by decide)) rfl
    ⟨[51, 46, 55, 44, 120], rfl, by decide⟩ 1 (by decide) (by decide) (by decide) (by decide)

/-- Counterexample to C15 as stated.  With the delimiter `1`, `int 1` turns the
row `-0xA` into `-10` and succeeds, and a second `int 1` then fails, because
column 1 is now the text `-`; and a cell of `MAX_CELL` bytes overruns the local
array of `rounding_f`. -/
theorem int_f_twice_counterexample :
    (int_f strtod_model (Buf.ofList MAX_ROW [45, 48, 120, 65, 10]) 1 [49]).bind (fun r =>
        (cstr r.1).map fun t => (t, r.2)) = some ([45, 49, 48, 10], 1) ∧
    (int_f strtod_model (Buf.ofList MAX_ROW [45, 48, 120, 65, 10]) 1 [49]).bind (fun r =>
        (int_f strtod_model r.1 1 [49]).map fun r2 => r2.2) = some 0 ∧
    (int_f strtod_model (Buf.ofList MAX_ROW (List.replicate 100 55 ++ [10])) 1 [44]).map
        (fun r => r.2) = none := by
  refine ⟨by decide, by decide, by decide⟩

/-- C16.  For dash flags that are 0 or 1, `rows_f` returns 0 or 1, and it
returns 1 exactly when both flags are set and `is_last_line` holds, or not both
are set and `n_row` lies between the lower bound (0 when `dash1` is set,
`row_from` otherwise) and the upper bound (`n_row` when `dash2` is set,
`row_to` otherwise).  So `- -` selects a row exactly when it is the last line,
`- N` selects the rows 1 to N, and `N -` selects every row from N on. -/
theorem rows_f_spec (n_row row_from row_to is_last_line dash1 dash2 : Int)
    (h1 : dash1 = 0 ∨ dash1 = 1) (h2 : dash2 = 0 ∨ dash2 = 1) :
    (rows_f n_row row_from row_to is_last_line dash1 dash2 = 1 ∨
      rows_f n_row row_from row_to is_last_line dash1 dash2 = 0) ∧
    (rows_f n_row row_from row_to is_last_line dash1 dash2 = 1 ↔
      ((dash1 = 1 ∧ dash2 = 1 ∧ is_last_line ≠ 0) ∨
        (¬ (dash1 = 1 ∧ dash2 = 1) ∧
          (if dash1 = 1 then 0 else row_from) ≤ n_row ∧
          n_row ≤ (if dash2 = 1 then n_row else row_to)))) ∧
    (dash1 = 1 → dash2 = 1 →
      (rows_f n_row row_from row_to is_last_line dash1 dash2 = 1 ↔ is_last_line ≠ 0)) ∧
    (dash1 = 1 → dash2 = 0 → 1 ≤ n_row →
      (rows_f n_row row_from row_to is_last_line dash1 dash2 = 1 ↔ n_row ≤ row_to)) ∧
    (dash1 = 0 → dash2 = 1 →
      (rows_f n_row row_from row_to is_last_line dash1 dash2 = 1 ↔ row_from ≤ n_row)) := by
  rcases h1 with h1 | h1 <;> rcases h2 with h2 | h2 <;> subst h1 <;> subst h2 <;>
    simp only [rows_f] <;> refine ⟨?_, ?_, ?_, ?_, ?_⟩ <;> intros <;>
    (try split_ifs) <;> (try simp_all) <;> (try omega)

/-- Witness of C16: the selection `- 5` on row 3, which is not the last line. -/
theorem rows_f_spec_witness :
    ((1 : Int) = 0 ∨ (1 : Int) = 1) ∧ ((0 : Int) = 0 ∨ (0 : Int) = 1) ∧
    (rows_f 3 0 5 0 1 0 = 1 ∨ rows_f 3 0 5 0 1 0 = 0) ∧
    (rows_f 3 0 5 0 1 0 = 1 ↔
      (((1 : Int) = 1 ∧ (0 : Int) = 1 ∧ (0 : Int) ≠ 0) ∨
        (¬ ((1 : Int) = 1 ∧ (0 : Int) = 1) ∧
          (if (1 : Int) = 1 then 0 else 0) ≤ (3 : Int) ∧
          (3 : Int) ≤ (if (0 : Int) = 1 then 3 else 5)))) ∧
    ((1 : Int) = 1 → (0 : Int) = 1 → (rows_f 3 0 5 0 1 0 = 1 ↔ (0 : Int) ≠ 0)) ∧
    ((1 : Int) = 1 → (0 : Int) = 0 → (1 : Int) ≤ 3 → (rows_f 3 0 5 0 1 0 = 1 ↔ (3 : Int) ≤ 5)) ∧
    ((1 : Int) = 0 → (0 : Int) = 1 → (rows_f 3 0 5 0 1 0 = 1 ↔ (0 : Int) ≤ 3)) :=
  ⟨Or.inr rfl, Or.inl rfl, rows_f_spec 3 0 5 0 1 0 (Or.inr rfl) (Or.inl rfl)⟩

/-- C17 (code bug).  On the row `aab`, column 1 is the cell `aab`, in which `ab`
occurs, and `contains_f` with the string `ab` returns 0, also when its local
array holds only zeros on entry: after the partial match `a` fails on the
second `a`, the search does not try that `a` as a new start.  The array is not
initialised and `get_column_content` appends no NUL: when it holds `qab` on
entry, `contains_f` with `ab` returns 1 on the row `x`. -/
theorem contains_f_overlap :
    cstr (get_column_content (Buf.ofList MAX_ROW [97, 97, 98, 10]) 0 2 (Buf.zero MAX_CELL)
      NO_CONVERSION) = some [97, 97, 98] ∧
    find_column_start (Buf.ofList MAX_ROW [97, 97, 98, 10]) [44] 1 = 0 ∧
    find_column_end (Buf.ofList MAX_ROW [97, 97, 98, 10]) [44] 0 1 = some 2 ∧
    List.IsInfix [97, 98] [97, 97, 98] ∧
    contains_f (Buf.zero MAX_CELL) (Buf.ofList MAX_ROW [97, 97, 98, 10]) 1 [97, 98] [44]
      = some 0 ∧
    ¬ List.IsInfix [97, 98] [120] ∧
    contains_f (Buf.ofList MAX_CELL [113, 97, 98]) (Buf.ofList MAX_ROW [120, 10]) 1 [97, 98] [44]
      = some 1 := by
  refine ⟨by decide, by decide, by decide, ⟨[97], [], rfl⟩, by decide, ?_, by decide⟩
  rintro ⟨s, t, hst⟩
  have hl := congrArg List.length hst
  simp only [List.length_append, List.length_cons, List.length_nil] at hl
  omega

/-- C20 (code bug).  With the commands `drow 1` and `acol` on the input `a,b`,
the pipeline emits the text of one newline, of length 1, for the deleted row,
and a write has left the row array: `drow_f` zeroes the row, and `acol_f`
on the zeroed row stores the delimiter at `row[-1]`, the newline at `row[0]`. -/
theorem drow_then_acol :
    process_mod_commands
      [{ cmd_num := DROW, num_args0 := 1, num_args1 := 0, str_arg := [], dash1 := 0, dash2 := 0 },
       { cmd_num := ACOL, num_args0 := 0, num_args1 := 0, str_arg := [], dash1 := 0, dash2 := 0 }]
      [44] (Buf.zero MAX_ROW) [97, 44, 98, 10] = some (1, [10], true) ∧
    ((drow_f (Buf.ofList MAX_ROW [97, 44, 98, 10])).bind fun r =>
      (acol_f r [44]).bind fun r => (cstr r.1).map fun s => (s, r.2, r.1.oob))
      = some ([10], 1, true) := by
  refine ⟨by decide, by decide⟩

/-- C18 (code bug).  The row `a,b` has two columns, `dcol_f` on column 2 leaves
the row `a` of one column, and `col_arg_check` refuses column 2 for one column.
The pipeline with the commands `dcol 2`, `dcol 2` on the input `a,b` returns 1
all the same: both commands are checked against the two columns of the first
row as it was read, the second `dcol_f` runs on the row `a`, the row is emitted
empty, and a write has left the row array. -/
theorem dcol_twice :
    get_no_cols (Buf.ofList MAX_ROW [97, 44, 98, 10]) [44] = 2 ∧
    ((dcol_f (Buf.ofList MAX_ROW [97, 44, 98, 10]) 2 [44]).bind fun r =>
      (cstr r).map fun s => (s, get_no_cols r [44])) = some ([97, 10], 1) ∧
    col_arg_check 2 1 = 0 ∧
    process_mod_commands
      [{ cmd_num := DCOL, num_args0 := 2, num_args1 := 0, str_arg := [], dash1 := 0, dash2 := 0 },
       { cmd_num := DCOL, num_args0 := 2, num_args1 := 0, str_arg := [], dash1 := 0, dash2 := 0 }]
      [44] (Buf.zero MAX_ROW) [97, 44, 98, 10] = some (1, [], true) := by
  refine ⟨by decide, by decide, by decide, by decide⟩

/-- C19 (amended).  Take a line of `n` columns held in the row array and a list
of column commands (`icol`, `acol`, `dcol`, `dcols`) whose column arguments pass
the checks of the pipeline against `n`, name columns that the row has when the
command is reached, never delete all the columns that the row then has, and
never delete column 1 alone while it is empty; let the row leave room for the
inserted delimiters.  Then the command loop of the structural pipeline
succeeds on the row, no write leaves the row array, the row it leaves has
exactly `no_cols_adjust n user_args` columns, and this is the column count of
the empty row that `irow` and `arow` build with `create_empty_row`. -/
theorem column_commands_adjusted_count (delim : List Nat) (hd : DelimOk delim) (row : Buf)
    (s : List Nat) (h : Holds row s) (hsize : row.size = MAX_ROW) (hnl : NewlineTerminated s)
    (user_args : List user_args_t) (n_row : Int) (out : List Nat)
    (hok : col_cmds_ok (get_no_cols row delim) (get_no_cols row delim) user_args = true)
    (hsafe : col_cmds_safe (delim.headD 0) (segments delim s) user_args = true)
    (hroom : s.length + col_inserts user_args + 1 < MAX_ROW) :
    ∃ row', mod_commands_loop delim n_row (get_no_cols row delim)
        (no_cols_adjust (get_no_cols row delim) user_args) user_args row out
          = some (1, row', out) ∧
      row'.oob = row.oob ∧
      get_no_cols row' delim = no_cols_adjust (get_no_cols row delim) user_args ∧
      get_no_cols (create_empty_row (Buf.zero MAX_ROW)
          (no_cols_adjust (get_no_cols row delim) user_args) delim) delim
        = no_cols_adjust (get_no_cols row delim) user_args ∧
      irow_f (no_cols_adjust (get_no_cols row delim) user_args) delim
        = some (List.replicate (no_cols_adjust (get_no_cols row delim) user_args - 1).toNat
            (delim.headD 0) ++ [10]) := by
  obtain ⟨hfl, hwf⟩ := @segments_spec delim s hnl
  have h' : Holds row (flat (segments delim s)) := by rw [hfl]; exact h
  have hn : get_no_cols row delim = ((segments delim s).length : Int) :=
    get_no_cols_spec hd h' hsize hwf
  rw [hn] at hok ⊢
  obtain ⟨row', segs', e, h2, hs2, hwf2, hc2, ho2⟩ := col_cmds_run hd (segments delim s).length
    n_row (no_cols_adjust (segments delim s).length user_args) out user_args row
    (segments delim s) h' hsize hwf hok hsafe (by rw [hfl]; exact hroom)
  have hcount : get_no_cols row' delim = no_cols_adjust (segments delim s).length user_args := by
    rw [get_no_cols_spec hd h2 hs2 hwf2, hc2]
  have hpos : 0 < segs'.length := List.length_pos.2 hwf2.ne_nil
  have hle := length_flat_le segs'
  have hfit := h2.fits
  rw [hs2] at hfit
  have hces := create_empty_row_spec hd (no_cols_adjust (segments delim s).length user_args)
    (by rw [← hc2]; omega) (by rw [← hc2]; omega)
  exact ⟨row', e, ho2, hcount, hces.2.2.2, hces.2.1⟩

/-- Witness of C19 (amended): `icol 1`, `dcol 2`, `acol` on the row `a,b`. -/
theorem column_commands_adjusted_count_witness :
    ∃ row', mod_commands_loop [44] 1 (get_no_cols (Buf.ofList MAX_ROW [97, 44, 98, 10]) [44])
        (no_cols_adjust (get_no_cols (Buf.ofList MAX_ROW [97, 44, 98, 10]) [44])
          [{ cmd_num := ICOL, num_args0 := 1, num_args1 := 0, str_arg := [], dash1 := 0, dash2 := 0 },
           { cmd_num := DCOL, num_args0 := 2, num_args1 := 0, str_arg := [], dash1 := 0, dash2 := 0 },
           { cmd_num := ACOL, num_args0 := 0, num_args1 := 0, str_arg := [], dash1 := 0, dash2 := 0 }])
        [{ cmd_num := ICOL, num_args0 := 1, num_args1 := 0, str_arg := [], dash1 := 0, dash2 := 0 },
         { cmd_num := DCOL, num_args0 := 2, num_args1 := 0, str_arg := [], dash1 := 0, dash2 := 0 },
         { cmd_num := ACOL, num_args0 := 0, num_args1 := 0, str_arg := [], dash1 := 0, dash2 := 0 }]
        (Buf.ofList MAX_ROW [97, 44, 98, 10]) [] = some (1, row', []) ∧
      row'.oob = (Buf.ofList MAX_ROW [97, 44, 98, 10]).oob ∧
      get_no_cols row' [44] = no_cols_adjust (get_no_cols (Buf.ofList MAX_ROW [97, 44, 98, 10]) [44])
          [{ cmd_num := ICOL, num_args0 := 1, num_args1 := 0, str_arg := [], dash1 := 0, dash2 := 0 },
           { cmd_num := DCOL, num_args0 := 2, num_args1 := 0, str_arg := [], dash1 := 0, dash2 := 0 },
           { cmd_num := ACOL, num_args0 := 0, num_args1 := 0, str_arg := [], dash1 := 0, dash2 := 0 }] ∧
      get_no_cols (create_empty_row (Buf.zero MAX_ROW)
          (no_cols_adjust (get_no_cols (Buf.ofList MAX_ROW [97, 44, 98, 10]) [44])
          [{ cmd_num := ICOL, num_args0 := 1, num_args1 := 0, str_arg := [], dash1 := 0, dash2 := 0 },
           { cmd_num := DCOL, num_args0 := 2, num_args1 := 0, str_arg := [], dash1 := 0, dash2 := 0 },
           { cmd_num := ACOL, num_args0 := 0, num_args1 := 0, str_arg := [], dash1 := 0, dash2 := 0 }])
          [44]) [44]
        = no_cols_adjust (get_no_cols (Buf.ofList MAX_ROW [97, 44, 98, 10]) [44])
          [{ cmd_num := ICOL, num_args0 := 1, num_args1 := 0, str_arg := [], dash1 := 0, dash2 := 0 },
           { cmd_num := DCOL, num_args0 := 2, num_args1 := 0, str_arg := [], dash1 := 0, dash2 := 0 },
           { cmd_num := ACOL, num_args0 := 0, num_args1 := 0, str_arg := [], dash1 := 0, dash2 := 0 }] ∧
      irow_f (no_cols_adjust (get_no_cols (Buf.ofList MAX_ROW [97, 44, 98, 10]) [44])
          [{ cmd_num := ICOL, num_args0 := 1, num_args1 := 0, str_arg := [], dash1 := 0, dash2 := 0 },
           { cmd_num := DCOL, num_args0 := 2, num_args1 := 0, str_arg := [], dash1 := 0, dash2 := 0 },
           { cmd_num := ACOL, num_args0 := 0, num_args1 := 0, str_arg := [], dash1 := 0, dash2 := 0 }])
          [44]
        = some (List.replicate (no_cols_adjust (get_no_cols (Buf.ofList MAX_ROW [97, 44, 98, 10]) [44])
          [{ cmd_num := ICOL, num_args0 := 1, num_args1 := 0, str_arg := [], dash1 := 0, dash2 := 0 },
           { cmd_num := DCOL, num_args0 := 2, num_args1 := 0, str_arg := [], dash1 := 0, dash2 := 0 },
           { cmd_num := ACOL, num_args0 := 0, num_args1 := 0, str_arg := [], dash1 := 0, dash2 := 0 }]
            - 1).toNat ((([44] : List Nat)).headD 0) ++ [10]) :=
  column_commands_adjusted_count [44] ⟨by decide, by decide⟩ (Buf.ofList MAX_ROW [97, 44, 98, 10])
    [97, 44, 98, 10] (holds_ofList MAX_ROW _ (by decide) (by decide)) rfl
    ⟨[97, 44, 98], rfl, by decide⟩ _ 1 [] (by decide) (by decide) (by decide)

/-- Counterexample to C19 as stated: `dcol 1` on the one-column row `a` passes
the check of the pipeline and leaves a row of one column, the newline alone,
without a write outside the row array, while `no_cols_adjust` gives `0`. -/
theorem column_commands_count_counterexample :
    get_no_cols (Buf.ofList MAX_ROW [97, 10]) [44] = 1 ∧
    col_arg_check 1 (get_no_cols (Buf.ofList MAX_ROW [97, 10]) [44]) = 1 ∧
    (mod_commands_loop [44] 1 1 0
      [{ cmd_num := DCOL, num_args0 := 1, num_args1 := 0, str_arg := [], dash1 := 0, dash2 := 0 }]
      (Buf.ofList MAX_ROW [97, 10]) []).bind (fun r =>
        (cstr r.2.1).map fun t => (r.1, t, get_no_cols r.2.1 [44], r.2.1.oob))
      = some (1, [10], 1, false) ∧
    no_cols_adjust 1
      [{ cmd_num := DCOL, num_args0 := 1, num_args1 := 0, str_arg := [], dash1 := 0, dash2 := 0 }]
      = 0 := by
  refine ⟨by decide, by decide, by decide, by decide⟩

/-- C21.  For a line `s` held in the row array and any delimiter string,
`find_column_start` returns an offset, not `NOT_FOUND`, exactly for the column
numbers `n` from 1 to `get_no_cols`; the offset is 0 for `n = 1`, and for a
larger `n` it is the index behind the delimiter byte of the row that has
`n - 2` delimiter bytes in front of it, the `(n - 1)`-th one. -/
theorem find_column_start_found (delim : List Nat) (row : Buf) (s : List Nat)
    (h : Holds row s) (hsize : row.size = MAX_ROW) (hnl : NewlineTerminated s) (n : Int) :
    (find_column_start row delim n ≠ NOT_FOUND ↔ 1 ≤ n ∧ n ≤ get_no_cols row delim) ∧
    (n = 1 → find_column_start row delim n = 0) ∧
    (2 ≤ n → n ≤ get_no_cols row delim →
      ∃ pre d post, s = pre ++ d :: post ∧ is_delim d delim = true ∧
        ((pre.countP fun c => is_delim c delim : Nat) : Int) = n - 2 ∧
        find_column_start row delim n = (pre.length : Int) + 1) := by
  obtain ⟨body, rfl, hb⟩ := hnl
  have hcols := get_no_cols_count delim h hsize (fun x hx => (hb x hx).2)
  have hfit := h.fits
  rw [hsize] at hfit
  simp only [List.length_append, List.length_singleton] at hfit
  have hM : MAX_ROW = 10240 := rfl
  have hN : NOT_FOUND = -1 := rfl
  have hone : find_column_start row delim 1 = 0 := by
    have h0 : row.data 0 ≠ 0 := by
      have := h.bytes 0 (by simp)
      simp only [Nat.cast_zero] at this
      rw [this]
      exact h.nz _ (by
        rw [List.getD_eq_getElem _ _ (by simp)]
        exact List.getElem_mem _)
    show find_column_start_loop row delim 1 (10238 + 1) 0 1 = 0
    simp [find_column_start_loop, Buf.get_eq, h0]
  have hfound : 2 ≤ n → n ≤ get_no_cols row delim →
      ∃ pre d post, body ++ [10] = pre ++ d :: post ∧ is_delim d delim = true ∧
        ((pre.countP fun c => is_delim c delim : Nat) : Int) = n - 2 ∧
        find_column_start row delim n = (pre.length : Int) + 1 := by
    intro h2 hle
    rw [hcols] at hle
    obtain ⟨u, d, v, e, hd, hc⟩ := countP_split (fun c => is_delim c delim) body (n - 2).toNat
      (by omega)
    have hlen : body.length = u.length + 1 + v.length := by
      rw [e]; simp; omega
    have hs : body ++ [10] = u ++ d :: (v ++ [10]) := by rw [e]; simp
    refine ⟨u, d, v ++ [10], hs, hd, by rw [hc]; omega, ?_⟩
    have ha := h.at
    rw [hs] at ha
    have := find_column_start_loop_found row delim n u d (v ++ [10]) (MAX_ROW - 1) 0 1 ha
      (by rw [← hs]; exact h.nz) (by simp) hd (by rw [hc]; omega) (by omega)
    rw [zero_add] at this
    exact this
  refine ⟨⟨fun hne => ?_, fun hr => ?_⟩, fun h1 => by rw [h1]; exact hone, ?_⟩
  · by_contra hcon
    apply hne
    apply find_column_start_loop_none row delim n (body ++ [10]) _ 0 1 h.at
      (by simpa using h.nul) h.nz
    rw [List.dropLast_concat]
    rw [hcols] at hcon
    omega
  · by_cases h1 : n = 1
    · rw [h1, hone, hN]
      omega
    · obtain ⟨pre, d, post, _, _, _, e⟩ := hfound (by omega) hr.2
      rw [e, hN]
      omega
  · intro h2 hle
    exact hfound h2 hle

/-- Witness of C21: column 2 of the row `a,b`, with the delimiters `,` and `:`. -/
theorem find_column_start_found_witness :
    (find_column_start (Buf.ofList MAX_ROW [97, 44, 98, 10]) [44, 58] 2 ≠ NOT_FOUND ↔
      (1 : Int) ≤ 2 ∧ 2 ≤ get_no_cols (Buf.ofList MAX_ROW [97, 44, 98, 10]) [44, 58]) ∧
    ((2 : Int) = 1 → find_column_start (Buf.ofList MAX_ROW [97, 44, 98, 10]) [44, 58] 2 = 0) ∧
    ((2 : Int) ≤ 2 → 2 ≤ get_no_cols (Buf.ofList MAX_ROW [97, 44, 98, 10]) [44, 58] →
      ∃ pre d post, [97, 44, 98, 10] = pre ++ d :: post ∧ is_delim d [44, 58] = true ∧
        ((pre.countP fun c => is_delim c [44, 58] : Nat) : Int) = 2 - 2 ∧
        find_column_start (Buf.ofList MAX_ROW [97, 44, 98, 10]) [44, 58] 2
          = (pre.length : Int) + 1) :=
  find_column_start_found [44, 58] (Buf.ofList MAX_ROW [97, 44, 98, 10]) [97, 44, 98, 10]
    (holds_ofList MAX_ROW _ (by decide) (by decide)) rfl ⟨[97, 44, 98], rfl, by decide⟩ 2

/-- When no byte from index `i` to index `MAX_ROW - 2` ends a cell and
`row[MAX_ROW - 1]` is NUL, the scan of `find_column_end` runs to index
`MAX_ROW - 1` and gives `NOT_FOUND`. -/
theorem find_column_end_loop_scan (row : Buf) (delim : List Nat) (start : Int)
    (hno : ∀ k : Int, 0 ≤ k → k < (MAX_ROW : Int) - 1 →
      row.get k ≠ 10 ∧ is_delim (row.get k) delim = false)
    (hz : row.get ((MAX_ROW : Int) - 1) = 0) :
    ∀ (fuel : Nat) (i skip : Int), 0 ≤ i → i ≤ (MAX_ROW : Int) - 1 →
      (MAX_ROW : Int) - i ≤ fuel →
      find_column_end_loop row delim start fuel i skip = some NOT_FOUND := by
  have hM : (MAX_ROW : Int) = 10240 := rfl
  intro fuel
  induction fuel with
  | zero => intro i skip h0 h1 hf; simp at hf; omega
  | succ f ih =>
    intro i skip h0 h1 hf
    by_cases hi : i < (MAX_ROW : Int) - 1
    · obtain ⟨h10, hd⟩ := hno i h0 hi
      simp only [find_column_end_loop, hi, true_or, if_true, h10, hd, Bool.false_eq_true,
        or_self, if_false]
      exact ih (i + 1) skip (by omega) (by omega) (by push_cast at hf; omega)
    · have e : i = (MAX_ROW : Int) - 1 := by omega
      subst e
      have hz' : row.data ((MAX_ROW : Int) - 1) = 0 := hz
      simp [find_column_end_loop, Buf.get_eq, hz']

/-- C22 (code bug).  On the rows `a,b` and `,b`, `find_column_end` from offset 0
gives 0 for one terminator, 2 for two, and `EMPTY_COL`.  An array that holds
the string `ab`, which has no terminator, then zeros, gives `NOT_FOUND`; an
array that holds the same string `ab` and, behind its NUL, the bytes `x,`
gives 3, the offset in front of the comma behind the NUL: the loop condition
`i < MAX_ROW - 1 || row[i] != 0` does not stop the scan at the NUL. -/
theorem find_column_end_reads_past_nul :
    find_column_end (Buf.ofList MAX_ROW [97, 44, 98, 10]) [44] 0 1 = some 0 ∧
    find_column_end (Buf.ofList MAX_ROW [97, 44, 98, 10]) [44] 0 2 = some 2 ∧
    find_column_end (Buf.ofList MAX_ROW [44, 98, 10]) [44] 0 1 = some EMPTY_COL ∧
    cstr (Buf.ofList MAX_ROW [97, 98]) = some [97, 98] ∧
    find_column_end (Buf.ofList MAX_ROW [97, 98]) [44] 0 1 = some NOT_FOUND ∧
    cstr (Buf.ofList MAX_ROW [97, 98, 0, 120, 44, 10]) = some [97, 98] ∧
    find_column_end (Buf.ofList MAX_ROW [97, 98, 0, 120, 44, 10]) [44] 0 1 = some 3 := by
  refine ⟨by decide, by decide, by decide, by decide, ?_, by decide, by decide⟩
  apply find_column_end_loop_scan
  · intro k hk0 _
    obtain ⟨m, rfl⟩ : ∃ m : Nat, k = (m : Int) := ⟨k.toNat, by omega⟩
    have hget : (Buf.ofList MAX_ROW [97, 98]).get (m : Int) = [97, 98].getD m 0 := by
      simp [Buf.get, Buf.ofList]
    rw [hget]
    rcases m with _ | _ | m
    · decide
    · decide
    · simp [is_delim]
  · decide
  · omega
  · decide
  · decide

/-- C23 (code bug).  On the row `abc`, `row_shift_right` from offset 1 by 2
returns 1 and leaves `a`, two spaces, `bc`.  On a row of 10239 bytes it
returns 0 for the amount 2 and leaves the row as it is.  On a row of 10238
bytes with the amount 2, where length and amount together are `MAX_ROW`, it
returns 1, and a write has left the row array: the NUL of the shifted string is
stored at index `MAX_ROW`. -/
theorem row_shift_right_full_array :
    ((row_shift_right (Buf.ofList MAX_ROW [97, 98, 99]) 1 2).bind fun r =>
      (cstr r.1).map fun t => (t, r.2, r.1.oob)) = some ([97, 32, 32, 98, 99], 1, false) ∧
    row_shift_right (Buf.ofList MAX_ROW (List.replicate 10239 97)) 0 2
      = some (Buf.ofList MAX_ROW (List.replicate 10239 97), 0) ∧
    (∃ row', row_shift_right (Buf.ofList MAX_ROW (List.replicate 10238 97)) 0 2
        = some (row', 1) ∧ row'.oob = true ∧ row'.data (MAX_ROW : Int) = 0) := by
  have hM : MAX_ROW = 10240 := rfl
  refine ⟨by decide, ?_, ?_⟩
  · apply row_shift_right_fail (holds_replicate 10239 97 (by decide) (by decide))
    rw [List.length_replicate]
    decide
  · have := row_shift_right_edge (holds_replicate 10238 97 (by decide) (by decide)) rfl 0 2
      (Nat.zero_le _) (by decide) (by rw [List.length_replicate, hM])
    exact_mod_cast this

/-- C24 (amended).  For a string `s` held in an array, an offset `start` and an
amount `amount` such that the byte at `start + amount` is inside the string,
`row_shift_left` returns and removes the `amount + 1` bytes at the offsets
`start` to `start + amount`: every byte behind them moves left by
`amount + 1` positions, the string becomes `amount + 1` bytes shorter, and no
write leaves the array. -/
theorem row_shift_left_removes (row : Buf) (s : List Nat) (h : Holds row s)
    (start amount : Nat) (hs : start + amount + 1 ≤ s.length) :
    ∃ row' s', row_shift_left row (start : Int) (amount : Int) = some row' ∧
      Holds row' s' ∧ s' = s.take start ++ s.drop (start + amount + 1) ∧
      s'.length + (amount + 1) = s.length ∧
      (∀ k, start ≤ k → s'.getD k 0 = s.getD (k + amount + 1) 0) ∧
      (∀ k, k < start → s'.getD k 0 = s.getD k 0) ∧
      row'.size = row.size ∧ row'.oob = row.oob := by
  obtain ⟨row', e, h1, hsz, hoob⟩ := row_shift_left_spec h start (amount : Int) (by omega)
    (by omega)
  have e1 : ((amount : Int) + 1).toNat = amount + 1 := by omega
  have hsp : splice s start (start + ((amount : Int) + 1).toNat) []
      = s.take start ++ s.drop (start + amount + 1) := by
    rw [e1]
    simp [splice, Nat.add_assoc]
  rw [hsp] at h1
  have hst : start ≤ s.length := by omega
  refine ⟨row', _, e, h1, rfl, ?_, ?_, ?_, hsz, hoob⟩
  · simp only [List.length_append, List.length_take, List.length_drop]
    omega
  · intro k hk
    have hl : (s.take start).length = start := by rw [List.length_take]; omega
    rw [List.getD_append_right _ _ _ _ (by omega), hl]
    simp only [List.getD_eq_getElem?_getD, List.getElem?_drop]
    congr 2
    omega
  · intro k hk
    have hl : (s.take start).length = start := by rw [List.length_take]; omega
    rw [List.getD_append _ _ _ _ (by omega)]
    simp only [List.getD_eq_getElem?_getD, List.getElem?_take_of_lt hk]

/-- Witness of C24 (amended): on `abcd`, from offset 1 with the amount 1. -/
theorem row_shift_left_removes_witness :
    ∃ row' s', row_shift_left (Buf.ofList MAX_ROW [97, 98, 99, 100]) ((1 : Nat) : Int)
        ((1 : Nat) : Int) = some row' ∧
      Holds row' s' ∧ s' = [97, 98, 99, 100].take 1 ++ [97, 98, 99, 100].drop (1 + 1 + 1) ∧
      s'.length + (1 + 1) = [97, 98, 99, 100].length ∧
      (∀ k, 1 ≤ k → s'.getD k 0 = [97, 98, 99, 100].getD (k + 1 + 1) 0) ∧
      (∀ k, k < 1 → s'.getD k 0 = [97, 98, 99, 100].getD k 0) ∧
      row'.size = (Buf.ofList MAX_ROW [97, 98, 99, 100]).size ∧
      row'.oob = (Buf.ofList MAX_ROW [97, 98, 99, 100]).oob :=
  row_shift_left_removes (Buf.ofList MAX_ROW [97, 98, 99, 100]) [97, 98, 99, 100]
    (holds_ofList MAX_ROW _ (by decide) (by decide)) 1 1 (by decide)

/-- Counterexample to C24 as stated.  On `abcd`, `row_shift_left` from offset 1
with the amount 1 leaves `ad`, two bytes shorter, and from offset 0 with the
amount 0 it leaves `bcd`, one byte shorter.  With `start + amount` at the NUL
the NUL itself is overwritten: an array that holds `ab` and, behind the NUL,
`xy`, holds `abxxy` after `row_shift_left` from offset 2 with the amount 0. -/
theorem row_shift_left_counterexample :
    (row_shift_left (Buf.ofList MAX_ROW [97, 98, 99, 100]) 1 1).bind cstr = some [97, 100] ∧
    (row_shift_left (Buf.ofList MAX_ROW [97, 98, 99, 100]) 0 0).bind cstr = some [98, 99, 100] ∧
    cstr (Buf.ofList MAX_ROW [97, 98, 0, 120, 121]) = some [97, 98] ∧
    (row_shift_left (Buf.ofList MAX_ROW [97, 98, 0, 120, 121]) 2 0).bind cstr
      = some [97, 98, 120, 120, 121] := by
  refine ⟨by decide, by decide, by decide, by decide⟩

/-- On the row of the cells `aaa`, `b` and the cells `tail`, 10239 bytes long,
the first `replace_column` of `swap_f` on the columns 1 and 2 returns 0, and
`swap_f` leaves the row of the cells `b`, `b` and `tail`. -/
theorem swap_f_first_write_fails (tail : List Seg) (hwt : WfSegs [44] tail)
    (hlen : (flat tail).length = 10233) :
    find_column_start
      (Buf.ofList MAX_ROW (flat (([97, 97, 97], 44) :: ([98], 44) :: tail))) [44] 2 = 4 ∧
    find_column_end
      (Buf.ofList MAX_ROW (flat (([97, 97, 97], 44) :: ([98], 44) :: tail))) [44] 4 1
      = some 4 ∧
    replace_column
      (Buf.ofList MAX_ROW (flat (([97, 97, 97], 44) :: ([98], 44) :: tail))) 4 4 [97, 97, 97]
      = some (Buf.ofList MAX_ROW (flat (([97, 97, 97], 44) :: ([98], 44) :: tail)), 0) ∧
    ∃ r, swap_f
        (Buf.ofList MAX_ROW (flat (([97, 97, 97], 44) :: ([98], 44) :: tail))) 1 2 [44]
        = some r ∧
      cstr r = some (flat (([98], 44) :: ([98], 44) :: tail)) ∧ r.oob = false := by
  have hd : DelimOk [44] := ⟨by decide, by decide⟩
  have hM : MAX_ROW = 10240 := rfl
  have hC : MAX_CELL = 100 := rfl
  have hE : EMPTY_COL = -2 := rfl
  have hca : CellOk [44] [97, 97, 97] := by
    intro x hx
    simp only [List.mem_cons, List.mem_singleton, List.not_mem_nil, or_false, or_self] at hx
    subst hx
    decide
  have hcb : CellOk [44] [98] := by
    intro x hx
    simp only [List.mem_singleton] at hx
    subst hx
    decide
  have hwf : WfSegs [44] (([97, 97, 97], 44) :: ([98], 44) :: tail) :=
    (hwt.cons_delim hcb (by decide)).cons_delim hca (by decide)
  have hfl : (flat (([97, 97, 97], 44) :: ([98], 44) :: tail)).length = 10239 := by
    simp only [flat_cons, List.length_append, List.length_cons, List.length_nil, hlen]
  have h0 : Holds (Buf.ofList MAX_ROW (flat (([97, 97, 97], 44) :: ([98], 44) :: tail)))
      (flat (([97, 97, 97], 44) :: ([98], 44) :: tail)) :=
    holds_ofList MAX_ROW _ (holds_flat_nz hd hwf) (by rw [hfl, hM]; decide)
  have hl2 : 2 ≤ (([97, 97, 97], 44) :: ([98], 44) :: tail : List Seg).length := by
    simp only [List.length_cons]
    omega
  obtain ⟨ce, he, hce, hs, _⟩ := read_cell hd h0 rfl hwf 2 (by decide) hl2
  have hs4' : find_column_start
      (Buf.ofList MAX_ROW (flat (([97, 97, 97], 44) :: ([98], 44) :: tail)))
      [44] ((2 : Nat) : Int) = 4 := by
    rw [hs]
    rfl
  have hs4 : find_column_start
      (Buf.ofList MAX_ROW (flat (([97, 97, 97], 44) :: ([98], 44) :: tail))) [44] 2 = 4 := by
    exact_mod_cast hs4'
  have hc1 : cell (([97, 97, 97], 44) :: ([98], 44) :: tail) 1 = [97, 97, 97] := rfl
  have hc2 : cell (([97, 97, 97], 44) :: ([98], 44) :: tail) 2 = [98] := rfl
  have hce4 : ce = 4 := by
    rw [hce, hs4', hc2]
    rfl
  rw [hs4', hce4] at he
  obtain ⟨hfail, _⟩ := replace_column_segs hd h0 rfl hwf 2 (by decide) hl2 [97, 97, 97]
    (fun x hx => (hca x hx).1) ce hce
  rw [hs4', hce4] at hfail
  have hrep := hfail (by
    rw [hfl, hc2, hM]
    decide)
  obtain ⟨_, hsw⟩ := swap_f_segs hd h0 rfl hwf 1 2 (by decide) (by omega) (by decide) hl2
    (by rw [hc1, hC]; decide) (by rw [hc2, hC]; decide)
  obtain ⟨r, er, hr, _, hor⟩ := hsw (by
    rw [hfl, hc1, hc2, hM]
    decide)
  have hset : set_col (([97, 97, 97], 44) :: ([98], 44) :: tail) 1
      (cell (([97, 97, 97], 44) :: ([98], 44) :: tail) 2)
      = ([98], 44) :: ([98], 44) :: tail := by
    rw [hc2]
    rfl
  rw [hset] at hr
  exact ⟨hs4, he, hrep, r, by exact_mod_cast er, cstr_of_holds hr, by rw [hor]; rfl⟩

/-- C25 (code bug).  The row of the cells `aaa`, `b`, 5115 cells `c` and the
cell `cc` is a well formed line of 10239 bytes, `MAX_ROW - 1`, with cells
shorter than `MAX_CELL`.  In `swap_f` on its columns 1 and 2, the first
`replace_column`, which is to write `aaa` over the `b` at the offsets 4 to 4,
returns 0 and leaves the row as it is; `swap_f` then writes `b` into column 1
and leaves the row of the cells `b`, `b`, 5115 cells `c` and `cc`: column 2
does not hold `aaa`. -/
theorem swap_f_replace_column_fails :
    WfSegs [44]
      (([97, 97, 97], 44) :: ([98], 44) ::
        (List.replicate 5115 (([99], 44) : Seg) ++ [([99, 99], 10)])) ∧
    (∀ sg ∈ (([97, 97, 97], 44) :: ([98], 44) ::
        (List.replicate 5115 (([99], 44) : Seg) ++ [([99, 99], 10)]) : List Seg),
      sg.1.length < MAX_CELL) ∧
    (flat (([97, 97, 97], 44) :: ([98], 44) ::
        (List.replicate 5115 (([99], 44) : Seg) ++ [([99, 99], 10)]))).length + 1 = MAX_ROW ∧
    find_column_start
      (Buf.ofList MAX_ROW (flat (([97, 97, 97], 44) :: ([98], 44) ::
        (List.replicate 5115 (([99], 44) : Seg) ++ [([99, 99], 10)])))) [44] 2 = 4 ∧
    find_column_end
      (Buf.ofList MAX_ROW (flat (([97, 97, 97], 44) :: ([98], 44) ::
        (List.replicate 5115 (([99], 44) : Seg) ++ [([99, 99], 10)])))) [44] 4 1 = some 4 ∧
    replace_column
      (Buf.ofList MAX_ROW (flat (([97, 97, 97], 44) :: ([98], 44) ::
        (List.replicate 5115 (([99], 44) : Seg) ++ [([99, 99], 10)])))) 4 4 [97, 97, 97]
      = some (Buf.ofList MAX_ROW (flat (([97, 97, 97], 44) :: ([98], 44) ::
        (List.replicate 5115 (([99], 44) : Seg) ++ [([99, 99], 10)]))), 0) ∧
    ∃ r, swap_f
        (Buf.ofList MAX_ROW (flat (([97, 97, 97], 44) :: ([98], 44) ::
          (List.replicate 5115 (([99], 44) : Seg) ++ [([99, 99], 10)])))) 1 2 [44] = some r ∧
      cstr r = some (flat (([98], 44) :: ([98], 44) ::
        (List.replicate 5115 (([99], 44) : Seg) ++ [([99, 99], 10)]))) ∧ r.oob = false := by
  have hc : CellOk [44] [99] := by
    intro x hx
    simp only [List.mem_singleton] at hx
    subst hx
    decide
  have hcc : CellOk [44] [99, 99] := by
    intro x hx
    simp only [List.mem_cons, List.mem_singleton, List.not_mem_nil, or_false, or_self] at hx
    subst hx
    decide
  have hca : CellOk [44] [97, 97, 97] := by
    intro x hx
    simp only [List.mem_cons, List.mem_singleton, List.not_mem_nil, or_false, or_self] at hx
    subst hx
    decide
  have hcb : CellOk [44] [98] := by
    intro x hx
    simp only [List.mem_singleton] at hx
    subst hx
    decide
  have hwt : WfSegs [44] (List.replicate 5115 (([99], 44) : Seg) ++ [([99, 99], 10)]) :=
    wf_filler hc (by decide) hcc 5115
  have hlt : (flat (List.replicate 5115 (([99], 44) : Seg) ++ [([99, 99], 10)])).length
      = 10233 := by
    rw [length_flat_filler]
    rfl
  refine ⟨(hwt.cons_delim hcb (by decide)).cons_delim hca (by decide), ?_, ?_,
    swap_f_first_write_fails _ hwt hlt⟩
  · intro sg hsg
    rw [List.mem_cons, List.mem_cons] at hsg
    rcases hsg with hsg | hsg | hsg
    · subst hsg
      decide
    · subst hsg
      decide
    · rcases mem_filler hsg with hsg | hsg <;> subst hsg <;> decide
  · simp only [flat_cons, List.length_append, List.length_cons, List.length_nil, hlt]
    rfl

/-- C26 (code bug).  On a row of 10239 bytes, the longest string that the row
array of `MAX_ROW` bytes holds, `row_shift_right` from offset 5 by 1 returns 1,
although the shifted string and its NUL take 10241 bytes: the test
`i + offset > MAX_ROW` lets it pass, the NUL is stored at index `MAX_ROW`, and
a write has left the row array.  `icol_f` refuses such a row before the shift. -/
theorem row_shift_right_writes_behind_array :
    (List.replicate 10239 97).length + 1 + 1 = MAX_ROW + 1 ∧
    (∃ row', row_shift_right (Buf.ofList MAX_ROW (List.replicate 10239 97)) 5 1
        = some (row', 1) ∧ row'.oob = true ∧ row'.data (MAX_ROW : Int) = 0) ∧
    icol_f (Buf.ofList MAX_ROW (List.replicate 10239 97)) 1 [44]
      = some (Buf.ofList MAX_ROW (List.replicate 10239 97), 0) := by
  have hM : MAX_ROW = 10240 := rfl
  have hh := holds_replicate 10239 97 (by decide) (by decide)
  refine ⟨by rw [List.length_replicate, hM], ?_, ?_⟩
  · have := row_shift_right_edge hh rfl 5 1 (by rw [List.length_replicate]; decide) (by decide)
      (by rw [List.length_replicate, hM])
    exact_mod_cast this
  · simp only [icol_f, strlen_of_holds hh, Option.some_bind, List.length_replicate]
    rfl

/-- C27 (code bug).  On the row whose column 1 has 101 bytes `A` and whose
column 2 is `b`, the cell is at the offsets 0 to 100, and copying it with
`get_column_content` into a zeroed array of `MAX_CELL` bytes stores index 100:
a write has left that array.  A cell of 100 bytes fills the array and leaves
no NUL in it.  On the row with the cell of 101 bytes, `tolower_f`, `toupper_f`,
`round_f`, `int_f`, `copy_f`, `swap_f` and `move_f` on column 1 all read their
local array past its end. -/
theorem get_column_content_overruns_cell :
    find_column_start (Buf.ofList MAX_ROW (List.replicate 101 65 ++ [44, 98, 10])) [44] 1 = 0 ∧
    find_column_end (Buf.ofList MAX_ROW (List.replicate 101 65 ++ [44, 98, 10])) [44] 0 1
      = some 100 ∧
    (get_column_content (Buf.ofList MAX_ROW (List.replicate 101 65 ++ [44, 98, 10])) 0 100
      (Buf.zero MAX_CELL) NO_CONVERSION).oob = true ∧
    (get_column_content (Buf.ofList MAX_ROW (List.replicate 100 65 ++ [44, 98, 10])) 0 99
      (Buf.zero MAX_CELL) NO_CONVERSION).oob = false ∧
    strlen (get_column_content (Buf.ofList MAX_ROW (List.replicate 100 65 ++ [44, 98, 10])) 0 99
      (Buf.zero MAX_CELL) NO_CONVERSION) = none ∧
    (tolower_f (Buf.ofList MAX_ROW (List.replicate 101 65 ++ [44, 98, 10])) 1 [44]).map
      (fun r => r.oob) = none ∧
    (toupper_f (Buf.ofList MAX_ROW (List.replicate 101 65 ++ [44, 98, 10])) 1 [44]).map
      (fun r => r.oob) = none ∧
    (round_f strtod_model (Buf.ofList MAX_ROW (List.replicate 101 65 ++ [44, 98, 10])) 1
      [44]).map (fun r => r.2) = none ∧
    (int_f strtod_model (Buf.ofList MAX_ROW (List.replicate 101 65 ++ [44, 98, 10])) 1
      [44]).map (fun r => r.2) = none ∧
    (copy_f (Buf.ofList MAX_ROW (List.replicate 101 65 ++ [44, 98, 10])) 1 2 [44]).map
      (fun r => r.2) = none ∧
    (swap_f (Buf.ofList MAX_ROW (List.replicate 101 65 ++ [44, 98, 10])) 1 2 [44]).map
      (fun r => r.oob) = none ∧
    (move_f (Buf.ofList MAX_ROW (List.replicate 101 65 ++ [44, 98, 10])) 1 2 [44]).map
      (fun r => r.2) = none := by
  refine ⟨by decide, by decide, by decide, by decide, by decide, by decide, by decide, by decide,
    by decide, by decide, by decide, by decide⟩

end Sheet
